import Mathlib

/-!
# Node-revision identifiers of the FSFS back end (`subversion/libsvn_fs_fs/id.c`)

The namespace `FsFs` holds the embedding of `id.c`, the namespace `WcLock` the
embedding of the access batons of `subversion/libsvn_wc/lock.c`; the
definitions of both come first, then the lemmas and the claims of each.

A shallow embedding of `id.c`.  C strings are lists of characters (the
content before the terminating NUL); machine integers are `Nat` and `Int`
with the reductions of the C conversions written out.  The string and number
helpers of `libsvn_subr`, APR and the C library that `id.c` calls are not part
of the sources at hand; they are modelled below and marked as such.
-/

namespace FsFs

/-! ## Helpers that `id.c` calls -/

/-- Modelled from the spec: `SVN_INVALID_REVNUM` (svn_types.h), the designated
"invalid" revision sentinel. -/
def SVN_INVALID_REVNUM : Int := -1

/-- Modelled from the spec: `SVN_IS_VALID_REVNUM` (svn_types.h); a revision is
valid when it is not negative. -/
def SVN_IS_VALID_REVNUM (n : Int) : Bool := decide (0 ≤ n)

/-- Modelled from the spec: the digits of the number helpers of libsvn_subr.
The value of a character as a digit `0-9a-z`, if it is one. -/
def digitValue (c : Char) : Option Nat :=
  if 48 ≤ c.toNat ∧ c.toNat ≤ 57 then some (c.toNat - 48)
  else if 97 ≤ c.toNat ∧ c.toNat ≤ 122 then some (c.toNat - 97 + 10)
  else none

/-- Modelled from the spec: the digits of the number helpers of libsvn_subr.
The digit character `0-9a-z` of a digit value below 36. -/
def digitChar (d : Nat) : Char :=
  if d ≤ 9 then Char.ofNat (d + 48) else Char.ofNat (d - 10 + 97)

/-- Modelled from the spec: the digits of the number helpers of libsvn_subr.
Whether `c` is a digit of base `b` (`b` at most 36). -/
def isDigitOf (b : Nat) (c : Char) : Bool :=
  match digitValue c with
  | some d => decide (d < b)
  | none => false

/-- Modelled from the spec: the reading loop of the number helpers of
libsvn_subr and of the C library.  Reads the leading run of base-`b` digits of
`s`, most significant first, on top of the accumulator `acc`; returns the value
and the unread rest. -/
def readRun (b : Nat) (acc : Nat) : List Char → Nat × List Char
  | [] => (acc, [])
  | c :: cs =>
    match digitValue c with
    | some d => if d < b then readRun b (acc * b + d) cs else (acc, c :: cs)
    | none => (acc, c :: cs)

/-- Modelled from the spec: the writing loop of the number helpers of
libsvn_subr.  The digits of `value` in base `b`, least significant first, in a
loop that divides `value` by `b` until it is 0, with `fuel` iterations at most
(`fuel = value` is always enough). -/
def digitsRev (b : Nat) : Nat → Nat → List Char
  | 0, _ => []
  | fuel + 1, value =>
    if value = 0 then [] else digitChar (value % b) :: digitsRev b fuel (value / b)

/-- Modelled from the spec: the text of the number helpers of libsvn_subr.
The digits of `value` in base `b`, most significant first; `"0"` for 0. -/
def digitsOf (b : Nat) (value : Nat) : List Char :=
  if value = 0 then [digitChar 0] else (digitsRev b value value).reverse

/-- Modelled from the spec: `svn__base36toui64` (libsvn_subr, declared in
private/svn_string_private.h).  Decodes the leading run of base-36 digits
`0-9a-z` of `source` into an unsigned 64-bit number, the value of the run modulo
2^64, and returns it with the position after the run (the C out-parameter
`next`). -/
def svn__base36toui64 (source : List Char) : Nat × List Char :=
  ((readRun 36 0 source).1 % 2 ^ 64, (readRun 36 0 source).2)

/-- Modelled from the spec: `svn__ui64tobase36` (libsvn_subr).  The base-36
text, digits `0-9a-z`, of an unsigned 64-bit number. -/
def svn__ui64tobase36 (value : Nat) : List Char := digitsOf 36 value

/-- Modelled from the spec: `svn__i64toa` (libsvn_subr).  The decimal text of a
signed 64-bit number, with a leading `-` when it is negative. -/
def svn__i64toa (number : Int) : List Char :=
  if 0 ≤ number then digitsOf 10 number.toNat
  else '-' :: digitsOf 10 (-number).toNat

/-- Modelled from the spec: `isspace` of the C library in the "C" locale, the
white space that `atol` and `apr_strtoi64` skip. -/
def isspace (c : Char) : Bool :=
  c.toNat = 32 || (9 ≤ c.toNat && c.toNat ≤ 13)

/-- Modelled from the spec: the signed decimal number that `atol` and
`apr_strtoi64` read: leading white space, an optional sign, then the leading run
of decimal digits.  Returns the value, whether at least one digit was read, and
the unread rest. -/
def readSigned (s : List Char) : Int × Bool × List Char :=
  let t := s.dropWhile isspace
  let neg := decide (t.head? = some '-')
  let u := if t.head? = some '-' ∨ t.head? = some '+' then t.tail else t
  let r := readRun 10 0 u
  (if neg then -(r.1 : Int) else (r.1 : Int), decide (r.2.length < u.length), r.2)

/-- Modelled from the spec: `SVN_STR_TO_REV` (svn_types.h), the C library's
`atol` cast to `svn_revnum_t`: the signed decimal number at the start of `str`
(0 when there is none), kept within the range of a 64-bit `long`. -/
def SVN_STR_TO_REV (str : List Char) : Int :=
  let v := (readSigned str).1
  if v < -(2 ^ 63) then -(2 ^ 63) else if 2 ^ 63 - 1 < v then 2 ^ 63 - 1 else v

/-- Modelled from the spec: `svn_cstring_atoi64` (libsvn_subr), the 64-bit
decimal parser.  It fails (`none`) when `str` holds no number, when text
follows the number, or when the number is outside the signed 64-bit range. -/
def svn_cstring_atoi64 (str : List Char) : Option Int :=
  let r := readSigned str
  if r.2.1 = false ∨ r.2.2 ≠ [] then none
  else if r.1 < -(2 ^ 63) ∨ 2 ^ 63 - 1 < r.1 then none
  else some r.1

/-- Modelled from the spec: the separator test of `svn_cstring_tokenize`. -/
def isSep (sep : Char) (c : Char) : Bool := decide (c = sep)

/-- Modelled from the spec: the token characters of `svn_cstring_tokenize`,
those that are not the separator. -/
def notSep (sep : Char) (c : Char) : Bool := decide (c ≠ sep)

/-- Modelled from the spec: `svn_cstring_tokenize` (libsvn_subr) for a single
separator character, as `apr_strtok`: skips leading separators, returns `none`
when nothing is left, and otherwise the token up to the next separator together
with the text after that separator. -/
def svn_cstring_tokenize (sep : Char) (str : List Char) :
    Option (List Char × List Char) :=
  let token := str.dropWhile (isSep sep)
  if token = [] then none
  else some (token.takeWhile (notSep sep), (token.dropWhile (notSep sep)).tail)

/-- Modelled from the spec: `apr_pstrmemdup` (APR) followed by C string
access: the copy of the `len` bytes of `data` is NUL-terminated, so the string
functions see it up to its first NUL. -/
def apr_pstrmemdup (data : List Char) : List Char :=
  data.takeWhile (fun c => c ≠ Char.ofNat 0)

/-- Modelled from the spec: `apr_pstrdup` (APR) copies a string and maps NULL
to NULL. -/
def apr_pstrdup (s : Option (List Char)) : Option (List Char) := s

/-! ## Data model -/

/-- Modelled from the spec: `svn_fs_fs__id_part_t` (id.h): a revision
(`svn_revnum_t`) and an unsigned 64-bit number. -/
structure svn_fs_fs__id_part_t where
  revision : Int
  number : Nat
deriving DecidableEq, Repr

/-- The private members of `fs_fs__id_t`; `txn_id` is `none` for NULL.  The
`generic_id` member (vtable and back pointer) carries no data. -/
structure fs_fs__id_t where
  node_id : svn_fs_fs__id_part_t
  copy_id : svn_fs_fs__id_part_t
  txn_id : Option (List Char)
  rev : Int
  item : Nat
deriving DecidableEq, Repr

/-- The memory holding node ids: an `svn_fs_id_t *` is an address, and the
comparison `a == b` of two pointers is the comparison of their addresses. -/
abbrev Heap := Nat → fs_fs__id_t

/-! ## `id.c` -/

/-- The C function `part_parse`: the returned flag is its result, the part is
what it has written to `*part`. -/
def part_parse (data : List Char) : Bool × svn_fs_fs__id_part_t :=
  if data.head? = some '_' then
    let r := svn__base36toui64 data.tail
    (decide (r.2 = []), ⟨SVN_INVALID_REVNUM, r.1⟩)
  else if data = ['0'] then
    (true, ⟨0, 0⟩)
  else
    let r := svn__base36toui64 data
    if r.2.head? ≠ some '-' then
      (decide (r.2 = []), ⟨0, r.1⟩)
    else
      (true, ⟨SVN_STR_TO_REV r.2.tail, r.1⟩)

/-- The C function `unparse_id_part`: the text it writes at `p`, the
terminating `.` included. -/
def unparse_id_part (part : svn_fs_fs__id_part_t) : List Char :=
  (if SVN_IS_VALID_REVNUM part.revision then
     svn__ui64tobase36 part.number ++
       (if part.revision > 0 then '-' :: svn__i64toa part.revision else [])
   else
     '_' :: svn__ui64tobase36 part.number) ++ ['.']

def svn_fs_fs__id_part_is_root (part : svn_fs_fs__id_part_t) : Bool :=
  part.revision == 0 && part.number == 0

def svn_fs_fs__id_part_eq (lhs rhs : svn_fs_fs__id_part_t) : Bool :=
  lhs.revision == rhs.revision && lhs.number == rhs.number

/-- The conversion of an `apr_uint64_t` argument to the `apr_int64_t`
parameter of `svn__i64toa`. -/
def toInt64 (n : Nat) : Int :=
  if n % 2 ^ 64 < 2 ^ 63 then (n % 2 ^ 64 : Nat) else ((n % 2 ^ 64 : Nat) : Int) - 2 ^ 64

def svn_fs_fs__id_unparse (id : fs_fs__id_t) : List Char :=
  let string := unparse_id_part id.node_id ++ unparse_id_part id.copy_id
  match id.txn_id with
  | none => string ++ 'r' :: svn__i64toa id.rev ++ '/' :: svn__i64toa (toInt64 id.item)
  | some txn_id => string ++ 't' :: txn_id

/-- The C function `svn_fs_fs__id_eq`; `memcmp` over `2 * sizeof(node_id)`
bytes compares the adjacent members `node_id` and `copy_id`. -/
def svn_fs_fs__id_eq (mem : Heap) (a b : Nat) : Bool :=
  let id_a := mem a
  let id_b := mem b
  if a = b then true
  else if (id_a.node_id, id_a.copy_id) ≠ (id_b.node_id, id_b.copy_id) then false
  else if id_a.txn_id.isNone ≠ id_b.txn_id.isNone then false
  else if id_a.txn_id.isSome ∧ id_b.txn_id.isSome ∧ id_a.txn_id ≠ id_b.txn_id then false
  else if id_a.rev ≠ id_b.rev then false
  else if id_a.item ≠ id_b.item then false
  else true

def svn_fs_fs__id_check_related (mem : Heap) (a b : Nat) : Bool :=
  let id_a := mem a
  let id_b := mem b
  if a = b then true
  else if id_a.node_id.revision = SVN_INVALID_REVNUM ∧
      (id_a.txn_id.isSome ∧ id_b.txn_id.isSome ∧ id_a.txn_id ≠ id_b.txn_id) then false
  else svn_fs_fs__id_part_eq id_a.node_id id_b.node_id

def svn_fs_fs__id_compare (mem : Heap) (a b : Nat) : Int :=
  if svn_fs_fs__id_eq mem a b then 0
  else if svn_fs_fs__id_check_related mem a b then 1 else -1

/-- The C function `svn_fs_fs__id_txn_create_root`; `apr_pcalloc` zeroes the
members that are not assigned. -/
def svn_fs_fs__id_txn_create_root (txn_id : Option (List Char)) : fs_fs__id_t :=
  { node_id := ⟨0, 0⟩, copy_id := ⟨0, 0⟩, txn_id := apr_pstrdup txn_id,
    rev := SVN_INVALID_REVNUM, item := 0 }

def svn_fs_fs__id_txn_create (node_id copy_id : svn_fs_fs__id_part_t)
    (txn_id : Option (List Char)) : fs_fs__id_t :=
  { node_id := node_id, copy_id := copy_id, txn_id := apr_pstrdup txn_id,
    rev := SVN_INVALID_REVNUM, item := 0 }

def svn_fs_fs__id_rev_create (node_id copy_id : svn_fs_fs__id_part_t)
    (rev : Int) (item : Nat) : fs_fs__id_t :=
  { node_id := node_id, copy_id := copy_id, txn_id := none, rev := rev, item := item }

def svn_fs_fs__id_copy (source : fs_fs__id_t) : fs_fs__id_t :=
  { source with txn_id := if source.txn_id.isSome then apr_pstrdup source.txn_id else none }

/-- The C function `svn_fs_fs__id_parse` on the `len` bytes `data`; `none` is
the NULL result. -/
def svn_fs_fs__id_parse (data : List Char) : Option fs_fs__id_t :=
  let data_copy := apr_pstrmemdup data
  match svn_cstring_tokenize '.' data_copy with
  | none => none
  | some (str1, data_copy1) =>
    if (part_parse str1).1 = false then none
    else
      match svn_cstring_tokenize '.' data_copy1 with
      | none => none
      | some (str2, data_copy2) =>
        if (part_parse str2).1 = false then none
        else
          match svn_cstring_tokenize '.' data_copy2 with
          | none => none
          | some (str3, _) =>
            if str3.head? = some 'r' then
              match svn_cstring_tokenize '/' str3.tail with
              | none => none
              | some (strRev, data_copy4) =>
                match svn_cstring_tokenize '/' data_copy4 with
                | none => none
                | some (strItem, _) =>
                  match svn_cstring_atoi64 strItem with
                  | none => none
                  | some val =>
                    some { node_id := (part_parse str1).2, copy_id := (part_parse str2).2,
                           txn_id := none, rev := SVN_STR_TO_REV strRev,
                           item := (val % 2 ^ 32).toNat }
            else if str3.head? = some 't' then
              some { node_id := (part_parse str1).2, copy_id := (part_parse str2).2,
                     txn_id := some str3.tail, rev := SVN_INVALID_REVNUM, item := 0 }
            else none

/-! ## Domains of the inputs -/

/-- The characters that delimit the fields of an id, the sign characters, NUL
and white space: none of them is a digit. -/
def isSpecial (x : Char) : Prop :=
  x = '.' ∨ x = '/' ∨ x = '-' ∨ x = '_' ∨ x = '+' ∨ x = Char.ofNat 0 ∨ isspace x = true

/-- A C string holds no NUL before its terminator. -/
def isCString (s : List Char) : Prop := ∀ c ∈ s, c ≠ Char.ofNat 0

/-- An id part of the data model: an unsigned 64-bit number, and a revision
that is the invalid sentinel or a valid revision of a 64-bit `svn_revnum_t`. -/
def validPart (p : svn_fs_fs__id_part_t) : Prop :=
  p.number < 2 ^ 64 ∧ (p.revision = SVN_INVALID_REVNUM ∨ 0 ≤ p.revision) ∧ p.revision < 2 ^ 63

/-- The node ids that the three constructors of `id.c` build from parts of the
data model, a txn id string, a revision of a 64-bit `svn_revnum_t` and an
unsigned 64-bit item. -/
inductive Constructible : fs_fs__id_t → Prop
  | txn_root (txn_id : List Char) (ht : isCString txn_id) :
      Constructible (svn_fs_fs__id_txn_create_root (some txn_id))
  | txn (node_id copy_id : svn_fs_fs__id_part_t) (txn_id : List Char)
      (hn : validPart node_id) (hc : validPart copy_id) (ht : isCString txn_id) :
      Constructible (svn_fs_fs__id_txn_create node_id copy_id (some txn_id))
  | rev (node_id copy_id : svn_fs_fs__id_part_t) (rev : Int) (item : Nat)
      (hn : validPart node_id) (hc : validPart copy_id)
      (hlo : -(2 ^ 63) ≤ rev) (hhi : rev < 2 ^ 63) (hi : item < 2 ^ 64) :
      Constructible (svn_fs_fs__id_rev_create node_id copy_id rev item)

/-! ## The formats as the specification words them -/

/-- The pieces of `s` between the occurrences of `sep`, empty pieces kept. -/
def fields (sep : Char) : List Char → List (List Char)
  | [] => [[]]
  | c :: cs =>
    if c = sep then [] :: fields sep cs
    else
      match fields sep cs with
      | [] => [[c]]
      | t :: ts => (c :: t) :: ts

/-- The non-empty pieces of `s` between the occurrences of `sep`. -/
def tokens (sep : Char) (s : List Char) : List (List Char) :=
  (fields sep s).filter (fun t => decide (t ≠ []))

/-- A decimal number: an optional `-` and one or more decimal digits. -/
def isDecimalText (s : List Char) : Bool :=
  let d := if s.head? = some '-' then s.tail else s
  decide (d ≠ []) && d.all (isDigitOf 10)

/-- One or more base-36 digits. -/
def isBase36Text (s : List Char) : Bool :=
  decide (s ≠ []) && s.all (isDigitOf 36)

/-- The `<part>` of the claimed grammar: `_` followed by base-36 digits, the
text `0`, or base-36 digits optionally followed by `-` and a decimal
revision. -/
def isPartText (s : List Char) : Bool :=
  (decide (s.head? = some '_') && isBase36Text s.tail)
  || decide (s = ['0'])
  || (isBase36Text (s.takeWhile (isDigitOf 36))
      && (decide (s.dropWhile (isDigitOf 36) = [])
          || (decide ((s.dropWhile (isDigitOf 36)).head? = some '-')
              && isDecimalText (s.dropWhile (isDigitOf 36)).tail)))

/-- The claimed grammar of an id text: exactly
`<part>.<part>.r<decimal revision>/<decimal item>` or
`<part>.<part>.t<txn id>`. -/
def wellFormedIdText (s : List Char) : Bool :=
  match fields '.' s with
  | [p1, p2, t] =>
    isPartText p1 && isPartText p2 &&
      (decide (t.head? = some 't')
       || (decide (t.head? = some 'r') &&
           (match fields '/' t.tail with
            | [r, i] => isDecimalText r && isDecimalText i
            | _ => false)))
  | p1 :: p2 :: t :: _ =>
    isPartText p1 && isPartText p2 && decide (t.head? = some 't')
  | _ => false

/-- The part texts that `part_parse` takes: `_` followed by base-36 digits
only, or a run of base-36 digits (possibly empty) that ends the text or is
followed by `-` and any text at all. -/
def acceptedPart (t : List Char) : Bool :=
  if t.head? = some '_' then t.tail.all (isDigitOf 36)
  else decide ((t.dropWhile (isDigitOf 36)) = [])
       || decide ((t.dropWhile (isDigitOf 36)).head? = some '-')

/-- The third fields that `svn_fs_fs__id_parse` takes: `t` followed by any
text, or `r` followed by text with at least two non-empty pieces between `/`,
the second of them a number of the 64-bit decimal parser. -/
def acceptedTail (t : List Char) : Bool :=
  decide (t.head? = some 't')
  || (decide (t.head? = some 'r') &&
      (match tokens '/' t.tail with
       | _ :: item :: _ => (svn_cstring_atoi64 item).isSome
       | _ => false))

/-- The id texts that `svn_fs_fs__id_parse` takes: up to the first NUL, at
least three non-empty pieces between `.`, of which the first two are accepted
parts and the third an accepted third field. -/
def acceptedIdText (s : List Char) : Bool :=
  match tokens '.' (apr_pstrmemdup s) with
  | t1 :: t2 :: t3 :: _ => acceptedPart t1 && acceptedPart t2 && acceptedTail t3
  | _ => false

/-- The value of a text of base-36 digits, most significant digit first. -/
def base36Value (s : List Char) : Nat :=
  s.foldl (fun a c => a * 36 + (digitValue c).getD 0) 0

/-- The specification's `decode_part`: after `_` the number is the base-36
value of the remainder and the revision is invalid; `0` is the root part;
otherwise the number is the base-36 value of the leading run of base-36 digits
and the revision is the decimal number after a `-` that follows the run, else
0.  Numbers are unsigned 64-bit values. -/
def decode_part (text : List Char) : svn_fs_fs__id_part_t :=
  if text.head? = some '_' then
    ⟨SVN_INVALID_REVNUM, base36Value (text.tail.takeWhile (isDigitOf 36)) % 2 ^ 64⟩
  else if text = ['0'] then ⟨0, 0⟩
  else
    ⟨if (text.dropWhile (isDigitOf 36)).head? = some '-'
       then SVN_STR_TO_REV (text.dropWhile (isDigitOf 36)).tail else 0,
     base36Value (text.takeWhile (isDigitOf 36)) % 2 ^ 64⟩

/-- The specification's encoding of a part, without the terminating `.`. -/
def enc (p : svn_fs_fs__id_part_t) : List Char :=
  if SVN_IS_VALID_REVNUM p.revision = false then '_' :: svn__ui64tobase36 p.number
  else svn__ui64tobase36 p.number ++
    (if p.revision > 0 then '-' :: svn__i64toa p.revision else [])

/-- The text of an id as claimed: the item is written as the decimal text of
the unsigned item itself. -/
def unparseClaimed (id : fs_fs__id_t) : List Char :=
  enc id.node_id ++ '.' :: (enc id.copy_id ++ '.' ::
    (match id.txn_id with
     | none => 'r' :: (svn__i64toa id.rev ++ '/' :: svn__i64toa (id.item : Int))
     | some txn_id => 't' :: txn_id))

/-- The text of an id as written: the item is written as the decimal text of
the unsigned 64-bit item read as a signed 64-bit number. -/
def unparseSigned (id : fs_fs__id_t) : List Char :=
  enc id.node_id ++ '.' :: (enc id.copy_id ++ '.' ::
    (match id.txn_id with
     | none => 'r' :: (svn__i64toa id.rev ++ '/' :: svn__i64toa (toInt64 id.item))
     | some txn_id => 't' :: txn_id))

/-- Two ids that differ in the copy id only, at the addresses 0 and 1. -/
def memCopyIds : Heap := fun a =>
  if a = 0 then svn_fs_fs__id_rev_create ⟨0, 1⟩ ⟨0, 0⟩ 3 10
  else svn_fs_fs__id_rev_create ⟨0, 1⟩ ⟨0, 7⟩ 3 10

/-- The same id stored at every address: separately allocated ids with equal
members. -/
def memSame : Heap := fun _ => svn_fs_fs__id_txn_create ⟨-1, 10⟩ ⟨0, 0⟩ (some ['x'])

/-- Two transaction-scoped ids with equal node ids and different txn ids at
the addresses 0 and 1, and a committed id of the same node elsewhere. -/
def memTxns : Heap := fun a =>
  if a = 0 then svn_fs_fs__id_txn_create ⟨-1, 10⟩ ⟨0, 0⟩ (some ['x'])
  else if a = 1 then svn_fs_fs__id_txn_create ⟨-1, 10⟩ ⟨0, 0⟩ (some ['y'])
  else svn_fs_fs__id_rev_create ⟨-1, 10⟩ ⟨0, 0⟩ 3 10

/-- The node ids that the functions of `id.c` produce: the three constructors
with any arguments (a NULL txn id included), `svn_fs_fs__id_parse` where it
returns an id, and `svn_fs_fs__id_copy` of such an id. -/
inductive Produced : fs_fs__id_t → Prop
  | txn_root (txn_id : Option (List Char)) : Produced (svn_fs_fs__id_txn_create_root txn_id)
  | txn (node_id copy_id : svn_fs_fs__id_part_t) (txn_id : Option (List Char)) :
      Produced (svn_fs_fs__id_txn_create node_id copy_id txn_id)
  | rev (node_id copy_id : svn_fs_fs__id_part_t) (rev : Int) (item : Nat) :
      Produced (svn_fs_fs__id_rev_create node_id copy_id rev item)
  | parse (data : List Char) (x : fs_fs__id_t) (h : svn_fs_fs__id_parse data = some x) :
      Produced x
  | copy (x : fs_fs__id_t) (h : Produced x) : Produced (svn_fs_fs__id_copy x)

end FsFs

namespace WcLock

/-!
## Access batons of the working copy (`subversion/libsvn_wc/lock.c`)

A shallow embedding of `lock.c`.  The access batons and the shared sets live
in a memory of numbered cells, so that a pointer is a number and NULL is
`none`; the lock files are part of the state.  What the other modules of the
working-copy library and the I/O layer answer is given by a `World`.  A result
`none` of an operation stands for a run that does not return: recursion deeper
than the given fuel, or the dereference of a NULL pointer.
-/

/-! ## Paths, errors and the collaborators -/

/-- Modelled from the spec: a canonical path, as the list of its components
(the registry is keyed by path, and batons form a tree by path prefix). -/
abbrev Path := List String

/-- Modelled from the spec: `svn_dirent_join` (svn_dirent_uri.h) of a canonical
path and an entry name adds the name as last component. -/
def svn_dirent_join (base : Path) (component : String) : Path := base ++ [component]

/-- Modelled from the spec: `svn_dirent_is_ancestor` (svn_dirent_uri.h):
`path2` is `path1` or lies below it. -/
def svn_dirent_is_ancestor (path1 path2 : Path) : Bool := path1.isPrefixOf path2

/-- Modelled from the spec: `strcmp` as a three-way comparison of two strings
by their characters. -/
def compareChars : List Char → List Char → Int
  | [], [] => 0
  | [], _ :: _ => -1
  | _ :: _, [] => 1
  | a :: as, b :: bs =>
    if a = b then compareChars as bs else if a.toNat < b.toNat then -1 else 1

/-- Modelled from the spec: `svn_path_compare_paths` (svn_path.h), which
`svn_sort_compare_items_as_paths` applies to the keys: a path sorts before the
paths below it, and those before its greater siblings; on lists of components
this is the lexicographic comparison. -/
def svn_path_compare_paths : Path → Path → Int
  | [], [] => 0
  | [], _ :: _ => -1
  | _ :: _, [] => 1
  | a :: as, b :: bs =>
    if a = b then svn_path_compare_paths as bs else compareChars a.toList b.toList

/-- Modelled from the spec: `svn_node_kind_t` (svn_types.h). -/
inductive svn_node_kind_t
  | svn_node_none
  | svn_node_file
  | svn_node_dir
  | svn_node_unknown
deriving DecidableEq, Repr

/-- Modelled from the spec: `svn_depth_t` (svn_types.h). -/
inductive svn_depth_t
  | svn_depth_unknown
  | svn_depth_exclude
  | svn_depth_empty
  | svn_depth_files
  | svn_depth_immediates
  | svn_depth_infinity
deriving DecidableEq, Repr

/-- Modelled from the spec: the members of `svn_wc_entry_t` (svn_wc.h) that
`lock.c` reads: the name, the kind and the depth when it opens a tree, the URL
(`none` for NULL) when it opens an anchor. -/
structure svn_wc_entry_t where
  name : String
  kind : svn_node_kind_t
  depth : svn_depth_t
  url : Option String := none
deriving DecidableEq, Repr

/-- Modelled from the spec: `SVN_WC_ENTRY_THIS_DIR` (svn_wc.h), the name of the
entry of a directory for itself. -/
def SVN_WC_ENTRY_THIS_DIR : String := ""

/-- Modelled from the spec: the status codes of the errors.  The codes that
`lock.c` raises itself are told apart from the codes of the failures of its
collaborators (the spec's opaque `IoError`), which carry the number of the
operating system. -/
inductive apr_status_t
  | SVN_ERR_WC_NOT_DIRECTORY
  | SVN_ERR_WC_LOCKED
  | SVN_ERR_WC_NOT_LOCKED
  | SVN_ERR_ASSERTION_FAIL
  | SVN_ERR_WC_BAD_PATH
  | os (code : Nat)
deriving DecidableEq, Repr

/-- The message texts of the errors that `lock.c` creates in the operations
modelled here; `collaborator` is the message of an error that a collaborator
made. -/
inductive Diagnostic
  | not_a_working_copy
  | working_copy_locked
  | write_lock_stolen
  | no_write_lock
  | lock_file_not_regular
  | assertion_failed
  | path_ends_in_dots
  | unable_to_check_path
  | expected_directory_found_file
  | expected_file_found_directory
  | directory_missing
  | admin_area_missing
  | unable_to_lock
  | not_locked
  | collaborator
deriving DecidableEq, Repr

/-- Modelled from the spec: `svn_error_t` (svn_types.h): the status code, the
message and the path that the message names.  The chain of wrapped errors is
not part of the model. -/
structure svn_error_t where
  apr_err : apr_status_t
  message : Diagnostic
  path : Path
deriving DecidableEq, Repr

/-- The error of a collaborator that failed with the code `code` at `path`. -/
def ioError (code : Nat) (path : Path) : svn_error_t :=
  { apr_err := .os code, message := .collaborator, path := path }

/-- Modelled from the spec: `APR_STATUS_IS_ENOENT` (apr_errno.h). -/
def APR_STATUS_IS_ENOENT (code : Nat) : Bool := code == 2

/-- Modelled from the spec: `APR_STATUS_IS_EEXIST` (apr_errno.h). -/
def APR_STATUS_IS_EEXIST (code : Nat) : Bool := code == 17

/-- Modelled from the spec: `APR_STATUS_IS_EACCES` (apr_errno.h), on the status
code of an error. -/
def APR_STATUS_IS_EACCES (apr_err : apr_status_t) : Bool :=
  match apr_err with
  | .os code => code == 13
  | _ => false

/-- Modelled from the spec: `svn_dirent_basename` (svn_dirent_uri.h): the last
component of a path, the empty string for the empty path. -/
def svn_dirent_basename (path : Path) : String := path.getLast?.getD ""

/-- Modelled from the spec: `svn_dirent_dirname` (svn_dirent_uri.h): the path
without its last component. -/
def svn_dirent_dirname (path : Path) : Path := path.dropLast

/-- Modelled from the spec: `svn_path_is_empty` (svn_path.h). -/
def svn_path_is_empty (path : Path) : Bool := path.isEmpty

/-- Modelled from the spec: `svn_dirent_is_root` (svn_dirent_uri.h); the root
directory is the path with the single component `/`. -/
def svn_dirent_is_root (path : Path) : Bool := decide (path = ["/"])

/-- Modelled from the spec: `svn_wc__adm_child` (adm_files.h) without a file
name: the administrative directory of `path`. -/
def svn_wc__adm_child (path : Path) : Path := svn_dirent_join path ".svn"

/-- Modelled from the spec: what the collaborators of `lock.c` answer (the
metadata reader, the filesystem probe, the executor of logged commands and the
cancellation check of the spec).  A failure is the number of an operating
system error.  The answers do not change while the operations run; what the
logged commands do to the format file and to the log file stays inside the
collaborators. -/
structure World where
  /-- The error of `svn_wc_check_wc`, if any, and the value it leaves in
  `*wc_format`. -/
  svn_wc_check_wc : Path → Option Nat × Int
  /-- The failure of `svn_wc__check_format` for a format and a path. -/
  svn_wc__check_format : Int → Path → Option Nat
  /-- The answer of `svn_io_check_path` for the log file of a directory. -/
  log_check_path : Path → Except Nat svn_node_kind_t
  /-- The failure of `svn_wc__loggy_upgrade_format`. -/
  svn_wc__loggy_upgrade_format : Path → Option Nat
  /-- The answer of `svn_wc__wcprop_list` for an entry of a directory: the
  names of its wcprops. -/
  svn_wc__wcprop_list : Path → String → Except Nat (List String)
  /-- The failure of `svn_wc__loggy_modify_wcprop` for a property of an entry
  of a directory. -/
  svn_wc__loggy_modify_wcprop : Path → String → String → Option Nat
  /-- The failure of `svn_wc__write_log`. -/
  svn_wc__write_log : Path → Option Nat
  /-- The failure of `svn_wc__run_log`. -/
  svn_wc__run_log : Path → Option Nat
  /-- The answer of `svn_wc_entries_read` for a directory, in the order in
  which the hash is walked. -/
  svn_wc_entries_read : Path → Except Nat (List svn_wc_entry_t)
  /-- The failure of `svn_io_file_open` on the lock file of a directory for
  another reason than the file being there. -/
  lock_open_fault : Path → Option Nat
  /-- The failure of `svn_io_file_close` on the lock file just created. -/
  lock_close_fault : Path → Option Nat
  /-- The failure of `svn_wc__remove_adm_file` on a lock file that is there. -/
  lock_remove_fault : Path → Option Nat
  /-- The failure of `svn_io_check_path` on the lock file of a directory. -/
  lock_check_fault : Path → Option Nat
  /-- The answer of `svn_wc__adm_area_exists`. -/
  svn_wc__adm_area_exists : Path → Bool
  /-- The failure of `svn_dirent_get_absolute`. -/
  svn_dirent_get_absolute : Path → Option Nat
  /-- The failure of `svn_wc__db_open` for a directory. -/
  svn_wc__db_open : Path → Option Nat
  /-- The failure of `svn_wc__db_close` for a handle. -/
  svn_wc__db_close : Nat → Option Nat
  /-- The cancellation function, if there is one: the failure it reports at
  its n-th call, counted from 0. -/
  cancel_func : Option (Nat → Option Nat)
  /-- The format number `SVN_WC__VERSION` (wc.h). -/
  SVN_WC__VERSION : Int
  /-- The format number `SVN_WC__WCPROPS_MANY_FILES_VERSION` (wc.h). -/
  SVN_WC__WCPROPS_MANY_FILES_VERSION : Int

/-- Modelled from the spec: what the collaborators answer that only the
retrieval, the probing and the opening of an anchor ask: the entry reader and
the filesystem probe for other files than those of the lock.  A failure is the
number of an operating system error. -/
structure Disk where
  /-- The answer of `svn_wc_entry` for a path, asked through a baton of the
  directory given, with or without the hidden entries; `none` is the NULL
  entry of an unversioned path. -/
  svn_wc_entry : Path → Path → Bool → Except Nat (Option svn_wc_entry_t)
  /-- The answer of `svn_io_check_path`. -/
  svn_io_check_path : Path → Except Nat svn_node_kind_t
  /-- The function `svn_uri_dirname` (svn_dirent_uri.h). -/
  svn_uri_dirname : String → String
  /-- The function `svn_uri_basename` (svn_dirent_uri.h). -/
  svn_uri_basename : String → String
  /-- The function `svn_path_uri_encode` (svn_path.h). -/
  svn_path_uri_encode : String → String

deriving instance DecidableEq for Except

/-! ## Data model -/

inductive svn_wc__adm_access_type
  | svn_wc__adm_access_unlocked
  | svn_wc__adm_access_write_lock
  | svn_wc__adm_access_closed
deriving DecidableEq, Repr

/-- The members of `struct svn_wc_adm_access_t` that the lock manager works
on; `shared` is the address of the shared state or `none` for NULL.  The caches
`entries_all` and `wcprops` and the pool are left out. -/
structure svn_wc_adm_access_t where
  wc_format : Int
  path : Path
  type : svn_wc__adm_access_type
  lock_exists : Bool
  shared : Option Nat
  set_owner : Bool
deriving DecidableEq, Repr

/-- A value of the hash `set`: the address of the placeholder `missing` or
the address of an access baton. -/
inductive SetItem
  | missing
  | baton (adm_access : Nat)
deriving DecidableEq, Repr

/-- The struct `svn_wc__adm_shared_t`: the handle of the database and the hash
of the open directories, each `none` for NULL.  The hash is the list of its
keys and values, each key once, in the order in which it is walked. -/
structure svn_wc__adm_shared_t where
  db : Option Nat
  set : Option (List (Path × SetItem))
deriving DecidableEq, Repr

/-- The state that the lock manager works on: the memory of access batons and
of shared states with the number of cells handed out so far, the kind of node
found at the lock file of each directory, the batons that have `pool_cleanup`
registered, the database handles handed out and the handles that
`svn_wc__db_close` was called with, and the number of calls of the cancellation
function. -/
structure State where
  batons : Nat → svn_wc_adm_access_t
  nbatons : Nat
  shareds : Nat → svn_wc__adm_shared_t
  nshareds : Nat
  lock_node : Path → svn_node_kind_t
  cleanups : List Nat
  ndbs : Nat
  db_closed : List Nat
  cancel_calls : Nat

/-- A memory cell that was never written. -/
def noBaton : svn_wc_adm_access_t :=
  { wc_format := 0, path := [], type := .svn_wc__adm_access_unlocked, lock_exists := false,
    shared := none, set_owner := false }

/-- The state before any operation, with the given lock files on disk. -/
def State.init (lock_node : Path → svn_node_kind_t) : State :=
  { batons := fun _ => noBaton, nbatons := 0,
    shareds := fun _ => { db := none, set := none }, nshareds := 0,
    lock_node := lock_node, cleanups := [], ndbs := 0, db_closed := [], cancel_calls := 0 }

/-- Writes the baton at the address `p`. -/
def State.setBaton (s : State) (p : Nat) (b : svn_wc_adm_access_t) : State :=
  { s with batons := fun q => if q = p then b else s.batons q }

/-- Writes the shared state at the address `p`. -/
def State.setShared (s : State) (p : Nat) (sh : svn_wc__adm_shared_t) : State :=
  { s with shareds := fun q => if q = p then sh else s.shareds q }

/-- Sets the kind of node found at the lock file of `path`. -/
def State.setLockNode (s : State) (path : Path) (kind : svn_node_kind_t) : State :=
  { s with lock_node := fun p => if p = path then kind else s.lock_node p }

/-- Writes the member `wc_format` of the baton at the address `p`. -/
def State.setFormat (s : State) (p : Nat) (wc_format : Int) : State :=
  s.setBaton p { s.batons p with wc_format := wc_format }

/-- Writes the member `type` of the baton at the address `p`. -/
def State.setType (s : State) (p : Nat) (type : svn_wc__adm_access_type) : State :=
  s.setBaton p { s.batons p with type := type }

/-- Writes the member `lock_exists` of the baton at the address `p`. -/
def State.setLockExists (s : State) (p : Nat) (lock_exists : Bool) : State :=
  s.setBaton p { s.batons p with lock_exists := lock_exists }

/-- Writes the member `shared` of the baton at the address `p`. -/
def State.setSharedPtr (s : State) (p : Nat) (shared : Option Nat) : State :=
  s.setBaton p { s.batons p with shared := shared }

/-- Writes the member `set_owner` of the baton at the address `p`. -/
def State.setOwner (s : State) (p : Nat) (set_owner : Bool) : State :=
  s.setBaton p { s.batons p with set_owner := set_owner }

/-- Writes the member `set` of the shared state at the address `p`. -/
def State.setSet (s : State) (p : Nat) (set : Option (List (Path × SetItem))) : State :=
  s.setShared p { s.shareds p with set := set }

/-- Writes the member `db` of the shared state at the address `p`. -/
def State.setDb (s : State) (p : Nat) (db : Option Nat) : State :=
  s.setShared p { s.shareds p with db := db }

/-- The call `apr_pool_cleanup_register` for the baton at the address `p`. -/
def State.registerCleanup (s : State) (p : Nat) : State :=
  { s with cleanups := p :: s.cleanups }

/-- Hands out the next cell for a baton and writes `b` to it. -/
def State.allocBaton (s : State) (b : svn_wc_adm_access_t) : State :=
  { s.setBaton s.nbatons b with nbatons := s.nbatons + 1 }

/-- Hands out the next cell for a shared state and writes `sh` to it. -/
def State.allocShared (s : State) (sh : svn_wc__adm_shared_t) : State :=
  { s.setShared s.nshareds sh with nshareds := s.nshareds + 1 }

/-- Modelled from the spec: `apr_hash_set` (apr_hash.h): with a value, the key
is bound to it; with NULL, the key is removed. -/
def apr_hash_set (ht : List (Path × SetItem)) (key : Path) (val : Option SetItem) :
    List (Path × SetItem) :=
  match val with
  | none => ht.filter (fun kv => decide (kv.1 ≠ key))
  | some v => (key, v) :: ht.filter (fun kv => decide (kv.1 ≠ key))

/-- Modelled from the spec: `apr_hash_get` (apr_hash.h). -/
def apr_hash_get (ht : List (Path × SetItem)) (key : Path) : Option SetItem :=
  (ht.find? (fun kv => decide (kv.1 = key))).map (fun kv => kv.2)

/-- Modelled from the spec: `apr_hash_count` (apr_hash.h). -/
def apr_hash_count (ht : List (Path × SetItem)) : Nat := ht.length

/-- Modelled from the spec: `svn_sort__hash` (svn_sorts.h) with
`svn_sort_compare_items_as_paths`: the items of the hash in ascending order of
their keys. -/
def svn_sort__hash (ht : List (Path × SetItem)) : List (Path × SetItem) :=
  ht.insertionSort (fun a b => svn_path_compare_paths a.1 b.1 ≤ 0)

/-! ## `lock.c` -/

/-- Modelled from the spec: `svn_io_file_open` with
`APR_WRITE | APR_CREATE | APR_EXCL` on the lock file of `path`: it fails with
`EEXIST` when a node is there, else the world may make it fail, else the file
is created. -/
def svn_io_file_open_excl (w : World) (s : State) (path : Path) : State × Option Nat :=
  if s.lock_node path ≠ .svn_node_none then (s, some 17)
  else
    match w.lock_open_fault path with
    | some code => (s, some code)
    | none => (s.setLockNode path .svn_node_file, none)

/-- Modelled from the spec: `svn_wc__remove_adm_file` for the lock file of
`path`: it fails when no regular file is there (`ENOENT`) or when the world
makes it fail, else the file is removed. -/
def svn_wc__remove_adm_file (w : World) (s : State) (path : Path) : State × Option svn_error_t :=
  if s.lock_node path ≠ .svn_node_file then (s, some (ioError 2 path))
  else
    match w.lock_remove_fault path with
    | some code => (s, some (ioError code path))
    | none => (s.setLockNode path .svn_node_none, none)

/-- Modelled from the spec: `svn_io_check_path` on the lock file of `path`. -/
def svn_io_check_path_lock (w : World) (s : State) (path : Path) :
    Except svn_error_t svn_node_kind_t :=
  match w.lock_check_fault path with
  | some code => .error (ioError code path)
  | none => .ok (s.lock_node path)

def svn_wc__adm_is_cleanup_required (w : World) (s : State) (adm_access : Nat) :
    Except svn_error_t Bool :=
  if (s.batons adm_access).type = .svn_wc__adm_access_write_lock then
    match w.log_check_path (s.batons adm_access).path with
    | .error code => .error (ioError code (s.batons adm_access).path)
    | .ok kind => .ok (decide (kind = .svn_node_file))
  else .ok false

/-- The inner loop of `convert_wcprops` over the wcprops of one entry. -/
def convert_wcprops_props (w : World) (path : Path) (name : String) :
    List String → Option svn_error_t
  | [] => none
  | propname :: rest =>
    match w.svn_wc__loggy_modify_wcprop path name propname with
    | some code => some (ioError code path)
    | none => convert_wcprops_props w path name rest

/-- The loop of `convert_wcprops` over the entries. -/
def convert_wcprops_entries (w : World) (path : Path) :
    List svn_wc_entry_t → Option svn_error_t
  | [] => none
  | entry :: rest =>
    if entry.kind ≠ .svn_node_file ∧ entry.name ≠ SVN_WC_ENTRY_THIS_DIR then
      convert_wcprops_entries w path rest
    else
      match w.svn_wc__wcprop_list path entry.name with
      | .error code => some (ioError code path)
      | .ok wcprops =>
        match convert_wcprops_props w path entry.name wcprops with
        | some err => some err
        | none => convert_wcprops_entries w path rest

/-- The C function `convert_wcprops`; the log commands it collects are not
part of the model, its result is the error or `none` for `SVN_NO_ERROR`. -/
def convert_wcprops (w : World) (s : State) (adm_access : Nat) : Option svn_error_t :=
  match w.svn_wc_entries_read (s.batons adm_access).path with
  | .error code => some (ioError code (s.batons adm_access).path)
  | .ok entries => convert_wcprops_entries w (s.batons adm_access).path entries

/-- The C function `maybe_upgrade_format`; its result is the error or `none`
for `SVN_NO_ERROR`.  The removal of the old property files ignores its
errors. -/
def maybe_upgrade_format (w : World) (s : State) (adm_access : Nat) : Option svn_error_t :=
  let path := (s.batons adm_access).path
  let wc_format := (s.batons adm_access).wc_format
  match w.svn_wc__check_format wc_format path with
  | some code => some (ioError code path)
  | none =>
    if wc_format < w.SVN_WC__VERSION then
      match svn_wc__adm_is_cleanup_required w s adm_access with
      | .error err => some err
      | .ok true => none
      | .ok false =>
        match w.svn_wc__loggy_upgrade_format path with
        | some code => some (ioError code path)
        | none =>
          match (if wc_format ≤ w.SVN_WC__WCPROPS_MANY_FILES_VERSION
                 then convert_wcprops w s adm_access else none) with
          | some err => some err
          | none =>
            match w.svn_wc__write_log path with
            | some code => some (ioError code path)
            | none =>
              match w.svn_wc__run_log path with
              | some code => some (ioError code path)
              | none => none
    else none

def create_lock (w : World) (s : State) (path : Path) : State × Option svn_error_t :=
  match svn_io_file_open_excl w s path with
  | (s1, none) => (s1, (w.lock_close_fault path).map (fun code => ioError code path))
  | (s1, some code) =>
    if APR_STATUS_IS_EEXIST code then
      (s1, some { apr_err := .SVN_ERR_WC_LOCKED, message := .working_copy_locked, path := path })
    else (s1, some (ioError code path))

/-- The C function `adm_access_alloc`: the new state, the address written to
`*adm_access`, and the error or `none` for `SVN_NO_ERROR`. -/
def adm_access_alloc (w : World) (s : State) (type : svn_wc__adm_access_type) (path : Path) :
    State × Nat × Option svn_error_t :=
  let lock := s.nbatons
  let s1 := s.allocBaton
    { wc_format := 0, path := path, type := type, lock_exists := false, shared := none,
      set_owner := false }
  if type = .svn_wc__adm_access_write_lock then
    match create_lock w s1 path with
    | (s2, some err) => (s2, lock, some err)
    | (s2, none) => (s2.setLockExists lock true, lock, none)
  else
    (s1.setLockExists lock false, lock, none)

/-- The C function `add_to_shared`; `none` when `shared->set` is NULL. -/
def add_to_shared (s : State) (path : Path) (lock : SetItem) (shared : Nat) : Option State :=
  match (s.shareds shared).set with
  | none => none
  | some ht =>
    let s1 := s.setSet shared (some (apr_hash_set ht path (some lock)))
    match lock with
    | .missing => some s1
    | .baton p => some (s1.setSharedPtr p (some shared))

def adm_ensure_set (s : State) (adm_access : Nat) : State :=
  let s1 :=
    match (s.batons adm_access).shared with
    | some _ => s
    | none => (s.allocShared { db := none, set := none }).setSharedPtr adm_access (some s.nshareds)
  match (s1.batons adm_access).shared with
  | none => s1
  | some shared =>
    if (s1.shareds shared).set = none then
      let s2 := (s1.setOwner adm_access true).setSet shared (some [])
      match add_to_shared s2 (s2.batons adm_access).path (.baton adm_access) shared with
      | some s3 => s3
      | none => s2
    else s1

/-- The loop of `join_batons` over the items of the set of `t_access`. -/
def join_batons_items (dst_shared : Nat) : List (Path × SetItem) → State → Option State
  | [], s => some s
  | (key, val) :: rest, s =>
    match add_to_shared s key val dst_shared with
    | none => none
    | some s1 => join_batons_items dst_shared rest s1

def join_batons (s : State) (dst_shared : Nat) (t_access : Nat) : Option State :=
  match (s.batons t_access).shared with
  | none => add_to_shared s (s.batons t_access).path (.baton t_access) dst_shared
  | some t_shared =>
    match (s.shareds t_shared).set with
    | none => add_to_shared s (s.batons t_access).path (.baton t_access) dst_shared
    | some ht =>
      match join_batons_items dst_shared ht s with
      | none => none
      | some s1 => some (s1.setOwner t_access false)

/-- The part "Physically unlock if required" of `do_close`. -/
def do_close_unlock (w : World) (s : State) (adm_access : Nat) (preserve_lock : Bool) :
    State × Option svn_error_t :=
  if (s.batons adm_access).type = .svn_wc__adm_access_write_lock then
    if (s.batons adm_access).lock_exists = true ∧ preserve_lock = false then
      match svn_wc__remove_adm_file w s (s.batons adm_access).path with
      | (s1, some err) =>
        if w.svn_wc__adm_area_exists (s1.batons adm_access).path then (s1, some err)
        else (s1.setLockExists adm_access false, none)
      | (s1, none) => (s1.setLockExists adm_access false, none)
    else (s, none)
  else (s, none)

/-- The error of a failed `SVN_ERR_ASSERT`. -/
def assertionFailed (path : Path) : svn_error_t :=
  { apr_err := .SVN_ERR_ASSERTION_FAIL, message := .assertion_failed, path := path }

/-- The part "Close the underlying wc_db" of `do_close`. -/
def do_close_db (w : World) (s : State) (adm_access : Nat) :
    Option (State × Option svn_error_t) :=
  if (s.batons adm_access).set_owner = true then
    match (s.batons adm_access).shared with
    | none => none
    | some shared =>
      match (s.shareds shared).set with
      | none => none
      | some ht =>
        if apr_hash_count ht ≠ 0 then some (s, some (assertionFailed (s.batons adm_access).path))
        else
          match (s.shareds shared).db with
          | none => some (s, none)
          | some db =>
            some ({ s with db_closed := db :: s.db_closed },
              (w.svn_wc__db_close db).map (fun code => ioError code (s.batons adm_access).path))
  else some (s, none)

/-- The parts "Reset to prevent further use of the lock", "Detach from set"
and "Close the underlying wc_db" of `do_close`. -/
def do_close_finish (w : World) (s : State) (adm_access : Nat) :
    Option (State × Option svn_error_t) :=
  let s1 := s.setType adm_access .svn_wc__adm_access_closed
  match (s1.batons adm_access).shared with
  | none => do_close_db w s1 adm_access
  | some shared =>
    match (s1.shareds shared).set with
    | none => do_close_db w s1 adm_access
    | some ht =>
      let s2 := s1.setSet shared (some (apr_hash_set ht (s1.batons adm_access).path none))
      if (s2.batons adm_access).set_owner = true ∧
          apr_hash_count (apr_hash_set ht (s1.batons adm_access).path none) ≠ 0 then
        some (s2, some (assertionFailed (s2.batons adm_access).path))
      else do_close_db w s2 adm_access

/-- The C function `do_close` with `recurse = FALSE`, as the loop over the
descendants calls it. -/
def do_close_norecurse (w : World) (s : State) (adm_access : Nat) (preserve_lock : Bool) :
    Option (State × Option svn_error_t) :=
  if (s.batons adm_access).type = .svn_wc__adm_access_closed then some (s, none)
  else
    match do_close_unlock w s adm_access preserve_lock with
    | (s1, some err) => some (s1, some err)
    | (s1, none) => do_close_finish w s1 adm_access

/-- The loop "Close descendant batons" of `do_close` over the sorted items,
last item first. -/
def do_close_children (w : World) (adm_access : Nat) (preserve_lock : Bool) :
    List (Path × SetItem) → State → Option (State × Option svn_error_t)
  | [], s => some (s, none)
  | (path, .missing) :: rest, s =>
    match (s.batons adm_access).shared with
    | none => none
    | some shared =>
      match (s.shareds shared).set with
      | none => none
      | some ht =>
        do_close_children w adm_access preserve_lock rest
          (s.setSet shared (some (apr_hash_set ht path none)))
  | (path, .baton child) :: rest, s =>
    if svn_dirent_is_ancestor (s.batons adm_access).path path = false
        ∨ (s.batons adm_access).path = path then
      do_close_children w adm_access preserve_lock rest s
    else
      match do_close_norecurse w s child preserve_lock with
      | none => none
      | some (s1, some err) => some (s1, some err)
      | some (s1, none) => do_close_children w adm_access preserve_lock rest s1

/-- The part "Close descendant batons" of `do_close`. -/
def do_close_descendants (w : World) (s : State) (adm_access : Nat)
    (preserve_lock recurse : Bool) : Option (State × Option svn_error_t) :=
  if recurse = true then
    match (s.batons adm_access).shared with
    | none => some (s, none)
    | some shared =>
      match (s.shareds shared).set with
      | none => some (s, none)
      | some ht => do_close_children w adm_access preserve_lock (svn_sort__hash ht).reverse s
  else some (s, none)

/-- The C function `do_close`: the new state and the error, or `none` for
`SVN_NO_ERROR`. -/
def do_close (w : World) (s : State) (adm_access : Nat) (preserve_lock recurse : Bool) :
    Option (State × Option svn_error_t) :=
  if (s.batons adm_access).type = .svn_wc__adm_access_closed then some (s, none)
  else
    match do_close_descendants w s adm_access preserve_lock recurse with
    | none => none
    | some (s1, some err) => some (s1, some err)
    | some (s1, none) =>
      match do_close_unlock w s1 adm_access preserve_lock with
      | (s2, some err) => some (s2, some err)
      | (s2, none) => do_close_finish w s2 adm_access

def svn_wc_adm_close2 (w : World) (s : State) (adm_access : Nat) :
    Option (State × Option svn_error_t) :=
  do_close w s adm_access false true

def svn_wc_adm_locked (s : State) (adm_access : Nat) : Bool :=
  decide ((s.batons adm_access).type = .svn_wc__adm_access_write_lock)

def svn_wc_locked (w : World) (s : State) (path : Path) : Except svn_error_t Bool :=
  match svn_io_check_path_lock w s path with
  | .error err => .error err
  | .ok kind =>
    if kind = .svn_node_file then .ok true
    else if kind = .svn_node_none then .ok false
    else .error { apr_err := .SVN_ERR_WC_LOCKED, message := .lock_file_not_regular, path := path }

/-- The C function `svn_wc__adm_write_check`: the error, or `none` for
`SVN_NO_ERROR`. -/
def svn_wc__adm_write_check (w : World) (s : State) (adm_access : Nat) : Option svn_error_t :=
  if (s.batons adm_access).type = .svn_wc__adm_access_write_lock then
    if (s.batons adm_access).lock_exists = true then
      match svn_wc_locked w s (s.batons adm_access).path with
      | .error err => some err
      | .ok locked =>
        if locked = false then
          some { apr_err := .SVN_ERR_WC_NOT_LOCKED, message := .write_lock_stolen,
                 path := (s.batons adm_access).path }
        else none
    else none
  else
    some { apr_err := .SVN_ERR_WC_NOT_LOCKED, message := .no_write_lock,
           path := (s.batons adm_access).path }

/-- The C function `svn_wc__adm_retrieve_internal`: the baton written to
`*adm_access`, `none` for NULL; it always returns `SVN_NO_ERROR`. -/
def svn_wc__adm_retrieve_internal (s : State) (associated : Nat) (path : Path) : Option Nat :=
  let found : Option SetItem :=
    match (s.batons associated).shared with
    | none => if (s.batons associated).path = path then some (.baton associated) else none
    | some shared =>
      match (s.shareds shared).set with
      | none => if (s.batons associated).path = path then some (.baton associated) else none
      | some ht => apr_hash_get ht path
  match found with
  | some (.baton p) => some p
  | _ => none

/-- The call of the cancellation function in `do_open`, if there is one. -/
def cancel_check (w : World) (s : State) (path : Path) : State × Option svn_error_t :=
  match w.cancel_func with
  | none => (s, none)
  | some f =>
    ({ s with cancel_calls := s.cancel_calls + 1 },
      (f s.cancel_calls).map (fun code => ioError code path))

/-- The error that `do_open` makes for a directory that is no working copy. -/
def notWorkingCopy (path : Path) : svn_error_t :=
  { apr_err := .SVN_ERR_WC_NOT_DIRECTORY, message := .not_a_working_copy, path := path }

/-- The loop "Open the tree" of `do_open` over the entries; `open_child` is
the recursive call of `do_open`.  The result is the error that `do_open`
returns from inside the loop, or `none` when the loop has finished. -/
def do_open_entries (w : World)
    (open_child : State → Path → Option (State × Except svn_error_t Nat))
    (lock : Nat) (path : Path) :
    List svn_wc_entry_t → State → Option (State × Option svn_error_t)
  | [], s => some (s, none)
  | entry :: rest, s =>
    match cancel_check w s path with
    | (s1, some err) =>
      match svn_wc_adm_close2 w s1 lock with
      | none => none
      | some (s2, _) => some (s2, some err)
    | (s1, none) =>
      if entry.kind ≠ .svn_node_dir ∨ entry.name = SVN_WC_ENTRY_THIS_DIR then
        do_open_entries w open_child lock path rest s1
      else if entry.depth = .svn_depth_exclude then
        do_open_entries w open_child lock path rest s1
      else
        match open_child s1 (svn_dirent_join path entry.name) with
        | none => none
        | some (s2, .ok entry_access) =>
          match (s2.batons lock).shared with
          | none => none
          | some shared =>
            match join_batons s2 shared entry_access with
            | none => none
            | some s3 => do_open_entries w open_child lock path rest s3
        | some (s2, .error err) =>
          if err.apr_err ≠ .SVN_ERR_WC_NOT_DIRECTORY then
            match svn_wc_adm_close2 w s2 lock with
            | none => none
            | some (s3, _) => some (s3, some err)
          else
            match (s2.batons lock).shared with
            | none => none
            | some shared =>
              match add_to_shared s2 (svn_dirent_join path entry.name) .missing shared with
              | none => none
              | some s3 => do_open_entries w open_child lock path rest s3

/-- The test at the head of `do_open` for a directory that is no working
copy: `svn_wc_check_wc` has left the format 0, or has failed with `ENOENT`. -/
def notWorkingCopyDir (w : World) (path : Path) : Prop :=
  (w.svn_wc_check_wc path).2 = 0 ∨ (w.svn_wc_check_wc path).1.any APR_STATUS_IS_ENOENT = true

instance (w : World) (path : Path) : Decidable (notWorkingCopyDir w path) := by
  unfold notWorkingCopyDir
  infer_instance

/-- The type of the baton that `do_open` allocates. -/
def openType (write_lock : Bool) : svn_wc__adm_access_type :=
  if write_lock = true then .svn_wc__adm_access_write_lock else .svn_wc__adm_access_unlocked

/-- The value of `levels_to_lock` that `do_open` passes on to the
subdirectories: one less when it is positive, itself otherwise. -/
def childLevels (levels_to_lock : Int) : Int :=
  if levels_to_lock > 0 then levels_to_lock - 1 else levels_to_lock

/-- The C function `do_open`, with at most `fuel` nested calls: the new state
and the baton written to `*adm_access`, or the error. -/
def do_open (w : World) : Nat → State → Path → Bool → Int →
    Option (State × Except svn_error_t Nat)
  | 0, _, _, _, _ => none
  | fuel + 1, s, path, write_lock, levels_to_lock =>
    if notWorkingCopyDir w path then some (s, .error (notWorkingCopy path))
    else
      match adm_access_alloc w s (openType write_lock) path with
      | (s1, _, some err) => some (s1, .error err)
      | (s1, lock, none) =>
        match (if write_lock = true
               then maybe_upgrade_format w (s1.setFormat lock (w.svn_wc_check_wc path).2) lock
               else none) with
        | some err => some (s1.setFormat lock (w.svn_wc_check_wc path).2, .error err)
        | none =>
          if levels_to_lock ≠ 0 then
            match w.svn_wc_entries_read path with
            | .error code =>
              some (s1.setFormat lock (w.svn_wc_check_wc path).2, .error (ioError code path))
            | .ok entries =>
              match do_open_entries w
                  (fun s' p => do_open w fuel s' p write_lock (childLevels levels_to_lock))
                  lock path entries
                  (if entries.length > 0
                   then adm_ensure_set (s1.setFormat lock (w.svn_wc_check_wc path).2) lock
                   else s1.setFormat lock (w.svn_wc_check_wc path).2) with
              | none => none
              | some (s3, some err) => some (s3, .error err)
              | some (s3, none) => some (s3.registerCleanup lock, .ok lock)
          else some ((s1.setFormat lock (w.svn_wc_check_wc path).2).registerCleanup lock, .ok lock)

/-- The C function `svn_wc__adm_steal_write_lock`. -/
def svn_wc__adm_steal_write_lock (w : World) (s : State) (path : Path) :
    State × Except svn_error_t Nat :=
  match adm_access_alloc w s .svn_wc__adm_access_write_lock path with
  | (s1, lock, err) =>
    let stolen : State × Option svn_error_t :=
      match err with
      | none => (s1, none)
      | some e =>
        if e.apr_err = .SVN_ERR_WC_LOCKED then (s1.setLockExists lock true, none)
        else (s1, some e)
    match stolen with
    | (s2, some e) => (s2, .error e)
    | (s2, none) =>
      match (w.svn_wc_check_wc path).1 with
      | some code =>
        (s2.setFormat lock (w.svn_wc_check_wc path).2, .error (ioError code path))
      | none =>
        match maybe_upgrade_format w (s2.setFormat lock (w.svn_wc_check_wc path).2) lock with
        | some e => (s2.setFormat lock (w.svn_wc_check_wc path).2, .error e)
        | none => (s2.setFormat lock (w.svn_wc_check_wc path).2, .ok lock)

/-- The C function `svn_wc__adm_pre_open`. -/
def svn_wc__adm_pre_open (w : World) (s : State) (path : Path) :
    State × Except svn_error_t Nat :=
  match adm_access_alloc w s .svn_wc__adm_access_write_lock path with
  | (s1, _, some err) => (s1, .error err)
  | (s1, lock, none) => (s1.registerCleanup lock, .ok lock)

/-- The C function `svn_wc__adm_get_db`: the new state and the handle written
to `*db`, or the error. -/
def svn_wc__adm_get_db (w : World) (s : State) (adm_access : Nat) :
    Option (State × Except svn_error_t Nat) :=
  let s1 := adm_ensure_set s adm_access
  match (s1.batons adm_access).shared with
  | none => none
  | some shared =>
    match (s1.shareds shared).db with
    | some db => some (s1, .ok db)
    | none =>
      match w.svn_dirent_get_absolute (s1.batons adm_access).path with
      | some code => some (s1, .error (ioError code (s1.batons adm_access).path))
      | none =>
        match w.svn_wc__db_open (s1.batons adm_access).path with
        | some code => some (s1, .error (ioError code (s1.batons adm_access).path))
        | none =>
          some ({ s1.setDb shared (some s1.ndbs) with ndbs := s1.ndbs + 1 }, .ok s1.ndbs)

/-- The C function `pool_cleanup`: the new state and the status returned,
`none` for `APR_SUCCESS`. -/
def pool_cleanup (w : World) (s : State) (lock : Nat) : Option (State × Option apr_status_t) :=
  if (s.batons lock).type = .svn_wc__adm_access_closed then some (s, none)
  else
    match svn_wc__adm_is_cleanup_required w s lock with
    | .error err => some (s, some err.apr_err)
    | .ok cleanup =>
      match do_close w s lock cleanup true with
      | none => none
      | some (s1, none) => some (s1, none)
      | some (s1, some err) => some (s1, some err.apr_err)

/-- The C function `svn_wc_adm_open3`, with at most `fuel` nested calls of
`do_open`; `associated` is `none` for NULL. -/
def svn_wc_adm_open3 (w : World) (fuel : Nat) (s : State) (associated : Option Nat)
    (path : Path) (write_lock : Bool) (levels_to_lock : Int) :
    Option (State × Except svn_error_t Nat) :=
  match associated with
  | none => do_open w fuel s path write_lock levels_to_lock
  | some assoc =>
    match ((adm_ensure_set s assoc).batons assoc).shared with
    | none => none
    | some shared =>
      match ((adm_ensure_set s assoc).shareds shared).set with
      | none => none
      | some ht =>
        match apr_hash_get ht path with
        | some (.baton _) =>
          some (adm_ensure_set s assoc,
            .error { apr_err := .SVN_ERR_WC_LOCKED, message := .working_copy_locked,
                     path := path })
        | _ =>
          match do_open w fuel (adm_ensure_set s assoc) path write_lock levels_to_lock with
          | none => none
          | some (s2, .error err) => some (s2, .error err)
          | some (s2, .ok adm_access) =>
            match (s2.batons assoc).shared with
            | none => none
            | some shared2 =>
              match join_batons s2 shared2 adm_access with
              | none => none
              | some s3 => some (s3, .ok adm_access)

/-- The C function `probe`: the directory written to `*dir`, whether it is
another string than `path` (the parent directory), and the format written to
`*wc_format`. -/
def probe (w : World) (d : Disk) (path : Path) : Except svn_error_t (Path × Bool × Int) :=
  match d.svn_io_check_path path with
  | .error code => .error (ioError code path)
  | .ok kind =>
    match (if kind = .svn_node_dir then
             match (w.svn_wc_check_wc path).1 with
             | some code => Except.error (ioError code path)
             | none => Except.ok (w.svn_wc_check_wc path).2
           else Except.ok 0) with
    | .error err => .error err
    | .ok wc_format =>
      if kind ≠ .svn_node_dir ∨ wc_format = 0 then
        if svn_dirent_basename path = ".." ∨ svn_dirent_basename path = "." then
          .error { apr_err := .SVN_ERR_WC_BAD_PATH, message := .path_ends_in_dots, path := path }
        else .ok (svn_dirent_dirname path, true, wc_format)
      else .ok (path, false, wc_format)

/-- The C function `svn_wc_adm_probe_open3`, with at most `fuel` nested calls
of `do_open`. -/
def svn_wc_adm_probe_open3 (w : World) (d : Disk) (fuel : Nat) (s : State)
    (associated : Option Nat) (path : Path) (write_lock : Bool) (levels_to_lock : Int) :
    Option (State × Except svn_error_t Nat) :=
  match probe w d path with
  | .error err => some (s, .error err)
  | .ok (dir, moved, wc_format) =>
    match svn_wc_adm_open3 w fuel s associated dir write_lock
        (if moved = true then 0 else levels_to_lock) with
    | none => none
    | some (s1, .error err) =>
      match d.svn_io_check_path path with
      | .error _ => some (s1, .error err)
      | .ok child_kind =>
        if moved = true ∧ child_kind = .svn_node_dir
            ∧ err.apr_err = .SVN_ERR_WC_NOT_DIRECTORY then
          some (s1, .error (notWorkingCopy path))
        else some (s1, .error err)
    | some (s1, .ok adm_access) =>
      if wc_format ≠ 0 ∧ (s1.batons adm_access).wc_format = 0 then
        some (s1.setFormat adm_access wc_format, .ok adm_access)
      else some (s1, .ok adm_access)

/-- An error of `svn_wc_adm_retrieve`; the error that it wraps is not part of
the model. -/
def notLocked (message : Diagnostic) (path : Path) : svn_error_t :=
  { apr_err := .SVN_ERR_WC_NOT_LOCKED, message := message, path := path }

/-- The C function `svn_wc_adm_retrieve`: the baton written to `*adm_access`,
or the error.  It changes nothing in the state. -/
def svn_wc_adm_retrieve (d : Disk) (s : State) (associated : Nat) (path : Path) :
    Except svn_error_t Nat :=
  match svn_wc__adm_retrieve_internal s associated path with
  | some adm_access => .ok adm_access
  | none =>
    let subdir_entry : Option svn_wc_entry_t :=
      match d.svn_wc_entry path (s.batons associated).path true with
      | .error _ => none
      | .ok entry => entry
    match d.svn_io_check_path path with
    | .error _ => .error (notLocked .unable_to_check_path path)
    | .ok kind =>
      if subdir_entry.any (fun e => decide (e.kind = .svn_node_dir)) = true
          ∧ kind = .svn_node_file then
        .error (notLocked .expected_directory_found_file path)
      else if subdir_entry.any (fun e => decide (e.kind = .svn_node_file)) = true
          ∧ kind = .svn_node_dir then
        .error (notLocked .expected_file_found_directory path)
      else
        match d.svn_io_check_path (svn_wc__adm_child path) with
        | .error _ => .error (notLocked .unable_to_check_path (svn_wc__adm_child path))
        | .ok wckind =>
          if kind = .svn_node_none then .error (notLocked .directory_missing path)
          else if kind = .svn_node_dir ∧ wckind = .svn_node_none then
            .error (notLocked .admin_area_missing (svn_wc__adm_child path))
          else if kind = .svn_node_dir ∧ wckind = .svn_node_dir then
            .error (notLocked .unable_to_lock path)
          else .error (notLocked .not_locked path)

/-- The part "Try to open parent of PATH to setup P_ACCESS" of
`svn_wc_adm_open_anchor`: the values of `p_access` and of `p_access_err`
after it, or the error returned. -/
def open_anchor_parent (w : World) (fuel : Nat) (s : State) (parent : Path)
    (write_lock : Bool) :
    Option (State × Except svn_error_t (Option Nat × Option svn_error_t)) :=
  match do_open w fuel s parent write_lock 0 with
  | none => none
  | some (s1, .ok p_access) => some (s1, .ok (some p_access, none))
  | some (s1, .error err) =>
    if err.apr_err = .SVN_ERR_WC_NOT_DIRECTORY then some (s1, .ok (none, none))
    else if write_lock = true
        ∧ (err.apr_err = .SVN_ERR_WC_LOCKED ∨ APR_STATUS_IS_EACCES err.apr_err = true) then
      match do_open w fuel s1 parent false 0 with
      | none => none
      | some (s2, .error _) => some (s2, .error err)
      | some (s2, .ok p_access) => some (s2, .ok (some p_access, some err))
    else some (s1, .error err)

/-- The part "Try to open PATH to setup T_ACCESS" of `svn_wc_adm_open_anchor`:
the value of `t_access` after it, or the error returned. -/
def open_anchor_target (w : World) (fuel : Nat) (s : State) (path : Path)
    (write_lock : Bool) (levels_to_lock : Int) (p_access : Option Nat) :
    Option (State × Except svn_error_t (Option Nat)) :=
  match do_open w fuel s path write_lock levels_to_lock with
  | none => none
  | some (s1, .ok t_access) => some (s1, .ok (some t_access))
  | some (s1, .error err) =>
    if p_access = none ∨ err.apr_err ≠ .SVN_ERR_WC_NOT_DIRECTORY then
      match p_access with
      | none => some (s1, .error err)
      | some p =>
        match svn_wc_adm_close2 w s1 p with
        | none => none
        | some (s2, _) => some (s2, .error err)
    else some (s1, .ok none)

/-- The three calls of `svn_wc_entry` in the part "Check for switched or
disjoint P_ACCESS and T_ACCESS" of `svn_wc_adm_open_anchor`: the entries
`t_entry_in_p`, `t_entry` and `p_entry`, or the first failure. -/
def open_anchor_entries (d : Disk) (s : State) (path parent : Path) (p_access t_access : Nat) :
    Except Nat (Option svn_wc_entry_t × Option svn_wc_entry_t × Option svn_wc_entry_t) :=
  match d.svn_wc_entry path (s.batons p_access).path false with
  | .error code => .error code
  | .ok t_entry_in_p =>
    match d.svn_wc_entry path (s.batons t_access).path false with
    | .error code => .error code
    | .ok t_entry =>
      match d.svn_wc_entry parent (s.batons p_access).path false with
      | .error code => .error code
      | .ok p_entry => .ok (t_entry_in_p, t_entry, p_entry)

/-- The test "Disjoint won't have PATH in P_ACCESS, switched will have
incompatible URLs" of `svn_wc_adm_open_anchor`; `none` when it reads the URL
of a NULL entry. -/
def open_anchor_is_disjoint (d : Disk) (base_name : String)
    (t_entry_in_p t_entry p_entry : Option svn_wc_entry_t) : Option Bool :=
  match t_entry_in_p with
  | none => some true
  | some _ =>
    match p_entry with
    | none => none
    | some pe =>
      match pe.url with
      | none => some false
      | some p_url =>
        match t_entry with
        | none => none
        | some te =>
          match te.url with
          | none => some false
          | some t_url =>
            some (decide (d.svn_uri_dirname t_url ≠ p_url
              ∨ d.svn_path_uri_encode base_name ≠ d.svn_uri_basename t_url))

/-- The part "Check for switched or disjoint P_ACCESS and T_ACCESS" of
`svn_wc_adm_open_anchor` when both batons are there: the value of `p_access`
after it, or the error returned. -/
def open_anchor_disjoint (w : World) (d : Disk) (s : State) (path parent : Path)
    (p_access t_access : Nat) : Option (State × Except svn_error_t (Option Nat)) :=
  match open_anchor_entries d s path parent p_access t_access with
  | .error code =>
    match svn_wc_adm_close2 w s p_access with
    | none => none
    | some (s1, _) =>
      match svn_wc_adm_close2 w s1 t_access with
      | none => none
      | some (s2, _) => some (s2, .error (ioError code path))
  | .ok (t_entry_in_p, t_entry, p_entry) =>
    match open_anchor_is_disjoint d (svn_dirent_basename path) t_entry_in_p t_entry p_entry with
    | none => none
    | some false => some (s, .ok (some p_access))
    | some true =>
      match svn_wc_adm_close2 w s p_access with
      | none => none
      | some (s1, none) => some (s1, .ok none)
      | some (s1, some err) =>
        match svn_wc_adm_close2 w s1 t_access with
        | none => none
        | some (s2, _) => some (s2, .error err)

/-- The part "Check for switched or disjoint P_ACCESS and T_ACCESS" of
`svn_wc_adm_open_anchor`, which is skipped unless both batons are there. -/
def open_anchor_check (w : World) (d : Disk) (s : State) (path parent : Path)
    (p_access t_access : Option Nat) : Option (State × Except svn_error_t (Option Nat)) :=
  match p_access, t_access with
  | some p, some t => open_anchor_disjoint w d s path parent p t
  | _, _ => some (s, .ok p_access)

/-- The part of `svn_wc_adm_open_anchor` that joins the two batons when
`p_access` is there, or gives up with the error kept in `p_access_err`. -/
def open_anchor_join (w : World) (s : State) (p_access : Option Nat)
    (p_access_err : Option svn_error_t) (t_access : Option Nat) :
    Option (State × Option svn_error_t) :=
  match p_access with
  | none => some (s, none)
  | some p =>
    match p_access_err with
    | some err =>
      match (match t_access with
             | some t => svn_wc_adm_close2 w s t
             | none => some (s, none)) with
      | none => none
      | some (s1, _) =>
        match svn_wc_adm_close2 w s1 p with
        | none => none
        | some (s2, _) => some (s2, some err)
    | none =>
      match t_access with
      | none => some (s, none)
      | some t =>
        match ((adm_ensure_set s p).batons p).shared with
        | none => none
        | some shared =>
          match join_batons (adm_ensure_set s p) shared t with
          | none => none
          | some s1 => some (s1, none)

/-- The part of `svn_wc_adm_open_anchor` for a target that has no baton: a
versioned directory gets a placeholder in the set of `p_access`. -/
def open_anchor_missing (w : World) (d : Disk) (s : State) (path : Path)
    (p_access : Option Nat) : Option (State × Option svn_error_t) :=
  match p_access with
  | none => none
  | some p =>
    match d.svn_wc_entry path (s.batons p).path false with
    | .error code =>
      match svn_wc_adm_close2 w s p with
      | none => none
      | some (s1, _) => some (s1, some (ioError code path))
    | .ok t_entry =>
      if t_entry.any (fun e => decide (e.kind = .svn_node_dir)) = true then
        match ((adm_ensure_set s p).batons p).shared with
        | none => none
        | some shared =>
          match add_to_shared (adm_ensure_set s p) path .missing shared with
          | none => none
          | some s1 => some (s1, none)
      else some (s, none)

/-- The part of `svn_wc_adm_open_anchor` under `if (! t_access)`. -/
def open_anchor_placeholder (w : World) (d : Disk) (s : State) (path : Path)
    (p_access t_access : Option Nat) : Option (State × Option svn_error_t) :=
  match t_access with
  | some _ => some (s, none)
  | none => open_anchor_missing w d s path p_access

/-- The last assignments of `svn_wc_adm_open_anchor`: the anchor baton, the
target baton and the target name. -/
def open_anchor_result (base_name : String) (p_access t_access : Option Nat) :
    Option (Nat × Nat × String) :=
  match p_access, t_access with
  | some p, some t => some (p, t, base_name)
  | some p, none => some (p, p, base_name)
  | none, some t => some (t, t, "")
  | none, none => none

/-- The C function `svn_wc_adm_open_anchor`, with at most `fuel` nested calls
of `do_open`: the new state and the values written to `*anchor_access`,
`*target_access` and `*target`, or the error. -/
def svn_wc_adm_open_anchor (w : World) (d : Disk) (fuel : Nat) (s : State) (path : Path)
    (write_lock : Bool) (levels_to_lock : Int) :
    Option (State × Except svn_error_t (Nat × Nat × String)) :=
  if svn_path_is_empty path = true ∨ svn_dirent_is_root path = true
      ∨ svn_dirent_basename path = ".." then
    match do_open w fuel s path write_lock levels_to_lock with
    | none => none
    | some (s1, .error err) => some (s1, .error err)
    | some (s1, .ok anchor_access) => some (s1, .ok (anchor_access, anchor_access, ""))
  else
    match open_anchor_parent w fuel s (svn_dirent_dirname path) write_lock with
    | none => none
    | some (s1, .error err) => some (s1, .error err)
    | some (s1, .ok (p_access, p_access_err)) =>
      match open_anchor_target w fuel s1 path write_lock levels_to_lock p_access with
      | none => none
      | some (s2, .error err) => some (s2, .error err)
      | some (s2, .ok t_access) =>
        match open_anchor_check w d s2 path (svn_dirent_dirname path) p_access t_access with
        | none => none
        | some (s3, .error err) => some (s3, .error err)
        | some (s3, .ok p_access1) =>
          match open_anchor_join w s3 p_access1 p_access_err t_access with
          | none => none
          | some (s4, some err) => some (s4, .error err)
          | some (s4, none) =>
            match open_anchor_placeholder w d s4 path p_access1 t_access with
            | none => none
            | some (s5, some err) => some (s5, .error err)
            | some (s5, none) =>
              match open_anchor_result (svn_dirent_basename path) p_access1 t_access with
              | none => none
              | some r => some (s5, .ok r)

/-! ## Notions of the specification -/

/-- The keys of the registry that the baton is attached to; none when the
baton has no shared state or the shared state has no hash. -/
def registryKeys (s : State) (adm_access : Nat) : List Path :=
  match (s.batons adm_access).shared with
  | none => []
  | some shared =>
    match (s.shareds shared).set with
    | none => []
    | some ht => ht.map Prod.fst

/-- The path of the baton is a key of the registry that the baton is attached
to. -/
def registered (s : State) (adm_access : Nat) : Prop :=
  (s.batons adm_access).path ∈ registryKeys s adm_access

instance (s : State) (adm_access : Nat) : Decidable (registered s adm_access) := by
  unfold registered
  infer_instance

/-- The entries that the loop of `do_open` descends into: the versioned
directories other than the directory itself that are not excluded. -/
def qualifies (entry : svn_wc_entry_t) : Prop :=
  ¬ (entry.kind ≠ .svn_node_dir ∨ entry.name = SVN_WC_ENTRY_THIS_DIR) ∧
    ¬ entry.depth = .svn_depth_exclude

instance (entry : svn_wc_entry_t) : Decidable (qualifies entry) := by
  unfold qualifies
  infer_instance

/-- The physical-lock flag implies the write-locked state, for every baton. -/
def LockFlagOK (s : State) : Prop :=
  ∀ q, (s.batons q).lock_exists = true → (s.batons q).type = .svn_wc__adm_access_write_lock

/-- The states that are reached from the initial state by `adm_access_alloc`,
`do_open`, `svn_wc__adm_steal_write_lock`, `svn_wc__adm_pre_open` and by
`do_close` with `preserve_lock = FALSE`. -/
inductive Reachable (w : World) : State → Prop
  | init (lock_node : Path → svn_node_kind_t) : Reachable w (State.init lock_node)
  | alloc (s : State) (type : svn_wc__adm_access_type) (path : Path) (h : Reachable w s) :
      Reachable w (adm_access_alloc w s type path).1
  | opened (s : State) (fuel : Nat) (path : Path) (write_lock : Bool) (levels_to_lock : Int)
      (s1 : State) (r : Except svn_error_t Nat) (h : Reachable w s)
      (h1 : do_open w fuel s path write_lock levels_to_lock = some (s1, r)) : Reachable w s1
  | steal (s : State) (path : Path) (h : Reachable w s) :
      Reachable w (svn_wc__adm_steal_write_lock w s path).1
  | pre_open (s : State) (path : Path) (h : Reachable w s) :
      Reachable w (svn_wc__adm_pre_open w s path).1
  | closed (s : State) (adm_access : Nat) (recurse : Bool) (s1 : State)
      (r : Option svn_error_t) (h : Reachable w s)
      (h1 : do_close w s adm_access false recurse = some (s1, r)) : Reachable w s1

/-- The state after the parts "Reset to prevent further use of the lock" and
"Detach from set" of `do_close`: the baton is marked closed and its path is
taken out of its registry, if it has one. -/
def detached (s : State) (adm_access : Nat) : State :=
  match (s.batons adm_access).shared with
  | none => s.setType adm_access .svn_wc__adm_access_closed
  | some shared =>
    match (s.shareds shared).set with
    | none => s.setType adm_access .svn_wc__adm_access_closed
    | some ht =>
      (s.setType adm_access .svn_wc__adm_access_closed).setSet shared
        (some (apr_hash_set ht (s.batons adm_access).path none))

/-- A step that only rewires the registries: it hands out no baton, touches
no lock file and no database handle, and leaves the format, the path, the type
and the physical-lock flag of every baton as they are. -/
structure RegistryStep (s s1 : State) : Prop where
  nbatons : s1.nbatons = s.nbatons
  lock_node : s1.lock_node = s.lock_node
  db_closed : s1.db_closed = s.db_closed
  ndbs : s1.ndbs = s.ndbs
  wc_format : ∀ q, (s1.batons q).wc_format = (s.batons q).wc_format
  path : ∀ q, (s1.batons q).path = (s.batons q).path
  type : ∀ q, (s1.batons q).type = (s.batons q).type
  lock_exists : ∀ q, (s1.batons q).lock_exists = (s.batons q).lock_exists

/-- The hash `dst` after every item of `items` has been set in it, first item
first. -/
def hashUnion (dst items : List (Path × SetItem)) : List (Path × SetItem) :=
  items.foldl (fun acc kv => apr_hash_set acc kv.1 (some kv.2)) dst

/-- What holds of a baton `q` that a registry built by `do_open` lists under
the key `k`: it was made by that open, it is attached to the registry, it is
open in the mode of that open, only the root owns the registry, and its lock
file is there when the open took write locks. -/
def ItemOK (s : State) (lo lock sh : Nat) (write_lock : Bool) (k : Path) (q : Nat) : Prop :=
  lo ≤ q ∧ q < s.nbatons ∧ (s.batons q).path = k ∧ (s.batons q).shared = some sh ∧
  (s.batons q).type = openType write_lock ∧ (s.batons q).lock_exists = write_lock ∧
  ((s.batons q).set_owner = true ↔ q = lock) ∧
  (write_lock = true → s.lock_node k = .svn_node_file)

/-- The registry at the address `sh` is one that `do_open` has built for the
root baton `lock` at `root`: each key once, the root listed, every key at or
below the root, and every baton listed as `ItemOK` says. -/
def RegOK (s : State) (lo : Nat) (root : Path) (lock sh : Nat) (write_lock : Bool) : Prop :=
  ∃ ht, (s.shareds sh).set = some ht ∧ (ht.map Prod.fst).Nodup ∧
    (root, SetItem.baton lock) ∈ ht ∧
    ∀ k v, (k, v) ∈ ht → root <+: k ∧
      ∀ q, v = SetItem.baton q → ItemOK s lo lock sh write_lock k q

/-- What a successful `do_open` of `path` has done to the state `s`: the new
baton is the next cell, the cells handed out before and the lock files of other
directories are as they were, and the registry of the new baton, if it has
one, is new and well formed. -/
structure Opened (w : World) (s : State) (path : Path) (write_lock : Bool) (s1 : State)
    (lock : Nat) : Prop where
  lock_eq : lock = s.nbatons
  nbatons : s.nbatons < s1.nbatons
  nshareds : s.nshareds ≤ s1.nshareds
  batons : ∀ q, q < s.nbatons → s1.batons q = s.batons q
  shareds : ∀ t, t < s.nshareds → s1.shareds t = s.shareds t
  lock_node : ∀ p, s1.lock_node p = s.lock_node p ∨
    (write_lock = true ∧ path <+: p ∧ s1.lock_node p = .svn_node_file)
  db_closed : s1.db_closed = s.db_closed
  ndbs : s1.ndbs = s.ndbs
  gate : ¬ notWorkingCopyDir w path
  path_eq : (s1.batons lock).path = path
  type : (s1.batons lock).type = openType write_lock
  lock_exists : (s1.batons lock).lock_exists = write_lock
  lock_file : write_lock = true → s1.lock_node path = .svn_node_file
  unregistered : (s1.batons lock).shared = none → (s1.batons lock).set_owner = false
  registry : ∀ sh, (s1.batons lock).shared = some sh →
    s.nshareds ≤ sh ∧ sh < s1.nshareds ∧ (s1.shareds sh).db = none ∧
    RegOK s1 s.nbatons path lock sh write_lock

/-- What holds inside the loop of a `do_open` of `path` that started in the
state `s0`, allocated the baton `lock` and gave it the registry `sh`; `missing`
lists the subdirectories that got a placeholder so far. -/
structure LoopInv (w : World) (s0 : State) (path : Path) (lock sh : Nat) (write_lock : Bool)
    (missing : List Path) (s : State) : Prop where
  lock_eq : lock = s0.nbatons
  lock_lt : lock < s.nbatons
  sh_ge : s0.nshareds ≤ sh
  sh_lt : sh < s.nshareds
  batons : ∀ q, q < lock → s.batons q = s0.batons q
  shareds : ∀ t, t < s0.nshareds → s.shareds t = s0.shareds t
  lock_node : ∀ p, s.lock_node p = s0.lock_node p ∨
    (write_lock = true ∧ path <+: p ∧ s.lock_node p = .svn_node_file)
  db_closed : s.db_closed = s0.db_closed
  ndbs : s.ndbs = s0.ndbs
  shared : (s.batons lock).shared = some sh
  db : (s.shareds sh).db = none
  reg : RegOK s lock path lock sh write_lock
  placeholders : ∀ m, m ∈ missing → notWorkingCopyDir w m ∧ m.length = path.length + 1 ∧
    ∃ ht, (s.shareds sh).set = some ht ∧ (m, SetItem.missing) ∈ ht

/-- The paths of the batons in the cells `a`, ..., `b - 1`, in this order. -/
def newPaths (s : State) (a b : Nat) : List Path :=
  (List.range' a (b - a)).map (fun q => (s.batons q).path)

/-- The entries that `svn_wc_entries_read` gives for a directory, none when it
fails. -/
def entriesOf (w : World) (path : Path) : List svn_wc_entry_t :=
  match w.svn_wc_entries_read path with
  | .ok entries => entries
  | .error _ => []

/-- What is opened below `path` for a list of its entries: for every
versioned, non-excluded directory entry that is a working copy on disk, what
`sub` opens for it. -/
def openedBelow (w : World) (sub : Path → List Path) (path : Path) :
    List svn_wc_entry_t → List Path
  | [] => []
  | entry :: rest =>
    (if qualifies entry ∧ ¬ notWorkingCopyDir w (svn_dirent_join path entry.name)
     then sub (svn_dirent_join path entry.name) else []) ++ openedBelow w sub path rest

/-- The directories that an open of `path` with the depth limit `d` is to
open, in the order of the entries: `path` itself and, unless `d` is 0, what is
to be opened for its subdirectories with the limit one less, or with the same
limit when it is negative; `fuel` bounds the depth of the tree. -/
def openedTree (w : World) : Nat → Path → Int → List Path
  | 0, _, _ => []
  | fuel + 1, path, d =>
    path :: (if d = 0 then []
      else openedBelow w (fun p => openedTree w fuel p (if d > 0 then d - 1 else d)) path
        (entriesOf w path))

/-! ## Sample worlds -/

/-- A world in which no collaborator fails: `wc` is the format that
`svn_wc_check_wc` finds and `entries` the entries of each directory. -/
def World.plain (wc : Path → Int) (entries : Path → List svn_wc_entry_t) : World :=
  { svn_wc_check_wc := fun p => (none, wc p)
    svn_wc__check_format := fun _ _ => none
    log_check_path := fun _ => .ok .svn_node_none
    svn_wc__loggy_upgrade_format := fun _ => none
    svn_wc__wcprop_list := fun _ _ => .ok []
    svn_wc__loggy_modify_wcprop := fun _ _ _ => none
    svn_wc__write_log := fun _ => none
    svn_wc__run_log := fun _ => none
    svn_wc_entries_read := fun p => .ok (entries p)
    lock_open_fault := fun _ => none
    lock_close_fault := fun _ => none
    lock_remove_fault := fun _ => none
    lock_check_fault := fun _ => none
    svn_wc__adm_area_exists := fun _ => true
    svn_dirent_get_absolute := fun _ => none
    svn_wc__db_open := fun _ => none
    svn_wc__db_close := fun _ => none
    cancel_func := none
    SVN_WC__VERSION := 10
    SVN_WC__WCPROPS_MANY_FILES_VERSION := 7 }

/-- The entry of a versioned directory. -/
def dirEntry (name : String) : svn_wc_entry_t :=
  { name := name, kind := .svn_node_dir, depth := .svn_depth_infinity }

/-- A working copy `wc` with the versioned directories `wc/a` and `wc/a/x`, a
versioned directory `wc/b` that is missing on disk and a file `wc/f`. -/
def sampleWorld : World := World.plain
  (fun p => if p = ["wc"] ∨ p = ["wc", "a"] ∨ p = ["wc", "a", "x"] then 10 else 0)
  (fun p =>
    if p = ["wc"] then
      [dirEntry "", dirEntry "a", dirEntry "b",
       { name := "f", kind := .svn_node_file, depth := .svn_depth_infinity }]
    else if p = ["wc", "a"] then [dirEntry "", dirEntry "x"]
    else [dirEntry ""])

/-- The world `sampleWorld` in which the lock file of `wc/a` cannot be
removed. -/
def stuckWorld : World :=
  { sampleWorld with lock_remove_fault := fun p => if p = ["wc", "a"] then some 13 else none }

/-- The world `sampleWorld` in which the lock file of `wc` cannot be removed. -/
def stuckRootWorld : World :=
  { sampleWorld with lock_remove_fault := fun p => if p = ["wc"] then some 13 else none }

/-- The world `sampleWorld` in which reading the entries of `wc` fails. -/
def unreadableWorld : World :=
  { sampleWorld with
    svn_wc_entries_read := fun p =>
      if p = ["wc"] then .error 5 else sampleWorld.svn_wc_entries_read p }

/-- The world `sampleWorld` in which the format of `wc/a` is refused. -/
def badFormatWorld : World :=
  { sampleWorld with
    svn_wc__check_format := fun _ p => if p = ["wc", "a"] then some 22 else none }

/-- The world `sampleWorld` with a cancellation function that fails at its
second call. -/
def cancelWorld : World :=
  { sampleWorld with cancel_func := some (fun n => if n = 1 then some 4 else none) }

/-- The state with no baton and no lock file. -/
def emptyState : State := State.init (fun _ => .svn_node_none)

/-- The state that an operation has left, or the empty state when it has not
returned. -/
def stateOf {α : Type} (r : Option (State × α)) : State :=
  match r with
  | some (s, _) => s
  | none => emptyState

/-! ## Notions and samples for the composite operations -/

/-- What every operation keeps of the batons handed out before it: their
number does not go down, the path of each stays, and a closed baton stays
closed. -/
structure Kept (s s1 : State) : Prop where
  nbatons : s.nbatons ≤ s1.nbatons
  path : ∀ q, q < s.nbatons → (s1.batons q).path = (s.batons q).path
  closed : ∀ q, q < s.nbatons → (s.batons q).type = .svn_wc__adm_access_closed →
    (s1.batons q).type = .svn_wc__adm_access_closed

/-- The registry that the baton `associated` is attached to maps `path` to
the baton `q`; a baton without a registry stands for its own path only. -/
def mapsTo (s : State) (associated : Nat) (path : Path) (q : Nat) : Prop :=
  (∃ sh ht, (s.batons associated).shared = some sh ∧ (s.shareds sh).set = some ht ∧
    apr_hash_get ht path = some (.baton q)) ∨
  (((s.batons associated).shared = none ∨
      ∃ sh, (s.batons associated).shared = some sh ∧ (s.shareds sh).set = none) ∧
    (s.batons associated).path = path ∧ q = associated)

/-- The items of the registry that the baton is attached to; none when the
baton has no shared state or the shared state has no hash. -/
def registryItems (s : State) (adm_access : Nat) : List (Path × SetItem) :=
  match (s.batons adm_access).shared with
  | none => []
  | some shared =>
    match (s.shareds shared).set with
    | none => []
    | some ht => ht

/-- The item of a registry is a placeholder or a baton of the path that is its
key. -/
def itemAtPath (s : State) (kv : Path × SetItem) : Prop :=
  match kv.2 with
  | .missing => True
  | .baton c => (s.batons c).path = kv.1

instance (s : State) (kv : Path × SetItem) : Decidable (itemAtPath s kv) := by
  unfold itemAtPath
  split <;> infer_instance

/-- Every baton in the registry of `adm_access` is listed under its own
path. -/
def keysArePaths (s : State) (adm_access : Nat) : Prop :=
  ∀ kv ∈ registryItems s adm_access, itemAtPath s kv

instance (s : State) (adm_access : Nat) : Decidable (keysArePaths s adm_access) := by
  unfold keysArePaths
  infer_instance

/-- The batons that the hash of the shared state `sh` lists, in the order of
the hash. -/
def registeredBatons (s : State) (sh : Nat) : List Nat :=
  match (s.shareds sh).set with
  | none => []
  | some ht =>
    ht.filterMap (fun kv =>
      match kv.2 with
      | .baton q => some q
      | .missing => none)

/-- The registered batons whose `set_owner` is TRUE. -/
def registryOwners (s : State) (sh : Nat) : List Nat :=
  (registeredBatons s sh).filter (fun q => (s.batons q).set_owner)

/-- One operation of the lock manager takes the state `s` to the state `s1`:
`adm_access_alloc`, `do_open`, `svn_wc_adm_open3`, `svn_wc_adm_probe_open3`,
`svn_wc_adm_open_anchor`, `svn_wc__adm_steal_write_lock`,
`svn_wc__adm_pre_open`, `svn_wc__adm_get_db`, `do_close` (of which
`svn_wc_adm_close2` is a case) or `pool_cleanup`, whatever it returns. -/
inductive LockOp (w : World) (d : Disk) : State → State → Prop
  | alloc (s : State) (type : svn_wc__adm_access_type) (path : Path) :
      LockOp w d s (adm_access_alloc w s type path).1
  | opened (s : State) (fuel : Nat) (path : Path) (write_lock : Bool) (levels_to_lock : Int)
      (s1 : State) (r : Except svn_error_t Nat)
      (h : do_open w fuel s path write_lock levels_to_lock = some (s1, r)) : LockOp w d s s1
  | open3 (s : State) (fuel : Nat) (associated : Option Nat) (path : Path) (write_lock : Bool)
      (levels_to_lock : Int) (s1 : State) (r : Except svn_error_t Nat)
      (h : svn_wc_adm_open3 w fuel s associated path write_lock levels_to_lock = some (s1, r)) :
      LockOp w d s s1
  | probe_open3 (s : State) (fuel : Nat) (associated : Option Nat) (path : Path)
      (write_lock : Bool) (levels_to_lock : Int) (s1 : State) (r : Except svn_error_t Nat)
      (h : svn_wc_adm_probe_open3 w d fuel s associated path write_lock levels_to_lock
        = some (s1, r)) : LockOp w d s s1
  | open_anchor (s : State) (fuel : Nat) (path : Path) (write_lock : Bool)
      (levels_to_lock : Int) (s1 : State) (r : Except svn_error_t (Nat × Nat × String))
      (h : svn_wc_adm_open_anchor w d fuel s path write_lock levels_to_lock = some (s1, r)) :
      LockOp w d s s1
  | steal (s : State) (path : Path) : LockOp w d s (svn_wc__adm_steal_write_lock w s path).1
  | pre_open (s : State) (path : Path) : LockOp w d s (svn_wc__adm_pre_open w s path).1
  | get_db (s : State) (adm_access : Nat) (s1 : State) (r : Except svn_error_t Nat)
      (h : svn_wc__adm_get_db w s adm_access = some (s1, r)) : LockOp w d s s1
  | closed (s : State) (adm_access : Nat) (preserve_lock recurse : Bool) (s1 : State)
      (r : Option svn_error_t)
      (h : do_close w s adm_access preserve_lock recurse = some (s1, r)) : LockOp w d s s1
  | cleanup (s : State) (lock : Nat) (s1 : State) (r : Option apr_status_t)
      (h : pool_cleanup w s lock = some (s1, r)) : LockOp w d s s1

/-- A disk on which no probe fails: `kind` is the kind of node at each path
and `entry` the entry of each path; the URLs are the plain texts. -/
def Disk.plain (kind : Path → svn_node_kind_t) (entry : Path → Option svn_wc_entry_t) : Disk :=
  { svn_wc_entry := fun p _ _ => .ok (entry p)
    svn_io_check_path := fun p => .ok (kind p)
    svn_uri_dirname := fun u => u
    svn_uri_basename := fun u => u
    svn_path_uri_encode := fun u => u }

/-- The disk of `sampleWorld`: the directories `wc`, `wc/a` and `wc/a/x` with
their administrative directories, the file `wc/f`, and the entries of these
and of the missing directory `wc/b`. -/
def sampleDisk : Disk := Disk.plain
  (fun p =>
    if p = ["wc"] ∨ p = ["wc", "a"] ∨ p = ["wc", "a", "x"] ∨ p = ["wc", ".svn"]
        ∨ p = ["wc", "a", ".svn"] ∨ p = ["wc", "a", "x", ".svn"] then .svn_node_dir
    else if p = ["wc", "f"] then .svn_node_file
    else .svn_node_none)
  (fun p =>
    if p = ["wc"] ∨ p = ["wc", "a"] ∨ p = ["wc", "a", "x"] ∨ p = ["wc", "b"] then
      some (dirEntry (svn_dirent_basename p))
    else if p = ["wc", "f"] then
      some { name := "f", kind := .svn_node_file, depth := .svn_depth_infinity }
    else none)

/-- The state after `wc` has been opened by `do_open` in `sampleWorld` without
write locks and without a depth limit: the batons 0, 1 and 2 of `wc`, `wc/a`
and `wc/a/x`, and the placeholder of `wc/b`. -/
def openedState : State := stateOf (do_open sampleWorld 5 emptyState ["wc"] false (-1))

/-- The state after `wc` has been opened by `do_open` in `sampleWorld` with
write locks and without a depth limit: the batons 0, 1 and 2 of `wc`, `wc/a`
and `wc/a/x` with their lock files, and the placeholder of `wc/b`. -/
def writeLockedState : State := stateOf (do_open sampleWorld 5 emptyState ["wc"] true (-1))

/-- The world `sampleWorld` in which the administrative area of `wc` holds a
log file. -/
def logWorld : World :=
  { sampleWorld with
    log_check_path := fun p => if p = ["wc"] then .ok .svn_node_file else .ok .svn_node_none }

/-- The state after `svn_wc_adm_open3` has opened `wc/a/x` in `sampleWorld`
without an associated baton, without write lock and without its
subdirectories: the baton 0. -/
def firstOpenState : State :=
  stateOf (svn_wc_adm_open3 sampleWorld 5 emptyState none ["wc", "a", "x"] false 0)

/-- The state after `svn_wc_adm_open3` has then opened `wc/a` with all its
subdirectories, associated with the baton 0: the batons 1 and 2 of `wc/a` and
`wc/a/x` have joined the registry of the baton 0. -/
def overwrittenState : State :=
  stateOf (svn_wc_adm_open3 sampleWorld 5 firstOpenState (some 0) ["wc", "a"] false (-1))

/-- The state after `svn_wc_adm_open3` has instead opened `wc` alone,
associated with the baton 0 of `wc/a/x`: the baton 1 of `wc` has joined the
registry of the baton 0. -/
def associatedState : State :=
  stateOf (svn_wc_adm_open3 sampleWorld 5 firstOpenState (some 0) ["wc"] false 0)

/-- The state `openedState` after `svn_wc_adm_close2` of the baton 1 of
`wc/a`, which closes the baton 2 of `wc/a/x` with it. -/
def childClosedState : State := stateOf (svn_wc_adm_close2 sampleWorld openedState 1)

/-- The world `sampleWorld` in which the probe for the log file of `wc`
fails. -/
def logProbeFailsWorld : World :=
  { sampleWorld with
    log_check_path := fun p => if p = ["wc"] then .error 5 else .ok .svn_node_none }

/-- The world `sampleWorld` in which the administrative area of `wc/a` holds a
log file and that of `wc` holds none. -/
def childLogWorld : World :=
  { sampleWorld with
    log_check_path := fun p =>
      if p = ["wc", "a"] then .ok .svn_node_file else .ok .svn_node_none }

/-- The state with no baton in which the lock file of `wc` is there. -/
def lockedState : State :=
  State.init (fun p => if p = ["wc"] then .svn_node_file else .svn_node_none)

/-- The hash `ht` of the shared state `sh` is the registry of a group of
batons: every baton it lists is listed under its own path and is attached to
`sh`, exactly one baton it lists has `set_owner` TRUE, and no other baton
attached to `sh` has the path of that owner. -/
def Owned (s : State) (sh : Nat) (ht : List (Path × SetItem)) : Prop :=
  (∀ k q, (k, SetItem.baton q) ∈ ht →
    (s.batons q).path = k ∧ (s.batons q).shared = some sh) ∧
  ∃ o, ((s.batons o).path, SetItem.baton o) ∈ ht ∧ (s.batons o).set_owner = true ∧
    (∀ k q, (k, SetItem.baton q) ∈ ht → (s.batons q).set_owner = true → q = o) ∧
    (∀ u, (s.batons u).shared = some sh → (s.batons u).path = (s.batons o).path → u = o)

/-- The invariant of the registries: a shared state that is not handed out has
no hash, a baton is attached to a shared state that has a hash, every hash has
each key once and lists batons that are handed out, and every hash that lists a
baton attached to its shared state is `Owned`.  A hash that was merged into
another one keeps its items, whose batons are attached to the other shared
state. -/
structure OwnerInv (s : State) : Prop where
  unused : ∀ sh, s.nshareds ≤ sh → (s.shareds sh).set = none
  has_set : ∀ q sh, (s.batons q).shared = some sh → (s.shareds sh).set ≠ none
  nodup : ∀ sh ht, (s.shareds sh).set = some ht → (ht.map Prod.fst).Nodup
  lt : ∀ sh ht k q, (s.shareds sh).set = some ht → (k, SetItem.baton q) ∈ ht → q < s.nbatons
  good : ∀ sh ht, (s.shareds sh).set = some ht →
    (∃ k q, (k, SetItem.baton q) ∈ ht ∧ (s.batons q).shared = some sh) → Owned s sh ht

/-- The baton `adm_access` owns a registry that lists nothing above or beside
the directory of the baton: every key is at or below the path of the baton,
and every baton listed is open, listed under its own path, attached to the
registry, and has `set_owner` TRUE only if it is `adm_access`. -/
def Tree (s : State) (adm_access sh : Nat) : Prop :=
  (s.batons adm_access).shared = some sh ∧ (s.batons adm_access).set_owner = true ∧
  ∃ ht, (s.shareds sh).set = some ht ∧
    ((s.batons adm_access).path, SetItem.baton adm_access) ∈ ht ∧
    ∀ k v, (k, v) ∈ ht → (s.batons adm_access).path <+: k ∧
      ∀ q, v = SetItem.baton q →
        (s.batons q).path = k ∧ (s.batons q).shared = some sh ∧
        (s.batons q).type ≠ .svn_wc__adm_access_closed ∧
        ((s.batons q).set_owner = true → q = adm_access)

/-- The baton `adm_access` of `path` is as `do_open` has made it: it stands
alone, without registry and without the flag `set_owner`, or it owns a registry
that lists only open batons at or below its path. -/
def Fresh (s : State) (adm_access : Nat) (path : Path) : Prop :=
  adm_access < s.nbatons ∧ (s.batons adm_access).path = path ∧
  (((s.batons adm_access).shared = none ∧ (s.batons adm_access).set_owner = false) ∨
    ∃ sh, Tree s adm_access sh)

/-- What a close does to the registries: it hands out nothing, leaves the
path, the registry and the flag `set_owner` of every baton, changes the type of
a baton to closed only, and takes items out of the hashes. -/
structure Shrunk (s s1 : State) : Prop where
  nbatons : s1.nbatons = s.nbatons
  nshareds : s1.nshareds = s.nshareds
  baton : ∀ q, (s1.batons q).path = (s.batons q).path ∧
    (s1.batons q).shared = (s.batons q).shared ∧
    (s1.batons q).set_owner = (s.batons q).set_owner
  type : ∀ q, (s1.batons q).type = (s.batons q).type ∨
    (s1.batons q).type = .svn_wc__adm_access_closed
  set_none : ∀ sh, (s.shareds sh).set = none → (s1.shareds sh).set = none
  set_some : ∀ sh ht, (s.shareds sh).set = some ht →
    ∃ ht1, (s1.shareds sh).set = some ht1 ∧ ∀ x, x ∈ ht1 → x ∈ ht

/-- What an open does to the cells handed out before it: nothing. -/
structure OldKept (s s1 : State) : Prop where
  nbatons : s.nbatons ≤ s1.nbatons
  nshareds : s.nshareds ≤ s1.nshareds
  batons : ∀ q, q < s.nbatons → s1.batons q = s.batons q
  shareds : ∀ t, t < s.nshareds → s1.shareds t = s.shareds t

/-- What `svn_wc_adm_open3` needs of the baton it is given as `associated` for
the registries to keep their owners: the baton was handed out; it has no
registry yet, or its registry lists a baton attached to it; and when more than
the directory itself is opened, the path opened is not at or above the path of
the registered owner of that registry (of the baton itself, when it has no
registry yet). -/
def associable (s : State) (associated : Nat) (path : Path) (levels_to_lock : Int) : Prop :=
  associated < s.nbatons ∧
  match (s.batons associated).shared with
  | none => levels_to_lock = 0 ∨ ¬ path <+: (s.batons associated).path
  | some sh =>
    (∃ q ∈ registeredBatons s sh, (s.batons q).shared = some sh) ∧
    (levels_to_lock = 0 ∨ ∀ o, o ∈ registryOwners s sh → ¬ path <+: (s.batons o).path)

instance (s : State) (associated : Nat) (path : Path) (levels_to_lock : Int) :
    Decidable (associable s associated path levels_to_lock) := by
  unfold associable
  split <;> infer_instance

/-- The error is the failure of an `SVN_ERR_ASSERT`. -/
def assertionFailure (r : Option svn_error_t) : Prop :=
  ∃ e, r = some e ∧ e.apr_err = .SVN_ERR_ASSERTION_FAIL

/-- The states that are reached from an initial state by `do_open`,
`svn_wc_adm_open3`, `svn_wc_adm_open_anchor`, `svn_wc__adm_get_db` and
`do_close` (of which `svn_wc_adm_close2` is a case), whatever they return,
when `svn_wc__adm_get_db` and `do_close` are given batons that were handed out,
`svn_wc_adm_open3` is given an associated baton that is `associable`, and no
`do_close` returns the failure of its assertion. -/
inductive OwnerRun (w : World) (d : Disk) : State → Prop
  | init (lock_node : Path → svn_node_kind_t) : OwnerRun w d (State.init lock_node)
  | opened (s : State) (fuel : Nat) (path : Path) (write_lock : Bool) (levels_to_lock : Int)
      (s1 : State) (r : Except svn_error_t Nat) (h : OwnerRun w d s)
      (h1 : do_open w fuel s path write_lock levels_to_lock = some (s1, r)) : OwnerRun w d s1
  | open3 (s : State) (fuel : Nat) (associated : Option Nat) (path : Path) (write_lock : Bool)
      (levels_to_lock : Int) (s1 : State) (r : Except svn_error_t Nat) (h : OwnerRun w d s)
      (ha : ∀ a, associated = some a → associable s a path levels_to_lock)
      (h1 : svn_wc_adm_open3 w fuel s associated path write_lock levels_to_lock = some (s1, r)) :
      OwnerRun w d s1
  | open_anchor (s : State) (fuel : Nat) (path : Path) (write_lock : Bool)
      (levels_to_lock : Int) (s1 : State) (r : Except svn_error_t (Nat × Nat × String))
      (h : OwnerRun w d s)
      (h1 : svn_wc_adm_open_anchor w d fuel s path write_lock levels_to_lock = some (s1, r)) :
      OwnerRun w d s1
  | get_db (s : State) (adm_access : Nat) (s1 : State) (r : Except svn_error_t Nat)
      (h : OwnerRun w d s) (ha : adm_access < s.nbatons)
      (h1 : svn_wc__adm_get_db w s adm_access = some (s1, r)) : OwnerRun w d s1
  | closed (s : State) (adm_access : Nat) (preserve_lock recurse : Bool) (s1 : State)
      (r : Option svn_error_t) (h : OwnerRun w d s) (ha : adm_access < s.nbatons)
      (h1 : do_close w s adm_access preserve_lock recurse = some (s1, r))
      (hr : ¬ assertionFailure r) : OwnerRun w d s1

/-- The state `associatedState` after `svn_wc_adm_close2` of the baton 0 of
`wc/a/x`, which owns the registry: the assertion of `do_close` has failed, the
baton 0 is closed and taken out of the registry, the baton 1 of `wc` is still
listed. -/
def ownerClosedState : State := stateOf (svn_wc_adm_close2 sampleWorld associatedState 0)

/-- The state `associatedState` after `do_close` without recursion of the
baton 1 of `wc`: the baton 0 of `wc/a/x` is alone in the registry that it
owns. -/
def memberClosedState : State := stateOf (do_close sampleWorld associatedState 1 false false)

/-- The state `memberClosedState` after `svn_wc_adm_close2` of the baton 0 of
`wc/a/x`: both batons are closed, the registry is empty, no assertion has
failed. -/
def allClosedState : State := stateOf (svn_wc_adm_close2 sampleWorld memberClosedState 0)

/-- The state `allClosedState` after `svn_wc_adm_open3` has opened `wc/a`
alone, associated with the closed baton 0: the new baton 2 has joined the
registry that the baton 0 owned. -/
def reusedState : State :=
  stateOf (svn_wc_adm_open3 sampleWorld 5 allClosedState (some 0) ["wc", "a"] false 0)

end WcLock

namespace FsFs

/-! ## Lemmas on the helpers -/

theorem digitValue_digitChar : ∀ d, d < 36 → digitValue (digitChar d) = some d := by
  decide

theorem readRun_of_not_digit (b acc : Nat) (s : List Char)
    (h : ∀ c, s.head? = some c → isDigitOf b c = false) : readRun b acc s = (acc, s) := by
  cases s with
  | nil => rfl
  | cons c cs =>
    have hc := h c rfl
    unfold isDigitOf at hc
    unfold readRun
    cases hd : digitValue c with
    | none => rfl
    | some d =>
      rw [hd] at hc
      have : ¬ d < b := by simpa using hc
      simp [this]

theorem readRun_digitChar (b acc d : Nat) (hb : b ≤ 36) (hd : d < b) (s : List Char) :
    readRun b acc (digitChar d :: s) = readRun b (acc * b + d) s := by
  have h := digitValue_digitChar d (by omega)
  rw [readRun, h]
  simp [hd]

theorem readRun_digitsRev (b : Nat) (hb2 : 2 ≤ b) (hb : b ≤ 36) :
    ∀ (fuel v : Nat), v ≤ fuel → ∀ (acc : Nat) (rest : List Char),
      readRun b acc ((digitsRev b fuel v).reverse ++ rest)
        = readRun b (acc * b ^ (digitsRev b fuel v).length + v) rest := by
  intro fuel
  induction fuel with
  | zero =>
    intro v hv acc rest
    have : v = 0 := by omega
    subst this
    simp [digitsRev]
  | succ f ih =>
    intro v hv acc rest
    unfold digitsRev
    by_cases h0 : v = 0
    · subst h0
      simp
    · have hdiv : v / b ≤ f := by
        have : v / b < v := Nat.div_lt_self (by omega) (by omega)
        omega
      have hmod : v % b < b := Nat.mod_lt _ (by omega)
      simp only [h0, if_false, List.reverse_cons, List.append_assoc, List.singleton_append,
        List.length_cons]
      rw [ih (v / b) hdiv acc (digitChar (v % b) :: rest), readRun_digitChar b _ _ hb hmod]
      congr 1
      have hv : v / b * b + v % b = v := Nat.div_add_mod' v b
      rw [pow_succ]
      nlinarith [hv]

theorem readRun_digitsOf (b : Nat) (hb2 : 2 ≤ b) (hb : b ≤ 36) (v : Nat) (rest : List Char)
    (h : ∀ c, rest.head? = some c → isDigitOf b c = false) :
    readRun b 0 (digitsOf b v ++ rest) = (v, rest) := by
  unfold digitsOf
  by_cases h0 : v = 0
  · subst h0
    simp only [if_true, List.singleton_append]
    rw [readRun_digitChar b 0 0 hb (by omega)]
    simpa using readRun_of_not_digit b 0 rest h
  · simp only [h0, if_false]
    rw [readRun_digitsRev b hb2 hb v v (le_refl _) 0 rest]
    simpa using readRun_of_not_digit b v rest h

theorem isDigitOf_digitChar (b d : Nat) (hb : b ≤ 36) (hd : d < b) :
    isDigitOf b (digitChar d) = true := by
  unfold isDigitOf
  rw [digitValue_digitChar d (by omega)]
  simpa using hd

theorem digitsRev_all (b : Nat) (hb1 : 1 ≤ b) (hb : b ≤ 36) :
    ∀ (fuel v : Nat) (c : Char), c ∈ digitsRev b fuel v → isDigitOf b c = true := by
  intro fuel
  induction fuel with
  | zero => intro v c hc; simp [digitsRev] at hc
  | succ f ih =>
    intro v c hc
    unfold digitsRev at hc
    by_cases h0 : v = 0
    · simp [h0] at hc
    · simp only [h0, if_false, List.mem_cons] at hc
      rcases hc with rfl | hc
      · exact isDigitOf_digitChar b _ hb (Nat.mod_lt _ (by omega))
      · exact ih _ c hc

theorem digitsOf_all (b : Nat) (hb1 : 1 ≤ b) (hb : b ≤ 36) (v : Nat) (c : Char)
    (hc : c ∈ digitsOf b v) : isDigitOf b c = true := by
  unfold digitsOf at hc
  by_cases h0 : v = 0
  · simp only [h0, if_true, List.mem_singleton] at hc
    subst hc
    exact isDigitOf_digitChar b 0 hb (by omega)
  · simp only [h0, if_false, List.mem_reverse] at hc
    exact digitsRev_all b hb1 hb _ _ c hc

theorem digitsOf_ne_nil (b v : Nat) : digitsOf b v ≠ [] := by
  unfold digitsOf
  by_cases h0 : v = 0
  · simp [h0]
  · simp only [h0, if_false, ne_eq, List.reverse_eq_nil_iff]
    cases v with
    | zero => exact absurd rfl h0
    | succ n => simp [digitsRev]

theorem isDigitOf_mono (b c : Nat) (hbc : b ≤ c) (x : Char) (h : isDigitOf b x = true) :
    isDigitOf c x = true := by
  unfold isDigitOf at *
  cases hd : digitValue x with
  | none => rw [hd] at h; simp at h
  | some d =>
    rw [hd] at h
    have : d < b := by simpa using h
    simpa using (by omega : d < c)

/-- A digit `0-9a-z` has a code point in one of the two digit ranges. -/
theorem isDigitOf_range (b : Nat) (x : Char) (h : isDigitOf b x = true) :
    (48 ≤ x.toNat ∧ x.toNat ≤ 57) ∨ (97 ≤ x.toNat ∧ x.toNat ≤ 122) := by
  unfold isDigitOf digitValue at h
  by_cases h1 : 48 ≤ x.toNat ∧ x.toNat ≤ 57
  · exact Or.inl h1
  · by_cases h2 : 97 ≤ x.toNat ∧ x.toNat ≤ 122
    · exact Or.inr h2
    · simp [h1, h2] at h

/-- A character outside the digit ranges is no digit of any base. -/
theorem isDigitOf_false_of_toNat (b : Nat) (x : Char)
    (h : ¬ ((48 ≤ x.toNat ∧ x.toNat ≤ 57) ∨ (97 ≤ x.toNat ∧ x.toNat ≤ 122))) :
    isDigitOf b x = false := by
  cases hx : isDigitOf b x with
  | false => rfl
  | true => exact absurd (isDigitOf_range b x hx) h

theorem isspace_toNat (x : Char) (h : isspace x = true) :
    x.toNat = 32 ∨ (9 ≤ x.toNat ∧ x.toNat ≤ 13) := by
  unfold isspace at h
  simp only [Bool.or_eq_true, Bool.and_eq_true, decide_eq_true_eq] at h
  exact h

theorem not_digit_of_special (b : Nat) (x : Char) (h : isSpecial x) :
    isDigitOf b x = false := by
  apply isDigitOf_false_of_toNat
  rcases h with rfl | rfl | rfl | rfl | rfl | rfl | h
  · decide
  · decide
  · decide
  · decide
  · decide
  · decide
  · have := isspace_toNat x h
    omega

theorem digit_not_special (b : Nat) (x : Char) (h : isDigitOf b x = true) : ¬ isSpecial x := by
  intro hs
  rw [not_digit_of_special b x hs] at h
  exact Bool.false_ne_true h

theorem takeWhile_append_stop {α : Type} (p : α → Bool) (l₁ l₂ : List α) (a : α)
    (h : ∀ x ∈ l₁, p x = true) (ha : p a = false) :
    (l₁ ++ a :: l₂).takeWhile p = l₁ := by
  induction l₁ with
  | nil => simp [List.takeWhile, ha]
  | cons x xs ih =>
    have hx : p x = true := h x (List.mem_cons_self _ _)
    rw [List.cons_append, List.takeWhile_cons, hx]
    simp only [if_true]
    rw [ih (fun y hy => h y (List.mem_cons_of_mem _ hy))]

theorem dropWhile_append_stop {α : Type} (p : α → Bool) (l₁ l₂ : List α) (a : α)
    (h : ∀ x ∈ l₁, p x = true) (ha : p a = false) :
    (l₁ ++ a :: l₂).dropWhile p = a :: l₂ := by
  induction l₁ with
  | nil => simp [List.dropWhile, ha]
  | cons x xs ih =>
    have hx : p x = true := h x (List.mem_cons_self _ _)
    rw [List.cons_append, List.dropWhile_cons, hx]
    simp only [if_true]
    exact ih (fun y hy => h y (List.mem_cons_of_mem _ hy))

theorem takeWhile_all {α : Type} (p : α → Bool) (l : List α) (h : ∀ x ∈ l, p x = true) :
    l.takeWhile p = l := by
  induction l with
  | nil => rfl
  | cons x xs ih =>
    have hx : p x = true := h x (List.mem_cons_self _ _)
    simp only [List.takeWhile, hx]
    rw [ih (fun y hy => h y (List.mem_cons_of_mem _ hy))]

theorem dropWhile_all {α : Type} (p : α → Bool) (l : List α) (h : ∀ x ∈ l, p x = true) :
    l.dropWhile p = [] := by
  induction l with
  | nil => rfl
  | cons x xs ih =>
    have hx : p x = true := h x (List.mem_cons_self _ _)
    simp only [List.dropWhile, hx]
    exact ih (fun y hy => h y (List.mem_cons_of_mem _ hy))

theorem dropWhile_head_false {α : Type} (p : α → Bool) (x : α) (xs : List α)
    (h : p x = false) : (x :: xs).dropWhile p = x :: xs := by
  simp [List.dropWhile, h]

theorem isSep_self (sep : Char) : isSep sep sep = true := by simp [isSep]

theorem isSep_ne (sep c : Char) (h : c ≠ sep) : isSep sep c = false := by simp [isSep, h]

theorem notSep_self (sep : Char) : notSep sep sep = false := by simp [notSep]

theorem notSep_ne (sep c : Char) (h : c ≠ sep) : notSep sep c = true := by simp [notSep, h]

/-- A token followed by a separator is returned whole, with the text after the
separator left for the next call. -/
theorem svn_cstring_tokenize_append (sep : Char) (tok rest : List Char) (hne : tok ≠ [])
    (h : ∀ c ∈ tok, c ≠ sep) :
    svn_cstring_tokenize sep (tok ++ sep :: rest) = some (tok, rest) := by
  unfold svn_cstring_tokenize
  cases tok with
  | nil => exact absurd rfl hne
  | cons x xs =>
    have hx : x ≠ sep := h x (List.mem_cons_self _ _)
    have h1 : ((x :: xs) ++ sep :: rest).dropWhile (isSep sep) = (x :: xs) ++ sep :: rest := by
      rw [List.cons_append]
      exact dropWhile_head_false _ _ _ (isSep_ne sep x hx)
    have hall : ∀ c ∈ x :: xs, notSep sep c = true := fun c hc => notSep_ne sep c (h c hc)
    simp only [h1]
    rw [takeWhile_append_stop _ _ _ _ hall (notSep_self sep),
      dropWhile_append_stop _ _ _ _ hall (notSep_self sep)]
    simp

/-- A last token without separator is returned whole and nothing is left. -/
theorem svn_cstring_tokenize_last (sep : Char) (tok : List Char) (hne : tok ≠ [])
    (h : ∀ c ∈ tok, c ≠ sep) :
    svn_cstring_tokenize sep tok = some (tok, []) := by
  unfold svn_cstring_tokenize
  cases tok with
  | nil => exact absurd rfl hne
  | cons x xs =>
    have hx : x ≠ sep := h x (List.mem_cons_self _ _)
    have h1 : (x :: xs).dropWhile (isSep sep) = x :: xs :=
      dropWhile_head_false _ _ _ (isSep_ne sep x hx)
    have hall : ∀ c ∈ x :: xs, notSep sep c = true := fun c hc => notSep_ne sep c (h c hc)
    simp only [h1]
    rw [takeWhile_all _ _ hall, dropWhile_all _ _ hall]
    simp

theorem readSigned_digitsOf (n : Nat) :
    readSigned (digitsOf 10 n) = ((n : Int), true, []) := by
  have hne := digitsOf_ne_nil 10 n
  have hall := digitsOf_all 10 (by omega) (by omega) n
  have hrun : readRun 10 0 (digitsOf 10 n) = (n, []) := by
    have := readRun_digitsOf 10 (by omega) (by omega) n [] (by simp)
    simpa using this
  cases hd : digitsOf 10 n with
  | nil => exact absurd hd hne
  | cons x xs =>
    rw [hd] at hall hrun
    have hx : ¬ isSpecial x := digit_not_special 10 x (hall x (List.mem_cons_self _ _))
    have hsp : isspace x = false := by
      cases h : isspace x with
      | false => rfl
      | true => exact absurd (Or.inr (Or.inr (Or.inr (Or.inr (Or.inr (Or.inr h)))))) hx
    have hm : x ≠ '-' := fun h => hx (Or.inr (Or.inr (Or.inl h)))
    have hp : x ≠ '+' := fun h => hx (Or.inr (Or.inr (Or.inr (Or.inr (Or.inl h)))))
    unfold readSigned
    simp only [dropWhile_head_false isspace x xs hsp, List.head?_cons, Option.some.injEq, hm,
      hp, or_self, if_false, hrun, decide_False]
    simp

theorem readSigned_neg_digitsOf (n : Nat) :
    readSigned ('-' :: digitsOf 10 n) = (-(n : Int), true, []) := by
  have hne := digitsOf_ne_nil 10 n
  have hrun : readRun 10 0 (digitsOf 10 n) = (n, []) := by
    have := readRun_digitsOf 10 (by omega) (by omega) n [] (by simp)
    simpa using this
  have hsp : isspace '-' = false := by decide
  unfold readSigned
  simp only [dropWhile_head_false isspace _ _ hsp, List.head?_cons, true_or, if_true,
    List.tail_cons, hrun, decide_True]
  have : 0 < (digitsOf 10 n).length := List.length_pos.mpr hne
  simp [this]

theorem readSigned_svn__i64toa (v : Int) : readSigned (svn__i64toa v) = (v, true, []) := by
  unfold svn__i64toa
  by_cases h : 0 ≤ v
  · simp only [h, if_true]
    rw [readSigned_digitsOf]
    simp [Int.toNat_of_nonneg h]
  · simp only [h, if_false]
    rw [readSigned_neg_digitsOf]
    have : 0 ≤ -v := by omega
    simp [Int.toNat_of_nonneg this]

/-- The revision reader inverts the decimal writer on the range of a 64-bit
`svn_revnum_t`. -/
theorem SVN_STR_TO_REV_svn__i64toa (v : Int) (hlo : -(2 ^ 63) ≤ v) (hhi : v < 2 ^ 63) :
    SVN_STR_TO_REV (svn__i64toa v) = v := by
  unfold SVN_STR_TO_REV
  rw [readSigned_svn__i64toa]
  have h1 : ¬ v < -(2 ^ 63) := by omega
  have h2 : ¬ (2 ^ 63 - 1 < v) := by omega
  simp only [h1, h2, if_false]

/-- The 64-bit decimal parser inverts the decimal writer on the signed 64-bit
range. -/
theorem svn_cstring_atoi64_svn__i64toa (v : Int) (hlo : -(2 ^ 63) ≤ v) (hhi : v < 2 ^ 63) :
    svn_cstring_atoi64 (svn__i64toa v) = some v := by
  unfold svn_cstring_atoi64
  rw [readSigned_svn__i64toa]
  have h1 : ¬ v < -(2 ^ 63) := by omega
  have h2 : ¬ (2 ^ 63 - 1 < v) := by omega
  simp only [ne_eq, not_true_eq_false, or_self, if_false, h1, h2, Bool.true_eq_false]

/-- The decimal writer produces digits and `-` only. -/
theorem svn__i64toa_chars (v : Int) (c : Char) (hc : c ∈ svn__i64toa v) :
    c = '-' ∨ isDigitOf 36 c = true := by
  unfold svn__i64toa at hc
  by_cases h : 0 ≤ v
  · simp only [h, if_true] at hc
    exact Or.inr (isDigitOf_mono 10 36 (by omega) c (digitsOf_all 10 (by omega) (by omega) _ c hc))
  · simp only [h, if_false, List.mem_cons] at hc
    rcases hc with rfl | hc
    · exact Or.inl rfl
    · exact Or.inr
        (isDigitOf_mono 10 36 (by omega) c (digitsOf_all 10 (by omega) (by omega) _ c hc))

theorem svn__i64toa_ne_nil (v : Int) : svn__i64toa v ≠ [] := by
  unfold svn__i64toa
  by_cases h : 0 ≤ v
  · simp only [h, if_true]
    exact digitsOf_ne_nil 10 _
  · simp [h]

/-! ## Round trip of an id part -/

/-- The text of a part without its terminating `.`. -/
theorem unparse_id_part_dropLast (p : svn_fs_fs__id_part_t) :
    (unparse_id_part p).dropLast =
      if SVN_IS_VALID_REVNUM p.revision then
        svn__ui64tobase36 p.number ++
          (if p.revision > 0 then '-' :: svn__i64toa p.revision else [])
      else '_' :: svn__ui64tobase36 p.number := by
  unfold unparse_id_part
  exact List.dropLast_concat

theorem unparse_id_part_eq (p : svn_fs_fs__id_part_t) :
    unparse_id_part p = (unparse_id_part p).dropLast ++ ['.'] := by
  rw [unparse_id_part_dropLast]
  rfl

theorem svn__base36toui64_digits (n : Nat) (hn : n < 2 ^ 64) (rest : List Char)
    (h : ∀ c, rest.head? = some c → isDigitOf 36 c = false) :
    svn__base36toui64 (svn__ui64tobase36 n ++ rest) = (n, rest) := by
  unfold svn__base36toui64 svn__ui64tobase36
  rw [readRun_digitsOf 36 (by omega) (le_refl _) n rest h]
  show (n % 2 ^ 64, rest) = (n, rest)
  rw [Nat.mod_eq_of_lt hn]

theorem head_digitsOf (b : Nat) (hb1 : 1 ≤ b) (hb : b ≤ 36) (v : Nat) (rest : List Char) :
    ∃ c, (digitsOf b v ++ rest).head? = some c ∧ isDigitOf b c = true := by
  have hne := digitsOf_ne_nil b v
  have hall := digitsOf_all b hb1 hb v
  cases hd : digitsOf b v with
  | nil => exact absurd hd hne
  | cons x xs =>
    rw [hd] at hall
    exact ⟨x, by simp, hall x (List.mem_cons_self _ _)⟩

theorem part_parse_txn (n : Nat) (hn : n < 2 ^ 64) :
    part_parse ('_' :: svn__ui64tobase36 n) = (true, ⟨SVN_INVALID_REVNUM, n⟩) := by
  have h := svn__base36toui64_digits n hn [] (by simp)
  rw [List.append_nil] at h
  unfold part_parse
  simp [h]

theorem part_parse_rev (n : Nat) (hn : n < 2 ^ 64) (r : Int) (h0 : 0 ≤ r) (hmax : r < 2 ^ 63) :
    part_parse (svn__ui64tobase36 n ++ (if r > 0 then '-' :: svn__i64toa r else []))
      = (true, ⟨r, n⟩) := by
  have hsuf : ∀ c, (if r > 0 then '-' :: svn__i64toa r else []).head? = some c →
      isDigitOf 36 c = false := by
    intro c hc
    by_cases hr : r > 0
    · simp only [hr, if_true, List.head?_cons, Option.some.injEq] at hc
      subst hc
      decide
    · simp [hr] at hc
  have hb := svn__base36toui64_digits n hn _ hsuf
  obtain ⟨c, hc, hdig⟩ := head_digitsOf 36 (by omega) (le_refl _) n
    (if r > 0 then '-' :: svn__i64toa r else [])
  have hc_ne : c ≠ '_' := fun h => digit_not_special 36 c hdig (Or.inr (Or.inr (Or.inr (Or.inl h))))
  unfold part_parse
  have hhead : ¬ ((svn__ui64tobase36 n ++ (if r > 0 then '-' :: svn__i64toa r else [])).head?
      = some '_') := by
    unfold svn__ui64tobase36
    rw [hc]
    simpa using hc_ne
  simp only [hhead, if_false, hb]
  by_cases hz : svn__ui64tobase36 n ++ (if r > 0 then '-' :: svn__i64toa r else []) = ['0']
  · -- the root part
    simp only [hz, if_true]
    rw [hz] at hb
    have h1 : svn__base36toui64 ['0'] = (0, []) := by decide
    rw [h1] at hb
    have hn0 : n = 0 := by
      have := congrArg Prod.fst hb
      simpa using this.symm
    have hs : (if r > 0 then '-' :: svn__i64toa r else []) = ([] : List Char) := by
      have := congrArg Prod.snd hb
      simpa using this.symm
    have hr0 : r = 0 := by
      by_cases hr : r > 0
      · simp [hr] at hs
      · omega
    rw [hn0, hr0]
  · simp only [hz, if_false]
    by_cases hr : r > 0
    · have h1 : ¬ -(2 : Int) ^ 63 > r := by omega
      simp only [hr, if_true, List.head?_cons, ne_eq, not_true_eq_false, if_false,
        List.tail_cons]
      rw [SVN_STR_TO_REV_svn__i64toa r (by omega) hmax]
    · have hr0 : r = 0 := by omega
      simp [hr0]

/-! ## The readers in terms of runs of digits -/

theorem readRun_span (b : Nat) : ∀ (s : List Char) (acc : Nat),
    readRun b acc s =
      ((s.takeWhile (isDigitOf b)).foldl (fun a c => a * b + (digitValue c).getD 0) acc,
       s.dropWhile (isDigitOf b)) := by
  intro s
  induction s with
  | nil => intro acc; rfl
  | cons c cs ih =>
    intro acc
    unfold readRun
    cases hd : digitValue c with
    | none =>
      have hf : isDigitOf b c = false := by simp [isDigitOf, hd]
      simp [List.takeWhile_cons, List.dropWhile_cons, hf]
    | some d =>
      by_cases hlt : d < b
      · have ht : isDigitOf b c = true := by simp [isDigitOf, hd, hlt]
        simp only [hlt, if_true, List.takeWhile_cons, List.dropWhile_cons, ht, List.foldl_cons,
          hd, Option.getD_some]
        exact ih _
      · have hf : isDigitOf b c = false := by simp [isDigitOf, hd, hlt]
        simp [List.takeWhile_cons, List.dropWhile_cons, hf, hlt]

theorem svn__base36toui64_span (s : List Char) :
    svn__base36toui64 s =
      (base36Value (s.takeWhile (isDigitOf 36)) % 2 ^ 64, s.dropWhile (isDigitOf 36)) := by
  unfold svn__base36toui64 base36Value
  rw [readRun_span]

theorem dropWhile_eq_nil_all (p : Char → Bool) (l : List Char) :
    decide (l.dropWhile p = []) = l.all p := by
  induction l with
  | nil => rfl
  | cons x xs ih =>
    cases hx : p x with
    | true => simpa [List.dropWhile_cons, hx] using ih
    | false => simp [List.dropWhile_cons, hx]

/-- The part that `part_parse` writes is the one `decode_part` describes. -/
theorem part_parse_snd (text : List Char) : (part_parse text).2 = decode_part text := by
  unfold part_parse decode_part
  by_cases h1 : text.head? = some '_'
  · simp only [h1, if_true]
    rw [svn__base36toui64_span]
  · simp only [h1, if_false]
    by_cases h2 : text = ['0']
    · simp only [h2, if_true]
    · simp only [h2, if_false]
      rw [svn__base36toui64_span]
      by_cases h3 : (text.dropWhile (isDigitOf 36)).head? = some '-'
      · simp [h3]
      · simp [h3]

/-- The texts for which `part_parse` returns TRUE. -/
theorem part_parse_fst (text : List Char) : (part_parse text).1 = acceptedPart text := by
  unfold part_parse acceptedPart
  by_cases h1 : text.head? = some '_'
  · simp only [h1, if_true]
    rw [svn__base36toui64_span]
    exact dropWhile_eq_nil_all _ _
  · simp only [h1, if_false]
    by_cases h2 : text = ['0']
    · subst h2
      decide
    · simp only [h2, if_false]
      rw [svn__base36toui64_span]
      by_cases h3 : (text.dropWhile (isDigitOf 36)).head? = some '-'
      · simp [h3]
      · have h4 : text.dropWhile (isDigitOf 36) = [] ∨ text.dropWhile (isDigitOf 36) ≠ [] :=
          Classical.em _
        simp [h3]

/-! ## The tokenizer in terms of pieces -/

theorem fields_cons_sep (sep : Char) (cs : List Char) :
    fields sep (sep :: cs) = [] :: fields sep cs := by
  rw [fields]
  simp

theorem fields_cons_ne (sep c : Char) (cs : List Char) (h : c ≠ sep) :
    fields sep (c :: cs) =
      match fields sep cs with
      | [] => [[c]]
      | t :: ts => (c :: t) :: ts := by
  rw [fields]
  simp [h]

theorem fields_span (sep : Char) (s : List Char) :
    fields sep s =
      s.takeWhile (notSep sep) ::
        (if s.dropWhile (notSep sep) = [] then []
         else fields sep (s.dropWhile (notSep sep)).tail) := by
  induction s with
  | nil => simp [fields]
  | cons c cs ih =>
    by_cases h : c = sep
    · subst h
      have hn : ¬ (notSep c c = true) := by simp [notSep_self]
      rw [fields_cons_sep, List.takeWhile_cons_of_neg hn, List.dropWhile_cons_of_neg hn]
      simp
    · have hp : notSep sep c = true := notSep_ne sep c h
      rw [fields_cons_ne sep c cs h, List.takeWhile_cons_of_pos hp,
        List.dropWhile_cons_of_pos hp, ih]

theorem tokens_nil (sep : Char) : tokens sep [] = [] := by
  simp [tokens, fields]

theorem tokens_cons_sep (sep : Char) (cs : List Char) :
    tokens sep (sep :: cs) = tokens sep cs := by
  unfold tokens
  rw [fields_cons_sep]
  simp

theorem tokens_dropWhile (sep : Char) (s : List Char) :
    tokens sep (s.dropWhile (isSep sep)) = tokens sep s := by
  induction s with
  | nil => rfl
  | cons c cs ih =>
    by_cases h : c = sep
    · subst h
      rw [List.dropWhile_cons_of_pos (isSep_self c), ih, tokens_cons_sep]
    · have hn : ¬ (isSep sep c = true) := by simp [isSep_ne sep c h]
      rw [List.dropWhile_cons_of_neg hn]

/-- The pieces of a text that starts with a token character: the token, and
the pieces of what the tokenizer leaves. -/
theorem tokens_cons_ne (sep x : Char) (xs : List Char) (hx : x ≠ sep) :
    tokens sep (x :: xs) =
      (x :: xs.takeWhile (notSep sep)) :: tokens sep (xs.dropWhile (notSep sep)).tail := by
  have hp : notSep sep x = true := notSep_ne sep x hx
  have hf := fields_span sep (x :: xs)
  rw [List.takeWhile_cons_of_pos hp, List.dropWhile_cons_of_pos hp] at hf
  unfold tokens
  rw [hf]
  by_cases hnil : xs.dropWhile (notSep sep) = []
  · rw [if_pos hnil, hnil]
    simp [fields]
  · rw [if_neg hnil]
    simp

/-- The tokenizer returns the first non-empty piece and leaves the text that
holds the remaining ones. -/
theorem svn_cstring_tokenize_tokens (sep : Char) (s : List Char) :
    (svn_cstring_tokenize sep s).map (fun r => r.1 :: tokens sep r.2) =
      match tokens sep s with
      | [] => none
      | t :: ts => some (t :: ts) := by
  unfold svn_cstring_tokenize
  rw [← tokens_dropWhile sep s]
  cases hd : s.dropWhile (isSep sep) with
  | nil => simp [tokens_nil]
  | cons x xs =>
    have hx : x ≠ sep := by
      have := List.head_dropWhile_not (isSep sep) s (by simp [hd])
      simp only [hd, List.head_cons] at this
      intro h
      rw [h, isSep_self] at this
      exact absurd this (by simp)
    have hp : notSep sep x = true := notSep_ne sep x hx
    rw [tokens_cons_ne sep x xs hx]
    simp only [reduceCtorEq, if_false, Option.map_some, List.takeWhile_cons_of_pos hp,
      List.dropWhile_cons_of_pos hp]
    rfl

theorem tokens_of_tokenize_none (sep : Char) (s : List Char)
    (h : svn_cstring_tokenize sep s = none) : tokens sep s = [] := by
  have := svn_cstring_tokenize_tokens sep s
  rw [h] at this
  cases ht : tokens sep s with
  | nil => rfl
  | cons t ts => rw [ht] at this; simp at this

theorem tokens_of_tokenize_some (sep : Char) (s t rest : List Char)
    (h : svn_cstring_tokenize sep s = some (t, rest)) : tokens sep s = t :: tokens sep rest := by
  have := svn_cstring_tokenize_tokens sep s
  rw [h] at this
  cases ht : tokens sep s with
  | nil => rw [ht] at this; simp at this
  | cons t1 ts =>
    rw [ht] at this
    simpa using this.symm

/-- The texts for which `svn_fs_fs__id_parse` returns an id. -/
theorem svn_fs_fs__id_parse_isSome (text : List Char) :
    (svn_fs_fs__id_parse text).isSome = acceptedIdText text := by
  unfold svn_fs_fs__id_parse acceptedIdText
  cases h1 : svn_cstring_tokenize '.' (apr_pstrmemdup text) with
  | none => simp [h1, tokens_of_tokenize_none _ _ h1]
  | some r1 =>
    obtain ⟨t1, r1⟩ := r1
    rw [tokens_of_tokenize_some _ _ _ _ h1]
    simp only [h1]
    cases h2 : svn_cstring_tokenize '.' r1 with
    | none =>
      rw [tokens_of_tokenize_none _ _ h2]
      by_cases hp1 : (part_parse t1).1 = false <;> simp [hp1]
    | some r2 =>
      obtain ⟨t2, r2⟩ := r2
      rw [tokens_of_tokenize_some _ _ _ _ h2]
      simp only []
      cases h3 : svn_cstring_tokenize '.' r2 with
      | none =>
        rw [tokens_of_tokenize_none _ _ h3]
        by_cases hp1 : (part_parse t1).1 = false <;>
          by_cases hp2 : (part_parse t2).1 = false <;> simp [hp1, hp2]
      | some r3 =>
        obtain ⟨t3, r3⟩ := r3
        rw [tokens_of_tokenize_some _ _ _ _ h3]
        simp only [← part_parse_fst]
        by_cases hp1 : (part_parse t1).1 = false
        · simp [hp1]
        · by_cases hp2 : (part_parse t2).1 = false
          · simp [hp1, hp2]
          · have hp1t : (part_parse t1).1 = true := by simpa using hp1
            have hp2t : (part_parse t2).1 = true := by simpa using hp2
            simp only [hp1t, hp2t, Bool.true_eq_false, if_false, Bool.true_and]
            unfold acceptedTail
            by_cases hr : t3.head? = some 'r'
            · have hnt : ¬ (t3.head? = some 't') := by rw [hr]; decide
              simp only [hr, if_true, hnt, decide_False, Bool.false_or, decide_True,
                Bool.true_and]
              cases h4 : svn_cstring_tokenize '/' t3.tail with
              | none => simp [tokens_of_tokenize_none _ _ h4]
              | some r4 =>
                obtain ⟨t4, r4⟩ := r4
                rw [tokens_of_tokenize_some _ _ _ _ h4]
                simp only []
                cases h5 : svn_cstring_tokenize '/' r4 with
                | none => simp [tokens_of_tokenize_none _ _ h5]
                | some r5 =>
                  obtain ⟨t5, r5⟩ := r5
                  rw [tokens_of_tokenize_some _ _ _ _ h5]
                  cases h6 : svn_cstring_atoi64 t5 <;> simp [h6]
            · by_cases ht : t3.head? = some 't'
              · simp [hr, ht]
              · simp [hr, ht]

/-! ## Round trip of a node id -/

/-- The inverse of `unparse_id_part` on the parts of the data model. -/
theorem part_parse_unparse (p : svn_fs_fs__id_part_t) (h : validPart p) :
    part_parse (unparse_id_part p).dropLast = (true, p) := by
  obtain ⟨hn, hr, hmax⟩ := h
  rw [unparse_id_part_dropLast]
  rcases hr with hr | hr
  · have hv : SVN_IS_VALID_REVNUM p.revision = false := by
      rw [hr]; decide
    simp only [hv, Bool.false_eq_true, if_false]
    rw [part_parse_txn p.number hn, ← hr]
  · have hv : SVN_IS_VALID_REVNUM p.revision = true := by
      simpa [SVN_IS_VALID_REVNUM] using hr
    simp only [hv, if_true]
    rw [part_parse_rev p.number hn p.revision hr hmax]

theorem toInt64_range (n : Nat) : -(2 ^ 63) ≤ toInt64 n ∧ toInt64 n < 2 ^ 63 := by
  unfold toInt64
  have : n % 2 ^ 64 < 2 ^ 64 := Nat.mod_lt _ (by norm_num)
  by_cases h : n % 2 ^ 64 < 2 ^ 63
  · simp only [h, if_true]
    omega
  · simp only [h, if_false]
    omega

/-- Reading the item back through the 32-bit cast keeps its low 32 bits. -/
theorem toInt64_cast32 (n : Nat) : ((toInt64 n) % 2 ^ 32).toNat = n % 2 ^ 32 := by
  unfold toInt64
  by_cases h : n % 2 ^ 64 < 2 ^ 63
  · simp only [h, if_true]
    omega
  · simp only [h, if_false]
    omega

theorem partText_chars (p : svn_fs_fs__id_part_t) (c : Char)
    (hc : c ∈ (unparse_id_part p).dropLast) :
    c = '-' ∨ c = '_' ∨ isDigitOf 36 c = true := by
  rw [unparse_id_part_dropLast] at hc
  have hb : ∀ x ∈ svn__ui64tobase36 p.number, isDigitOf 36 x = true :=
    fun x hx => digitsOf_all 36 (by omega) (le_refl _) _ x hx
  by_cases hv : SVN_IS_VALID_REVNUM p.revision = true
  · simp only [hv, if_true, List.mem_append] at hc
    rcases hc with hc | hc
    · exact Or.inr (Or.inr (hb c hc))
    · by_cases hr : p.revision > 0
      · simp only [hr, if_true, List.mem_cons] at hc
        rcases hc with hc | hc
        · exact Or.inl hc
        · rcases svn__i64toa_chars _ c hc with h | h
          · exact Or.inl h
          · exact Or.inr (Or.inr h)
      · simp [hr] at hc
  · simp only [hv, Bool.false_eq_true, if_false, List.mem_cons] at hc
    rcases hc with hc | hc
    · exact Or.inr (Or.inl hc)
    · exact Or.inr (Or.inr (hb c hc))

theorem partText_ne_nil (p : svn_fs_fs__id_part_t) : (unparse_id_part p).dropLast ≠ [] := by
  rw [unparse_id_part_dropLast]
  have hb := digitsOf_ne_nil 36 p.number
  by_cases hv : SVN_IS_VALID_REVNUM p.revision = true
  · simp only [hv, if_true]
    unfold svn__ui64tobase36
    simp [hb]
  · simp [hv]

theorem field_char_cases (c : Char) (h : c = '-' ∨ c = '_' ∨ isDigitOf 36 c = true) :
    c ≠ '.' ∧ c ≠ '/' ∧ c ≠ Char.ofNat 0 := by
  rcases h with rfl | rfl | h
  · decide
  · decide
  · have hs := digit_not_special 36 c h
    refine ⟨fun e => hs (Or.inl e), fun e => hs (Or.inr (Or.inl e)), fun e => hs ?_⟩
    exact Or.inr (Or.inr (Or.inr (Or.inr (Or.inr (Or.inl e)))))

theorem apr_pstrmemdup_of_cstring (s : List Char) (h : isCString s) : apr_pstrmemdup s = s := by
  unfold apr_pstrmemdup
  apply takeWhile_all
  intro c hc
  simpa using h c hc

/-- The text of an id: the two part texts, each closed by `.`, and the third
field. -/
theorem svn_fs_fs__id_unparse_shape (id : fs_fs__id_t) :
    svn_fs_fs__id_unparse id =
      (unparse_id_part id.node_id).dropLast ++ '.' ::
        ((unparse_id_part id.copy_id).dropLast ++ '.' ::
          (match id.txn_id with
           | none => 'r' :: (svn__i64toa id.rev ++ '/' :: svn__i64toa (toInt64 id.item))
           | some txn_id => 't' :: txn_id)) := by
  unfold svn_fs_fs__id_unparse
  rw [unparse_id_part_eq id.node_id, unparse_id_part_eq id.copy_id]
  cases id.txn_id <;> simp

/-- Parsing a text made of two part texts and a transaction field. -/
theorem svn_fs_fs__id_parse_txn_text (P1 P2 T : List Char)
    (h1 : P1 ≠ []) (h1c : ∀ c ∈ P1, c ≠ '.' ∧ c ≠ Char.ofNat 0)
    (h2 : P2 ≠ []) (h2c : ∀ c ∈ P2, c ≠ '.' ∧ c ≠ Char.ofNat 0)
    (hTc : ∀ c ∈ T, c ≠ '.' ∧ c ≠ Char.ofNat 0)
    (hp1 : (part_parse P1).1 = true) (hp2 : (part_parse P2).1 = true) :
    svn_fs_fs__id_parse (P1 ++ '.' :: (P2 ++ '.' :: ('t' :: T))) =
      some { node_id := (part_parse P1).2, copy_id := (part_parse P2).2,
             txn_id := some T, rev := SVN_INVALID_REVNUM, item := 0 } := by
  have hcs : isCString (P1 ++ '.' :: (P2 ++ '.' :: ('t' :: T))) := by
    intro c hc
    simp only [List.mem_append, List.mem_cons] at hc
    rcases hc with hc | rfl | hc | rfl | rfl | hc
    · exact (h1c c hc).2
    · decide
    · exact (h2c c hc).2
    · decide
    · decide
    · exact (hTc c hc).2
  have hT : ∀ c ∈ 't' :: T, c ≠ '.' := by
    intro c hc
    simp only [List.mem_cons] at hc
    rcases hc with rfl | hc
    · decide
    · exact (hTc c hc).1
  unfold svn_fs_fs__id_parse
  rw [apr_pstrmemdup_of_cstring _ hcs]
  dsimp only
  rw [svn_cstring_tokenize_append '.' P1 _ h1 (fun c hc => (h1c c hc).1)]
  simp only [hp1, Bool.true_eq_false, if_false]
  rw [svn_cstring_tokenize_append '.' P2 _ h2 (fun c hc => (h2c c hc).1)]
  simp only [hp2, Bool.true_eq_false, if_false]
  rw [svn_cstring_tokenize_last '.' ('t' :: T) (by simp) hT]
  have hnr : ¬ (some 't' = some 'r') := by decide
  simp only [List.head?_cons, hnr, if_false, if_true, List.tail_cons]

/-- Parsing a text made of two part texts and a revision field. -/
theorem svn_fs_fs__id_parse_rev_text (P1 P2 R I : List Char) (val : Int)
    (h1 : P1 ≠ []) (h1c : ∀ c ∈ P1, c ≠ '.' ∧ c ≠ Char.ofNat 0)
    (h2 : P2 ≠ []) (h2c : ∀ c ∈ P2, c ≠ '.' ∧ c ≠ Char.ofNat 0)
    (hR : R ≠ []) (hRc : ∀ c ∈ R, c ≠ '.' ∧ c ≠ '/' ∧ c ≠ Char.ofNat 0)
    (hI : I ≠ []) (hIc : ∀ c ∈ I, c ≠ '.' ∧ c ≠ '/' ∧ c ≠ Char.ofNat 0)
    (hp1 : (part_parse P1).1 = true) (hp2 : (part_parse P2).1 = true)
    (hval : svn_cstring_atoi64 I = some val) :
    svn_fs_fs__id_parse (P1 ++ '.' :: (P2 ++ '.' :: ('r' :: (R ++ '/' :: I)))) =
      some { node_id := (part_parse P1).2, copy_id := (part_parse P2).2,
             txn_id := none, rev := SVN_STR_TO_REV R, item := (val % 2 ^ 32).toNat } := by
  have hcs : isCString (P1 ++ '.' :: (P2 ++ '.' :: ('r' :: (R ++ '/' :: I)))) := by
    intro c hc
    simp only [List.mem_append, List.mem_cons] at hc
    rcases hc with hc | rfl | hc | rfl | rfl | hc | rfl | hc
    · exact (h1c c hc).2
    · decide
    · exact (h2c c hc).2
    · decide
    · decide
    · exact (hRc c hc).2.2
    · decide
    · exact (hIc c hc).2.2
  have hT : ∀ c ∈ 'r' :: (R ++ '/' :: I), c ≠ '.' := by
    intro c hc
    simp only [List.mem_cons, List.mem_append] at hc
    rcases hc with rfl | hc | rfl | hc
    · decide
    · exact (hRc c hc).1
    · decide
    · exact (hIc c hc).1
  unfold svn_fs_fs__id_parse
  rw [apr_pstrmemdup_of_cstring _ hcs]
  dsimp only
  rw [svn_cstring_tokenize_append '.' P1 _ h1 (fun c hc => (h1c c hc).1)]
  simp only [hp1, Bool.true_eq_false, if_false]
  rw [svn_cstring_tokenize_append '.' P2 _ h2 (fun c hc => (h2c c hc).1)]
  simp only [hp2, Bool.true_eq_false, if_false]
  rw [svn_cstring_tokenize_last '.' ('r' :: (R ++ '/' :: I)) (by simp) hT]
  simp only [List.head?_cons, if_true, List.tail_cons]
  rw [svn_cstring_tokenize_append '/' R _ hR (fun c hc => (hRc c hc).2.1)]
  simp only []
  rw [svn_cstring_tokenize_last '/' I hI (fun c hc => (hIc c hc).2.1)]
  simp only [hval]

/-- A transaction id text written by `svn_fs_fs__id_unparse` is read back when
the txn id holds no `.`. -/
theorem svn_fs_fs__id_parse_unparse_txn (n c : svn_fs_fs__id_part_t) (t : List Char)
    (hn : validPart n) (hc : validPart c) (ht : isCString t) (hdot : ∀ x ∈ t, x ≠ '.') :
    svn_fs_fs__id_parse (svn_fs_fs__id_unparse
        { node_id := n, copy_id := c, txn_id := some t, rev := SVN_INVALID_REVNUM, item := 0 })
      = some { node_id := n, copy_id := c, txn_id := some t, rev := SVN_INVALID_REVNUM,
               item := 0 } := by
  rw [svn_fs_fs__id_unparse_shape]
  have hpn := part_parse_unparse n hn
  have hpc := part_parse_unparse c hc
  have h := svn_fs_fs__id_parse_txn_text (unparse_id_part n).dropLast
    (unparse_id_part c).dropLast t (partText_ne_nil n)
    (fun x hx => ⟨(field_char_cases x (partText_chars n x hx)).1,
      (field_char_cases x (partText_chars n x hx)).2.2⟩)
    (partText_ne_nil c)
    (fun x hx => ⟨(field_char_cases x (partText_chars c x hx)).1,
      (field_char_cases x (partText_chars c x hx)).2.2⟩)
    (fun x hx => ⟨hdot x hx, ht x hx⟩)
    (by rw [hpn]) (by rw [hpc])
  rw [hpn, hpc] at h
  exact h

/-- A revision id text written by `svn_fs_fs__id_unparse` is read back with the
item reduced to 32 bits. -/
theorem svn_fs_fs__id_parse_unparse_rev (n c : svn_fs_fs__id_part_t) (rev : Int) (item : Nat)
    (hn : validPart n) (hc : validPart c) (hlo : -(2 ^ 63) ≤ rev) (hhi : rev < 2 ^ 63) :
    svn_fs_fs__id_parse (svn_fs_fs__id_unparse
        { node_id := n, copy_id := c, txn_id := none, rev := rev, item := item })
      = some { node_id := n, copy_id := c, txn_id := none, rev := rev,
               item := item % 2 ^ 32 } := by
  rw [svn_fs_fs__id_unparse_shape]
  have hpn := part_parse_unparse n hn
  have hpc := part_parse_unparse c hc
  have hdec : ∀ (v : Int) (x : Char), x ∈ svn__i64toa v →
      x ≠ '.' ∧ x ≠ '/' ∧ x ≠ Char.ofNat 0 := by
    intro v x hx
    apply field_char_cases
    rcases svn__i64toa_chars v x hx with h | h
    · exact Or.inl h
    · exact Or.inr (Or.inr h)
  have hir := toInt64_range item
  have h := svn_fs_fs__id_parse_rev_text (unparse_id_part n).dropLast
    (unparse_id_part c).dropLast (svn__i64toa rev) (svn__i64toa (toInt64 item)) (toInt64 item)
    (partText_ne_nil n)
    (fun x hx => ⟨(field_char_cases x (partText_chars n x hx)).1,
      (field_char_cases x (partText_chars n x hx)).2.2⟩)
    (partText_ne_nil c)
    (fun x hx => ⟨(field_char_cases x (partText_chars c x hx)).1,
      (field_char_cases x (partText_chars c x hx)).2.2⟩)
    (svn__i64toa_ne_nil rev) (hdec rev)
    (svn__i64toa_ne_nil _) (hdec _)
    (by rw [hpn]) (by rw [hpc])
    (svn_cstring_atoi64_svn__i64toa _ hir.1 hir.2)
  rw [hpn, hpc, SVN_STR_TO_REV_svn__i64toa rev hlo hhi, toInt64_cast32] at h
  exact h

theorem validPart_root : validPart ⟨0, 0⟩ := by
  unfold validPart
  decide

/-! ## Comparing node ids -/

/-- The function `svn_fs_fs__id_eq` holds exactly for ids with equal members. -/
theorem svn_fs_fs__id_eq_iff (mem : Heap) (a b : Nat) :
    svn_fs_fs__id_eq mem a b = true ↔ mem a = mem b := by
  unfold svn_fs_fs__id_eq
  by_cases hab : a = b
  · simp [hab]
  · simp only [hab, if_false]
    cases ha : mem a with
    | mk na ca ta ra ia =>
      cases hb : mem b with
      | mk nb cb tb rb ib =>
        simp only [fs_fs__id_t.mk.injEq]
        by_cases h1 : (na, ca) = (nb, cb)
        · obtain ⟨h1a, h1b⟩ := Prod.mk.inj h1
          subst h1a h1b
          cases ta <;> cases tb <;> simp
        · have : ¬ (na = nb ∧ ca = cb) := fun h => h1 (by rw [h.1, h.2])
          simp only [ne_eq, h1, not_false_eq_true, if_true, Bool.false_eq_true, false_iff]
          tauto

theorem svn_fs_fs__id_check_related_iff (mem : Heap) (a b : Nat) (hab : a ≠ b) :
    svn_fs_fs__id_check_related mem a b = true ↔
      (mem a).node_id = (mem b).node_id ∧
        ¬ ((mem a).node_id.revision = SVN_INVALID_REVNUM ∧
            ∃ s t, (mem a).txn_id = some s ∧ (mem b).txn_id = some t ∧ s ≠ t) := by
  unfold svn_fs_fs__id_check_related svn_fs_fs__id_part_eq
  simp only [hab, if_false]
  cases ha : mem a with
  | mk na ca ta ra ia =>
    cases hb : mem b with
    | mk nb cb tb rb ib =>
      cases na with
      | mk rna nna =>
        cases nb with
        | mk rnb nnb =>
          by_cases hr : rna = SVN_INVALID_REVNUM
          · cases ta <;> cases tb <;> simp [hr]
            rename_i s t
            by_cases hst : s = t
            · simp [hst]
            · simp [hst]
          · simp [hr]

/-! ## The claims -/

/-- C1, as stated, fails: the id built by `svn_fs_fs__id_txn_create_root` for
the txn id `a.b` and the id built by `svn_fs_fs__id_rev_create` with the item
2^32 are constructible, and parsing their text does not give them back (the
text `0.0.ta.b` is cut at the `.` of the txn id, and the item comes back
reduced to 32 bits). -/
theorem id_roundtrip_fails :
    (Constructible (svn_fs_fs__id_txn_create_root (some ['a', '.', 'b'])) ∧
      svn_fs_fs__id_parse (svn_fs_fs__id_unparse
          (svn_fs_fs__id_txn_create_root (some ['a', '.', 'b'])))
        = some (svn_fs_fs__id_txn_create_root (some ['a'])) ∧
      svn_fs_fs__id_parse (svn_fs_fs__id_unparse
          (svn_fs_fs__id_txn_create_root (some ['a', '.', 'b'])))
        ≠ some (svn_fs_fs__id_txn_create_root (some ['a', '.', 'b']))) ∧
    (Constructible (svn_fs_fs__id_rev_create ⟨0, 1⟩ ⟨0, 0⟩ 3 (2 ^ 32)) ∧
      svn_fs_fs__id_parse (svn_fs_fs__id_unparse
          (svn_fs_fs__id_rev_create ⟨0, 1⟩ ⟨0, 0⟩ 3 (2 ^ 32)))
        = some (svn_fs_fs__id_rev_create ⟨0, 1⟩ ⟨0, 0⟩ 3 0) ∧
      svn_fs_fs__id_parse (svn_fs_fs__id_unparse
          (svn_fs_fs__id_rev_create ⟨0, 1⟩ ⟨0, 0⟩ 3 (2 ^ 32)))
        ≠ some (svn_fs_fs__id_rev_create ⟨0, 1⟩ ⟨0, 0⟩ 3 (2 ^ 32))) := by
  refine ⟨⟨Constructible.txn_root _ (by unfold isCString; decide), by decide, by decide⟩,
    ⟨Constructible.rev _ _ _ _ (by unfold validPart; decide) (by unfold validPart; decide)
      (by decide) (by decide) (by decide), by decide, by decide⟩⟩

/-- C1, amended: for every constructible node id `x` whose txn id, if it has
one, holds no `.`, and whose item is below 2^32, `svn_fs_fs__id_parse` applied to
the text of `svn_fs_fs__id_unparse x` succeeds and returns an id equal to `x` in
every field. -/
theorem id_parse_unparse_roundtrip (x : fs_fs__id_t) (hx : Constructible x)
    (hdot : ∀ t, x.txn_id = some t → ∀ c ∈ t, c ≠ '.') (hitem : x.item < 2 ^ 32) :
    svn_fs_fs__id_parse (svn_fs_fs__id_unparse x) = some x := by
  cases hx with
  | txn_root txn_id ht =>
    exact svn_fs_fs__id_parse_unparse_txn ⟨0, 0⟩ ⟨0, 0⟩ txn_id validPart_root validPart_root ht
      (hdot txn_id rfl)
  | txn node_id copy_id txn_id hn hc ht =>
    exact svn_fs_fs__id_parse_unparse_txn node_id copy_id txn_id hn hc ht (hdot txn_id rfl)
  | rev node_id copy_id rev item hn hc hlo hhi hi =>
    have h := svn_fs_fs__id_parse_unparse_rev node_id copy_id rev item hn hc hlo hhi
    have hi32 : item % 2 ^ 32 = item := Nat.mod_eq_of_lt hitem
    rw [hi32] at h
    exact h

/-- The round trip of C1 at the committed id `zz-5._a.r3/10` and at the
transaction id `_a.0.t3-1a`. -/
theorem id_parse_unparse_roundtrip_witness :
    (Constructible (svn_fs_fs__id_rev_create ⟨5, 1295⟩ ⟨-1, 10⟩ 3 10) ∧
      (svn_fs_fs__id_rev_create ⟨5, 1295⟩ ⟨-1, 10⟩ 3 10).item < 2 ^ 32 ∧
      svn_fs_fs__id_parse
          (svn_fs_fs__id_unparse (svn_fs_fs__id_rev_create ⟨5, 1295⟩ ⟨-1, 10⟩ 3 10))
        = some (svn_fs_fs__id_rev_create ⟨5, 1295⟩ ⟨-1, 10⟩ 3 10)) ∧
    (Constructible (svn_fs_fs__id_txn_create ⟨-1, 10⟩ ⟨0, 0⟩ (some "3-1a".toList)) ∧
      (svn_fs_fs__id_txn_create ⟨-1, 10⟩ ⟨0, 0⟩ (some "3-1a".toList)).item < 2 ^ 32 ∧
      svn_fs_fs__id_parse
          (svn_fs_fs__id_unparse (svn_fs_fs__id_txn_create ⟨-1, 10⟩ ⟨0, 0⟩ (some "3-1a".toList)))
        = some (svn_fs_fs__id_txn_create ⟨-1, 10⟩ ⟨0, 0⟩ (some "3-1a".toList))) :=
  have hr : Constructible (svn_fs_fs__id_rev_create ⟨5, 1295⟩ ⟨-1, 10⟩ 3 10) :=
    Constructible.rev _ _ _ _ (by unfold validPart; decide) (by unfold validPart; decide)
      (by decide) (by decide) (by decide)
  have ht : Constructible (svn_fs_fs__id_txn_create ⟨-1, 10⟩ ⟨0, 0⟩ (some "3-1a".toList)) :=
    Constructible.txn _ _ _ (by unfold validPart; decide) (by unfold validPart; decide)
      (by unfold isCString; decide)
  ⟨⟨hr, by decide,
      id_parse_unparse_roundtrip _ hr (fun t h => by simp [svn_fs_fs__id_rev_create] at h)
        (by decide)⟩,
    ⟨ht, by decide,
      id_parse_unparse_roundtrip _ ht
        (fun t h => by
          have h2 : "3-1a".toList = t := Option.some.inj h
          rw [← h2]
          decide)
        (by decide)⟩⟩

/-- C2: for every id part `p` with a number below 2^64 and a revision that is
valid (not negative, within a 64-bit `svn_revnum_t`) or the invalid sentinel,
`part_parse` applied to the text written by `unparse_id_part p` without its
terminating `.` returns TRUE and yields a part equal to `p`. -/
theorem part_parse_unparse_id_part (p : svn_fs_fs__id_part_t) (hn : p.number < 2 ^ 64)
    (hr : p.revision = SVN_INVALID_REVNUM ∨ 0 ≤ p.revision) (hmax : p.revision < 2 ^ 63) :
    part_parse (unparse_id_part p).dropLast = (true, p) :=
  part_parse_unparse p ⟨hn, hr, hmax⟩

/-- The round trip of C2 at the largest part, `3w5e11264sgsf-9223372036854775807`. -/
theorem part_parse_unparse_id_part_witness :
    ((2 ^ 64 - 1 : Nat) < 2 ^ 64 ∧ (0 : Int) ≤ 2 ^ 63 - 1 ∧ (2 ^ 63 - 1 : Int) < 2 ^ 63) ∧
    part_parse (unparse_id_part ⟨2 ^ 63 - 1, 2 ^ 64 - 1⟩).dropLast
      = (true, ⟨2 ^ 63 - 1, 2 ^ 64 - 1⟩) :=
  ⟨by decide, part_parse_unparse_id_part ⟨2 ^ 63 - 1, 2 ^ 64 - 1⟩ (by decide)
    (Or.inr (by decide)) (by decide)⟩

/-- C3, as stated, fails: `svn_fs_fs__id_parse` returns an id for texts that are
not of the claimed form: a part revision that is no number (`1-x.0.r3/10`), a
revision that is no number (`1.0.rx/10`), a fourth field (`1.0.r3/10.junk`), an
empty field (`1..0.r3/10`) and text after the item (`1.0.r3/10/junk`). -/
theorem id_parse_accepts_malformed :
    (wellFormedIdText "1-x.0.r3/10".toList = false ∧
      svn_fs_fs__id_parse "1-x.0.r3/10".toList = some ⟨⟨0, 1⟩, ⟨0, 0⟩, none, 3, 10⟩) ∧
    (wellFormedIdText "1.0.rx/10".toList = false ∧
      svn_fs_fs__id_parse "1.0.rx/10".toList = some ⟨⟨0, 1⟩, ⟨0, 0⟩, none, 0, 10⟩) ∧
    (wellFormedIdText "1.0.r3/10.junk".toList = false ∧
      svn_fs_fs__id_parse "1.0.r3/10.junk".toList = some ⟨⟨0, 1⟩, ⟨0, 0⟩, none, 3, 10⟩) ∧
    (wellFormedIdText "1..0.r3/10".toList = false ∧
      svn_fs_fs__id_parse "1..0.r3/10".toList = some ⟨⟨0, 1⟩, ⟨0, 0⟩, none, 3, 10⟩) ∧
    (wellFormedIdText "1.0.r3/10/junk".toList = false ∧
      svn_fs_fs__id_parse "1.0.r3/10/junk".toList = some ⟨⟨0, 1⟩, ⟨0, 0⟩, none, 3, 10⟩) := by
  decide

/-- C3, amended: `svn_fs_fs__id_parse` returns no id exactly for the texts that
are not accepted, where a text is accepted when, cut at its first NUL, it has at
least three non-empty pieces between `.`, the first two pieces each are `_`
followed by base-36 digits only or a run of base-36 digits that ends the piece or
is followed by `-` and any text, and the third piece is `t` followed by any text
or `r` followed by text with at least two non-empty pieces between `/`, the
second of which the 64-bit decimal parser takes.  The revisions are not checked
and what follows these pieces is ignored. -/
theorem id_parse_none_iff (text : List Char) :
    svn_fs_fs__id_parse text = none ↔ acceptedIdText text = false := by
  rw [← svn_fs_fs__id_parse_isSome]
  cases svn_fs_fs__id_parse text <;> simp

/-- C4: `part_parse` implements `decode_part`: the part it writes is the one
`decode_part` gives for every text (number and base-36 value taken as unsigned
64-bit values), and `_a` decodes to the number 10 with the invalid revision. -/
theorem part_parse_implements_decode_part :
    (∀ text : List Char, (part_parse text).2 = decode_part text) ∧
    part_parse "_a".toList = (true, ⟨SVN_INVALID_REVNUM, 10⟩) :=
  ⟨part_parse_snd, by decide⟩

/-- C5, as stated, fails: for the item 2^63 the item is written with a minus
sign, as the negative number 2^63 - 2^64, and not as `9223372036854775808`. -/
theorem id_unparse_item_signed :
    svn_fs_fs__id_unparse (svn_fs_fs__id_rev_create ⟨0, 1⟩ ⟨0, 0⟩ 3 (2 ^ 63))
      = "1.0.r3/-9223372036854775808".toList ∧
    unparseClaimed (svn_fs_fs__id_rev_create ⟨0, 1⟩ ⟨0, 0⟩ 3 (2 ^ 63))
      = "1.0.r3/9223372036854775808".toList ∧
    svn_fs_fs__id_unparse (svn_fs_fs__id_rev_create ⟨0, 1⟩ ⟨0, 0⟩ 3 (2 ^ 63))
      ≠ unparseClaimed (svn_fs_fs__id_rev_create ⟨0, 1⟩ ⟨0, 0⟩ 3 (2 ^ 63)) := by
  decide

/-- C5, amended: for every node id, `svn_fs_fs__id_unparse` produces exactly
`enc node_id ++ "." ++ enc copy_id ++ "." ++ tail`, where `enc p` is `_` and the
base-36 text of the number when the revision is invalid, and otherwise the
base-36 text of the number followed by `-` and the decimal revision exactly when
the revision is positive, and `tail` is `t` and the txn id when the id has one,
and otherwise `r`, the decimal revision, `/` and the decimal text of the item
read as a signed 64-bit number (the item below 2^63, the item less 2^64 from
there on). -/
theorem id_unparse_eq_unparseSigned (id : fs_fs__id_t) :
    svn_fs_fs__id_unparse id = unparseSigned id := by
  rw [svn_fs_fs__id_unparse_shape]
  unfold unparseSigned enc
  rw [unparse_id_part_dropLast, unparse_id_part_dropLast]
  cases SVN_IS_VALID_REVNUM id.node_id.revision <;>
    cases SVN_IS_VALID_REVNUM id.copy_id.revision <;> simp

/-- C6, as stated, fails: two ids that differ in the copy id only have equal
node ids, txn ids, revisions and items, and `svn_fs_fs__id_eq` is false for
them. -/
theorem id_eq_compares_copy_id :
    svn_fs_fs__id_eq memCopyIds 0 1 = false ∧
    (memCopyIds 0).node_id = (memCopyIds 1).node_id ∧
    (memCopyIds 0).txn_id = (memCopyIds 1).txn_id ∧
    (memCopyIds 0).rev = (memCopyIds 1).rev ∧
    (memCopyIds 0).item = (memCopyIds 1).item := by
  decide

/-- C6, amended: for all node ids `a` and `b`, `svn_fs_fs__id_eq` is true exactly
when `a` and `b` have equal node_id parts and equal copy_id parts, agree on
whether a txn id is present and on its value, and have equal revision and equal
item. -/
theorem id_eq_true_iff (mem : Heap) (a b : Nat) :
    svn_fs_fs__id_eq mem a b = true ↔
      (mem a).node_id = (mem b).node_id ∧ (mem a).copy_id = (mem b).copy_id ∧
      ((mem a).txn_id.isSome = (mem b).txn_id.isSome ∧
        ∀ s t, (mem a).txn_id = some s → (mem b).txn_id = some t → s = t) ∧
      (mem a).rev = (mem b).rev ∧ (mem a).item = (mem b).item := by
  rw [svn_fs_fs__id_eq_iff]
  cases ha : mem a with
  | mk na ca ta ra ia =>
    cases hb : mem b with
    | mk nb cb tb rb ib =>
      simp only [fs_fs__id_t.mk.injEq]
      cases ta <;> cases tb <;> simp

/-- C7: `svn_fs_fs__id_eq` is an equivalence relation on node ids: it is
reflexive, symmetric and transitive. -/
theorem id_eq_equivalence (mem : Heap) :
    (∀ a, svn_fs_fs__id_eq mem a a = true) ∧
    (∀ a b, svn_fs_fs__id_eq mem a b = svn_fs_fs__id_eq mem b a) ∧
    (∀ a b c, svn_fs_fs__id_eq mem a b = true → svn_fs_fs__id_eq mem b c = true →
      svn_fs_fs__id_eq mem a c = true) := by
  refine ⟨fun a => (svn_fs_fs__id_eq_iff mem a a).2 rfl, fun a b => ?_, fun a b c hab hbc => ?_⟩
  · have h1 := svn_fs_fs__id_eq_iff mem a b
    have h2 := svn_fs_fs__id_eq_iff mem b a
    cases hx : svn_fs_fs__id_eq mem a b <;> cases hy : svn_fs_fs__id_eq mem b a
    · rfl
    · have := h1.2 (h2.1 hy).symm
      rw [hx] at this
      exact this
    · have := h2.2 (h1.1 hx).symm
      rw [hy] at this
      exact this.symm
    · rfl
  · exact (svn_fs_fs__id_eq_iff mem a c).2
      (((svn_fs_fs__id_eq_iff mem a b).1 hab).trans ((svn_fs_fs__id_eq_iff mem b c).1 hbc))

/-- Transitivity of C7 through three separately allocated ids with equal
members. -/
theorem id_eq_equivalence_witness :
    svn_fs_fs__id_eq memSame 0 1 = true ∧ svn_fs_fs__id_eq memSame 1 2 = true ∧
    svn_fs_fs__id_eq memSame 0 2 = true :=
  ⟨by decide, by decide, (id_eq_equivalence memSame).2.2 0 1 2 (by decide) (by decide)⟩

/-- C8: for all distinct node ids `a` and `b`, `svn_fs_fs__id_check_related` is
false when both node_id parts are transaction-scoped (invalid revision) and `a`
and `b` carry different non-null txn ids, and in every other case it is true
exactly when the node_id parts of `a` and `b` have the same revision and the
same number; in particular two transaction-scoped ids with equal node_id parts
and different non-null txn ids are not related. -/
theorem id_check_related_spec (mem : Heap) (a b : Nat) (hab : a ≠ b) :
    (((mem a).node_id.revision = SVN_INVALID_REVNUM ∧
        (mem b).node_id.revision = SVN_INVALID_REVNUM ∧
        ∃ s t, (mem a).txn_id = some s ∧ (mem b).txn_id = some t ∧ s ≠ t) →
      svn_fs_fs__id_check_related mem a b = false) ∧
    (¬ ((mem a).node_id.revision = SVN_INVALID_REVNUM ∧
        (mem b).node_id.revision = SVN_INVALID_REVNUM ∧
        ∃ s t, (mem a).txn_id = some s ∧ (mem b).txn_id = some t ∧ s ≠ t) →
      (svn_fs_fs__id_check_related mem a b = true ↔
        (mem a).node_id.revision = (mem b).node_id.revision ∧
        (mem a).node_id.number = (mem b).node_id.number)) ∧
    (((mem a).node_id.revision = SVN_INVALID_REVNUM ∧ (mem a).node_id = (mem b).node_id ∧
        ∃ s t, (mem a).txn_id = some s ∧ (mem b).txn_id = some t ∧ s ≠ t) →
      svn_fs_fs__id_check_related mem a b = false) := by
  have h := svn_fs_fs__id_check_related_iff mem a b hab
  have hpart : (mem a).node_id = (mem b).node_id ↔
      ((mem a).node_id.revision = (mem b).node_id.revision ∧
        (mem a).node_id.number = (mem b).node_id.number) := by
    cases (mem a).node_id
    cases (mem b).node_id
    simp
  have hfalse : (mem a).node_id.revision = SVN_INVALID_REVNUM →
      (∃ s t, (mem a).txn_id = some s ∧ (mem b).txn_id = some t ∧ s ≠ t) →
      svn_fs_fs__id_check_related mem a b = false := by
    intro hra hst
    cases hrel : svn_fs_fs__id_check_related mem a b with
    | false => rfl
    | true => exact absurd ⟨hra, hst⟩ (h.1 hrel).2
  refine ⟨fun hh => hfalse hh.1 hh.2.2, ?_, fun hh => hfalse hh.1 hh.2.2⟩
  intro hnot
  rw [h, ← hpart]
  constructor
  · exact fun hh => hh.1
  · intro hn
    refine ⟨hn, ?_⟩
    rintro ⟨hra, hst⟩
    exact hnot ⟨hra, by rw [← hn]; exact hra, hst⟩

/-- The case of C8 that the specification singles out: two transaction-scoped
ids with equal node_id parts and different txn ids are not related. -/
theorem id_check_related_spec_witness :
    (0 : Nat) ≠ 1 ∧ (memTxns 0).node_id = (memTxns 1).node_id ∧
    svn_fs_fs__id_check_related memTxns 0 1 = false :=
  ⟨by decide, by decide,
    (id_check_related_spec memTxns 0 1 (by decide)).1
      ⟨by decide, by decide, ['x'], ['y'], by decide, by decide, by decide⟩⟩

/-- C9: `svn_fs_fs__id_check_related a a` is true for every node id `a`, and
for all node ids `a` and `b`, two separately allocated ids with equal members
included, `svn_fs_fs__id_eq a b` implies `svn_fs_fs__id_check_related a b`. -/
theorem id_eq_implies_related (mem : Heap) :
    (∀ a, svn_fs_fs__id_check_related mem a a = true) ∧
    (∀ a b, svn_fs_fs__id_eq mem a b = true → svn_fs_fs__id_check_related mem a b = true) := by
  have hrefl : ∀ a, svn_fs_fs__id_check_related mem a a = true := by
    intro a
    simp [svn_fs_fs__id_check_related]
  refine ⟨hrefl, fun a b heq => ?_⟩
  by_cases hab : a = b
  · rw [hab]
    exact hrefl b
  · have hm := (svn_fs_fs__id_eq_iff mem a b).1 heq
    rw [svn_fs_fs__id_check_related_iff mem a b hab]
    refine ⟨by rw [hm], ?_⟩
    rintro ⟨_, s, t, hs, ht, hst⟩
    rw [hm, ht] at hs
    exact hst (Option.some.inj hs).symm

/-- The implication of C9 at two separately allocated ids with equal members. -/
theorem id_eq_implies_related_witness :
    (0 : Nat) ≠ 1 ∧ svn_fs_fs__id_eq memSame 0 1 = true ∧
    svn_fs_fs__id_check_related memSame 0 1 = true :=
  ⟨by decide, by decide, (id_eq_implies_related memSame).2 0 1 (by decide)⟩

/-- C10: for all node ids `a` and `b`, `svn_fs_fs__id_compare` returns 0 exactly
when `svn_fs_fs__id_eq a b`; otherwise 1 exactly when
`svn_fs_fs__id_check_related a b`; otherwise -1; it returns no other value. -/
theorem id_compare_spec (mem : Heap) (a b : Nat) :
    (svn_fs_fs__id_compare mem a b = 0 ↔ svn_fs_fs__id_eq mem a b = true) ∧
    (svn_fs_fs__id_compare mem a b = 1 ↔
      (svn_fs_fs__id_eq mem a b = false ∧ svn_fs_fs__id_check_related mem a b = true)) ∧
    (svn_fs_fs__id_compare mem a b = -1 ↔
      (svn_fs_fs__id_eq mem a b = false ∧ svn_fs_fs__id_check_related mem a b = false)) ∧
    (svn_fs_fs__id_compare mem a b = 0 ∨ svn_fs_fs__id_compare mem a b = 1 ∨
      svn_fs_fs__id_compare mem a b = -1) := by
  unfold svn_fs_fs__id_compare
  cases svn_fs_fs__id_eq mem a b <;> cases svn_fs_fs__id_check_related mem a b <;> simp

/-- What `svn_fs_fs__id_parse` returns, by the first character of the third
piece of the text: a committed id without txn id after `r`, a transaction id
with the invalid revision and the item 0 after `t`. -/
theorem svn_fs_fs__id_parse_location (text : List Char) (x : fs_fs__id_t)
    (h : svn_fs_fs__id_parse text = some x) :
    ∃ t1 t2 t3 rest, tokens '.' (apr_pstrmemdup text) = t1 :: t2 :: t3 :: rest ∧
      ((t3.head? = some 'r' ∧ x.txn_id = none) ∨
        (t3.head? = some 't' ∧ x.txn_id = some t3.tail ∧ x.rev = SVN_INVALID_REVNUM ∧
          x.item = 0)) := by
  unfold svn_fs_fs__id_parse at h
  cases h1 : svn_cstring_tokenize '.' (apr_pstrmemdup text) with
  | none => simp [h1] at h
  | some r1 =>
    obtain ⟨t1, r1⟩ := r1
    simp only [h1] at h
    by_cases hp1 : (part_parse t1).1 = false
    · simp [hp1] at h
    · simp only [hp1, if_false] at h
      cases h2 : svn_cstring_tokenize '.' r1 with
      | none => simp [h2] at h
      | some r2 =>
        obtain ⟨t2, r2⟩ := r2
        simp only [h2] at h
        by_cases hp2 : (part_parse t2).1 = false
        · simp [hp2] at h
        · simp only [hp2, if_false] at h
          cases h3 : svn_cstring_tokenize '.' r2 with
          | none => simp [h3] at h
          | some r3 =>
            obtain ⟨t3, r3⟩ := r3
            simp only [h3] at h
            refine ⟨t1, t2, t3, tokens '.' r3, ?_, ?_⟩
            · rw [tokens_of_tokenize_some _ _ _ _ h1, tokens_of_tokenize_some _ _ _ _ h2,
                tokens_of_tokenize_some _ _ _ _ h3]
            · by_cases hr : t3.head? = some 'r'
              · left
                refine ⟨hr, ?_⟩
                simp only [hr, if_true] at h
                cases h4 : svn_cstring_tokenize '/' t3.tail with
                | none => simp [h4] at h
                | some r4 =>
                  obtain ⟨t4, r4⟩ := r4
                  simp only [h4] at h
                  cases h5 : svn_cstring_tokenize '/' r4 with
                  | none => simp [h5] at h
                  | some r5 =>
                    obtain ⟨t5, r5⟩ := r5
                    simp only [h5] at h
                    cases h6 : svn_cstring_atoi64 t5 with
                    | none => simp [h6] at h
                    | some val =>
                      simp only [h6] at h
                      have hx : x = _ := (Option.some.inj (by simpa [hp1, hp2] using h)).symm
                      rw [hx]
              · right
                simp only [hr, if_false] at h
                by_cases ht : t3.head? = some 't'
                · simp only [ht, if_true] at h
                  have hx : x = _ := (Option.some.inj (by simpa [hp1, hp2] using h)).symm
                  rw [hx]
                  exact ⟨ht, rfl, rfl, rfl⟩
                · simp [ht] at h

/-- C11: parsing the text `1.0.r3/10` succeeds and yields node_id = (number 1,
revision 0), copy_id = the root part (number 0, revision 0), no txn id,
committed revision 3 and item 10; unparsing that id yields exactly `1.0.r3/10`
again. -/
theorem id_parse_example_committed :
    svn_fs_fs__id_parse "1.0.r3/10".toList
      = some { node_id := { revision := 0, number := 1 },
               copy_id := { revision := 0, number := 0 },
               txn_id := none, rev := 3, item := 10 } ∧
    svn_fs_fs__id_part_is_root { revision := 0, number := 0 } = true ∧
    svn_fs_fs__id_unparse
        { node_id := { revision := 0, number := 1 }, copy_id := { revision := 0, number := 0 },
          txn_id := none, rev := 3, item := 10 }
      = "1.0.r3/10".toList := by
  decide

/-- C12: every node id produced by `svn_fs_fs__id_txn_create_root`,
`svn_fs_fs__id_txn_create`, `svn_fs_fs__id_rev_create`, `svn_fs_fs__id_parse`,
or `svn_fs_fs__id_copy` of such an id is never both transaction-located and
committed: whenever its txn id is non-null its revision is the invalid sentinel
and its item is 0; an id created by `svn_fs_fs__id_rev_create` has a null txn
id, and so has an id parsed from a text whose third field begins with `r`. -/
theorem id_location_closed :
    (∀ x, Produced x → ∀ t, x.txn_id = some t → x.rev = SVN_INVALID_REVNUM ∧ x.item = 0) ∧
    (∀ node_id copy_id rev item,
      (svn_fs_fs__id_rev_create node_id copy_id rev item).txn_id = none) ∧
    (∀ text x t1 t2 t3 rest, svn_fs_fs__id_parse text = some x →
      tokens '.' (apr_pstrmemdup text) = t1 :: t2 :: t3 :: rest → t3.head? = some 'r' →
      x.txn_id = none) := by
  refine ⟨?_, fun _ _ _ _ => rfl, ?_⟩
  · intro x hx
    induction hx with
    | txn_root txn_id => intro t _; exact ⟨rfl, rfl⟩
    | txn node_id copy_id txn_id => intro t _; exact ⟨rfl, rfl⟩
    | rev node_id copy_id rev item =>
      intro t ht
      simp [svn_fs_fs__id_rev_create] at ht
    | parse data x h =>
      intro t ht
      obtain ⟨t1, t2, t3, rest, _, hloc⟩ := svn_fs_fs__id_parse_location data x h
      rcases hloc with ⟨_, hnone⟩ | ⟨_, _, hrev, hitem⟩
      · rw [hnone] at ht
        exact absurd ht (by simp)
      · exact ⟨hrev, hitem⟩
    | copy x _ ih =>
      intro t ht
      have hx : x.txn_id = some t := by
        unfold svn_fs_fs__id_copy apr_pstrdup at ht
        cases hxt : x.txn_id with
        | none => simp [hxt] at ht
        | some u => simpa [hxt] using ht
      exact ih t hx
  · intro text x t1 t2 t3 rest hparse htok hr
    obtain ⟨u1, u2, u3, urest, hu, hloc⟩ := svn_fs_fs__id_parse_location text x hparse
    rw [htok] at hu
    have h3 : t3 = u3 := by
      have := List.cons.inj hu
      have := List.cons.inj this.2
      exact (List.cons.inj this.2).1
    rcases hloc with ⟨_, hnone⟩ | ⟨ht, _, _, _⟩
    · exact hnone
    · rw [← h3, hr] at ht
      exact absurd ht (by decide)

/-- The invariant of C12 at the copy of the id parsed from `_a.0.tMYTXN`, and
at the id parsed from `1.0.r3/10`. -/
theorem id_location_closed_witness :
    Produced (svn_fs_fs__id_copy (svn_fs_fs__id_txn_create ⟨-1, 10⟩ ⟨0, 0⟩ (some "MYTXN".toList))) ∧
    svn_fs_fs__id_parse "_a.0.tMYTXN".toList
      = some (svn_fs_fs__id_txn_create ⟨-1, 10⟩ ⟨0, 0⟩ (some "MYTXN".toList)) ∧
    ((svn_fs_fs__id_copy
        (svn_fs_fs__id_txn_create ⟨-1, 10⟩ ⟨0, 0⟩ (some "MYTXN".toList))).rev = SVN_INVALID_REVNUM ∧
      (svn_fs_fs__id_copy
        (svn_fs_fs__id_txn_create ⟨-1, 10⟩ ⟨0, 0⟩ (some "MYTXN".toList))).item = 0) ∧
    (svn_fs_fs__id_rev_create ⟨0, 1⟩ ⟨0, 0⟩ 3 10).txn_id = none :=
  have hp : svn_fs_fs__id_parse "_a.0.tMYTXN".toList
      = some (svn_fs_fs__id_txn_create ⟨-1, 10⟩ ⟨0, 0⟩ (some "MYTXN".toList)) := by decide
  have hprod : Produced
      (svn_fs_fs__id_copy (svn_fs_fs__id_txn_create ⟨-1, 10⟩ ⟨0, 0⟩ (some "MYTXN".toList))) :=
    Produced.copy _ (Produced.parse _ _ hp)
  ⟨hprod, hp, id_location_closed.1 _ hprod "MYTXN".toList (by decide),
    id_location_closed.2.2 "1.0.r3/10".toList (svn_fs_fs__id_rev_create ⟨0, 1⟩ ⟨0, 0⟩ 3 10)
      "1".toList "0".toList "r3/10".toList [] (by decide) (by decide) (by decide)⟩

/-- C28: for a committed id text `<part>.<part>.r<rev>/<v>` whose last field is
accepted by the 64-bit decimal parser with value `v`, `svn_fs_fs__id_parse`
succeeds and stores as item `v` reduced to an unsigned 32-bit integer
(`v mod 2^32`), so the parsed item equals `v` exactly when `0 ≤ v < 2^32`. -/
theorem id_parse_item_mod (P1 P2 R I : List Char) (v : Int)
    (h1 : P1 ≠ []) (h1c : ∀ c ∈ P1, c ≠ '.' ∧ c ≠ Char.ofNat 0)
    (h2 : P2 ≠ []) (h2c : ∀ c ∈ P2, c ≠ '.' ∧ c ≠ Char.ofNat 0)
    (hR : R ≠ []) (hRc : ∀ c ∈ R, c ≠ '.' ∧ c ≠ '/' ∧ c ≠ Char.ofNat 0)
    (hI : I ≠ []) (hIc : ∀ c ∈ I, c ≠ '.' ∧ c ≠ '/' ∧ c ≠ Char.ofNat 0)
    (hp1 : (part_parse P1).1 = true) (hp2 : (part_parse P2).1 = true)
    (hv : svn_cstring_atoi64 I = some v) :
    ∃ x, svn_fs_fs__id_parse (P1 ++ '.' :: (P2 ++ '.' :: ('r' :: (R ++ '/' :: I)))) = some x ∧
      (x.item : Int) = v % 2 ^ 32 ∧ x.item < 2 ^ 32 ∧
      ((x.item : Int) = v ↔ 0 ≤ v ∧ v < 2 ^ 32) := by
  refine ⟨_, svn_fs_fs__id_parse_rev_text P1 P2 R I v h1 h1c h2 h2c hR hRc hI hIc hp1 hp2 hv,
    ?_, ?_, ?_⟩
  · show (((v % 2 ^ 32).toNat : Nat) : Int) = v % 2 ^ 32
    exact Int.toNat_of_nonneg (Int.emod_nonneg v (by norm_num))
  · show (v % 2 ^ 32).toNat < 2 ^ 32
    have hlt : v % 2 ^ 32 < 2 ^ 32 := Int.emod_lt_of_pos v (by norm_num)
    have hnn : 0 ≤ v % 2 ^ 32 := Int.emod_nonneg v (by norm_num)
    omega
  · show (((v % 2 ^ 32).toNat : Nat) : Int) = v ↔ 0 ≤ v ∧ v < 2 ^ 32
    rw [Int.toNat_of_nonneg (Int.emod_nonneg v (by norm_num))]
    constructor
    · intro h
      rw [← h]
      exact ⟨Int.emod_nonneg v (by norm_num), Int.emod_lt_of_pos v (by norm_num)⟩
    · intro h
      exact Int.emod_eq_of_lt h.1 h.2

/-- C28 at the text `1.0.r3/4294967306` and at the text whose last field is
minus one: the items parsed are 10 and 4294967295. -/
theorem id_parse_item_mod_witness :
    (∃ x, svn_fs_fs__id_parse ("1".toList ++ '.' :: ("0".toList ++ '.' ::
        ('r' :: ("3".toList ++ '/' :: "4294967306".toList)))) = some x ∧
      (x.item : Int) = (4294967306 : Int) % 2 ^ 32 ∧ x.item < 2 ^ 32 ∧
      ((x.item : Int) = 4294967306 ↔ 0 ≤ (4294967306 : Int) ∧ (4294967306 : Int) < 2 ^ 32)) ∧
    (svn_fs_fs__id_parse ("1.0.r3".toList ++ '/' :: "-1".toList)).map (fun x => x.item) = some 4294967295 :=
  ⟨id_parse_item_mod "1".toList "0".toList "3".toList "4294967306".toList 4294967306
    (by decide) (by decide) (by decide) (by decide) (by decide) (by decide) (by decide)
    (by decide) (by decide) (by decide) (by decide), by decide⟩

/-- C29: `svn_fs_fs__id_check_related` is symmetric, although it inspects only
the node_id revision of its first argument, and consequently
`svn_fs_fs__id_compare` gives the same result for `(a, b)` and `(b, a)`. -/
theorem id_check_related_symm :
    (∀ (mem : Heap) (a b : Nat),
      svn_fs_fs__id_check_related mem a b = svn_fs_fs__id_check_related mem b a) ∧
    (∀ (mem : Heap) (a b : Nat),
      svn_fs_fs__id_compare mem a b = svn_fs_fs__id_compare mem b a) := by
  have hrel : ∀ (mem : Heap) (a b : Nat),
      svn_fs_fs__id_check_related mem a b = svn_fs_fs__id_check_related mem b a := by
    intro mem a b
    by_cases hab : a = b
    · rw [hab]
    · have hba : b ≠ a := fun h => hab h.symm
      rw [Bool.eq_iff_iff, svn_fs_fs__id_check_related_iff mem a b hab,
        svn_fs_fs__id_check_related_iff mem b a hba]
      constructor
      · rintro ⟨hn, hx⟩
        refine ⟨hn.symm, ?_⟩
        rintro ⟨hr, s, t, hs, ht, hst⟩
        exact hx ⟨by rw [hn]; exact hr, t, s, ht, hs, fun h => hst h.symm⟩
      · rintro ⟨hn, hx⟩
        refine ⟨hn.symm, ?_⟩
        rintro ⟨hr, s, t, hs, ht, hst⟩
        exact hx ⟨by rw [hn]; exact hr, t, s, ht, hs, fun h => hst h.symm⟩
  have heq : ∀ (mem : Heap) (a b : Nat),
      svn_fs_fs__id_eq mem a b = svn_fs_fs__id_eq mem b a := by
    intro mem a b
    rw [Bool.eq_iff_iff, svn_fs_fs__id_eq_iff, svn_fs_fs__id_eq_iff]
    exact ⟨fun h => h.symm, fun h => h.symm⟩
  refine ⟨hrel, ?_⟩
  intro mem a b
  unfold svn_fs_fs__id_compare
  rw [heq mem a b, hrel mem a b]

end FsFs

namespace WcLock

/-! ## The state updates -/

@[simp] theorem setBaton_batons (s : State) (p q : Nat) (b : svn_wc_adm_access_t) :
    (s.setBaton p b).batons q = if q = p then b else s.batons q := rfl

@[simp] theorem setShared_shareds (s : State) (p q : Nat) (sh : svn_wc__adm_shared_t) :
    (s.setShared p sh).shareds q = if q = p then sh else s.shareds q := rfl

@[simp] theorem setLockNode_lock_node (s : State) (p q : Path) (k : svn_node_kind_t) :
    (s.setLockNode p k).lock_node q = if q = p then k else s.lock_node q := rfl

@[simp] theorem setBaton_nbatons (s : State) (p : Nat) (b : svn_wc_adm_access_t) :
    (s.setBaton p b).nbatons = s.nbatons := rfl

@[simp] theorem setBaton_shareds (s : State) (p : Nat) (b : svn_wc_adm_access_t) :
    (s.setBaton p b).shareds = s.shareds := rfl

@[simp] theorem setBaton_nshareds (s : State) (p : Nat) (b : svn_wc_adm_access_t) :
    (s.setBaton p b).nshareds = s.nshareds := rfl

@[simp] theorem setBaton_lock_node (s : State) (p : Nat) (b : svn_wc_adm_access_t) :
    (s.setBaton p b).lock_node = s.lock_node := rfl

@[simp] theorem setBaton_cleanups (s : State) (p : Nat) (b : svn_wc_adm_access_t) :
    (s.setBaton p b).cleanups = s.cleanups := rfl

@[simp] theorem setBaton_ndbs (s : State) (p : Nat) (b : svn_wc_adm_access_t) :
    (s.setBaton p b).ndbs = s.ndbs := rfl

@[simp] theorem setBaton_db_closed (s : State) (p : Nat) (b : svn_wc_adm_access_t) :
    (s.setBaton p b).db_closed = s.db_closed := rfl

@[simp] theorem setBaton_cancel_calls (s : State) (p : Nat) (b : svn_wc_adm_access_t) :
    (s.setBaton p b).cancel_calls = s.cancel_calls := rfl

@[simp] theorem setShared_batons (s : State) (p : Nat) (sh : svn_wc__adm_shared_t) :
    (s.setShared p sh).batons = s.batons := rfl

@[simp] theorem setShared_nbatons (s : State) (p : Nat) (sh : svn_wc__adm_shared_t) :
    (s.setShared p sh).nbatons = s.nbatons := rfl

@[simp] theorem setShared_nshareds (s : State) (p : Nat) (sh : svn_wc__adm_shared_t) :
    (s.setShared p sh).nshareds = s.nshareds := rfl

@[simp] theorem setShared_lock_node (s : State) (p : Nat) (sh : svn_wc__adm_shared_t) :
    (s.setShared p sh).lock_node = s.lock_node := rfl

@[simp] theorem setShared_cleanups (s : State) (p : Nat) (sh : svn_wc__adm_shared_t) :
    (s.setShared p sh).cleanups = s.cleanups := rfl

@[simp] theorem setShared_ndbs (s : State) (p : Nat) (sh : svn_wc__adm_shared_t) :
    (s.setShared p sh).ndbs = s.ndbs := rfl

@[simp] theorem setShared_db_closed (s : State) (p : Nat) (sh : svn_wc__adm_shared_t) :
    (s.setShared p sh).db_closed = s.db_closed := rfl

@[simp] theorem setShared_cancel_calls (s : State) (p : Nat) (sh : svn_wc__adm_shared_t) :
    (s.setShared p sh).cancel_calls = s.cancel_calls := rfl

@[simp] theorem setLockNode_batons (s : State) (p : Path) (k : svn_node_kind_t) :
    (s.setLockNode p k).batons = s.batons := rfl

@[simp] theorem setLockNode_nbatons (s : State) (p : Path) (k : svn_node_kind_t) :
    (s.setLockNode p k).nbatons = s.nbatons := rfl

@[simp] theorem setLockNode_shareds (s : State) (p : Path) (k : svn_node_kind_t) :
    (s.setLockNode p k).shareds = s.shareds := rfl

@[simp] theorem setLockNode_nshareds (s : State) (p : Path) (k : svn_node_kind_t) :
    (s.setLockNode p k).nshareds = s.nshareds := rfl

@[simp] theorem setLockNode_cleanups (s : State) (p : Path) (k : svn_node_kind_t) :
    (s.setLockNode p k).cleanups = s.cleanups := rfl

@[simp] theorem setLockNode_ndbs (s : State) (p : Path) (k : svn_node_kind_t) :
    (s.setLockNode p k).ndbs = s.ndbs := rfl

@[simp] theorem setLockNode_db_closed (s : State) (p : Path) (k : svn_node_kind_t) :
    (s.setLockNode p k).db_closed = s.db_closed := rfl

@[simp] theorem setLockNode_cancel_calls (s : State) (p : Path) (k : svn_node_kind_t) :
    (s.setLockNode p k).cancel_calls = s.cancel_calls := rfl

@[simp] theorem registerCleanup_batons (s : State) (p : Nat) :
    (s.registerCleanup p).batons = s.batons := rfl

@[simp] theorem registerCleanup_nbatons (s : State) (p : Nat) :
    (s.registerCleanup p).nbatons = s.nbatons := rfl

@[simp] theorem registerCleanup_shareds (s : State) (p : Nat) :
    (s.registerCleanup p).shareds = s.shareds := rfl

@[simp] theorem registerCleanup_nshareds (s : State) (p : Nat) :
    (s.registerCleanup p).nshareds = s.nshareds := rfl

@[simp] theorem registerCleanup_lock_node (s : State) (p : Nat) :
    (s.registerCleanup p).lock_node = s.lock_node := rfl

@[simp] theorem registerCleanup_ndbs (s : State) (p : Nat) :
    (s.registerCleanup p).ndbs = s.ndbs := rfl

@[simp] theorem registerCleanup_db_closed (s : State) (p : Nat) :
    (s.registerCleanup p).db_closed = s.db_closed := rfl

@[simp] theorem registerCleanup_cancel_calls (s : State) (p : Nat) :
    (s.registerCleanup p).cancel_calls = s.cancel_calls := rfl

@[simp] theorem registerCleanup_cleanups (s : State) (p : Nat) :
    (s.registerCleanup p).cleanups = p :: s.cleanups := rfl

@[simp] theorem setFormat_nbatons (s : State) (p : Nat) (v : Int) :
    (s.setFormat p v).nbatons = s.nbatons := rfl

@[simp] theorem setFormat_shareds (s : State) (p : Nat) (v : Int) :
    (s.setFormat p v).shareds = s.shareds := rfl

@[simp] theorem setFormat_nshareds (s : State) (p : Nat) (v : Int) :
    (s.setFormat p v).nshareds = s.nshareds := rfl

@[simp] theorem setFormat_lock_node (s : State) (p : Nat) (v : Int) :
    (s.setFormat p v).lock_node = s.lock_node := rfl

@[simp] theorem setFormat_cleanups (s : State) (p : Nat) (v : Int) :
    (s.setFormat p v).cleanups = s.cleanups := rfl

@[simp] theorem setFormat_ndbs (s : State) (p : Nat) (v : Int) :
    (s.setFormat p v).ndbs = s.ndbs := rfl

@[simp] theorem setFormat_db_closed (s : State) (p : Nat) (v : Int) :
    (s.setFormat p v).db_closed = s.db_closed := rfl

@[simp] theorem setFormat_cancel_calls (s : State) (p : Nat) (v : Int) :
    (s.setFormat p v).cancel_calls = s.cancel_calls := rfl

@[simp] theorem setFormat_wc_format (s : State) (p q : Nat) (v : Int) :
    ((s.setFormat p v).batons q).wc_format = if q = p then v else (s.batons q).wc_format := by
  unfold State.setFormat
  by_cases h : q = p <;> simp [h]

@[simp] theorem setFormat_path (s : State) (p q : Nat) (v : Int) :
    ((s.setFormat p v).batons q).path = (s.batons q).path := by
  unfold State.setFormat
  by_cases h : q = p <;> simp [h]

@[simp] theorem setFormat_type (s : State) (p q : Nat) (v : Int) :
    ((s.setFormat p v).batons q).type = (s.batons q).type := by
  unfold State.setFormat
  by_cases h : q = p <;> simp [h]

@[simp] theorem setFormat_lock_exists (s : State) (p q : Nat) (v : Int) :
    ((s.setFormat p v).batons q).lock_exists = (s.batons q).lock_exists := by
  unfold State.setFormat
  by_cases h : q = p <;> simp [h]

@[simp] theorem setFormat_shared (s : State) (p q : Nat) (v : Int) :
    ((s.setFormat p v).batons q).shared = (s.batons q).shared := by
  unfold State.setFormat
  by_cases h : q = p <;> simp [h]

@[simp] theorem setFormat_set_owner (s : State) (p q : Nat) (v : Int) :
    ((s.setFormat p v).batons q).set_owner = (s.batons q).set_owner := by
  unfold State.setFormat
  by_cases h : q = p <;> simp [h]

theorem setFormat_other (s : State) (p q : Nat) (v : Int) (h : q ≠ p) :
    (s.setFormat p v).batons q = s.batons q := by
  unfold State.setFormat
  simp [h]

@[simp] theorem setType_nbatons (s : State) (p : Nat) (v : svn_wc__adm_access_type) :
    (s.setType p v).nbatons = s.nbatons := rfl

@[simp] theorem setType_shareds (s : State) (p : Nat) (v : svn_wc__adm_access_type) :
    (s.setType p v).shareds = s.shareds := rfl

@[simp] theorem setType_nshareds (s : State) (p : Nat) (v : svn_wc__adm_access_type) :
    (s.setType p v).nshareds = s.nshareds := rfl

@[simp] theorem setType_lock_node (s : State) (p : Nat) (v : svn_wc__adm_access_type) :
    (s.setType p v).lock_node = s.lock_node := rfl

@[simp] theorem setType_cleanups (s : State) (p : Nat) (v : svn_wc__adm_access_type) :
    (s.setType p v).cleanups = s.cleanups := rfl

@[simp] theorem setType_ndbs (s : State) (p : Nat) (v : svn_wc__adm_access_type) :
    (s.setType p v).ndbs = s.ndbs := rfl

@[simp] theorem setType_db_closed (s : State) (p : Nat) (v : svn_wc__adm_access_type) :
    (s.setType p v).db_closed = s.db_closed := rfl

@[simp] theorem setType_cancel_calls (s : State) (p : Nat) (v : svn_wc__adm_access_type) :
    (s.setType p v).cancel_calls = s.cancel_calls := rfl

@[simp] theorem setType_wc_format (s : State) (p q : Nat) (v : svn_wc__adm_access_type) :
    ((s.setType p v).batons q).wc_format = (s.batons q).wc_format := by
  unfold State.setType
  by_cases h : q = p <;> simp [h]

@[simp] theorem setType_path (s : State) (p q : Nat) (v : svn_wc__adm_access_type) :
    ((s.setType p v).batons q).path = (s.batons q).path := by
  unfold State.setType
  by_cases h : q = p <;> simp [h]

@[simp] theorem setType_type (s : State) (p q : Nat) (v : svn_wc__adm_access_type) :
    ((s.setType p v).batons q).type = if q = p then v else (s.batons q).type := by
  unfold State.setType
  by_cases h : q = p <;> simp [h]

@[simp] theorem setType_lock_exists (s : State) (p q : Nat) (v : svn_wc__adm_access_type) :
    ((s.setType p v).batons q).lock_exists = (s.batons q).lock_exists := by
  unfold State.setType
  by_cases h : q = p <;> simp [h]

@[simp] theorem setType_shared (s : State) (p q : Nat) (v : svn_wc__adm_access_type) :
    ((s.setType p v).batons q).shared = (s.batons q).shared := by
  unfold State.setType
  by_cases h : q = p <;> simp [h]

@[simp] theorem setType_set_owner (s : State) (p q : Nat) (v : svn_wc__adm_access_type) :
    ((s.setType p v).batons q).set_owner = (s.batons q).set_owner := by
  unfold State.setType
  by_cases h : q = p <;> simp [h]

theorem setType_other (s : State) (p q : Nat) (v : svn_wc__adm_access_type) (h : q ≠ p) :
    (s.setType p v).batons q = s.batons q := by
  unfold State.setType
  simp [h]

@[simp] theorem setLockExists_nbatons (s : State) (p : Nat) (v : Bool) :
    (s.setLockExists p v).nbatons = s.nbatons := rfl

@[simp] theorem setLockExists_shareds (s : State) (p : Nat) (v : Bool) :
    (s.setLockExists p v).shareds = s.shareds := rfl

@[simp] theorem setLockExists_nshareds (s : State) (p : Nat) (v : Bool) :
    (s.setLockExists p v).nshareds = s.nshareds := rfl

@[simp] theorem setLockExists_lock_node (s : State) (p : Nat) (v : Bool) :
    (s.setLockExists p v).lock_node = s.lock_node := rfl

@[simp] theorem setLockExists_cleanups (s : State) (p : Nat) (v : Bool) :
    (s.setLockExists p v).cleanups = s.cleanups := rfl

@[simp] theorem setLockExists_ndbs (s : State) (p : Nat) (v : Bool) :
    (s.setLockExists p v).ndbs = s.ndbs := rfl

@[simp] theorem setLockExists_db_closed (s : State) (p : Nat) (v : Bool) :
    (s.setLockExists p v).db_closed = s.db_closed := rfl

@[simp] theorem setLockExists_cancel_calls (s : State) (p : Nat) (v : Bool) :
    (s.setLockExists p v).cancel_calls = s.cancel_calls := rfl

@[simp] theorem setLockExists_wc_format (s : State) (p q : Nat) (v : Bool) :
    ((s.setLockExists p v).batons q).wc_format = (s.batons q).wc_format := by
  unfold State.setLockExists
  by_cases h : q = p <;> simp [h]

@[simp] theorem setLockExists_path (s : State) (p q : Nat) (v : Bool) :
    ((s.setLockExists p v).batons q).path = (s.batons q).path := by
  unfold State.setLockExists
  by_cases h : q = p <;> simp [h]

@[simp] theorem setLockExists_type (s : State) (p q : Nat) (v : Bool) :
    ((s.setLockExists p v).batons q).type = (s.batons q).type := by
  unfold State.setLockExists
  by_cases h : q = p <;> simp [h]

@[simp] theorem setLockExists_lock_exists (s : State) (p q : Nat) (v : Bool) :
    ((s.setLockExists p v).batons q).lock_exists = if q = p then v else (s.batons q).lock_exists := by
  unfold State.setLockExists
  by_cases h : q = p <;> simp [h]

@[simp] theorem setLockExists_shared (s : State) (p q : Nat) (v : Bool) :
    ((s.setLockExists p v).batons q).shared = (s.batons q).shared := by
  unfold State.setLockExists
  by_cases h : q = p <;> simp [h]

@[simp] theorem setLockExists_set_owner (s : State) (p q : Nat) (v : Bool) :
    ((s.setLockExists p v).batons q).set_owner = (s.batons q).set_owner := by
  unfold State.setLockExists
  by_cases h : q = p <;> simp [h]

theorem setLockExists_other (s : State) (p q : Nat) (v : Bool) (h : q ≠ p) :
    (s.setLockExists p v).batons q = s.batons q := by
  unfold State.setLockExists
  simp [h]

@[simp] theorem setSharedPtr_nbatons (s : State) (p : Nat) (v : Option Nat) :
    (s.setSharedPtr p v).nbatons = s.nbatons := rfl

@[simp] theorem setSharedPtr_shareds (s : State) (p : Nat) (v : Option Nat) :
    (s.setSharedPtr p v).shareds = s.shareds := rfl

@[simp] theorem setSharedPtr_nshareds (s : State) (p : Nat) (v : Option Nat) :
    (s.setSharedPtr p v).nshareds = s.nshareds := rfl

@[simp] theorem setSharedPtr_lock_node (s : State) (p : Nat) (v : Option Nat) :
    (s.setSharedPtr p v).lock_node = s.lock_node := rfl

@[simp] theorem setSharedPtr_cleanups (s : State) (p : Nat) (v : Option Nat) :
    (s.setSharedPtr p v).cleanups = s.cleanups := rfl

@[simp] theorem setSharedPtr_ndbs (s : State) (p : Nat) (v : Option Nat) :
    (s.setSharedPtr p v).ndbs = s.ndbs := rfl

@[simp] theorem setSharedPtr_db_closed (s : State) (p : Nat) (v : Option Nat) :
    (s.setSharedPtr p v).db_closed = s.db_closed := rfl

@[simp] theorem setSharedPtr_cancel_calls (s : State) (p : Nat) (v : Option Nat) :
    (s.setSharedPtr p v).cancel_calls = s.cancel_calls := rfl

@[simp] theorem setSharedPtr_wc_format (s : State) (p q : Nat) (v : Option Nat) :
    ((s.setSharedPtr p v).batons q).wc_format = (s.batons q).wc_format := by
  unfold State.setSharedPtr
  by_cases h : q = p <;> simp [h]

@[simp] theorem setSharedPtr_path (s : State) (p q : Nat) (v : Option Nat) :
    ((s.setSharedPtr p v).batons q).path = (s.batons q).path := by
  unfold State.setSharedPtr
  by_cases h : q = p <;> simp [h]

@[simp] theorem setSharedPtr_type (s : State) (p q : Nat) (v : Option Nat) :
    ((s.setSharedPtr p v).batons q).type = (s.batons q).type := by
  unfold State.setSharedPtr
  by_cases h : q = p <;> simp [h]

@[simp] theorem setSharedPtr_lock_exists (s : State) (p q : Nat) (v : Option Nat) :
    ((s.setSharedPtr p v).batons q).lock_exists = (s.batons q).lock_exists := by
  unfold State.setSharedPtr
  by_cases h : q = p <;> simp [h]

@[simp] theorem setSharedPtr_shared (s : State) (p q : Nat) (v : Option Nat) :
    ((s.setSharedPtr p v).batons q).shared = if q = p then v else (s.batons q).shared := by
  unfold State.setSharedPtr
  by_cases h : q = p <;> simp [h]

@[simp] theorem setSharedPtr_set_owner (s : State) (p q : Nat) (v : Option Nat) :
    ((s.setSharedPtr p v).batons q).set_owner = (s.batons q).set_owner := by
  unfold State.setSharedPtr
  by_cases h : q = p <;> simp [h]

theorem setSharedPtr_other (s : State) (p q : Nat) (v : Option Nat) (h : q ≠ p) :
    (s.setSharedPtr p v).batons q = s.batons q := by
  unfold State.setSharedPtr
  simp [h]

@[simp] theorem setOwner_nbatons (s : State) (p : Nat) (v : Bool) :
    (s.setOwner p v).nbatons = s.nbatons := rfl

@[simp] theorem setOwner_shareds (s : State) (p : Nat) (v : Bool) :
    (s.setOwner p v).shareds = s.shareds := rfl

@[simp] theorem setOwner_nshareds (s : State) (p : Nat) (v : Bool) :
    (s.setOwner p v).nshareds = s.nshareds := rfl

@[simp] theorem setOwner_lock_node (s : State) (p : Nat) (v : Bool) :
    (s.setOwner p v).lock_node = s.lock_node := rfl

@[simp] theorem setOwner_cleanups (s : State) (p : Nat) (v : Bool) :
    (s.setOwner p v).cleanups = s.cleanups := rfl

@[simp] theorem setOwner_ndbs (s : State) (p : Nat) (v : Bool) :
    (s.setOwner p v).ndbs = s.ndbs := rfl

@[simp] theorem setOwner_db_closed (s : State) (p : Nat) (v : Bool) :
    (s.setOwner p v).db_closed = s.db_closed := rfl

@[simp] theorem setOwner_cancel_calls (s : State) (p : Nat) (v : Bool) :
    (s.setOwner p v).cancel_calls = s.cancel_calls := rfl

@[simp] theorem setOwner_wc_format (s : State) (p q : Nat) (v : Bool) :
    ((s.setOwner p v).batons q).wc_format = (s.batons q).wc_format := by
  unfold State.setOwner
  by_cases h : q = p <;> simp [h]

@[simp] theorem setOwner_path (s : State) (p q : Nat) (v : Bool) :
    ((s.setOwner p v).batons q).path = (s.batons q).path := by
  unfold State.setOwner
  by_cases h : q = p <;> simp [h]

@[simp] theorem setOwner_type (s : State) (p q : Nat) (v : Bool) :
    ((s.setOwner p v).batons q).type = (s.batons q).type := by
  unfold State.setOwner
  by_cases h : q = p <;> simp [h]

@[simp] theorem setOwner_lock_exists (s : State) (p q : Nat) (v : Bool) :
    ((s.setOwner p v).batons q).lock_exists = (s.batons q).lock_exists := by
  unfold State.setOwner
  by_cases h : q = p <;> simp [h]

@[simp] theorem setOwner_shared (s : State) (p q : Nat) (v : Bool) :
    ((s.setOwner p v).batons q).shared = (s.batons q).shared := by
  unfold State.setOwner
  by_cases h : q = p <;> simp [h]

@[simp] theorem setOwner_set_owner (s : State) (p q : Nat) (v : Bool) :
    ((s.setOwner p v).batons q).set_owner = if q = p then v else (s.batons q).set_owner := by
  unfold State.setOwner
  by_cases h : q = p <;> simp [h]

theorem setOwner_other (s : State) (p q : Nat) (v : Bool) (h : q ≠ p) :
    (s.setOwner p v).batons q = s.batons q := by
  unfold State.setOwner
  simp [h]

@[simp] theorem setSet_batons (s : State) (p : Nat) (v : Option (List (Path × SetItem))) :
    (s.setSet p v).batons = s.batons := rfl

@[simp] theorem setSet_nbatons (s : State) (p : Nat) (v : Option (List (Path × SetItem))) :
    (s.setSet p v).nbatons = s.nbatons := rfl

@[simp] theorem setSet_nshareds (s : State) (p : Nat) (v : Option (List (Path × SetItem))) :
    (s.setSet p v).nshareds = s.nshareds := rfl

@[simp] theorem setSet_lock_node (s : State) (p : Nat) (v : Option (List (Path × SetItem))) :
    (s.setSet p v).lock_node = s.lock_node := rfl

@[simp] theorem setSet_cleanups (s : State) (p : Nat) (v : Option (List (Path × SetItem))) :
    (s.setSet p v).cleanups = s.cleanups := rfl

@[simp] theorem setSet_ndbs (s : State) (p : Nat) (v : Option (List (Path × SetItem))) :
    (s.setSet p v).ndbs = s.ndbs := rfl

@[simp] theorem setSet_db_closed (s : State) (p : Nat) (v : Option (List (Path × SetItem))) :
    (s.setSet p v).db_closed = s.db_closed := rfl

@[simp] theorem setSet_cancel_calls (s : State) (p : Nat) (v : Option (List (Path × SetItem))) :
    (s.setSet p v).cancel_calls = s.cancel_calls := rfl

@[simp] theorem setSet_db (s : State) (p q : Nat) (v : Option (List (Path × SetItem))) :
    ((s.setSet p v).shareds q).db = (s.shareds q).db := by
  unfold State.setSet
  by_cases h : q = p <;> simp [h]

@[simp] theorem setSet_set (s : State) (p q : Nat) (v : Option (List (Path × SetItem))) :
    ((s.setSet p v).shareds q).set = if q = p then v else (s.shareds q).set := by
  unfold State.setSet
  by_cases h : q = p <;> simp [h]

theorem setSet_other (s : State) (p q : Nat) (v : Option (List (Path × SetItem))) (h : q ≠ p) :
    (s.setSet p v).shareds q = s.shareds q := by
  unfold State.setSet
  simp [h]

@[simp] theorem setDb_batons (s : State) (p : Nat) (v : Option Nat) :
    (s.setDb p v).batons = s.batons := rfl

@[simp] theorem setDb_nbatons (s : State) (p : Nat) (v : Option Nat) :
    (s.setDb p v).nbatons = s.nbatons := rfl

@[simp] theorem setDb_nshareds (s : State) (p : Nat) (v : Option Nat) :
    (s.setDb p v).nshareds = s.nshareds := rfl

@[simp] theorem setDb_lock_node (s : State) (p : Nat) (v : Option Nat) :
    (s.setDb p v).lock_node = s.lock_node := rfl

@[simp] theorem setDb_cleanups (s : State) (p : Nat) (v : Option Nat) :
    (s.setDb p v).cleanups = s.cleanups := rfl

@[simp] theorem setDb_ndbs (s : State) (p : Nat) (v : Option Nat) :
    (s.setDb p v).ndbs = s.ndbs := rfl

@[simp] theorem setDb_db_closed (s : State) (p : Nat) (v : Option Nat) :
    (s.setDb p v).db_closed = s.db_closed := rfl

@[simp] theorem setDb_cancel_calls (s : State) (p : Nat) (v : Option Nat) :
    (s.setDb p v).cancel_calls = s.cancel_calls := rfl

@[simp] theorem setDb_db (s : State) (p q : Nat) (v : Option Nat) :
    ((s.setDb p v).shareds q).db = if q = p then v else (s.shareds q).db := by
  unfold State.setDb
  by_cases h : q = p <;> simp [h]

@[simp] theorem setDb_set (s : State) (p q : Nat) (v : Option Nat) :
    ((s.setDb p v).shareds q).set = (s.shareds q).set := by
  unfold State.setDb
  by_cases h : q = p <;> simp [h]

theorem setDb_other (s : State) (p q : Nat) (v : Option Nat) (h : q ≠ p) :
    (s.setDb p v).shareds q = s.shareds q := by
  unfold State.setDb
  simp [h]

@[simp] theorem allocBaton_batons (s : State) (b : svn_wc_adm_access_t) (q : Nat) :
    (s.allocBaton b).batons q = if q = s.nbatons then b else s.batons q := rfl

@[simp] theorem allocBaton_nbatons (s : State) (b : svn_wc_adm_access_t) :
    (s.allocBaton b).nbatons = s.nbatons + 1 := rfl

@[simp] theorem allocShared_shareds (s : State) (sh : svn_wc__adm_shared_t) (q : Nat) :
    (s.allocShared sh).shareds q = if q = s.nshareds then sh else s.shareds q := rfl

@[simp] theorem allocShared_nshareds (s : State) (sh : svn_wc__adm_shared_t) :
    (s.allocShared sh).nshareds = s.nshareds + 1 := rfl

@[simp] theorem allocShared_batons (s : State) (sh : svn_wc__adm_shared_t) :
    (s.allocShared sh).batons = s.batons := rfl

@[simp] theorem allocShared_nbatons (s : State) (sh : svn_wc__adm_shared_t) :
    (s.allocShared sh).nbatons = s.nbatons := rfl

@[simp] theorem allocBaton_shareds (s : State) (b : svn_wc_adm_access_t) :
    (s.allocBaton b).shareds = s.shareds := rfl

@[simp] theorem allocBaton_nshareds (s : State) (b : svn_wc_adm_access_t) :
    (s.allocBaton b).nshareds = s.nshareds := rfl

@[simp] theorem allocBaton_lock_node (s : State) (b : svn_wc_adm_access_t) :
    (s.allocBaton b).lock_node = s.lock_node := rfl

@[simp] theorem allocShared_lock_node (s : State) (sh : svn_wc__adm_shared_t) :
    (s.allocShared sh).lock_node = s.lock_node := rfl

@[simp] theorem allocBaton_cleanups (s : State) (b : svn_wc_adm_access_t) :
    (s.allocBaton b).cleanups = s.cleanups := rfl

@[simp] theorem allocShared_cleanups (s : State) (sh : svn_wc__adm_shared_t) :
    (s.allocShared sh).cleanups = s.cleanups := rfl

@[simp] theorem allocBaton_ndbs (s : State) (b : svn_wc_adm_access_t) :
    (s.allocBaton b).ndbs = s.ndbs := rfl

@[simp] theorem allocShared_ndbs (s : State) (sh : svn_wc__adm_shared_t) :
    (s.allocShared sh).ndbs = s.ndbs := rfl

@[simp] theorem allocBaton_db_closed (s : State) (b : svn_wc_adm_access_t) :
    (s.allocBaton b).db_closed = s.db_closed := rfl

@[simp] theorem allocShared_db_closed (s : State) (sh : svn_wc__adm_shared_t) :
    (s.allocShared sh).db_closed = s.db_closed := rfl

@[simp] theorem allocBaton_cancel_calls (s : State) (b : svn_wc_adm_access_t) :
    (s.allocBaton b).cancel_calls = s.cancel_calls := rfl

@[simp] theorem allocShared_cancel_calls (s : State) (sh : svn_wc__adm_shared_t) :
    (s.allocShared sh).cancel_calls = s.cancel_calls := rfl

/-! ## The cases of `do_open` -/

theorem do_open_zero (w : World) (s : State) (path : Path) (write_lock : Bool)
    (levels_to_lock : Int) : do_open w 0 s path write_lock levels_to_lock = none := rfl

theorem do_open_cases (w : World) (fuel : Nat) (s : State) (path : Path) (write_lock : Bool)
    (levels_to_lock : Int) (s' : State) (r : Except svn_error_t Nat)
    (h : do_open w (fuel + 1) s path write_lock levels_to_lock = some (s', r)) :
    (notWorkingCopyDir w path ∧ s' = s ∧ r = .error (notWorkingCopy path)) ∨
    (¬ notWorkingCopyDir w path ∧ ∃ s1 lock err,
      adm_access_alloc w s (openType write_lock) path = (s1, lock, some err) ∧
      s' = s1 ∧ r = .error err) ∨
    (¬ notWorkingCopyDir w path ∧ ∃ s1 lock err,
      adm_access_alloc w s (openType write_lock) path = (s1, lock, none) ∧
      write_lock = true ∧ maybe_upgrade_format w (s1.setFormat lock (w.svn_wc_check_wc path).2) lock = some err ∧
      s' = s1.setFormat lock (w.svn_wc_check_wc path).2 ∧ r = .error err) ∨
    (¬ notWorkingCopyDir w path ∧ ∃ s1 lock,
      adm_access_alloc w s (openType write_lock) path = (s1, lock, none) ∧
      (write_lock = true → maybe_upgrade_format w (s1.setFormat lock (w.svn_wc_check_wc path).2) lock = none) ∧ levels_to_lock = 0 ∧
      s' = (s1.setFormat lock (w.svn_wc_check_wc path).2).registerCleanup lock ∧ r = .ok lock) ∨
    (¬ notWorkingCopyDir w path ∧ ∃ s1 lock code,
      adm_access_alloc w s (openType write_lock) path = (s1, lock, none) ∧
      (write_lock = true → maybe_upgrade_format w (s1.setFormat lock (w.svn_wc_check_wc path).2) lock = none) ∧ levels_to_lock ≠ 0 ∧
      w.svn_wc_entries_read path = .error code ∧
      s' = s1.setFormat lock (w.svn_wc_check_wc path).2 ∧ r = .error (ioError code path)) ∨
    (¬ notWorkingCopyDir w path ∧ ∃ s1 lock entries err,
      adm_access_alloc w s (openType write_lock) path = (s1, lock, none) ∧
      (write_lock = true → maybe_upgrade_format w (s1.setFormat lock (w.svn_wc_check_wc path).2) lock = none) ∧ levels_to_lock ≠ 0 ∧
      w.svn_wc_entries_read path = .ok entries ∧
      do_open_entries w
          (fun s2 p => do_open w fuel s2 p write_lock (childLevels levels_to_lock))
          lock path entries
          (if entries.length > 0 then adm_ensure_set (s1.setFormat lock (w.svn_wc_check_wc path).2) lock else s1.setFormat lock (w.svn_wc_check_wc path).2) = some (s', some err) ∧ r = .error err) ∨
    (¬ notWorkingCopyDir w path ∧ ∃ s1 lock entries s3,
      adm_access_alloc w s (openType write_lock) path = (s1, lock, none) ∧
      (write_lock = true → maybe_upgrade_format w (s1.setFormat lock (w.svn_wc_check_wc path).2) lock = none) ∧ levels_to_lock ≠ 0 ∧
      w.svn_wc_entries_read path = .ok entries ∧
      do_open_entries w
          (fun s2 p => do_open w fuel s2 p write_lock (childLevels levels_to_lock))
          lock path entries
          (if entries.length > 0 then adm_ensure_set (s1.setFormat lock (w.svn_wc_check_wc path).2) lock else s1.setFormat lock (w.svn_wc_check_wc path).2) = some (s3, none) ∧ s' = s3.registerCleanup lock ∧ r = .ok lock) := by
  rw [do_open] at h
  by_cases hg : notWorkingCopyDir w path
  · rw [if_pos hg] at h
    simp only [Option.some.injEq, Prod.mk.injEq] at h
    exact Or.inl ⟨hg, h.1.symm, h.2.symm⟩
  · rw [if_neg hg] at h
    right
    rcases hal : adm_access_alloc w s (openType write_lock) path with ⟨s1, lock, e⟩
    rw [hal] at h
    cases e with
    | some err =>
      simp only [Option.some.injEq, Prod.mk.injEq] at h
      exact Or.inl ⟨hg, s1, lock, err, rfl, h.1.symm, h.2.symm⟩
    | none =>
      right
      simp only at h
      cases hu : (if write_lock = true
               then maybe_upgrade_format w (s1.setFormat lock (w.svn_wc_check_wc path).2) lock
               else none) with
      | some err =>
        rw [hu] at h
        simp only [Option.some.injEq, Prod.mk.injEq] at h
        by_cases hw : write_lock = true
        · rw [if_pos hw] at hu
          exact Or.inl ⟨hg, s1, lock, err, rfl, hw, hu, h.1.symm, h.2.symm⟩
        · rw [if_neg hw] at hu
          cases hu
      | none =>
        rw [hu] at h
        simp only at h
        right
        have hup : (write_lock = true → maybe_upgrade_format w (s1.setFormat lock (w.svn_wc_check_wc path).2) lock = none) := fun hw => by rw [if_pos hw] at hu; exact hu
        by_cases hl : levels_to_lock = 0
        · rw [if_neg (not_not.mpr hl)] at h
          simp only [Option.some.injEq, Prod.mk.injEq] at h
          exact Or.inl ⟨hg, s1, lock, rfl, hup, hl, h.1.symm, h.2.symm⟩
        · rw [if_pos hl] at h
          right
          cases hr : w.svn_wc_entries_read path with
          | error code =>
            rw [hr] at h
            simp only [Option.some.injEq, Prod.mk.injEq] at h
            exact Or.inl ⟨hg, s1, lock, code, rfl, hup, hl, rfl, h.1.symm, h.2.symm⟩
          | ok entries =>
            rw [hr] at h
            simp only at h
            right
            cases hd : (do_open_entries w
          (fun s2 p => do_open w fuel s2 p write_lock (childLevels levels_to_lock))
          lock path entries
          (if entries.length > 0 then adm_ensure_set (s1.setFormat lock (w.svn_wc_check_wc path).2) lock else s1.setFormat lock (w.svn_wc_check_wc path).2)) with
            | none => rw [hd] at h; cases h
            | some res =>
              rcases res with ⟨s3, e3⟩
              rw [hd] at h
              cases e3 with
              | some err =>
                simp only [Option.some.injEq, Prod.mk.injEq] at h
                refine Or.inl ⟨hg, s1, lock, entries, err, rfl, hup, hl, rfl, ?_, h.2.symm⟩
                rw [hd, h.1]
              | none =>
                simp only [Option.some.injEq, Prod.mk.injEq] at h
                exact Or.inr ⟨hg, s1, lock, entries, s3, rfl, hup, hl, rfl, hd, h.1.symm, h.2.symm⟩

/-! ## The cases of the loop of `do_open` -/

theorem do_open_entries_cases (w : World)
    (oc : State → Path → Option (State × Except svn_error_t Nat)) (lock : Nat) (path : Path)
    (entry : svn_wc_entry_t) (rest : List svn_wc_entry_t) (s s' : State)
    (r : Option svn_error_t)
    (h : do_open_entries w oc lock path (entry :: rest) s = some (s', r)) :
    (∃ s1 err e2, cancel_check w s path = (s1, some err) ∧
      svn_wc_adm_close2 w s1 lock = some (s', e2) ∧ r = some err) ∨
    (∃ s1, cancel_check w s path = (s1, none) ∧ ¬ qualifies entry ∧
      do_open_entries w oc lock path rest s1 = some (s', r)) ∨
    (∃ s1 s2 child sh s3, cancel_check w s path = (s1, none) ∧ qualifies entry ∧
      oc s1 (svn_dirent_join path entry.name) = some (s2, .ok child) ∧
      (s2.batons lock).shared = some sh ∧ join_batons s2 sh child = some s3 ∧
      do_open_entries w oc lock path rest s3 = some (s', r)) ∨
    (∃ s1 s2 err e3, cancel_check w s path = (s1, none) ∧ qualifies entry ∧
      oc s1 (svn_dirent_join path entry.name) = some (s2, .error err) ∧
      err.apr_err ≠ .SVN_ERR_WC_NOT_DIRECTORY ∧
      svn_wc_adm_close2 w s2 lock = some (s', e3) ∧ r = some err) ∨
    (∃ s1 s2 err sh s3, cancel_check w s path = (s1, none) ∧ qualifies entry ∧
      oc s1 (svn_dirent_join path entry.name) = some (s2, .error err) ∧
      err.apr_err = .SVN_ERR_WC_NOT_DIRECTORY ∧
      (s2.batons lock).shared = some sh ∧
      add_to_shared s2 (svn_dirent_join path entry.name) .missing sh = some s3 ∧
      do_open_entries w oc lock path rest s3 = some (s', r)) := by
  rw [do_open_entries] at h
  rcases hc : cancel_check w s path with ⟨s1, e⟩
  rw [hc] at h
  cases e with
  | some err =>
    simp only at h
    cases hcl : svn_wc_adm_close2 w s1 lock with
    | none => rw [hcl] at h; cases h
    | some res =>
      rcases res with ⟨s2, e2⟩
      rw [hcl] at h
      simp only [Option.some.injEq, Prod.mk.injEq] at h
      refine Or.inl ⟨s1, err, e2, rfl, ?_, h.2.symm⟩
      rw [← h.1]; exact hcl
  | none =>
    simp only at h
    right
    by_cases hk : entry.kind ≠ .svn_node_dir ∨ entry.name = SVN_WC_ENTRY_THIS_DIR
    · rw [if_pos hk] at h
      exact Or.inl ⟨s1, rfl, fun hq => hq.1 hk, h⟩
    · rw [if_neg hk] at h
      by_cases hx : entry.depth = .svn_depth_exclude
      · rw [if_pos hx] at h
        exact Or.inl ⟨s1, rfl, fun hq => hq.2 hx, h⟩
      · rw [if_neg hx] at h
        right
        have hq : qualifies entry := ⟨hk, hx⟩
        cases ho : oc s1 (svn_dirent_join path entry.name) with
        | none => rw [ho] at h; cases h
        | some res =>
          rcases res with ⟨s2, rr⟩
          rw [ho] at h
          cases rr with
          | ok child =>
            simp only at h
            cases hsh : (s2.batons lock).shared with
            | none => rw [hsh] at h; cases h
            | some sh =>
              rw [hsh] at h
              simp only at h
              cases hj : join_batons s2 sh child with
              | none => rw [hj] at h; cases h
              | some s3 =>
                rw [hj] at h
                exact Or.inl ⟨s1, s2, child, sh, s3, rfl, hq, ho, hsh, hj, h⟩
          | error err =>
            simp only at h
            right
            by_cases hn : err.apr_err ≠ .SVN_ERR_WC_NOT_DIRECTORY
            · rw [if_pos hn] at h
              cases hcl : svn_wc_adm_close2 w s2 lock with
              | none => rw [hcl] at h; cases h
              | some res =>
                rcases res with ⟨s3, e3⟩
                rw [hcl] at h
                simp only [Option.some.injEq, Prod.mk.injEq] at h
                refine Or.inl ⟨s1, s2, err, e3, rfl, hq, ho, hn, ?_, h.2.symm⟩
                rw [← h.1]; exact hcl
            · rw [if_neg hn] at h
              right
              cases hsh : (s2.batons lock).shared with
              | none => rw [hsh] at h; cases h
              | some sh =>
                rw [hsh] at h
                simp only at h
                cases ha : add_to_shared s2 (svn_dirent_join path entry.name) .missing sh with
                | none => rw [ha] at h; cases h
                | some s3 =>
                  rw [ha] at h
                  exact ⟨s1, s2, err, sh, s3, rfl, hq, ho, not_not.mp hn, hsh, ha, h⟩

theorem do_open_entries_nil (w : World)
    (oc : State → Path → Option (State × Except svn_error_t Nat)) (lock : Nat) (path : Path)
    (s : State) : do_open_entries w oc lock path [] s = some (s, none) := by
  rw [do_open_entries]

/-! ## The allocation of a baton -/

/-- The baton that `adm_access_alloc` writes first. -/
theorem adm_access_alloc_eq (w : World) (s : State) (type : svn_wc__adm_access_type)
    (path : Path) :
    adm_access_alloc w s type path =
      if type = .svn_wc__adm_access_write_lock then
        if s.lock_node path ≠ .svn_node_none then
          (s.allocBaton ⟨0, path, type, false, none, false⟩, s.nbatons,
            some ⟨.SVN_ERR_WC_LOCKED, .working_copy_locked, path⟩)
        else
          match w.lock_open_fault path with
          | some code =>
            (s.allocBaton ⟨0, path, type, false, none, false⟩, s.nbatons,
              some (if APR_STATUS_IS_EEXIST code = true
                then ⟨.SVN_ERR_WC_LOCKED, .working_copy_locked, path⟩ else ioError code path))
          | none =>
            match w.lock_close_fault path with
            | some code =>
              ((s.allocBaton ⟨0, path, type, false, none, false⟩).setLockNode path .svn_node_file,
                s.nbatons, some (ioError code path))
            | none =>
              (((s.allocBaton ⟨0, path, type, false, none, false⟩).setLockNode path
                  .svn_node_file).setLockExists s.nbatons true, s.nbatons, none)
      else ((s.allocBaton ⟨0, path, type, false, none, false⟩).setLockExists s.nbatons false,
        s.nbatons, none) := by
  unfold adm_access_alloc
  by_cases ht : type = .svn_wc__adm_access_write_lock
  · simp only [if_pos ht]
    unfold create_lock svn_io_file_open_excl
    simp only [allocBaton_lock_node]
    by_cases hl : s.lock_node path ≠ .svn_node_none
    · simp only [if_pos hl]
      simp [APR_STATUS_IS_EEXIST]
    · simp only [if_neg hl]
      cases ho : w.lock_open_fault path with
      | some code =>
        simp only
        by_cases hc : APR_STATUS_IS_EEXIST code = true
        · simp only [if_pos hc]
        · simp only [if_neg hc]
      | none =>
        simp only
        cases hc : w.lock_close_fault path with
        | some code => simp
        | none => simp
  · simp only [if_neg ht]

theorem adm_access_alloc_frame (w : World) (s : State) (type : svn_wc__adm_access_type)
    (path : Path) (s1 : State) (lock : Nat) (e : Option svn_error_t)
    (h : adm_access_alloc w s type path = (s1, lock, e)) :
    lock = s.nbatons ∧ s1.nbatons = s.nbatons + 1 ∧
    (∀ q, q ≠ s.nbatons → s1.batons q = s.batons q) ∧
    s1.shareds = s.shareds ∧ s1.nshareds = s.nshareds ∧
    s1.db_closed = s.db_closed ∧ s1.ndbs = s.ndbs ∧
    (s1.batons lock).path = path ∧ (s1.batons lock).type = type ∧
    (s1.batons lock).shared = none ∧ (s1.batons lock).set_owner = false ∧
    (∀ p, s1.lock_node p = s.lock_node p ∨
      (type = .svn_wc__adm_access_write_lock ∧ p = path ∧
        s.lock_node p = .svn_node_none ∧ s1.lock_node p = .svn_node_file)) := by
  rw [adm_access_alloc_eq] at h
  by_cases ht : type = .svn_wc__adm_access_write_lock
  · rw [if_pos ht] at h
    by_cases hl : s.lock_node path ≠ .svn_node_none
    · rw [if_pos hl] at h
      simp only [Prod.mk.injEq] at h
      obtain ⟨rfl, rfl, rfl⟩ := h
      simp
      intro q h1 h2
      exact absurd h2 h1
    · rw [if_neg hl] at h
      have hl1 : s.lock_node path = .svn_node_none := not_not.mp hl
      cases ho : w.lock_open_fault path with
      | some code =>
        rw [ho] at h
        simp only [Prod.mk.injEq] at h
        obtain ⟨rfl, rfl, rfl⟩ := h
        simp
        intro q h1 h2
        exact absurd h2 h1
      | none =>
        rw [ho] at h
        cases hc : w.lock_close_fault path with
        | some code =>
          rw [hc] at h
          simp only [Prod.mk.injEq] at h
          obtain ⟨rfl, rfl, rfl⟩ := h
          simp only [setLockNode_nbatons, allocBaton_nbatons, setLockNode_batons,
            allocBaton_batons, if_true, setLockNode_shareds, allocBaton_shareds,
            setLockNode_nshareds, allocBaton_nshareds, setLockNode_db_closed,
            allocBaton_db_closed, setLockNode_ndbs, allocBaton_ndbs, setLockNode_lock_node,
            allocBaton_lock_node, true_and]
          refine ⟨fun q hq => by simp [hq], fun p => ?_⟩
          by_cases hp : p = path
          · right; subst hp; simp [ht, hl1]
          · left; simp [hp]
        | none =>
          rw [hc] at h
          simp only [Prod.mk.injEq] at h
          obtain ⟨rfl, rfl, rfl⟩ := h
          simp only [setLockExists_nbatons, setLockExists_path, setLockExists_type,
            setLockExists_shared, setLockExists_set_owner, setLockExists_shareds,
            setLockExists_nshareds, setLockExists_db_closed, setLockExists_ndbs,
            setLockExists_lock_node,
            setLockNode_nbatons, allocBaton_nbatons, setLockNode_batons,
            allocBaton_batons, if_true, setLockNode_shareds, allocBaton_shareds,
            setLockNode_nshareds, allocBaton_nshareds, setLockNode_db_closed,
            allocBaton_db_closed, setLockNode_ndbs, allocBaton_ndbs, setLockNode_lock_node,
            allocBaton_lock_node, true_and]
          refine ⟨fun q hq => by rw [setLockExists_other _ _ _ _ hq]; simp [hq], fun p => ?_⟩
          by_cases hp : p = path
          · right; subst hp; simp [ht, hl1]
          · left; simp [hp]
  · rw [if_neg ht] at h
    simp only [Prod.mk.injEq] at h
    obtain ⟨rfl, rfl, rfl⟩ := h
    simp only [setLockExists_nbatons, setLockExists_path, setLockExists_type,
      setLockExists_shared, setLockExists_set_owner, setLockExists_shareds,
      setLockExists_nshareds, setLockExists_db_closed, setLockExists_ndbs,
      setLockExists_lock_node, allocBaton_nbatons, allocBaton_batons, if_true,
      allocBaton_shareds, allocBaton_nshareds, allocBaton_db_closed, allocBaton_ndbs,
      allocBaton_lock_node, true_and, true_or, implies_true, and_true]
    exact fun q hq => by rw [setLockExists_other _ _ _ _ hq]; simp [hq]

theorem adm_access_alloc_ok (w : World) (s : State) (type : svn_wc__adm_access_type)
    (path : Path) (s1 : State) (lock : Nat)
    (h : adm_access_alloc w s type path = (s1, lock, none)) :
    (s1.batons lock).lock_exists = decide (type = .svn_wc__adm_access_write_lock) ∧
    (type = .svn_wc__adm_access_write_lock →
      s.lock_node path = .svn_node_none ∧ s1.lock_node path = .svn_node_file) := by
  rw [adm_access_alloc_eq] at h
  by_cases ht : type = .svn_wc__adm_access_write_lock
  · rw [if_pos ht] at h
    by_cases hl : s.lock_node path ≠ .svn_node_none
    · rw [if_pos hl] at h
      simp at h
    · rw [if_neg hl] at h
      have hl1 : s.lock_node path = .svn_node_none := not_not.mp hl
      cases ho : w.lock_open_fault path with
      | some code => rw [ho] at h; simp at h
      | none =>
        rw [ho] at h
        cases hc : w.lock_close_fault path with
        | some code => rw [hc] at h; simp at h
        | none =>
          rw [hc] at h
          simp only [Prod.mk.injEq, and_true] at h
          obtain ⟨rfl, rfl⟩ := h
          simp [ht, hl1]
  · rw [if_neg ht] at h
    simp only [Prod.mk.injEq, and_true] at h
    obtain ⟨rfl, rfl⟩ := h
    simp [ht]

theorem adm_access_alloc_err (w : World) (s : State) (type : svn_wc__adm_access_type)
    (path : Path) (s1 : State) (lock : Nat) (err : svn_error_t)
    (h : adm_access_alloc w s type path = (s1, lock, some err)) :
    (s1.batons lock).lock_exists = false ∧ type = .svn_wc__adm_access_write_lock ∧
    (err.apr_err = .SVN_ERR_WC_LOCKED ∨ ∃ c, err.apr_err = .os c) := by
  rw [adm_access_alloc_eq] at h
  by_cases ht : type = .svn_wc__adm_access_write_lock
  · rw [if_pos ht] at h
    by_cases hl : s.lock_node path ≠ .svn_node_none
    · rw [if_pos hl] at h
      simp only [Prod.mk.injEq, Option.some.injEq] at h
      obtain ⟨rfl, rfl, rfl⟩ := h
      simp [ht]
    · rw [if_neg hl] at h
      cases ho : w.lock_open_fault path with
      | some code =>
        rw [ho] at h
        simp only [Prod.mk.injEq, Option.some.injEq] at h
        obtain ⟨rfl, rfl, rfl⟩ := h
        by_cases hc : APR_STATUS_IS_EEXIST code = true
        · simp [ht, hc]
        · simp [ht, hc, ioError]
      | none =>
        rw [ho] at h
        cases hc : w.lock_close_fault path with
        | some code =>
          rw [hc] at h
          simp only [Prod.mk.injEq, Option.some.injEq] at h
          obtain ⟨rfl, rfl, rfl⟩ := h
          simp [ht, ioError]
        | none => rw [hc] at h; simp at h
  · rw [if_neg ht] at h
    simp at h

theorem adm_access_alloc_locked (w : World) (s : State) (path : Path)
    (hl : s.lock_node path ≠ .svn_node_none) :
    adm_access_alloc w s .svn_wc__adm_access_write_lock path =
      (s.allocBaton ⟨0, path, .svn_wc__adm_access_write_lock, false, none, false⟩, s.nbatons,
        some ⟨.SVN_ERR_WC_LOCKED, .working_copy_locked, path⟩) := by
  rw [adm_access_alloc_eq, if_pos rfl, if_pos hl]

/-! ## The steps that rewire the registries -/

theorem RegistryStep.refl (s : State) : RegistryStep s s :=
  ⟨rfl, rfl, rfl, rfl, fun _ => rfl, fun _ => rfl, fun _ => rfl, fun _ => rfl⟩

theorem RegistryStep.trans (s s1 s2 : State) (h1 : RegistryStep s s1)
    (h2 : RegistryStep s1 s2) : RegistryStep s s2 :=
  ⟨h2.nbatons.trans h1.nbatons, h2.lock_node.trans h1.lock_node,
    h2.db_closed.trans h1.db_closed, h2.ndbs.trans h1.ndbs,
    fun q => (h2.wc_format q).trans (h1.wc_format q),
    fun q => (h2.path q).trans (h1.path q), fun q => (h2.type q).trans (h1.type q),
    fun q => (h2.lock_exists q).trans (h1.lock_exists q)⟩

theorem RegistryStep.setSet (s : State) (p : Nat) (v : Option (List (Path × SetItem))) :
    RegistryStep s (s.setSet p v) :=
  ⟨rfl, rfl, rfl, rfl, fun _ => rfl, fun _ => rfl, fun _ => rfl, fun _ => rfl⟩

theorem RegistryStep.setSharedPtr (s : State) (p : Nat) (v : Option Nat) :
    RegistryStep s (s.setSharedPtr p v) :=
  ⟨rfl, rfl, rfl, rfl, fun _ => by simp, fun _ => by simp, fun _ => by simp, fun _ => by simp⟩

theorem RegistryStep.setOwner (s : State) (p : Nat) (v : Bool) :
    RegistryStep s (s.setOwner p v) :=
  ⟨rfl, rfl, rfl, rfl, fun _ => by simp, fun _ => by simp, fun _ => by simp, fun _ => by simp⟩

theorem RegistryStep.allocShared (s : State) (sh : svn_wc__adm_shared_t) :
    RegistryStep s (s.allocShared sh) :=
  ⟨rfl, rfl, rfl, rfl, fun _ => rfl, fun _ => rfl, fun _ => rfl, fun _ => rfl⟩

theorem add_to_shared_spec (s : State) (path : Path) (item : SetItem) (sh : Nat) (s1 : State)
    (h : add_to_shared s path item sh = some s1) :
    ∃ ht, (s.shareds sh).set = some ht ∧
      (s1.shareds sh).set = some (apr_hash_set ht path (some item)) ∧
      (s1.shareds sh).db = (s.shareds sh).db ∧
      (∀ t, t ≠ sh → s1.shareds t = s.shareds t) ∧ s1.nshareds = s.nshareds ∧
      RegistryStep s s1 ∧
      (∀ q, (s1.batons q).set_owner = (s.batons q).set_owner) ∧
      (∀ q, (s1.batons q).shared = if item = .baton q then some sh else (s.batons q).shared) := by
  unfold add_to_shared at h
  cases hs : (s.shareds sh).set with
  | none => rw [hs] at h; cases h
  | some ht =>
    rw [hs] at h
    refine ⟨ht, rfl, ?_⟩
    cases item with
    | missing =>
      simp only [Option.some.injEq] at h
      subst h
      refine ⟨by simp, by simp, fun t ht => setSet_other _ _ _ _ ht, rfl,
        RegistryStep.setSet _ _ _, fun _ => rfl, fun q => by simp⟩
    | baton p =>
      simp only [Option.some.injEq] at h
      subst h
      refine ⟨by simp, by simp, fun t ht => ?_, rfl,
        (RegistryStep.setSet _ _ _).trans _ _ _ (RegistryStep.setSharedPtr _ _ _),
        fun _ => by simp, fun q => ?_⟩
      · simp only [setSharedPtr_shareds]
        exact setSet_other _ _ _ _ ht
      · simp only [setSharedPtr_shared, SetItem.baton.injEq]
        by_cases hq : q = p
        · simp [hq]
        · have : ¬ p = q := fun h => hq h.symm
          simp [hq, this]

theorem add_to_shared_isSome (s : State) (path : Path) (item : SetItem) (sh : Nat)
    (ht : List (Path × SetItem)) (h : (s.shareds sh).set = some ht) :
    ∃ s1, add_to_shared s path item sh = some s1 := by
  unfold add_to_shared
  rw [h]
  cases item with
  | missing => exact ⟨_, rfl⟩
  | baton p => exact ⟨_, rfl⟩

theorem join_batons_items_spec (dst : Nat) (items : List (Path × SetItem)) :
    ∀ (s : State) (d0 : List (Path × SetItem)), (s.shareds dst).set = some d0 →
    ∃ s1, join_batons_items dst items s = some s1 ∧
      (s1.shareds dst).set = some (hashUnion d0 items) ∧
      (s1.shareds dst).db = (s.shareds dst).db ∧
      (∀ t, t ≠ dst → s1.shareds t = s.shareds t) ∧ s1.nshareds = s.nshareds ∧
      RegistryStep s s1 ∧
      (∀ q, (s1.batons q).set_owner = (s.batons q).set_owner) ∧
      (∀ q k, (k, SetItem.baton q) ∈ items → (s1.batons q).shared = some dst) ∧
      (∀ q, (∀ k, (k, SetItem.baton q) ∉ items) →
        (s1.batons q).shared = (s.batons q).shared) := by
  induction items with
  | nil =>
    intro s d0 h
    exact ⟨s, rfl, h, rfl, fun _ _ => rfl, rfl, RegistryStep.refl s, fun _ => rfl,
      fun q k hk => (by cases hk), fun _ _ => rfl⟩
  | cons kv rest ih =>
    intro s d0 h
    obtain ⟨key, val⟩ := kv
    obtain ⟨s1, h1⟩ := add_to_shared_isSome s key val dst d0 h
    obtain ⟨ht, hht, hset, hdb, hoth, hnsh, hstep, hown, hshared⟩ :=
      add_to_shared_spec s key val dst s1 h1
    rw [h] at hht
    cases hht
    obtain ⟨s2, h2, hset2, hdb2, hoth2, hnsh2, hstep2, hown2, hin2, hout2⟩ := ih s1 _ hset
    refine ⟨s2, ?_, hset2, hdb2.trans hdb, fun t ht => (hoth2 t ht).trans (hoth t ht),
      hnsh2.trans hnsh, hstep.trans _ _ _ hstep2, fun q => (hown2 q).trans (hown q), ?_, ?_⟩
    · rw [join_batons_items, h1]
      exact h2
    · intro q k hk
      by_cases hr : ∃ k1, (k1, SetItem.baton q) ∈ rest
      · obtain ⟨k1, hk1⟩ := hr
        exact hin2 q k1 hk1
      · have hr1 : ∀ k1, (k1, SetItem.baton q) ∉ rest := fun k1 hk1 => hr ⟨k1, hk1⟩
        rw [hout2 q hr1, hshared q]
        rcases List.mem_cons.mp hk with heq | hmem
        · simp only [Prod.mk.injEq] at heq
          rw [if_pos heq.2.symm]
        · exact absurd hmem (hr1 k)
    · intro q hq
      have hr1 : ∀ k1, (k1, SetItem.baton q) ∉ rest :=
        fun k1 hk1 => hq k1 (List.mem_cons_of_mem _ hk1)
      rw [hout2 q hr1, hshared q]
      have : ¬ val = SetItem.baton q := fun hv => hq key (by rw [hv]; exact List.mem_cons_self _ _)
      rw [if_neg this]

theorem cancel_check_spec (w : World) (s : State) (path : Path) (s1 : State)
    (e : Option svn_error_t) (h : cancel_check w s path = (s1, e)) :
    s1.batons = s.batons ∧ s1.shareds = s.shareds ∧ s1.nshareds = s.nshareds ∧
    RegistryStep s s1 ∧ s1.cleanups = s.cleanups ∧
    (∀ err, e = some err → ∃ c, err.apr_err = .os c) := by
  unfold cancel_check at h
  cases hc : w.cancel_func with
  | none =>
    rw [hc] at h
    simp only [Prod.mk.injEq] at h
    obtain ⟨rfl, rfl⟩ := h
    exact ⟨rfl, rfl, rfl, RegistryStep.refl _, rfl, fun err he => by cases he⟩
  | some f =>
    rw [hc] at h
    simp only [Prod.mk.injEq] at h
    obtain ⟨rfl, rfl⟩ := h
    refine ⟨rfl, rfl, rfl,
      ⟨rfl, rfl, rfl, rfl, fun _ => rfl, fun _ => rfl, fun _ => rfl, fun _ => rfl⟩, rfl, ?_⟩
    intro err he
    cases hf : f s.cancel_calls with
    | none => rw [hf] at he; cases he
    | some c =>
      rw [hf] at he
      simp only [Option.map_some', Option.some.injEq] at he
      exact ⟨c, by rw [← he]; rfl⟩

theorem join_batons_items_step (dst : Nat) (items : List (Path × SetItem)) :
    ∀ (s s1 : State), join_batons_items dst items s = some s1 →
      RegistryStep s s1 ∧ s1.nshareds = s.nshareds ∧
      (∀ t, t ≠ dst → s1.shareds t = s.shareds t) ∧
      (s1.shareds dst).db = (s.shareds dst).db := by
  induction items with
  | nil =>
    intro s s1 h
    rw [join_batons_items] at h
    cases h
    exact ⟨RegistryStep.refl s, rfl, fun _ _ => rfl, rfl⟩
  | cons kv rest ih =>
    intro s s2 h
    obtain ⟨key, val⟩ := kv
    rw [join_batons_items] at h
    cases h1 : add_to_shared s key val dst with
    | none => rw [h1] at h; cases h
    | some s1 =>
      rw [h1] at h
      obtain ⟨ht, _, _, hdb, hoth, hnsh, hstep, _, _⟩ := add_to_shared_spec s key val dst s1 h1
      obtain ⟨hstep2, hnsh2, hoth2, hdb2⟩ := ih s1 s2 h
      exact ⟨hstep.trans _ _ _ hstep2, hnsh2.trans hnsh,
        fun t ht => (hoth2 t ht).trans (hoth t ht), hdb2.trans hdb⟩

theorem join_batons_step (s : State) (dst t : Nat) (s1 : State)
    (h : join_batons s dst t = some s1) :
    RegistryStep s s1 ∧ s1.nshareds = s.nshareds ∧
    (∀ u, u ≠ dst → s1.shareds u = s.shareds u) ∧
    (s1.shareds dst).db = (s.shareds dst).db := by
  unfold join_batons at h
  cases hs : (s.batons t).shared with
  | none =>
    rw [hs] at h
    obtain ⟨ht, _, _, hdb, hoth, hnsh, hstep, _, _⟩ := add_to_shared_spec _ _ _ _ _ h
    exact ⟨hstep, hnsh, hoth, hdb⟩
  | some tsh =>
    rw [hs] at h
    simp only at h
    cases hset : (s.shareds tsh).set with
    | none =>
      rw [hset] at h
      obtain ⟨ht, _, _, hdb, hoth, hnsh, hstep, _, _⟩ := add_to_shared_spec _ _ _ _ _ h
      exact ⟨hstep, hnsh, hoth, hdb⟩
    | some items =>
      rw [hset] at h
      simp only at h
      cases hj : join_batons_items dst items s with
      | none => rw [hj] at h; cases h
      | some s2 =>
        rw [hj] at h
        simp only [Option.some.injEq] at h
        subst h
        obtain ⟨hstep2, hnsh2, hoth2, hdb2⟩ := join_batons_items_step dst items s s2 hj
        exact ⟨hstep2.trans _ _ _ (RegistryStep.setOwner _ _ _), hnsh2, hoth2, hdb2⟩

theorem join_batons_single (s : State) (dst t : Nat) (hs : (s.batons t).shared = none) :
    join_batons s dst t = add_to_shared s (s.batons t).path (.baton t) dst := by
  unfold join_batons
  rw [hs]

theorem join_batons_merge (s : State) (dst t tsh : Nat) (items : List (Path × SetItem))
    (hs : (s.batons t).shared = some tsh) (hset : (s.shareds tsh).set = some items) :
    join_batons s dst t = (join_batons_items dst items s).map (fun s1 => s1.setOwner t false) := by
  unfold join_batons
  rw [hs]
  simp only
  rw [hset]
  simp only
  cases join_batons_items dst items s <;> rfl

theorem adm_ensure_set_fresh (s : State) (adm_access : Nat)
    (hs : (s.batons adm_access).shared = none) :
    adm_ensure_set s adm_access =
      (((((s.allocShared ⟨none, none⟩).setSharedPtr adm_access (some s.nshareds)).setOwner
        adm_access true).setSet s.nshareds (some [])).setSet s.nshareds
          (some [((s.batons adm_access).path, SetItem.baton adm_access)])).setSharedPtr
        adm_access (some s.nshareds) := by
  unfold adm_ensure_set
  rw [hs]
  simp [add_to_shared, apr_hash_set]

theorem adm_ensure_set_step (s : State) (adm_access : Nat) :
    RegistryStep s (adm_ensure_set s adm_access) := by
  unfold adm_ensure_set
  cases hs : (s.batons adm_access).shared with
  | none =>
    simp only [setSharedPtr_shared, if_true, setSharedPtr_shareds, allocShared_shareds]
    simp only [add_to_shared, setSet_set, setOwner_shareds, setSharedPtr_shareds,
      allocShared_shareds, if_true]
    exact ((((RegistryStep.allocShared _ _).trans _ _ _ (RegistryStep.setSharedPtr _ _ _)).trans
      _ _ _ (RegistryStep.setOwner _ _ _)).trans _ _ _ (RegistryStep.setSet _ _ _)).trans _ _ _
      ((RegistryStep.setSet _ _ _).trans _ _ _ (RegistryStep.setSharedPtr _ _ _))
  | some sh =>
    simp only [hs]
    by_cases hset : (s.shareds sh).set = none
    · rw [if_pos hset]
      simp only [add_to_shared, setSet_set, setOwner_shareds, if_true]
      exact ((RegistryStep.setOwner _ _ _).trans _ _ _ (RegistryStep.setSet _ _ _)).trans _ _ _
        ((RegistryStep.setSet _ _ _).trans _ _ _ (RegistryStep.setSharedPtr _ _ _))
    · rw [if_neg hset]
      exact RegistryStep.refl s

/-! ## The hash -/

theorem mem_apr_hash_set_none (ht : List (Path × SetItem)) (key : Path) (kv : Path × SetItem) :
    kv ∈ apr_hash_set ht key none ↔ kv ∈ ht ∧ kv.1 ≠ key := by
  simp [apr_hash_set, List.mem_filter]

theorem mem_apr_hash_set_some (ht : List (Path × SetItem)) (key : Path) (v : SetItem)
    (kv : Path × SetItem) :
    kv ∈ apr_hash_set ht key (some v) ↔ kv = (key, v) ∨ (kv ∈ ht ∧ kv.1 ≠ key) := by
  simp [apr_hash_set, List.mem_filter]

theorem key_not_mem_apr_hash_set_none (ht : List (Path × SetItem)) (key : Path) :
    key ∉ (apr_hash_set ht key none).map Prod.fst := by
  intro h
  obtain ⟨kv, hkv, hk⟩ := List.mem_map.1 h
  exact ((mem_apr_hash_set_none ht key kv).1 hkv).2 hk

theorem nodup_keys_filter (ht : List (Path × SetItem)) (p : Path × SetItem → Bool)
    (h : (ht.map Prod.fst).Nodup) : ((ht.filter p).map Prod.fst).Nodup :=
  List.Nodup.sublist (List.Sublist.map _ (List.filter_sublist ht)) h

theorem nodup_keys_apr_hash_set (ht : List (Path × SetItem)) (key : Path)
    (v : Option SetItem) (h : (ht.map Prod.fst).Nodup) :
    ((apr_hash_set ht key v).map Prod.fst).Nodup := by
  cases v with
  | none => exact nodup_keys_filter ht _ h
  | some v =>
    simp only [apr_hash_set, List.map_cons, List.nodup_cons]
    refine ⟨?_, nodup_keys_filter ht _ h⟩
    intro hm
    obtain ⟨kv, hkv, hk⟩ := List.mem_map.1 hm
    have := (List.mem_filter.1 hkv).2
    simp only [decide_eq_true_eq] at this
    exact this hk

/-- A key is bound to at most one value. -/
theorem value_unique (ht : List (Path × SetItem)) (h : (ht.map Prod.fst).Nodup)
    (k : Path) (v1 v2 : SetItem) (h1 : (k, v1) ∈ ht) (h2 : (k, v2) ∈ ht) : v1 = v2 := by
  induction ht with
  | nil => cases h1
  | cons a rest ih =>
    simp only [List.map_cons, List.nodup_cons] at h
    rcases List.mem_cons.1 h1 with e1 | m1
    · rcases List.mem_cons.1 h2 with e2 | m2
      · rw [← e1] at e2
        exact (Prod.mk.inj e2).2.symm
      · exact absurd (List.mem_map.2 ⟨(k, v2), m2, by rw [← e1]⟩) h.1
    · rcases List.mem_cons.1 h2 with e2 | m2
      · exact absurd (List.mem_map.2 ⟨(k, v1), m1, by rw [← e2]⟩) h.1
      · exact ih h.2 m1 m2

theorem apr_hash_get_of_mem (ht : List (Path × SetItem)) (h : (ht.map Prod.fst).Nodup)
    (k : Path) (v : SetItem) (hm : (k, v) ∈ ht) : apr_hash_get ht k = some v := by
  unfold apr_hash_get
  cases hf : ht.find? (fun kv => decide (kv.1 = k)) with
  | none =>
    have := List.find?_eq_none.1 hf (k, v) hm
    simp at this
  | some kv =>
    have hk := List.find?_some hf
    simp only [decide_eq_true_eq] at hk
    have hmem := List.mem_of_find?_eq_some hf
    obtain ⟨k1, v1⟩ := kv
    simp only at hk
    subst hk
    simp only [Option.map_some', Option.some.injEq]
    exact value_unique ht h k1 v1 v hmem hm

theorem nodup_keys_hashUnion (items : List (Path × SetItem)) :
    ∀ d0 : List (Path × SetItem), (d0.map Prod.fst).Nodup →
      ((hashUnion d0 items).map Prod.fst).Nodup := by
  induction items with
  | nil => intro d0 h; exact h
  | cons kv rest ih =>
    intro d0 h
    exact ih _ (nodup_keys_apr_hash_set d0 kv.1 (some kv.2) h)

theorem mem_hashUnion (items : List (Path × SetItem)) :
    ∀ d0 : List (Path × SetItem), (items.map Prod.fst).Nodup → ∀ kv : Path × SetItem,
      (kv ∈ hashUnion d0 items ↔ kv ∈ items ∨ (kv ∈ d0 ∧ kv.1 ∉ items.map Prod.fst)) := by
  induction items with
  | nil => intro d0 _ kv; simp [hashUnion]
  | cons a rest ih =>
    intro d0 h kv
    simp only [List.map_cons, List.nodup_cons] at h
    have hstep : hashUnion d0 (a :: rest) = hashUnion (apr_hash_set d0 a.1 (some a.2)) rest := rfl
    rw [hstep, ih _ h.2 kv, mem_apr_hash_set_some]
    simp only [List.mem_cons, List.map_cons, not_or]
    constructor
    · rintro (hr | ⟨he | ⟨hd, hne⟩, hnr⟩)
      · exact Or.inl (Or.inr hr)
      · exact Or.inl (Or.inl he)
      · exact Or.inr ⟨hd, hne, hnr⟩
    · rintro ((he | hr) | ⟨hd, hne, hnr⟩)
      · refine Or.inr ⟨Or.inl he, ?_⟩
        rw [he]
        exact h.1
      · exact Or.inl hr
      · exact Or.inr ⟨Or.inr ⟨hd, hne⟩, hnr⟩

/-! ## Closing one baton -/

theorem detached_none (s : State) (a : Nat) (hs : (s.batons a).shared = none) :
    detached s a = s.setType a .svn_wc__adm_access_closed := by
  unfold detached
  rw [hs]

theorem detached_noset (s : State) (a sh : Nat) (hs : (s.batons a).shared = some sh)
    (hset : (s.shareds sh).set = none) :
    detached s a = s.setType a .svn_wc__adm_access_closed := by
  unfold detached
  rw [hs]
  simp only
  rw [hset]

theorem detached_some (s : State) (a sh : Nat) (ht : List (Path × SetItem))
    (hs : (s.batons a).shared = some sh) (hset : (s.shareds sh).set = some ht) :
    detached s a = (s.setType a .svn_wc__adm_access_closed).setSet sh
      (some (apr_hash_set ht (s.batons a).path none)) := by
  unfold detached
  rw [hs]
  simp only
  rw [hset]

theorem detached_cases (s : State) (a : Nat) :
    detached s a = s.setType a .svn_wc__adm_access_closed ∨
    ∃ sh v, detached s a = (s.setType a .svn_wc__adm_access_closed).setSet sh v := by
  cases hs : (s.batons a).shared with
  | none => exact Or.inl (detached_none s a hs)
  | some sh =>
    cases hset : (s.shareds sh).set with
    | none => exact Or.inl (detached_noset s a sh hs hset)
    | some ht => exact Or.inr ⟨sh, _, detached_some s a sh ht hs hset⟩

theorem detached_type (s : State) (a q : Nat) :
    ((detached s a).batons q).type =
      if q = a then .svn_wc__adm_access_closed else (s.batons q).type := by
  rcases detached_cases s a with h | ⟨sh, v, h⟩ <;> rw [h] <;> simp

theorem detached_baton (s : State) (a q : Nat) :
    ((detached s a).batons q).wc_format = (s.batons q).wc_format ∧
    ((detached s a).batons q).path = (s.batons q).path ∧
    ((detached s a).batons q).lock_exists = (s.batons q).lock_exists ∧
    ((detached s a).batons q).shared = (s.batons q).shared ∧
    ((detached s a).batons q).set_owner = (s.batons q).set_owner := by
  rcases detached_cases s a with h | ⟨sh, v, h⟩ <;> rw [h] <;> simp

theorem detached_other (s : State) (a q : Nat) (h : q ≠ a) :
    (detached s a).batons q = s.batons q := by
  rcases detached_cases s a with h1 | ⟨sh, v, h1⟩ <;> rw [h1]
  · exact setType_other _ _ _ _ h
  · simp only [setSet_batons]
    exact setType_other _ _ _ _ h

theorem detached_frame (s : State) (a : Nat) :
    (detached s a).nbatons = s.nbatons ∧ (detached s a).nshareds = s.nshareds ∧
    (detached s a).lock_node = s.lock_node ∧ (detached s a).db_closed = s.db_closed ∧
    (detached s a).ndbs = s.ndbs := by
  rcases detached_cases s a with h | ⟨sh, v, h⟩ <;> rw [h] <;> simp

theorem detached_set (s : State) (a sh : Nat) (ht : List (Path × SetItem))
    (hs : (s.batons a).shared = some sh) (hset : (s.shareds sh).set = some ht) :
    ((detached s a).shareds sh).set = some (apr_hash_set ht (s.batons a).path none) ∧
    ((detached s a).shareds sh).db = (s.shareds sh).db ∧
    (∀ t, t ≠ sh → (detached s a).shareds t = s.shareds t) := by
  rw [detached_some s a sh ht hs hset]
  simp only [setSet_set, if_true, setType_shareds, setSet_db, true_and]
  intro t ht
  rw [setSet_other _ _ _ _ ht]
  rfl

theorem detached_not_registered (s : State) (a : Nat) : ¬ registered (detached s a) a := by
  unfold registered registryKeys
  rw [(detached_baton s a a).2.1, (detached_baton s a a).2.2.2.1]
  cases hs : (s.batons a).shared with
  | none => simp
  | some sh =>
    simp only
    cases hset : (s.shareds sh).set with
    | none =>
      have : (detached s a).shareds sh = s.shareds sh := by
        rw [detached_noset s a sh hs hset]
        rfl
      rw [this, hset]
      simp
    | some ht =>
      rw [(detached_set s a sh ht hs hset).1]
      exact key_not_mem_apr_hash_set_none ht _

theorem do_close_unlock_cases (w : World) (s : State) (a : Nat) (pl : Bool) (s1 : State)
    (e : Option svn_error_t) (h : do_close_unlock w s a pl = (s1, e)) :
    (s1 = s ∧ e = none ∧
      ¬ ((s.batons a).type = .svn_wc__adm_access_write_lock ∧
          (s.batons a).lock_exists = true ∧ pl = false)) ∨
    (s1 = s ∧ (∃ err, e = some err) ∧
      (s.batons a).type = .svn_wc__adm_access_write_lock ∧
      (s.batons a).lock_exists = true ∧ pl = false ∧
      w.svn_wc__adm_area_exists (s.batons a).path = true ∧
      (s.lock_node (s.batons a).path ≠ .svn_node_file ∨
        w.lock_remove_fault (s.batons a).path ≠ none)) ∨
    (e = none ∧ (s.batons a).type = .svn_wc__adm_access_write_lock ∧
      (s.batons a).lock_exists = true ∧ pl = false ∧
      (s1 = s.setLockExists a false ∨
       (s.lock_node (s.batons a).path = .svn_node_file ∧
        s1 = (s.setLockNode (s.batons a).path .svn_node_none).setLockExists a false))) := by
  unfold do_close_unlock svn_wc__remove_adm_file at h
  by_cases ht : (s.batons a).type = .svn_wc__adm_access_write_lock
  · rw [if_pos ht] at h
    by_cases hl : (s.batons a).lock_exists = true ∧ pl = false
    · rw [if_pos hl] at h
      by_cases hn : s.lock_node (s.batons a).path ≠ .svn_node_file
      · rw [if_pos hn] at h
        simp only at h
        by_cases ha : w.svn_wc__adm_area_exists (s.batons a).path = true
        · rw [if_pos ha] at h
          simp only [Prod.mk.injEq] at h
          exact Or.inr (Or.inl ⟨h.1.symm, ⟨_, h.2.symm⟩, ht, hl.1, hl.2, ha, Or.inl hn⟩)
        · rw [if_neg ha] at h
          simp only [Prod.mk.injEq] at h
          exact Or.inr (Or.inr ⟨h.2.symm, ht, hl.1, hl.2, Or.inl h.1.symm⟩)
      · rw [if_neg hn] at h
        cases hf : w.lock_remove_fault (s.batons a).path with
        | none =>
          rw [hf] at h
          simp only [Prod.mk.injEq] at h
          exact Or.inr (Or.inr ⟨h.2.symm, ht, hl.1, hl.2, Or.inr ⟨not_not.mp hn, h.1.symm⟩⟩)
        | some code =>
          rw [hf] at h
          simp only at h
          by_cases ha : w.svn_wc__adm_area_exists (s.batons a).path = true
          · rw [if_pos ha] at h
            simp only [Prod.mk.injEq] at h
            refine Or.inr (Or.inl ⟨h.1.symm, ⟨_, h.2.symm⟩, ht, hl.1, hl.2, ha, Or.inr ?_⟩)
            exact fun hh => by cases hh
          · rw [if_neg ha] at h
            simp only [Prod.mk.injEq] at h
            exact Or.inr (Or.inr ⟨h.2.symm, ht, hl.1, hl.2, Or.inl h.1.symm⟩)
    · rw [if_neg hl] at h
      simp only [Prod.mk.injEq] at h
      exact Or.inl ⟨h.1.symm, h.2.symm, fun hh => hl ⟨hh.2.1, hh.2.2⟩⟩
  · rw [if_neg ht] at h
    simp only [Prod.mk.injEq] at h
    exact Or.inl ⟨h.1.symm, h.2.symm, fun hh => ht hh.1⟩

theorem do_close_unlock_skip (w : World) (s : State) (a : Nat) (pl : Bool)
    (h : ¬ ((s.batons a).type = .svn_wc__adm_access_write_lock ∧
          (s.batons a).lock_exists = true ∧ pl = false)) :
    do_close_unlock w s a pl = (s, none) := by
  unfold do_close_unlock
  by_cases ht : (s.batons a).type = .svn_wc__adm_access_write_lock
  · rw [if_pos ht]
    by_cases hl : (s.batons a).lock_exists = true ∧ pl = false
    · exact absurd ⟨ht, hl.1, hl.2⟩ h
    · rw [if_neg hl]
  · rw [if_neg ht]

theorem do_close_unlock_remove (w : World) (s : State) (a : Nat)
    (ht : (s.batons a).type = .svn_wc__adm_access_write_lock)
    (hl : (s.batons a).lock_exists = true)
    (hn : s.lock_node (s.batons a).path = .svn_node_file)
    (hf : w.lock_remove_fault (s.batons a).path = none) :
    do_close_unlock w s a false =
      ((s.setLockNode (s.batons a).path .svn_node_none).setLockExists a false, none) := by
  unfold do_close_unlock svn_wc__remove_adm_file
  rw [if_pos ht, if_pos ⟨hl, rfl⟩, if_neg (not_not.mpr hn), hf]

theorem do_close_db_cases (w : World) (s : State) (a : Nat) (s1 : State)
    (e : Option svn_error_t) (h : do_close_db w s a = some (s1, e)) :
    s1.batons = s.batons ∧ s1.shareds = s.shareds ∧ s1.nbatons = s.nbatons ∧
    s1.nshareds = s.nshareds ∧ s1.lock_node = s.lock_node ∧ s1.ndbs = s.ndbs := by
  unfold do_close_db at h
  by_cases ho : (s.batons a).set_owner = true
  · rw [if_pos ho] at h
    cases hs : (s.batons a).shared with
    | none => rw [hs] at h; cases h
    | some sh =>
      rw [hs] at h
      simp only at h
      cases hset : (s.shareds sh).set with
      | none => rw [hset] at h; cases h
      | some ht =>
        rw [hset] at h
        simp only at h
        by_cases hc : apr_hash_count ht ≠ 0
        · rw [if_pos hc] at h
          simp only [Option.some.injEq, Prod.mk.injEq] at h
          obtain ⟨rfl, _⟩ := h
          exact ⟨rfl, rfl, rfl, rfl, rfl, rfl⟩
        · rw [if_neg hc] at h
          cases hdb : (s.shareds sh).db with
          | none =>
            rw [hdb] at h
            simp only [Option.some.injEq, Prod.mk.injEq] at h
            obtain ⟨rfl, _⟩ := h
            exact ⟨rfl, rfl, rfl, rfl, rfl, rfl⟩
          | some db =>
            rw [hdb] at h
            simp only [Option.some.injEq, Prod.mk.injEq] at h
            obtain ⟨rfl, _⟩ := h
            exact ⟨rfl, rfl, rfl, rfl, rfl, rfl⟩
  · rw [if_neg ho] at h
    simp only [Option.some.injEq, Prod.mk.injEq] at h
    obtain ⟨rfl, _⟩ := h
    exact ⟨rfl, rfl, rfl, rfl, rfl, rfl⟩

theorem do_close_db_other (w : World) (s : State) (a : Nat)
    (h : (s.batons a).set_owner = false) : do_close_db w s a = some (s, none) := by
  unfold do_close_db
  rw [if_neg (by rw [h]; exact Bool.false_ne_true)]

theorem do_close_finish_cases (w : World) (s : State) (a : Nat) (s1 : State)
    (e : Option svn_error_t) (h : do_close_finish w s a = some (s1, e)) :
    (s1 = detached s a ∧ ∃ err, e = some err) ∨ do_close_db w (detached s a) a = some (s1, e) := by
  unfold do_close_finish at h
  simp only [setType_shared, setType_shareds, setType_path] at h
  cases hs : (s.batons a).shared with
  | none =>
    rw [hs] at h
    simp only at h
    right
    rw [detached_none s a hs]
    exact h
  | some sh =>
    rw [hs] at h
    simp only at h
    cases hset : (s.shareds sh).set with
    | none =>
      rw [hset] at h
      simp only at h
      right
      rw [detached_noset s a sh hs hset]
      exact h
    | some ht =>
      rw [hset] at h
      simp only at h
      have hd : detached s a = (s.setType a .svn_wc__adm_access_closed).setSet sh
          (some (apr_hash_set ht (s.batons a).path none)) :=
        detached_some s a sh ht hs hset
      rw [← hd] at h
      by_cases hc : ((detached s a).batons a).set_owner = true ∧
          apr_hash_count (apr_hash_set ht (s.batons a).path none) ≠ 0
      · rw [if_pos hc] at h
        simp only [Option.some.injEq, Prod.mk.injEq] at h
        exact Or.inl ⟨h.1.symm, _, h.2.symm⟩
      · rw [if_neg hc] at h
        exact Or.inr h

theorem do_close_finish_closed (w : World) (s : State) (a : Nat) (s1 : State)
    (e : Option svn_error_t) (h : do_close_finish w s a = some (s1, e)) :
    (s1.batons a).type = .svn_wc__adm_access_closed ∧ ¬ registered s1 a ∧
    (∀ q, (s1.batons q).lock_exists = (s.batons q).lock_exists) ∧
    (∀ q, q ≠ a → s1.batons q = s.batons q) := by
  have key : s1.batons = (detached s a).batons ∧ s1.shareds = (detached s a).shareds := by
    rcases do_close_finish_cases w s a s1 e h with ⟨h1, _⟩ | h1
    · rw [h1]; exact ⟨rfl, rfl⟩
    · have := do_close_db_cases w _ a s1 e h1
      exact ⟨this.1, this.2.1⟩
  refine ⟨?_, ?_, ?_, ?_⟩
  · rw [key.1, detached_type, if_pos rfl]
  · have hn := detached_not_registered s a
    unfold registered registryKeys at hn ⊢
    rw [key.1, key.2]
    exact hn
  · intro q
    rw [key.1]
    exact (detached_baton s a q).2.2.1
  · intro q hq
    rw [key.1]
    exact detached_other s a q hq

/-! ## The cases of `do_close` -/

theorem do_close_norecurse_cases (w : World) (s : State) (a : Nat) (pl : Bool) (s' : State)
    (r : Option svn_error_t) (h : do_close_norecurse w s a pl = some (s', r)) :
    ((s.batons a).type = .svn_wc__adm_access_closed ∧ s' = s ∧ r = none) ∨
    ((s.batons a).type ≠ .svn_wc__adm_access_closed ∧ ∃ err,
      do_close_unlock w s a pl = (s', some err) ∧ r = some err) ∨
    ((s.batons a).type ≠ .svn_wc__adm_access_closed ∧ ∃ s1,
      do_close_unlock w s a pl = (s1, none) ∧ do_close_finish w s1 a = some (s', r)) := by
  unfold do_close_norecurse at h
  by_cases hc : (s.batons a).type = .svn_wc__adm_access_closed
  · rw [if_pos hc] at h
    simp only [Option.some.injEq, Prod.mk.injEq] at h
    exact Or.inl ⟨hc, h.1.symm, h.2.symm⟩
  · rw [if_neg hc] at h
    right
    rcases hu : do_close_unlock w s a pl with ⟨s1, e⟩
    rw [hu] at h
    cases e with
    | some err =>
      simp only [Option.some.injEq, Prod.mk.injEq] at h
      refine Or.inl ⟨hc, err, ?_, h.2.symm⟩
      rw [← h.1]
    | none =>
      simp only at h
      exact Or.inr ⟨hc, s1, rfl, h⟩

theorem do_close_cases (w : World) (s : State) (a : Nat) (pl recurse : Bool) (s' : State)
    (r : Option svn_error_t) (h : do_close w s a pl recurse = some (s', r)) :
    ((s.batons a).type = .svn_wc__adm_access_closed ∧ s' = s ∧ r = none) ∨
    ((s.batons a).type ≠ .svn_wc__adm_access_closed ∧ ∃ s1 e1,
      do_close_descendants w s a pl recurse = some (s1, e1) ∧
      ((∃ err, e1 = some err ∧ s' = s1 ∧ r = some err) ∨
       (e1 = none ∧ do_close_norecurse w s1 a pl = some (s', r) ∧
        (s1.batons a).type ≠ .svn_wc__adm_access_closed) ∨
       (e1 = none ∧ (s1.batons a).type = .svn_wc__adm_access_closed ∧
        ((∃ err, do_close_unlock w s1 a pl = (s', some err) ∧ r = some err) ∨
         (∃ s2, do_close_unlock w s1 a pl = (s2, none) ∧
           do_close_finish w s2 a = some (s', r)))))) := by
  unfold do_close at h
  by_cases hc : (s.batons a).type = .svn_wc__adm_access_closed
  · rw [if_pos hc] at h
    simp only [Option.some.injEq, Prod.mk.injEq] at h
    exact Or.inl ⟨hc, h.1.symm, h.2.symm⟩
  · rw [if_neg hc] at h
    right
    refine ⟨hc, ?_⟩
    cases hd : do_close_descendants w s a pl recurse with
    | none => rw [hd] at h; cases h
    | some res =>
      rcases res with ⟨s1, e1⟩
      rw [hd] at h
      refine ⟨s1, e1, rfl, ?_⟩
      cases e1 with
      | some err =>
        simp only [Option.some.injEq, Prod.mk.injEq] at h
        exact Or.inl ⟨err, rfl, h.1.symm, h.2.symm⟩
      | none =>
        simp only at h
        right
        have hfin : (∃ err, do_close_unlock w s1 a pl = (s', some err) ∧ r = some err) ∨
            (∃ s2, do_close_unlock w s1 a pl = (s2, none) ∧
              do_close_finish w s2 a = some (s', r)) := by
          rcases hu : do_close_unlock w s1 a pl with ⟨s2, e⟩
          rw [hu] at h
          cases e with
          | some err =>
            simp only [Option.some.injEq, Prod.mk.injEq] at h
            refine Or.inl ⟨err, ?_, h.2.symm⟩
            rw [← h.1]
          | none =>
            simp only at h
            exact Or.inr ⟨s2, rfl, h⟩
        by_cases hc1 : (s1.batons a).type = .svn_wc__adm_access_closed
        · exact Or.inr ⟨rfl, hc1, hfin⟩
        · refine Or.inl ⟨rfl, ?_, hc1⟩
          unfold do_close_norecurse
          rw [if_neg hc1]
          rcases hfin with ⟨err, hu, hr⟩ | ⟨s2, hu, hf⟩
          · rw [hu, hr]
          · rw [hu]
            exact hf

/-- After `do_close` has returned without error for a baton that was not
closed, the baton is closed and no key of its registry. -/
theorem do_close_ok_closed (w : World) (s : State) (a : Nat) (pl recurse : Bool) (s' : State)
    (h : do_close w s a pl recurse = some (s', none))
    (hopen : (s.batons a).type ≠ .svn_wc__adm_access_closed) :
    (s'.batons a).type = .svn_wc__adm_access_closed ∧ ¬ registered s' a := by
  rcases do_close_cases w s a pl recurse s' none h with ⟨hc, _⟩ | ⟨_, s1, e1, _, hrest⟩
  · exact absurd hc hopen
  · have fin : ∀ s2, do_close_finish w s2 a = some (s', none) →
        (s'.batons a).type = .svn_wc__adm_access_closed ∧ ¬ registered s' a := by
      intro s2 hf
      have := do_close_finish_closed w s2 a s' none hf
      exact ⟨this.1, this.2.1⟩
    rcases hrest with ⟨err, _, _, hr⟩ | ⟨_, hn, hc1⟩ | ⟨_, _, ⟨err, _, hr⟩ | ⟨s2, _, hf⟩⟩
    · cases hr
    · rcases do_close_norecurse_cases w s1 a pl s' none hn with
        ⟨hc, _⟩ | ⟨_, err, _, hr⟩ | ⟨_, s2, _, hf⟩
      · exact absurd hc hc1
      · cases hr
      · exact fin s2 hf
    · cases hr
    · exact fin s2 hf

/-! ## The physical-lock flag -/

theorem LockFlagOK.step (s s1 : State) (h : RegistryStep s s1) (hs : LockFlagOK s) :
    LockFlagOK s1 := by
  intro q hq
  rw [h.type q]
  rw [h.lock_exists q] at hq
  exact hs q hq

theorem LockFlagOK.alloc (w : World) (s : State) (type : svn_wc__adm_access_type)
    (path : Path) (s1 : State) (lock : Nat) (e : Option svn_error_t)
    (h : adm_access_alloc w s type path = (s1, lock, e)) (hs : LockFlagOK s) :
    LockFlagOK s1 := by
  obtain ⟨hlock, _, hoth, _, _, _, _, _, htype, _, _, _⟩ := adm_access_alloc_frame w s type path s1 lock e h
  intro q hq
  by_cases hql : q = s.nbatons
  · rw [← hlock] at hql
    subst hql
    cases e with
    | none =>
      rw [(adm_access_alloc_ok w s type path s1 q h).1] at hq
      rw [htype]
      exact of_decide_eq_true hq
    | some err =>
      rw [(adm_access_alloc_err w s type path s1 q err h).1] at hq
      cases hq
  · rw [hoth q hql] at hq ⊢
    exact hs q hq

theorem LockFlagOK.setFormat (s : State) (p : Nat) (v : Int) (hs : LockFlagOK s) :
    LockFlagOK (s.setFormat p v) := by
  intro q hq
  simp only [setFormat_lock_exists, setFormat_type] at hq ⊢
  exact hs q hq

theorem LockFlagOK.registerCleanup (s : State) (p : Nat) (hs : LockFlagOK s) :
    LockFlagOK (s.registerCleanup p) := hs

theorem LockFlagOK.unlock (w : World) (s : State) (a : Nat) (s1 : State)
    (e : Option svn_error_t) (h : do_close_unlock w s a false = (s1, e)) (hs : LockFlagOK s) :
    LockFlagOK s1 ∧ (e = none → (s1.batons a).lock_exists = false) := by
  rcases do_close_unlock_cases w s a false s1 e h with
    ⟨h1, _, hn⟩ | ⟨h1, ⟨err, he⟩, _⟩ | ⟨_, _, _, _, h1 | ⟨_, h1⟩⟩
  · subst h1
    refine ⟨hs, fun _ => ?_⟩
    cases hl : (s1.batons a).lock_exists with
    | false => rfl
    | true => exact absurd ⟨hs a hl, hl, rfl⟩ hn
  · subst h1
    exact ⟨hs, fun h0 => by rw [h0] at he; cases he⟩
  · subst h1
    refine ⟨fun q hq => ?_, fun _ => by simp⟩
    simp only [setLockExists_lock_exists, setLockExists_type] at hq ⊢
    by_cases hqa : q = a
    · rw [if_pos hqa] at hq; cases hq
    · rw [if_neg hqa] at hq; exact hs q hq
  · subst h1
    refine ⟨fun q hq => ?_, fun _ => by simp⟩
    simp only [setLockExists_lock_exists, setLockExists_type, setLockNode_batons] at hq ⊢
    by_cases hqa : q = a
    · rw [if_pos hqa] at hq; cases hq
    · rw [if_neg hqa] at hq; exact hs q hq

theorem LockFlagOK.finish (w : World) (s : State) (a : Nat) (s1 : State)
    (e : Option svn_error_t) (h : do_close_finish w s a = some (s1, e)) (hs : LockFlagOK s)
    (hl : (s.batons a).lock_exists = false) : LockFlagOK s1 := by
  obtain ⟨_, _, hle, hoth⟩ := do_close_finish_closed w s a s1 e h
  intro q hq
  by_cases hqa : q = a
  · subst hqa
    rw [hle q, hl] at hq
    cases hq
  · rw [hoth q hqa] at hq ⊢
    exact hs q hq

theorem LockFlagOK.norecurse (w : World) (s : State) (a : Nat) (s1 : State)
    (e : Option svn_error_t) (h : do_close_norecurse w s a false = some (s1, e))
    (hs : LockFlagOK s) : LockFlagOK s1 := by
  rcases do_close_norecurse_cases w s a false s1 e h with
    ⟨_, h1, _⟩ | ⟨_, err, hu, _⟩ | ⟨_, s2, hu, hf⟩
  · rw [h1]; exact hs
  · exact (LockFlagOK.unlock w s a s1 _ hu hs).1
  · have := LockFlagOK.unlock w s a s2 _ hu hs
    exact LockFlagOK.finish w s2 a s1 e hf this.1 (this.2 rfl)

theorem LockFlagOK.children (w : World) (a : Nat) (items : List (Path × SetItem)) :
    ∀ (s s1 : State) (e : Option svn_error_t),
      do_close_children w a false items s = some (s1, e) → LockFlagOK s → LockFlagOK s1 := by
  induction items with
  | nil =>
    intro s s1 e h hs
    rw [do_close_children] at h
    simp only [Option.some.injEq, Prod.mk.injEq] at h
    rw [← h.1]; exact hs
  | cons kv rest ih =>
    intro s s1 e h hs
    obtain ⟨path, item⟩ := kv
    cases item with
    | missing =>
      rw [do_close_children] at h
      cases hsh : (s.batons a).shared with
      | none => rw [hsh] at h; cases h
      | some sh =>
        rw [hsh] at h
        simp only at h
        cases hset : (s.shareds sh).set with
        | none => rw [hset] at h; cases h
        | some ht =>
          rw [hset] at h
          exact ih _ s1 e h (LockFlagOK.step _ _ (RegistryStep.setSet _ _ _) hs)
    | baton child =>
      rw [do_close_children] at h
      by_cases hc : svn_dirent_is_ancestor (s.batons a).path path = false
          ∨ (s.batons a).path = path
      · rw [if_pos hc] at h
        exact ih s s1 e h hs
      · rw [if_neg hc] at h
        cases hn : do_close_norecurse w s child false with
        | none => rw [hn] at h; cases h
        | some res =>
          rcases res with ⟨s2, e2⟩
          rw [hn] at h
          have h2 := LockFlagOK.norecurse w s child s2 e2 hn hs
          cases e2 with
          | some err =>
            simp only [Option.some.injEq, Prod.mk.injEq] at h
            rw [← h.1]; exact h2
          | none => exact ih s2 s1 e h h2

theorem LockFlagOK.close (w : World) (s : State) (a : Nat) (recurse : Bool) (s1 : State)
    (e : Option svn_error_t) (h : do_close w s a false recurse = some (s1, e))
    (hs : LockFlagOK s) : LockFlagOK s1 := by
  rcases do_close_cases w s a false recurse s1 e h with ⟨_, h1, _⟩ | ⟨_, s2, e2, hd, hrest⟩
  · rw [h1]; exact hs
  · have h2 : LockFlagOK s2 := by
      unfold do_close_descendants at hd
      by_cases hr : recurse = true
      · rw [if_pos hr] at hd
        cases hsh : (s.batons a).shared with
        | none =>
          rw [hsh] at hd
          simp only [Option.some.injEq, Prod.mk.injEq] at hd
          rw [← hd.1]; exact hs
        | some sh =>
          rw [hsh] at hd
          simp only at hd
          cases hset : (s.shareds sh).set with
          | none =>
            rw [hset] at hd
            simp only [Option.some.injEq, Prod.mk.injEq] at hd
            rw [← hd.1]; exact hs
          | some ht =>
            rw [hset] at hd
            exact LockFlagOK.children w a _ s s2 e2 hd hs
      · rw [if_neg hr] at hd
        simp only [Option.some.injEq, Prod.mk.injEq] at hd
        rw [← hd.1]; exact hs
    rcases hrest with ⟨err, _, h1, _⟩ | ⟨_, hn, _⟩ | ⟨_, _, ⟨err, hu, _⟩ | ⟨s3, hu, hf⟩⟩
    · rw [h1]; exact h2
    · exact LockFlagOK.norecurse w s2 a s1 e hn h2
    · exact (LockFlagOK.unlock w s2 a s1 _ hu h2).1
    · have := LockFlagOK.unlock w s2 a s3 _ hu h2
      exact LockFlagOK.finish w s3 a s1 e hf this.1 (this.2 rfl)

theorem LockFlagOK.loop (w : World)
    (oc : State → Path → Option (State × Except svn_error_t Nat))
    (hoc : ∀ s p s1 r, oc s p = some (s1, r) → LockFlagOK s → LockFlagOK s1)
    (lock : Nat) (path : Path) (entries : List svn_wc_entry_t) :
    ∀ (s s1 : State) (e : Option svn_error_t),
      do_open_entries w oc lock path entries s = some (s1, e) → LockFlagOK s →
      LockFlagOK s1 := by
  induction entries with
  | nil =>
    intro s s1 e h hs
    rw [do_open_entries_nil] at h
    simp only [Option.some.injEq, Prod.mk.injEq] at h
    rw [← h.1]; exact hs
  | cons entry rest ih =>
    intro s s1 e h hs
    have hcan : ∀ s2 e2, cancel_check w s path = (s2, e2) → LockFlagOK s2 :=
      fun s2 e2 hc => LockFlagOK.step _ _ (cancel_check_spec w s path s2 e2 hc).2.2.2.1 hs
    rcases do_open_entries_cases w oc lock path entry rest s s1 e h with
      ⟨s2, err, e2, hc, hcl, _⟩ | ⟨s2, hc, _, hrec⟩ | ⟨s2, s3, child, sh, s4, hc, _, ho, _, hj, hrec⟩ |
      ⟨s2, s3, err, e3, hc, _, ho, _, hcl, _⟩ | ⟨s2, s3, err, sh, s4, hc, _, ho, _, _, ha, hrec⟩
    · exact LockFlagOK.close w s2 lock true s1 e2 hcl (hcan s2 _ hc)
    · exact ih s2 s1 e hrec (hcan s2 _ hc)
    · exact ih s4 s1 e hrec (LockFlagOK.step _ _ (join_batons_step s3 sh child s4 hj).1
        (hoc _ _ _ _ ho (hcan s2 _ hc)))
    · exact LockFlagOK.close w s3 lock true s1 e3 hcl (hoc _ _ _ _ ho (hcan s2 _ hc))
    · obtain ⟨_, _, _, _, _, _, hstep, _, _⟩ := add_to_shared_spec _ _ _ _ _ ha
      exact ih s4 s1 e hrec (LockFlagOK.step _ _ hstep (hoc _ _ _ _ ho (hcan s2 _ hc)))

theorem LockFlagOK.opened (w : World) (fuel : Nat) :
    ∀ (s : State) (path : Path) (write_lock : Bool) (levels_to_lock : Int) (s1 : State)
      (r : Except svn_error_t Nat),
      do_open w fuel s path write_lock levels_to_lock = some (s1, r) → LockFlagOK s →
      LockFlagOK s1 := by
  induction fuel with
  | zero => intro s path wl lv s1 r h; rw [do_open_zero] at h; cases h
  | succ fuel ih =>
    intro s path wl lv s1 r h hs
    have hfmt : ∀ s2 lock e, adm_access_alloc w s (openType wl) path = (s2, lock, e) →
        LockFlagOK (s2.setFormat lock (w.svn_wc_check_wc path).2) :=
      fun s2 lock e hal => LockFlagOK.setFormat _ _ _ (LockFlagOK.alloc w s _ path s2 lock e hal hs)
    have hloop : ∀ s2 lock entries s3 e3,
        adm_access_alloc w s (openType wl) path = (s2, lock, none) →
        do_open_entries w (fun s4 p => do_open w fuel s4 p wl (childLevels lv)) lock path entries
          (if entries.length > 0
           then adm_ensure_set (s2.setFormat lock (w.svn_wc_check_wc path).2) lock
           else s2.setFormat lock (w.svn_wc_check_wc path).2) = some (s3, e3) →
        LockFlagOK s3 := by
      intro s2 lock entries s3 e3 hal hd
      refine LockFlagOK.loop w _ (fun s4 p s5 r5 h5 hs4 => ih s4 p wl _ s5 r5 h5 hs4)
        lock path entries _ s3 e3 hd ?_
      by_cases hlen : entries.length > 0
      · rw [if_pos hlen]
        exact LockFlagOK.step _ _ (adm_ensure_set_step _ _) (hfmt s2 lock none hal)
      · rw [if_neg hlen]
        exact hfmt s2 lock none hal
    rcases do_open_cases w fuel s path wl lv s1 r h with
      ⟨_, h1, _⟩ | ⟨_, s2, lock, err, hal, h1, _⟩ | ⟨_, s2, lock, err, hal, _, _, h1, _⟩ |
      ⟨_, s2, lock, hal, _, _, h1, _⟩ | ⟨_, s2, lock, code, hal, _, _, _, h1, _⟩ |
      ⟨_, s2, lock, entries, err, hal, _, _, _, hd, _⟩ |
      ⟨_, s2, lock, entries, s3, hal, _, _, _, hd, h1, _⟩
    · rw [h1]; exact hs
    · rw [h1]; exact LockFlagOK.alloc w s _ path s2 lock _ hal hs
    · rw [h1]; exact hfmt s2 lock _ hal
    · rw [h1]; exact LockFlagOK.registerCleanup _ _ (hfmt s2 lock _ hal)
    · rw [h1]; exact hfmt s2 lock _ hal
    · exact hloop s2 lock entries s1 _ hal hd
    · rw [h1]; exact LockFlagOK.registerCleanup _ _ (hloop s2 lock entries s3 _ hal hd)

theorem LockFlagOK.steal (w : World) (s : State) (path : Path) (hs : LockFlagOK s) :
    LockFlagOK (svn_wc__adm_steal_write_lock w s path).1 := by
  unfold svn_wc__adm_steal_write_lock
  rcases hal : adm_access_alloc w s .svn_wc__adm_access_write_lock path with ⟨s1, lock, e⟩
  have h1 := LockFlagOK.alloc w s _ path s1 lock e hal hs
  have htype := (adm_access_alloc_frame w s _ path s1 lock e hal).2.2.2.2.2.2.2.2.1
  have hstolen : LockFlagOK (s1.setLockExists lock true) := by
    intro q hq
    simp only [setLockExists_lock_exists, setLockExists_type] at hq ⊢
    by_cases hql : q = lock
    · rw [hql]; exact htype
    · rw [if_neg hql] at hq; exact h1 q hq
  simp only
  cases e with
  | none =>
    simp only
    cases (w.svn_wc_check_wc path).1 with
    | some code => exact LockFlagOK.setFormat _ _ _ h1
    | none =>
      simp only
      cases maybe_upgrade_format w (s1.setFormat lock (w.svn_wc_check_wc path).2) lock with
      | some e2 => exact LockFlagOK.setFormat _ _ _ h1
      | none => exact LockFlagOK.setFormat _ _ _ h1
  | some err =>
    simp only
    by_cases hl : err.apr_err = .SVN_ERR_WC_LOCKED
    · rw [if_pos hl]
      simp only
      cases (w.svn_wc_check_wc path).1 with
      | some code => exact LockFlagOK.setFormat _ _ _ hstolen
      | none =>
        simp only
        cases maybe_upgrade_format w
          ((s1.setLockExists lock true).setFormat lock (w.svn_wc_check_wc path).2) lock with
        | some e2 => exact LockFlagOK.setFormat _ _ _ hstolen
        | none => exact LockFlagOK.setFormat _ _ _ hstolen
    · rw [if_neg hl]
      exact h1

theorem LockFlagOK.pre_open (w : World) (s : State) (path : Path) (hs : LockFlagOK s) :
    LockFlagOK (svn_wc__adm_pre_open w s path).1 := by
  unfold svn_wc__adm_pre_open
  rcases hal : adm_access_alloc w s .svn_wc__adm_access_write_lock path with ⟨s1, lock, e⟩
  have h1 := LockFlagOK.alloc w s _ path s1 lock e hal hs
  cases e with
  | none => exact h1
  | some err => exact h1

theorem LockFlagOK.init (lock_node : Path → svn_node_kind_t) :
    LockFlagOK (State.init lock_node) := by
  intro q hq
  cases hq

theorem LockFlagOK.reachable (w : World) (s : State) (h : Reachable w s) : LockFlagOK s := by
  induction h with
  | init lock_node => exact LockFlagOK.init lock_node
  | alloc s type path _ ih =>
    rcases hal : adm_access_alloc w s type path with ⟨s1, lock, e⟩
    exact LockFlagOK.alloc w s type path s1 lock e hal ih
  | opened s fuel path wl lv s1 r _ h1 ih => exact LockFlagOK.opened w fuel s path wl lv s1 r h1 ih
  | steal s path _ ih => exact LockFlagOK.steal w s path ih
  | pre_open s path _ ih => exact LockFlagOK.pre_open w s path ih
  | closed s a recurse s1 r _ h1 ih => exact LockFlagOK.close w s a recurse s1 r h1 ih

/-! ## The errors of `do_open` -/

theorem convert_wcprops_props_err (w : World) (path : Path) (name : String)
    (props : List String) (err : svn_error_t)
    (h : convert_wcprops_props w path name props = some err) : ∃ c, err.apr_err = .os c := by
  induction props with
  | nil => rw [convert_wcprops_props] at h; cases h
  | cons p rest ih =>
    rw [convert_wcprops_props] at h
    cases hm : w.svn_wc__loggy_modify_wcprop path name p with
    | some code =>
      rw [hm] at h
      simp only [Option.some.injEq] at h
      exact ⟨code, by rw [← h]; rfl⟩
    | none =>
      rw [hm] at h
      exact ih h

theorem convert_wcprops_entries_err (w : World) (path : Path)
    (entries : List svn_wc_entry_t) (err : svn_error_t)
    (h : convert_wcprops_entries w path entries = some err) : ∃ c, err.apr_err = .os c := by
  induction entries with
  | nil => rw [convert_wcprops_entries] at h; cases h
  | cons entry rest ih =>
    rw [convert_wcprops_entries] at h
    by_cases hk : entry.kind ≠ .svn_node_file ∧ entry.name ≠ SVN_WC_ENTRY_THIS_DIR
    · rw [if_pos hk] at h
      exact ih h
    · rw [if_neg hk] at h
      cases hl : w.svn_wc__wcprop_list path entry.name with
      | error code =>
        rw [hl] at h
        simp only [Option.some.injEq] at h
        exact ⟨code, by rw [← h]; rfl⟩
      | ok wcprops =>
        rw [hl] at h
        simp only at h
        cases hp : convert_wcprops_props w path entry.name wcprops with
        | some e =>
          rw [hp] at h
          simp only [Option.some.injEq] at h
          rw [← h]
          exact convert_wcprops_props_err w path entry.name wcprops e hp
        | none =>
          rw [hp] at h
          exact ih h

theorem convert_wcprops_err (w : World) (s : State) (a : Nat) (err : svn_error_t)
    (h : convert_wcprops w s a = some err) : ∃ c, err.apr_err = .os c := by
  unfold convert_wcprops at h
  cases hr : w.svn_wc_entries_read (s.batons a).path with
  | error code =>
    rw [hr] at h
    simp only [Option.some.injEq] at h
    exact ⟨code, by rw [← h]; rfl⟩
  | ok entries =>
    rw [hr] at h
    exact convert_wcprops_entries_err w _ entries err h

theorem maybe_upgrade_format_err (w : World) (s : State) (a : Nat) (err : svn_error_t)
    (h : maybe_upgrade_format w s a = some err) : ∃ c, err.apr_err = .os c := by
  unfold maybe_upgrade_format at h
  simp only at h
  cases hc : w.svn_wc__check_format (s.batons a).wc_format (s.batons a).path with
  | some code =>
    rw [hc] at h
    simp only [Option.some.injEq] at h
    exact ⟨code, by rw [← h]; rfl⟩
  | none =>
    rw [hc] at h
    simp only at h
    by_cases hv : (s.batons a).wc_format < w.SVN_WC__VERSION
    · rw [if_pos hv] at h
      cases hq : svn_wc__adm_is_cleanup_required w s a with
      | error e =>
        rw [hq] at h
        simp only [Option.some.injEq] at h
        unfold svn_wc__adm_is_cleanup_required at hq
        by_cases ht : (s.batons a).type = .svn_wc__adm_access_write_lock
        · rw [if_pos ht] at hq
          cases hl : w.log_check_path (s.batons a).path with
          | error code =>
            rw [hl] at hq
            simp only [Except.error.injEq] at hq
            exact ⟨code, by rw [← h, ← hq]; rfl⟩
          | ok kind => rw [hl] at hq; cases hq
        · rw [if_neg ht] at hq; cases hq
      | ok b =>
        rw [hq] at h
        cases b with
        | true => cases h
        | false =>
          simp only at h
          cases hu : w.svn_wc__loggy_upgrade_format (s.batons a).path with
          | some code =>
            rw [hu] at h
            simp only [Option.some.injEq] at h
            exact ⟨code, by rw [← h]; rfl⟩
          | none =>
            rw [hu] at h
            simp only at h
            cases hcv : (if (s.batons a).wc_format ≤ w.SVN_WC__WCPROPS_MANY_FILES_VERSION
                 then convert_wcprops w s a else none) with
            | some e =>
              rw [hcv] at h
              simp only [Option.some.injEq] at h
              rw [← h]
              by_cases hm : (s.batons a).wc_format ≤ w.SVN_WC__WCPROPS_MANY_FILES_VERSION
              · rw [if_pos hm] at hcv
                exact convert_wcprops_err w s a e hcv
              · rw [if_neg hm] at hcv; cases hcv
            | none =>
              rw [hcv] at h
              simp only at h
              cases hw : w.svn_wc__write_log (s.batons a).path with
              | some code =>
                rw [hw] at h
                simp only [Option.some.injEq] at h
                exact ⟨code, by rw [← h]; rfl⟩
              | none =>
                rw [hw] at h
                simp only at h
                cases hrun : w.svn_wc__run_log (s.batons a).path with
                | some code =>
                  rw [hrun] at h
                  simp only [Option.some.injEq] at h
                  exact ⟨code, by rw [← h]; rfl⟩
                | none => rw [hrun] at h; cases h
    · rw [if_neg hv] at h; cases h

theorem do_open_entries_err (w : World)
    (oc : State → Path → Option (State × Except svn_error_t Nat))
    (lock : Nat) (path : Path) (entries : List svn_wc_entry_t) :
    ∀ (s s1 : State) (err : svn_error_t),
      do_open_entries w oc lock path entries s = some (s1, some err) →
      err.apr_err ≠ .SVN_ERR_WC_NOT_DIRECTORY := by
  induction entries with
  | nil =>
    intro s s1 err h
    rw [do_open_entries_nil] at h
    simp at h
  | cons entry rest ih =>
    intro s s1 err h
    rcases do_open_entries_cases w oc lock path entry rest s s1 _ h with
      ⟨s2, err1, e2, hc, _, he⟩ | ⟨s2, _, _, hrec⟩ | ⟨s2, s3, child, sh, s4, _, _, _, _, _, hrec⟩ |
      ⟨s2, s3, err1, e3, _, _, _, hne, _, he⟩ | ⟨s2, s3, err1, sh, s4, _, _, _, _, _, _, hrec⟩
    · simp only [Option.some.injEq] at he
      obtain ⟨c, hcode⟩ := (cancel_check_spec w s path s2 _ hc).2.2.2.2.2 err1 rfl
      rw [he, hcode]
      exact fun hh => by cases hh
    · exact ih s2 s1 err hrec
    · exact ih s4 s1 err hrec
    · simp only [Option.some.injEq] at he
      rw [he]; exact hne
    · exact ih s4 s1 err hrec

/-- The function `do_open` returns `SVN_ERR_WC_NOT_DIRECTORY` only from its
first test, before it has changed anything. -/
theorem do_open_not_directory (w : World) (fuel : Nat) (s : State) (path : Path)
    (write_lock : Bool) (levels_to_lock : Int) (s1 : State) (err : svn_error_t)
    (h : do_open w fuel s path write_lock levels_to_lock = some (s1, .error err))
    (hn : err.apr_err = .SVN_ERR_WC_NOT_DIRECTORY) :
    notWorkingCopyDir w path ∧ s1 = s := by
  cases fuel with
  | zero => rw [do_open_zero] at h; cases h
  | succ fuel =>
    rcases do_open_cases w fuel s path write_lock levels_to_lock s1 _ h with
      ⟨hg, h1, _⟩ | ⟨_, s2, lock, err1, hal, _, he⟩ | ⟨_, s2, lock, err1, _, _, hu, _, he⟩ |
      ⟨_, s2, lock, _, _, _, _, he⟩ | ⟨_, s2, lock, code, _, _, _, _, _, he⟩ |
      ⟨_, s2, lock, entries, err1, _, _, _, _, hd, he⟩ |
      ⟨_, s2, lock, entries, s3, _, _, _, _, _, _, he⟩
    · exact ⟨hg, h1⟩
    · simp only [Except.error.injEq] at he
      rcases (adm_access_alloc_err w s _ path s2 lock err1 hal).2.2 with hl | ⟨c, hc⟩
      · rw [he, hl] at hn; cases hn
      · rw [he, hc] at hn; cases hn
    · simp only [Except.error.injEq] at he
      obtain ⟨c, hc⟩ := maybe_upgrade_format_err w _ lock err1 hu
      rw [he, hc] at hn; cases hn
    · cases he
    · simp only [Except.error.injEq] at he
      rw [he] at hn; cases hn
    · simp only [Except.error.injEq] at he
      rw [he] at hn
      exact absurd hn (do_open_entries_err w _ lock path entries _ s1 err1 hd)
    · cases he

/-! ## The registry that `do_open` builds -/

theorem baton_ext (b c : svn_wc_adm_access_t) (h1 : b.wc_format = c.wc_format)
    (h2 : b.path = c.path) (h3 : b.type = c.type) (h4 : b.lock_exists = c.lock_exists)
    (h5 : b.shared = c.shared) (h6 : b.set_owner = c.set_owner) : b = c := by
  cases b; cases c
  simp only at h1 h2 h3 h4 h5 h6
  subst h1 h2 h3 h4 h5 h6
  rfl

theorem RegOK.frame (s s1 : State) (lo : Nat) (root : Path) (lock sh : Nat) (wl : Bool)
    (h : RegOK s lo root lock sh wl) (hsh : s1.shareds sh = s.shareds sh)
    (hb : ∀ q, q < s.nbatons → s1.batons q = s.batons q) (hn : s.nbatons ≤ s1.nbatons)
    (hl : ∀ p, s.lock_node p = .svn_node_file → s1.lock_node p = .svn_node_file) :
    RegOK s1 lo root lock sh wl := by
  obtain ⟨ht, hset, hnd, hroot, hitems⟩ := h
  refine ⟨ht, by rw [hsh]; exact hset, hnd, hroot, fun k v hkv => ?_⟩
  obtain ⟨hpre, hq⟩ := hitems k v hkv
  refine ⟨hpre, fun q hv => ?_⟩
  obtain ⟨h1, h2, h3, h4, h5, h6, h7, h8⟩ := hq q hv
  rw [← hb q h2] at h3 h4 h5 h6 h7
  exact ⟨h1, Nat.lt_of_lt_of_le h2 hn, h3, h4, h5, h6, h7, fun hw => hl k (h8 hw)⟩

theorem lock_node_trans (wl : Bool) (path cp : Path) (f0 f1 f2 : Path → svn_node_kind_t)
    (hpre : path <+: cp)
    (h1 : ∀ p, f1 p = f0 p ∨ (wl = true ∧ path <+: p ∧ f1 p = .svn_node_file))
    (h2 : ∀ p, f2 p = f1 p ∨ (wl = true ∧ cp <+: p ∧ f2 p = .svn_node_file)) :
    ∀ p, f2 p = f0 p ∨ (wl = true ∧ path <+: p ∧ f2 p = .svn_node_file) := by
  intro p
  rcases h2 p with h | ⟨hw, hp, hf⟩
  · rcases h1 p with h' | ⟨hw, hp, hf⟩
    · exact Or.inl (h.trans h')
    · exact Or.inr ⟨hw, hp, h.trans hf⟩
  · exact Or.inr ⟨hw, List.IsPrefix.trans hpre hp, hf⟩

theorem lock_node_keeps_file (wl : Bool) (cp : Path) (f1 f2 : Path → svn_node_kind_t)
    (h2 : ∀ p, f2 p = f1 p ∨ (wl = true ∧ cp <+: p ∧ f2 p = .svn_node_file)) :
    ∀ p, f1 p = .svn_node_file → f2 p = .svn_node_file := by
  intro p hp
  rcases h2 p with h | ⟨_, _, hf⟩
  · exact h.trans hp
  · exact hf

theorem LoopInv.child (w : World) (s0 : State) (path : Path) (lock sh : Nat) (wl : Bool)
    (M : List Path) (s1 s2 : State) (cp : Path) (child : Nat)
    (h : LoopInv w s0 path lock sh wl M s1) (ho : Opened w s1 cp wl s2 child)
    (hpre : path <+: cp) : LoopInv w s0 path lock sh wl M s2 := by
  have hshs : s2.shareds sh = s1.shareds sh := ho.shareds sh h.sh_lt
  refine ⟨h.lock_eq, Nat.lt_trans h.lock_lt ho.nbatons, h.sh_ge,
    Nat.lt_of_lt_of_le h.sh_lt ho.nshareds, ?_, ?_,
    lock_node_trans wl path cp _ _ _ hpre h.lock_node ho.lock_node,
    ho.db_closed.trans h.db_closed, ho.ndbs.trans h.ndbs, ?_, ?_, ?_, ?_⟩
  · intro q hq
    rw [ho.batons q (Nat.lt_trans hq h.lock_lt)]
    exact h.batons q hq
  · intro t ht
    rw [ho.shareds t (Nat.lt_of_lt_of_le ht (Nat.le_trans h.sh_ge (Nat.le_of_lt h.sh_lt)))]
    exact h.shareds t ht
  · rw [ho.batons lock h.lock_lt]
    exact h.shared
  · rw [hshs]
    exact h.db
  · exact RegOK.frame s1 s2 lock path lock sh wl h.reg hshs ho.batons
      (Nat.le_of_lt ho.nbatons) (lock_node_keeps_file wl cp _ _ ho.lock_node)
  · intro m hm
    rw [hshs]
    exact h.placeholders m hm

theorem LoopInv.congr (w : World) (s0 : State) (path : Path) (lock sh : Nat) (wl : Bool)
    (M : List Path) (s1 s2 : State) (h : LoopInv w s0 path lock sh wl M s1)
    (hb : s2.batons = s1.batons) (hs : s2.shareds = s1.shareds)
    (hns : s2.nshareds = s1.nshareds) (hstep : RegistryStep s1 s2) :
    LoopInv w s0 path lock sh wl M s2 := by
  refine ⟨h.lock_eq, by rw [hstep.nbatons]; exact h.lock_lt, h.sh_ge,
    by rw [hns]; exact h.sh_lt, by rw [hb]; exact h.batons, by rw [hs]; exact h.shareds,
    by rw [hstep.lock_node]; exact h.lock_node, hstep.db_closed.trans h.db_closed,
    hstep.ndbs.trans h.ndbs, by rw [hb]; exact h.shared, by rw [hs]; exact h.db, ?_,
    by rw [hs]; exact h.placeholders⟩
  exact RegOK.frame s1 s2 lock path lock sh wl h.reg (by rw [hs]) (fun q _ => by rw [hb])
    (Nat.le_of_eq hstep.nbatons.symm) (fun p hp => by rw [hstep.lock_node]; exact hp)

theorem ItemOK.kept (s s1 : State) (lo lock sh : Nat) (wl : Bool) (k : Path) (q : Nat)
    (hstep : RegistryStep s s1)
    (hown : (s1.batons q).set_owner = (s.batons q).set_owner)
    (hsh : (s1.batons q).shared = some sh)
    (h : ItemOK s lo lock sh wl k q) : ItemOK s1 lo lock sh wl k q := by
  obtain ⟨h1, h2, h3, _, h5, h6, h7, h8⟩ := h
  refine ⟨h1, by rw [hstep.nbatons]; exact h2, by rw [hstep.path]; exact h3, hsh,
    by rw [hstep.type]; exact h5, by rw [hstep.lock_exists]; exact h6,
    by rw [hown]; exact h7, by rw [hstep.lock_node]; exact h8⟩

theorem batons_eq_of_step (s s1 : State) (q : Nat) (hstep : RegistryStep s s1)
    (hown : (s1.batons q).set_owner = (s.batons q).set_owner)
    (hsh : (s1.batons q).shared = (s.batons q).shared) : s1.batons q = s.batons q :=
  baton_ext _ _ (hstep.wc_format q) (hstep.path q) (hstep.type q) (hstep.lock_exists q) hsh hown

theorem ne_of_length_succ (path cp : Path) (h : cp.length = path.length + 1) : path ≠ cp := by
  intro he
  rw [he] at h
  omega

theorem LoopInv.add_missing (w : World) (s0 : State) (path : Path) (lock sh : Nat) (wl : Bool)
    (M : List Path) (s1 s3 : State) (cp : Path)
    (h : LoopInv w s0 path lock sh wl M s1) (hg : notWorkingCopyDir w cp)
    (hlen : cp.length = path.length + 1) (hpre : path <+: cp)
    (ha : add_to_shared s1 cp .missing sh = some s3) :
    LoopInv w s0 path lock sh wl (cp :: M) s3 := by
  obtain ⟨ht, hset, hset3, hdb, hoth, hnsh, hstep, hown, hshared⟩ :=
    add_to_shared_spec s1 cp .missing sh s3 ha
  have hsame : ∀ q, (s3.batons q).shared = (s1.batons q).shared := by
    intro q
    rw [hshared q, if_neg (fun hh => by cases hh)]
  have hbat : ∀ q, s3.batons q = s1.batons q :=
    fun q => batons_eq_of_step s1 s3 q hstep (hown q) (hsame q)
  obtain ⟨ht1, hset1, hnd, hroot, hitems⟩ := h.reg
  rw [hset] at hset1
  cases hset1
  refine ⟨h.lock_eq, by rw [hstep.nbatons]; exact h.lock_lt, h.sh_ge,
    by rw [hnsh]; exact h.sh_lt, ?_, ?_, by rw [hstep.lock_node]; exact h.lock_node,
    hstep.db_closed.trans h.db_closed, hstep.ndbs.trans h.ndbs,
    by rw [hbat]; exact h.shared, by rw [hdb]; exact h.db, ?_, ?_⟩
  · intro q hq
    rw [hbat]
    exact h.batons q hq
  · intro t htl
    rw [hoth t (fun he => by rw [he] at htl; exact absurd htl (Nat.not_lt.mpr h.sh_ge))]
    exact h.shareds t htl
  · refine ⟨_, hset3, nodup_keys_apr_hash_set ht cp _ hnd, ?_, ?_⟩
    · rw [mem_apr_hash_set_some]
      exact Or.inr ⟨hroot, ne_of_length_succ path cp hlen⟩
    · intro k v hkv
      rw [mem_apr_hash_set_some] at hkv
      rcases hkv with he | ⟨hm, _⟩
      · simp only [Prod.mk.injEq] at he
        refine ⟨by rw [he.1]; exact hpre, fun q hq => ?_⟩
        rw [he.2] at hq
        cases hq
      · obtain ⟨hp, hq⟩ := hitems k v hm
        refine ⟨hp, fun q hv => ?_⟩
        have hi := hq q hv
        exact ItemOK.kept s1 s3 lock lock sh wl k q hstep (hown q)
          (by rw [hsame q]; exact hi.2.2.2.1) hi
  · intro m hm
    rcases List.mem_cons.1 hm with he | hm1
    · rw [he]
      exact ⟨hg, hlen, _, hset3, by rw [mem_apr_hash_set_some]; exact Or.inl rfl⟩
    · obtain ⟨h1, h2, ht2, hset2, hmem⟩ := h.placeholders m hm1
      rw [hset] at hset2
      cases hset2
      refine ⟨h1, h2, _, hset3, ?_⟩
      rw [mem_apr_hash_set_some]
      by_cases hmc : m = cp
      · left; rw [hmc]
      · right; exact ⟨hmem, hmc⟩

theorem LoopInv.join_single (w : World) (s0 : State) (path : Path) (lock sh : Nat) (wl : Bool)
    (M : List Path) (s1 s2 s3 : State) (cp : Path) (child : Nat)
    (h : LoopInv w s0 path lock sh wl M s2) (ho : Opened w s1 cp wl s2 child)
    (hlt : lock < s1.nbatons) (hlen : cp.length = path.length + 1) (hpre : path <+: cp)
    (hnone : (s2.batons child).shared = none)
    (hj : join_batons s2 sh child = some s3) :
    LoopInv w s0 path lock sh wl M s3 := by
  rw [join_batons_single s2 sh child hnone, ho.path_eq] at hj
  obtain ⟨ht, hset, hset3, hdb, hoth, hnsh, hstep, hown, hshared⟩ :=
    add_to_shared_spec s2 cp (.baton child) sh s3 hj
  have hchild : child = s1.nbatons := ho.lock_eq
  have hsame : ∀ q, q ≠ child → (s3.batons q).shared = (s2.batons q).shared := by
    intro q hq
    rw [hshared q, if_neg (fun hh => hq (SetItem.baton.inj hh).symm)]
  have hkeep : ∀ q, (s2.batons q).shared = some sh → (s3.batons q).shared = some sh := by
    intro q hq
    rw [hshared q]
    by_cases hc : SetItem.baton child = SetItem.baton q
    · rw [if_pos hc]
    · rw [if_neg hc]; exact hq
  obtain ⟨ht1, hset1, hnd, hroot, hitems⟩ := h.reg
  rw [hset] at hset1
  cases hset1
  refine ⟨h.lock_eq, by rw [hstep.nbatons]; exact h.lock_lt, h.sh_ge,
    by rw [hnsh]; exact h.sh_lt, ?_, ?_, by rw [hstep.lock_node]; exact h.lock_node,
    hstep.db_closed.trans h.db_closed, hstep.ndbs.trans h.ndbs,
    hkeep lock h.shared, by rw [hdb]; exact h.db, ?_, ?_⟩
  · intro q hq
    have hqc : q ≠ child := by omega
    rw [batons_eq_of_step s2 s3 q hstep (hown q) (hsame q hqc)]
    exact h.batons q hq
  · intro t htl
    rw [hoth t (fun he => by rw [he] at htl; exact absurd htl (Nat.not_lt.mpr h.sh_ge))]
    exact h.shareds t htl
  · refine ⟨_, hset3, nodup_keys_apr_hash_set ht cp _ hnd, ?_, ?_⟩
    · rw [mem_apr_hash_set_some]
      exact Or.inr ⟨hroot, ne_of_length_succ path cp hlen⟩
    · intro k v hkv
      rw [mem_apr_hash_set_some] at hkv
      rcases hkv with he | ⟨hm, _⟩
      · simp only [Prod.mk.injEq] at he
        refine ⟨by rw [he.1]; exact hpre, fun q hq => ?_⟩
        rw [he.2] at hq
        have hqc : q = child := (SetItem.baton.inj hq).symm
        subst hqc
        rw [he.1]
        have hown2 : (s2.batons q).set_owner = false := ho.unregistered hnone
        refine ⟨by omega, by rw [hstep.nbatons]; have := ho.nbatons; omega,
          by rw [hstep.path]; exact ho.path_eq,
          by rw [hshared q, if_pos rfl],
          by rw [hstep.type]; exact ho.type, by rw [hstep.lock_exists]; exact ho.lock_exists,
          ?_, by rw [hstep.lock_node]; exact ho.lock_file⟩
        rw [hown q, hown2]
        constructor
        · intro hh; cases hh
        · intro hh; omega
      · obtain ⟨hp, hq⟩ := hitems k v hm
        refine ⟨hp, fun q hv => ?_⟩
        have hi := hq q hv
        exact ItemOK.kept s2 s3 lock lock sh wl k q hstep (hown q) (hkeep q hi.2.2.2.1) hi
  · intro m hm
    obtain ⟨h1, h2, ht2, hset2, hmem⟩ := h.placeholders m hm
    rw [hset] at hset2
    cases hset2
    refine ⟨h1, h2, _, hset3, ?_⟩
    rw [mem_apr_hash_set_some]
    right
    exact ⟨hmem, fun hmc => ho.gate (by rw [← hmc]; exact h1)⟩

theorem LoopInv.join_merge (w : World) (s0 : State) (path : Path) (lock sh : Nat) (wl : Bool)
    (M : List Path) (s1 s2 s3 : State) (cp : Path) (child csh : Nat)
    (h : LoopInv w s0 path lock sh wl M s2) (ho : Opened w s1 cp wl s2 child)
    (hlt : lock < s1.nbatons) (hsh1 : sh < s1.nshareds)
    (hlen : cp.length = path.length + 1) (hpre : path <+: cp)
    (hsome : (s2.batons child).shared = some csh)
    (hj : join_batons s2 sh child = some s3) :
    LoopInv w s0 path lock sh wl M s3 := by
  obtain ⟨hcge, _, _, cht, hcset, hcnd, hcroot, hcitems⟩ := ho.registry csh hsome
  obtain ⟨ht, hset, hnd, hroot, hitems⟩ := h.reg
  rw [join_batons_merge s2 sh child csh cht hsome hcset] at hj
  obtain ⟨s4, hj4, hset4, hdb4, hoth4, hnsh4, hstep4, hown4, hin4, hout4⟩ :=
    join_batons_items_spec sh cht s2 ht hset
  rw [hj4] at hj
  simp only [Option.map_some', Option.some.injEq] at hj
  subst hj
  have hchild : child = s1.nbatons := ho.lock_eq
  have hstep : RegistryStep s2 (s4.setOwner child false) :=
    hstep4.trans _ _ _ (RegistryStep.setOwner _ _ _)
  have hshared : ∀ q, ((s4.setOwner child false).batons q).shared = (s4.batons q).shared :=
    fun q => by simp
  have hown : ∀ q, q ≠ child →
      ((s4.setOwner child false).batons q).set_owner = (s2.batons q).set_owner := by
    intro q hq
    simp only [setOwner_set_owner, if_neg hq]
    exact hown4 q
  have hshareds : (s4.setOwner child false).shareds = s4.shareds := rfl
  -- the batons that the registry of the child lists are new
  have hnew : ∀ q k, (k, SetItem.baton q) ∈ cht → s1.nbatons ≤ q :=
    fun q k hk => ((hcitems k _ hk).2 q rfl).1
  have hkeep : ∀ q, (s2.batons q).shared = some sh →
      ((s4.setOwner child false).batons q).shared = some sh := by
    intro q hq
    rw [hshared]
    by_cases hc : ∃ k, (k, SetItem.baton q) ∈ cht
    · obtain ⟨k, hk⟩ := hc
      exact hin4 q k hk
    · rw [hout4 q (fun k hk => hc ⟨k, hk⟩)]
      exact hq
  have hold : ∀ q, q < s1.nbatons → q ≠ child →
      (s4.setOwner child false).batons q = s2.batons q := by
    intro q hq hqc
    refine batons_eq_of_step s2 _ q hstep (hown q hqc) ?_
    rw [hshared, hout4 q (fun k hk => by have := hnew q k hk; omega)]
  have hkeys : ∀ k, k ∈ cht.map Prod.fst → cp <+: k := by
    intro k hk
    obtain ⟨kv, hkv, he⟩ := List.mem_map.1 hk
    rw [← he]
    exact (hcitems kv.1 kv.2 hkv).1
  refine ⟨h.lock_eq, by rw [hstep.nbatons]; exact h.lock_lt, h.sh_ge,
    by rw [setOwner_nshareds, hnsh4]; exact h.sh_lt, ?_, ?_,
    by rw [hstep.lock_node]; exact h.lock_node,
    hstep.db_closed.trans h.db_closed, hstep.ndbs.trans h.ndbs,
    hkeep lock h.shared, by rw [hshareds, hdb4]; exact h.db, ?_, ?_⟩
  · intro q hq
    rw [hold q (by omega) (by omega)]
    exact h.batons q hq
  · intro t htl
    rw [hshareds,
      hoth4 t (fun he => by rw [he] at htl; exact absurd htl (Nat.not_lt.mpr h.sh_ge))]
    exact h.shareds t htl
  · refine ⟨_, by rw [hshareds]; exact hset4, nodup_keys_hashUnion cht ht hnd, ?_, ?_⟩
    · rw [mem_hashUnion cht ht hcnd]
      right
      refine ⟨hroot, fun hk => ?_⟩
      have := List.IsPrefix.length_le (hkeys path hk)
      omega
    · intro k v hkv
      rw [mem_hashUnion cht ht hcnd] at hkv
      rcases hkv with hc | ⟨hm, _⟩
      · obtain ⟨hp, hq⟩ := hcitems k v hc
        refine ⟨List.IsPrefix.trans hpre hp, fun q hv => ?_⟩
        obtain ⟨h1, h2, h3, _, h5, h6, h7, h8⟩ := hq q hv
        rw [hv] at hc
        refine ⟨by omega, by rw [hstep.nbatons]; exact h2, by rw [hstep.path]; exact h3,
          by rw [hshared]; exact hin4 q k hc, by rw [hstep.type]; exact h5,
          by rw [hstep.lock_exists]; exact h6, ?_, by rw [hstep.lock_node]; exact h8⟩
        have hfalse : ((s4.setOwner child false).batons q).set_owner = false := by
          simp only [setOwner_set_owner]
          by_cases hqc : q = child
          · rw [if_pos hqc]
          · rw [if_neg hqc, hown4 q]
            cases ho2 : (s2.batons q).set_owner with
            | false => rfl
            | true => exact absurd (h7.1 ho2) hqc
        rw [hfalse]
        constructor
        · intro hh; cases hh
        · intro hh; omega
      · obtain ⟨hp, hq⟩ := hitems k v hm
        refine ⟨hp, fun q hv => ?_⟩
        have hi := hq q hv
        have hqc : q ≠ child := by
          intro he
          have h4 := hi.2.2.2.1
          rw [he, hsome] at h4
          simp only [Option.some.injEq] at h4
          omega
        exact ItemOK.kept s2 _ lock lock sh wl k q hstep (hown q hqc) (hkeep q hi.2.2.2.1) hi
  · intro m hm
    obtain ⟨h1, h2, ht2, hset2, hmem⟩ := h.placeholders m hm
    rw [hset] at hset2
    cases hset2
    refine ⟨h1, h2, _, by rw [hshareds]; exact hset4, ?_⟩
    rw [mem_hashUnion cht ht hcnd]
    right
    refine ⟨hmem, fun hk => ?_⟩
    have hpm := hkeys m hk
    have : cp = m := List.IsPrefix.eq_of_length hpm (by omega)
    exact ho.gate (by rw [this]; exact h1)

theorem svn_dirent_join_length (path : Path) (name : String) :
    (svn_dirent_join path name).length = path.length + 1 := by
  simp [svn_dirent_join]

theorem svn_dirent_join_extends (path : Path) (name : String) :
    path <+: svn_dirent_join path name := by
  unfold svn_dirent_join
  exact List.prefix_append path [name]

theorem LoopInv.join (w : World) (s0 : State) (path : Path) (lock sh : Nat) (wl : Bool)
    (M : List Path) (s1 s2 s3 : State) (name : String) (child : Nat)
    (h : LoopInv w s0 path lock sh wl M s1)
    (ho : Opened w s1 (svn_dirent_join path name) wl s2 child)
    (hj : join_batons s2 sh child = some s3) :
    LoopInv w s0 path lock sh wl M s3 := by
  have h2 := LoopInv.child w s0 path lock sh wl M s1 s2 _ child h ho
    (svn_dirent_join_extends path name)
  cases hc : (s2.batons child).shared with
  | none =>
    exact LoopInv.join_single w s0 path lock sh wl M s1 s2 s3 _ child h2 ho h.lock_lt
      (svn_dirent_join_length path name) (svn_dirent_join_extends path name) hc hj
  | some csh =>
    exact LoopInv.join_merge w s0 path lock sh wl M s1 s2 s3 _ child csh h2 ho h.lock_lt
      h.sh_lt (svn_dirent_join_length path name) (svn_dirent_join_extends path name) hc hj

theorem LoopInv.entries (w : World) (s0 : State) (path : Path) (lock sh : Nat) (wl : Bool)
    (oc : State → Path → Option (State × Except svn_error_t Nat))
    (hok : ∀ s p s1 c, oc s p = some (s1, .ok c) → Opened w s p wl s1 c)
    (herr : ∀ s p s1 err, oc s p = some (s1, .error err) →
      err.apr_err = .SVN_ERR_WC_NOT_DIRECTORY → notWorkingCopyDir w p ∧ s1 = s)
    (entries : List svn_wc_entry_t) :
    ∀ (M : List Path) (s s1 : State), LoopInv w s0 path lock sh wl M s →
      do_open_entries w oc lock path entries s = some (s1, none) →
      ∃ M1, LoopInv w s0 path lock sh wl M1 s1 ∧ (∀ m, m ∈ M → m ∈ M1) ∧
        (∀ e, e ∈ entries → qualifies e → notWorkingCopyDir w (svn_dirent_join path e.name) →
          svn_dirent_join path e.name ∈ M1) := by
  induction entries with
  | nil =>
    intro M s s1 h hd
    rw [do_open_entries_nil] at hd
    simp only [Option.some.injEq, Prod.mk.injEq, and_true] at hd
    subst hd
    exact ⟨M, h, fun _ hm => hm, fun e he => by cases he⟩
  | cons entry rest ih =>
    intro M s s1 h hd
    have hcan : ∀ s2 e2, cancel_check w s path = (s2, e2) →
        LoopInv w s0 path lock sh wl M s2 := by
      intro s2 e2 hc
      obtain ⟨hb, hs, hns, hstep, _, _⟩ := cancel_check_spec w s path s2 e2 hc
      exact LoopInv.congr w s0 path lock sh wl M s s2 h hb hs hns hstep
    rcases do_open_entries_cases w oc lock path entry rest s s1 _ hd with
      ⟨s2, err, e2, _, _, he⟩ | ⟨s2, hc, hnq, hrec⟩ |
      ⟨s2, s3, child, sh1, s4, hc, _, ho, hsh, hj, hrec⟩ |
      ⟨s2, s3, err, e3, _, _, _, _, _, he⟩ | ⟨s2, s3, err, sh1, s4, hc, _, ho, hn, hsh, ha, hrec⟩
    · cases he
    · obtain ⟨M1, h1, hsub, hmiss⟩ := ih M s2 s1 (hcan s2 _ hc) hrec
      refine ⟨M1, h1, hsub, fun e he hq hg => ?_⟩
      rcases List.mem_cons.1 he with heq | hmem
      · rw [heq] at hq
        exact absurd hq hnq
      · exact hmiss e hmem hq hg
    · have h2 := hcan s2 _ hc
      have hop := hok _ _ _ _ ho
      have hsh2 : (s3.batons lock).shared = some sh :=
        (LoopInv.child w s0 path lock sh wl M s2 s3 _ child h2 hop
          (svn_dirent_join_extends path entry.name)).shared
      rw [hsh2] at hsh
      simp only [Option.some.injEq] at hsh
      subst hsh
      have h4 := LoopInv.join w s0 path lock sh wl M s2 s3 s4 entry.name child h2 hop hj
      obtain ⟨M1, h1, hsub, hmiss⟩ := ih M s4 s1 h4 hrec
      refine ⟨M1, h1, hsub, fun e he hq hg => ?_⟩
      rcases List.mem_cons.1 he with heq | hmem
      · rw [heq] at hg
        exact absurd hg hop.gate
      · exact hmiss e hmem hq hg
    · cases he
    · have h2 := hcan s2 _ hc
      obtain ⟨hg, hs3⟩ := herr _ _ _ _ ho hn
      subst hs3
      rw [h2.shared] at hsh
      simp only [Option.some.injEq] at hsh
      subst hsh
      have h4 := LoopInv.add_missing w s0 path lock sh wl M s3 s4 _ h2 hg
        (svn_dirent_join_length path entry.name) (svn_dirent_join_extends path entry.name) ha
      obtain ⟨M1, h1, hsub, hmiss⟩ := ih _ s4 s1 h4 hrec
      refine ⟨M1, h1, fun m hm => hsub m (List.mem_cons_of_mem _ hm), fun e he hq hg1 => ?_⟩
      rcases List.mem_cons.1 he with heq | hmem
      · rw [heq]
        exact hsub _ (List.mem_cons_self _ _)
      · exact hmiss e hmem hq hg1

theorem openType_eq (wl : Bool) :
    openType wl = .svn_wc__adm_access_write_lock ↔ wl = true := by
  cases wl <;> simp [openType]

theorem decide_openType (wl : Bool) :
    decide (openType wl = .svn_wc__adm_access_write_lock) = wl := by
  cases wl <;> simp [openType]

/-- The state in which the loop of `do_open` starts when there are entries. -/
theorem LoopInv.start (w : World) (s : State) (path : Path) (wl : Bool) (s1 : State)
    (lock : Nat) (f : Int)
    (hal : adm_access_alloc w s (openType wl) path = (s1, lock, none)) :
    LoopInv w s path lock s.nshareds wl [] (adm_ensure_set (s1.setFormat lock f) lock) := by
  obtain ⟨hlock, hnb, hoth, hshs, hnsh, hdbc, hndb, hpath, htype, hshared, hown, hln⟩ :=
    adm_access_alloc_frame w s _ path s1 lock none hal
  obtain ⟨hle, hfile⟩ := adm_access_alloc_ok w s _ path s1 lock hal
  rw [decide_openType] at hle
  have hfresh : ((s1.setFormat lock f).batons lock).shared = none := by
    simp only [setFormat_shared]; exact hshared
  rw [adm_ensure_set_fresh _ _ hfresh]
  simp only [setFormat_nshareds, setFormat_path, hnsh, hpath]
  refine ⟨hlock, by simp [hnb, hlock], Nat.le_refl _, by simp [hnsh], ?_, ?_, ?_, by simp [hdbc],
    by simp [hndb], by simp, by simp [hnsh], ?_, fun m hm => by cases hm⟩
  · intro q hq
    have hql : q ≠ lock := Nat.ne_of_lt hq
    rw [setSharedPtr_other _ _ _ _ hql]
    simp only [setSet_batons]
    rw [setOwner_other _ _ _ _ hql, setSharedPtr_other _ _ _ _ hql]
    simp only [allocShared_batons]
    rw [setFormat_other _ _ _ _ hql]
    exact hoth q (by rw [← hlock]; exact hql)
  · intro t ht
    have htn : t ≠ s.nshareds := Nat.ne_of_lt ht
    simp only [setSharedPtr_shareds]
    rw [setSet_other _ _ _ _ htn, setSet_other _ _ _ _ htn]
    simp only [setOwner_shareds, setSharedPtr_shareds, allocShared_shareds, setFormat_nshareds,
      hnsh, if_neg htn, setFormat_shareds, hshs]
  · intro p
    simp only [setSharedPtr_lock_node, setSet_lock_node, setOwner_lock_node,
      allocShared_lock_node, setFormat_lock_node]
    rcases hln p with h | ⟨ht, hp, _, hf⟩
    · exact Or.inl h
    · exact Or.inr ⟨(openType_eq wl).1 ht, by rw [hp], hf⟩
  · refine ⟨[(path, SetItem.baton lock)], by simp, by simp, List.mem_singleton.2 rfl, ?_⟩
    intro k v hkv
    rw [List.mem_singleton] at hkv
    simp only [Prod.mk.injEq] at hkv
    obtain ⟨rfl, rfl⟩ := hkv
    refine ⟨List.prefix_refl _, fun q hq => ?_⟩
    have hql : q = lock := (SetItem.baton.inj hq).symm
    subst hql
    refine ⟨Nat.le_refl _, by simp [hnb, hlock], by simp [hpath], by simp, by simp [htype],
      by simp [hle], by simp, ?_⟩
    intro hw
    simp only [setSharedPtr_lock_node, setSet_lock_node, setOwner_lock_node,
      allocShared_lock_node, setFormat_lock_node]
    exact (hfile ((openType_eq wl).2 hw)).2

/-- A `do_open` that has not entered its loop. -/
theorem Opened.plain (w : World) (s : State) (path : Path) (wl : Bool) (s1 : State)
    (lock : Nat) (f : Int) (hg : ¬ notWorkingCopyDir w path)
    (hal : adm_access_alloc w s (openType wl) path = (s1, lock, none)) :
    Opened w s path wl ((s1.setFormat lock f).registerCleanup lock) lock := by
  obtain ⟨hlock, hnb, hoth, hshs, hnsh, hdbc, hndb, hpath, htype, hshared, hown, hln⟩ :=
    adm_access_alloc_frame w s _ path s1 lock none hal
  obtain ⟨hle, hfile⟩ := adm_access_alloc_ok w s _ path s1 lock hal
  rw [decide_openType] at hle
  refine ⟨hlock, by simp [hnb], by simp [hnsh], ?_, ?_, ?_, by simp [hdbc], by simp [hndb], hg,
    by simp [hpath], by simp [htype], by simp [hle], ?_, fun _ => by simp [hown], ?_⟩
  · intro q hq
    have hql : q ≠ lock := by rw [hlock]; exact Nat.ne_of_lt hq
    simp only [registerCleanup_batons]
    rw [setFormat_other _ _ _ _ hql]
    exact hoth q (Nat.ne_of_lt hq)
  · intro t _
    simp only [registerCleanup_shareds, setFormat_shareds, hshs]
  · intro p
    simp only [registerCleanup_lock_node, setFormat_lock_node]
    rcases hln p with h | ⟨ht, hp, _, hf⟩
    · exact Or.inl h
    · exact Or.inr ⟨(openType_eq wl).1 ht, by rw [hp], hf⟩
  · intro hw
    simp only [registerCleanup_lock_node, setFormat_lock_node]
    exact (hfile ((openType_eq wl).2 hw)).2
  · intro sh hsh
    simp only [registerCleanup_batons, setFormat_shared, hshared] at hsh
    cases hsh

/-- A `do_open` whose loop has finished. -/
theorem Opened.of_loop (w : World) (s : State) (path : Path) (wl : Bool) (lock sh : Nat)
    (M : List Path) (s3 : State) (hg : ¬ notWorkingCopyDir w path)
    (h : LoopInv w s path lock sh wl M s3) :
    Opened w s path wl (s3.registerCleanup lock) lock := by
  obtain ⟨ht, hset, hnd, hroot, hitems⟩ := h.reg
  obtain ⟨_, _, h3, _, h5, h6, _, h8⟩ := (hitems path _ hroot).2 lock rfl
  refine ⟨h.lock_eq, by rw [← h.lock_eq]; exact h.lock_lt,
    Nat.le_trans h.sh_ge (Nat.le_of_lt h.sh_lt), ?_, h.shareds, h.lock_node, h.db_closed,
    h.ndbs, hg, h3, h5, h6, h8, ?_, ?_⟩
  · intro q hq
    exact h.batons q (by rw [h.lock_eq]; exact hq)
  · intro hn
    have := h.shared
    simp only [registerCleanup_batons] at hn
    rw [hn] at this
    cases this
  · intro sh1 hsh1
    simp only [registerCleanup_batons] at hsh1
    rw [h.shared] at hsh1
    simp only [Option.some.injEq] at hsh1
    subst hsh1
    refine ⟨h.sh_ge, h.sh_lt, h.db, ?_⟩
    rw [← h.lock_eq]
    exact ⟨ht, hset, hnd, hroot, hitems⟩

theorem do_open_opened (w : World) (fuel : Nat) :
    ∀ (s : State) (path : Path) (wl : Bool) (lv : Int) (s1 : State) (lock : Nat),
      do_open w fuel s path wl lv = some (s1, .ok lock) → Opened w s path wl s1 lock := by
  induction fuel with
  | zero => intro s path wl lv s1 lock h; rw [do_open_zero] at h; cases h
  | succ fuel ih =>
    intro s path wl lv s1 lock h
    rcases do_open_cases w fuel s path wl lv s1 _ h with
      ⟨_, _, he⟩ | ⟨_, s2, lock1, err, _, _, he⟩ | ⟨_, s2, lock1, err, _, _, _, _, he⟩ |
      ⟨hg, s2, lock1, hal, _, _, h1, he⟩ | ⟨_, s2, lock1, code, _, _, _, _, _, he⟩ |
      ⟨_, s2, lock1, entries, err, _, _, _, _, _, he⟩ |
      ⟨hg, s2, lock1, entries, s3, hal, _, _, _, hd, h1, he⟩
    · cases he
    · cases he
    · cases he
    · simp only [Except.ok.injEq] at he
      subst he
      rw [h1]
      exact Opened.plain w s path wl s2 lock _ hg hal
    · cases he
    · cases he
    · simp only [Except.ok.injEq] at he
      subst he
      rw [h1]
      by_cases hlen : entries.length > 0
      · rw [if_pos hlen] at hd
        obtain ⟨M1, hinv, _, _⟩ := LoopInv.entries w s path lock s.nshareds wl _
          (fun s4 p s5 c h5 => ih s4 p wl _ s5 c h5)
          (fun s4 p s5 err h5 hn => do_open_not_directory w fuel s4 p wl _ s5 err h5 hn)
          entries [] _ s3 (LoopInv.start w s path wl s2 lock _ hal) hd
        exact Opened.of_loop w s path wl lock _ M1 s3 hg hinv
      · rw [if_neg hlen] at hd
        have hnil : entries = [] := List.length_eq_zero.1 (by omega)
        rw [hnil, do_open_entries_nil] at hd
        simp only [Option.some.injEq, Prod.mk.injEq, and_true] at hd
        rw [← hd]
        exact Opened.plain w s path wl s2 lock _ hg hal

/-! ## Consequences for a successful `do_open` -/

/-- A second `do_open` for writing fails at the lock file. -/
theorem do_open_locked (w : World) (fuel : Nat) (s : State) (path : Path) (lv : Int)
    (hg : ¬ notWorkingCopyDir w path) (hl : s.lock_node path ≠ .svn_node_none) :
    do_open w (fuel + 1) s path true lv =
      some (s.allocBaton ⟨0, path, .svn_wc__adm_access_write_lock, false, none, false⟩,
        .error ⟨.SVN_ERR_WC_LOCKED, .working_copy_locked, path⟩) := by
  have hal := adm_access_alloc_locked w s path hl
  rw [do_open, if_neg hg]
  have ht : openType true = .svn_wc__adm_access_write_lock := rfl
  rw [ht, hal]

theorem openType_ne_closed (wl : Bool) : openType wl ≠ .svn_wc__adm_access_closed := by
  cases wl <;> simp [openType]

theorem do_close_finish_other (w : World) (s : State) (a : Nat)
    (h : (s.batons a).set_owner = false) :
    do_close_finish w s a = some (detached s a, none) := by
  have hd : ((detached s a).batons a).set_owner = false := by
    rw [(detached_baton s a a).2.2.2.2]; exact h
  unfold do_close_finish
  simp only [setType_shared, setType_shareds, setType_path, setType_set_owner, setSet_batons]
  cases hs : (s.batons a).shared with
  | none =>
    simp only
    rw [← detached_none s a hs]
    exact do_close_db_other w _ a hd
  | some sh =>
    simp only
    cases hset : (s.shareds sh).set with
    | none =>
      simp only
      rw [← detached_noset s a sh hs hset]
      exact do_close_db_other w _ a hd
    | some ht =>
      simp only
      rw [← detached_some s a sh ht hs hset]
      rw [if_neg (fun hh => by rw [h] at hh; exact Bool.false_ne_true hh.1)]
      exact do_close_db_other w _ a hd

/-- The close of a baton of the registry other than the root. -/
theorem do_close_norecurse_item (w : World) (s : State) (lo lock sh : Nat) (wl : Bool)
    (k : Path) (child : Nat) (ht : List (Path × SetItem))
    (hrm : ∀ p, w.lock_remove_fault p = none)
    (hi : ItemOK s lo lock sh wl k child) (hne : child ≠ lock)
    (hset : (s.shareds sh).set = some ht) :
    ∃ s1, do_close_norecurse w s child false = some (s1, none) ∧
      (s1.batons child).type = .svn_wc__adm_access_closed ∧
      (∀ q, q ≠ child → s1.batons q = s.batons q) ∧
      (s1.shareds sh).set = some (apr_hash_set ht k none) ∧
      (s1.shareds sh).db = (s.shareds sh).db ∧
      s1.nbatons = s.nbatons ∧ s1.db_closed = s.db_closed ∧
      (∀ p, p ≠ k → s1.lock_node p = s.lock_node p) := by
  obtain ⟨_, _, hpath, hshared, htype, hle, hown, hfile⟩ := hi
  have hownf : (s.batons child).set_owner = false := by
    cases ho : (s.batons child).set_owner with
    | false => rfl
    | true => exact absurd (hown.1 ho) hne
  have hopen : (s.batons child).type ≠ .svn_wc__adm_access_closed := by
    rw [htype]; exact openType_ne_closed wl
  unfold do_close_norecurse
  rw [if_neg hopen]
  cases wl with
  | false =>
    have hu : do_close_unlock w s child false = (s, none) :=
      do_close_unlock_skip w s child false (fun hh => by rw [hle] at hh; exact Bool.false_ne_true hh.2.1)
    rw [hu]
    simp only
    rw [do_close_finish_other w s child hownf]
    obtain ⟨hdset, hddb, _⟩ := detached_set s child sh ht hshared hset
    rw [hpath] at hdset
    exact ⟨_, rfl, by rw [detached_type, if_pos rfl], fun q hq => detached_other s child q hq,
      hdset, hddb, (detached_frame s child).1, (detached_frame s child).2.2.2.1,
      fun p _ => by rw [(detached_frame s child).2.2.1]⟩
  | true =>
    have hu := do_close_unlock_remove w s child htype hle (by rw [hpath]; exact hfile rfl)
      (hrm _)
    rw [hu]
    simp only
    rw [hpath]
    have hownf1 : (((s.setLockNode k .svn_node_none).setLockExists child false).batons
        child).set_owner = false := by
      simp only [setLockExists_set_owner, setLockNode_batons]; exact hownf
    rw [do_close_finish_other w _ child hownf1]
    have hshared1 : (((s.setLockNode k .svn_node_none).setLockExists child false).batons
        child).shared = some sh := by
      simp only [setLockExists_shared, setLockNode_batons]; exact hshared
    have hset1 : (((s.setLockNode k .svn_node_none).setLockExists child false).shareds sh).set
        = some ht := by
      simp only [setLockExists_shareds, setLockNode_shareds]; exact hset
    obtain ⟨hdset, hddb, _⟩ := detached_set _ child sh ht hshared1 hset1
    simp only [setLockExists_path, setLockNode_batons, hpath] at hdset
    refine ⟨_, rfl, by rw [detached_type, if_pos rfl], fun q hq => ?_, hdset,
      by rw [hddb]; rfl, by rw [(detached_frame _ child).1]; rfl,
      by rw [(detached_frame _ child).2.2.2.1]; rfl, fun p hp => ?_⟩
    · rw [detached_other _ child q hq, setLockExists_other _ _ _ _ hq]
      rfl
    · rw [(detached_frame _ child).2.2.1]
      simp only [setLockExists_lock_node, setLockNode_lock_node, if_neg hp]

theorem RegOK.remove (s s1 : State) (lo : Nat) (root : Path) (lock sh : Nat) (wl : Bool)
    (ht : List (Path × SetItem)) (k : Path)
    (h : RegOK s lo root lock sh wl) (hset : (s.shareds sh).set = some ht) (hk : k ≠ root)
    (hset1 : (s1.shareds sh).set = some (apr_hash_set ht k none))
    (hb : ∀ k1 q, (k1, SetItem.baton q) ∈ ht → k1 ≠ k → s1.batons q = s.batons q)
    (hn : s1.nbatons = s.nbatons)
    (hl : ∀ p, p ≠ k → s1.lock_node p = s.lock_node p) :
    RegOK s1 lo root lock sh wl := by
  obtain ⟨ht0, hset0, hnd, hroot, hitems⟩ := h
  rw [hset] at hset0
  cases hset0
  refine ⟨_, hset1, nodup_keys_apr_hash_set ht k none hnd, ?_, fun k1 v hkv => ?_⟩
  · rw [mem_apr_hash_set_none]
    exact ⟨hroot, fun he => hk he.symm⟩
  · rw [mem_apr_hash_set_none] at hkv
    obtain ⟨hp, hq⟩ := hitems k1 v hkv.1
    refine ⟨hp, fun q hv => ?_⟩
    obtain ⟨h1, h2, h3, h4, h5, h6, h7, h8⟩ := hq q hv
    have hbq : s1.batons q = s.batons q := hb k1 q (by rw [← hv]; exact hkv.1) hkv.2
    rw [← hbq] at h3 h4 h5 h6 h7
    exact ⟨h1, by rw [hn]; exact h2, h3, h4, h5, h6, h7,
      fun hw => by rw [hl k1 hkv.2]; exact h8 hw⟩

theorem mem_step (ht rest : List (Path × SetItem)) (k root : Path) (v : SetItem)
    (hnd : (ht.map Prod.fst).Nodup) (hkv : (k, v) ∈ ht) (hk : k ≠ root)
    (kv : Path × SetItem) :
    ((kv ∈ ht ∧ kv.1 ≠ k) ∧ (kv ∉ rest ∨ kv.1 = root)) ↔
      (kv ∈ ht ∧ (kv ∉ (k, v) :: rest ∨ kv.1 = root)) := by
  constructor
  · rintro ⟨⟨h1, h2⟩, h3⟩
    refine ⟨h1, ?_⟩
    rcases h3 with h3 | h3
    · left
      intro hm
      rcases List.mem_cons.1 hm with he | hr
      · exact h2 (by rw [he])
      · exact h3 hr
    · exact Or.inr h3
  · rintro ⟨h1, h3⟩
    have hne : kv.1 ≠ k := by
      intro he
      obtain ⟨k1, v1⟩ := kv
      simp only at he
      subst he
      have hv : v1 = v := value_unique ht hnd k1 v1 v h1 hkv
      subst hv
      rcases h3 with h3 | h3
      · exact h3 (List.mem_cons_self _ _)
      · exact hk h3
    refine ⟨⟨h1, hne⟩, ?_⟩
    rcases h3 with h3 | h3
    · exact Or.inl (fun hr => h3 (List.mem_cons_of_mem _ hr))
    · exact Or.inr h3

theorem mem_skip (ht rest : List (Path × SetItem)) (k root : Path) (v : SetItem)
    (hk : k = root) (kv : Path × SetItem) :
    (kv ∈ ht ∧ (kv ∉ rest ∨ kv.1 = root)) ↔
      (kv ∈ ht ∧ (kv ∉ (k, v) :: rest ∨ kv.1 = root)) := by
  constructor
  · rintro ⟨h1, h3⟩
    refine ⟨h1, ?_⟩
    rcases h3 with h3 | h3
    · by_cases he : kv = (k, v)
      · right; rw [he]; exact hk
      · left
        intro hm
        rcases List.mem_cons.1 hm with he1 | hr
        · exact he he1
        · exact h3 hr
    · exact Or.inr h3
  · rintro ⟨h1, h3⟩
    refine ⟨h1, ?_⟩
    rcases h3 with h3 | h3
    · exact Or.inl (fun hr => h3 (List.mem_cons_of_mem _ hr))
    · exact Or.inr h3

theorem close_children_registry (w : World) (lo : Nat) (root : Path) (lock sh : Nat)
    (wl : Bool) (hrm : ∀ p, w.lock_remove_fault p = none) (L : List (Path × SetItem)) :
    ∀ (s : State) (ht : List (Path × SetItem)),
      (s.shareds sh).set = some ht → (∀ kv, kv ∈ L → kv ∈ ht) → (L.map Prod.fst).Nodup →
      RegOK s lo root lock sh wl → (s.batons lock).shared = some sh →
      ∃ s1, do_close_children w lock false L s = some (s1, none) ∧
        RegOK s1 lo root lock sh wl ∧ s1.batons lock = s.batons lock ∧
        (∃ ht1, (s1.shareds sh).set = some ht1 ∧
          ∀ kv, kv ∈ ht1 ↔ (kv ∈ ht ∧ (kv ∉ L ∨ kv.1 = root))) ∧
        (∀ k q, (k, SetItem.baton q) ∈ L → k ≠ root →
          (s1.batons q).type = .svn_wc__adm_access_closed) ∧
        (∀ q, (s.batons q).type = .svn_wc__adm_access_closed →
          (s1.batons q).type = .svn_wc__adm_access_closed) ∧
        s1.db_closed = s.db_closed ∧ (s1.shareds sh).db = (s.shareds sh).db := by
  induction L with
  | nil =>
    intro s ht hset _ _ hreg _
    refine ⟨s, by rw [do_close_children], hreg, rfl, ⟨ht, hset, fun kv => ?_⟩,
      fun k q hm => (by cases hm), fun _ h => h, rfl, rfl⟩
    simp
  | cons item rest ih =>
    intro s ht hset hL hnd hreg hsh
    obtain ⟨k, v⟩ := item
    simp only [List.map_cons, List.nodup_cons] at hnd
    have hkv : (k, v) ∈ ht := hL _ (List.mem_cons_self _ _)
    have hrest : ∀ kv, kv ∈ rest → kv ∈ ht ∧ kv.1 ≠ k := by
      intro kv hm
      refine ⟨hL kv (List.mem_cons_of_mem _ hm), fun he => hnd.1 ?_⟩
      rw [← he]
      exact List.mem_map.2 ⟨kv, hm, rfl⟩
    obtain ⟨ht0, hset0, hndk, hroot, hitems⟩ := hreg
    rw [hset] at hset0
    cases hset0
    have hreg : RegOK s lo root lock sh wl := ⟨ht, hset, hndk, hroot, hitems⟩
    have hlockpath : (s.batons lock).path = root := ((hitems root _ hroot).2 lock rfl).2.2.1
    cases v with
    | missing =>
      have hk : k ≠ root := by
        intro he
        rw [he] at hkv
        have := value_unique ht hndk root _ _ hkv hroot
        cases this
      rw [do_close_children, hsh]
      simp only
      rw [hset]
      simp only
      have hreg1 := RegOK.remove s (s.setSet sh (some (apr_hash_set ht k none))) lo root lock sh
        wl ht k hreg hset hk (by simp) (fun _ _ _ _ => rfl) rfl (fun _ _ => rfl)
      obtain ⟨s1, hc, hr1, hb1, ⟨ht1, hset1, hmem1⟩, hcl1, hmono1, hdbc1, hdb1⟩ :=
        ih (s.setSet sh (some (apr_hash_set ht k none))) (apr_hash_set ht k none) (by simp)
          (fun kv hm => (mem_apr_hash_set_none ht k kv).2 (hrest kv hm)) hnd.2 hreg1 hsh
      refine ⟨s1, hc, hr1, hb1, ⟨ht1, hset1, fun kv => ?_⟩, ?_, hmono1, hdbc1, ?_⟩
      · rw [hmem1 kv, mem_apr_hash_set_none]
        exact mem_step ht rest k root _ hndk hkv hk kv
      · intro k1 q hm hk1
        rcases List.mem_cons.1 hm with he | hr
        · cases he
        · exact hcl1 k1 q hr hk1
      · rw [hdb1]
        simp
    | baton child =>
      by_cases hk : k = root
      · have hcond : svn_dirent_is_ancestor (s.batons lock).path k = false
            ∨ (s.batons lock).path = k := Or.inr (by rw [hlockpath, hk])
        rw [do_close_children, if_pos hcond]
        obtain ⟨s1, hc, hr1, hb1, ⟨ht1, hset1, hmem1⟩, hcl1, hmono1, hdbc1, hdb1⟩ :=
          ih s ht hset (fun kv hm => (hrest kv hm).1) hnd.2 hreg hsh
        refine ⟨s1, hc, hr1, hb1, ⟨ht1, hset1, fun kv => ?_⟩, ?_, hmono1, hdbc1, hdb1⟩
        · rw [hmem1 kv]
          exact mem_skip ht rest k root _ hk kv
        · intro k1 q hm hk1
          rcases List.mem_cons.1 hm with he | hr
          · simp only [Prod.mk.injEq] at he
            exact absurd (he.1.trans hk) hk1
          · exact hcl1 k1 q hr hk1
      · obtain ⟨hpre, hq⟩ := hitems k _ hkv
        have hi := hq child rfl
        have hcond : ¬ (svn_dirent_is_ancestor (s.batons lock).path k = false
            ∨ (s.batons lock).path = k) := by
          rw [hlockpath]
          intro hh
          rcases hh with hh | hh
          · unfold svn_dirent_is_ancestor at hh
            have : root.isPrefixOf k = true := List.isPrefixOf_iff_prefix.2 hpre
            rw [this] at hh
            cases hh
          · exact hk hh.symm
        have hne : child ≠ lock := by
          intro he
          have := hi.2.2.1
          rw [he, hlockpath] at this
          exact hk this.symm
        obtain ⟨s2, hn2, hcl2, hoth2, hset2, hdb2, hnb2, hdbc2, hln2⟩ :=
          do_close_norecurse_item w s lo lock sh wl k child ht hrm hi hne hset
        rw [do_close_children, if_neg hcond, hn2]
        simp only
        have hreg2 := RegOK.remove s s2 lo root lock sh wl ht k hreg hset hk hset2
          (fun k1 q hm hk1 => hoth2 q (fun he => by
            have h1 := ((hitems k1 _ hm).2 q rfl).2.2.1
            rw [he, hi.2.2.1] at h1
            exact hk1 h1.symm)) hnb2 hln2
        have hsh2 : (s2.batons lock).shared = some sh := by
          rw [hoth2 lock (fun he => hne he.symm)]; exact hsh
        obtain ⟨s1, hc, hr1, hb1, ⟨ht1, hset1, hmem1⟩, hcl1, hmono1, hdbc1, hdb1⟩ :=
          ih s2 (apr_hash_set ht k none) hset2
            (fun kv hm => (mem_apr_hash_set_none ht k kv).2 (hrest kv hm)) hnd.2 hreg2 hsh2
        refine ⟨s1, hc, hr1, hb1.trans (hoth2 lock (fun he => hne he.symm)),
          ⟨ht1, hset1, fun kv => ?_⟩, ?_, ?_, hdbc1.trans hdbc2, hdb1.trans hdb2⟩
        · rw [hmem1 kv, mem_apr_hash_set_none]
          exact mem_step ht rest k root _ hndk hkv hk kv
        · intro k1 q hm hk1
          rcases List.mem_cons.1 hm with he | hr
          · simp only [Prod.mk.injEq, SetItem.baton.injEq] at he
            rw [he.2]
            exact hmono1 child hcl2
          · exact hcl1 k1 q hr hk1
        · intro q hqc
          have hqne : q ≠ child := by
            intro he
            rw [he, hi.2.2.2.2.1] at hqc
            exact openType_ne_closed wl hqc
          exact hmono1 q (by rw [hoth2 q hqne]; exact hqc)

theorem do_close_unlock_ok (w : World) (s : State) (a : Nat) (wl : Bool)
    (hrm : ∀ p, w.lock_remove_fault p = none)
    (htype : (s.batons a).type = openType wl) (hle : (s.batons a).lock_exists = wl)
    (hfile : wl = true → s.lock_node (s.batons a).path = .svn_node_file) :
    ∃ s1, do_close_unlock w s a false = (s1, none) ∧
      (∀ q, (s1.batons q).type = (s.batons q).type ∧ (s1.batons q).path = (s.batons q).path ∧
        (s1.batons q).shared = (s.batons q).shared ∧
        (s1.batons q).set_owner = (s.batons q).set_owner) ∧
      s1.shareds = s.shareds ∧ s1.nbatons = s.nbatons ∧ s1.db_closed = s.db_closed := by
  cases wl with
  | false =>
    refine ⟨s, do_close_unlock_skip w s a false (fun hh => ?_), fun q => ⟨rfl, rfl, rfl, rfl⟩,
      rfl, rfl, rfl⟩
    rw [hle] at hh
    exact Bool.false_ne_true hh.2.1
  | true =>
    refine ⟨_, do_close_unlock_remove w s a htype hle (hfile rfl) (hrm _), fun q => ?_, rfl, rfl,
      rfl⟩
    simp

theorem do_close_finish_noassert (w : World) (s : State) (a sh : Nat)
    (ht : List (Path × SetItem)) (hs : (s.batons a).shared = some sh)
    (hset : (s.shareds sh).set = some ht)
    (hempty : apr_hash_set ht (s.batons a).path none = []) :
    do_close_finish w s a = do_close_db w (detached s a) a := by
  unfold do_close_finish
  simp only [setType_shared, setType_shareds, setType_path, setType_set_owner, setSet_batons]
  rw [hs]
  simp only
  rw [hset]
  simp only
  rw [← detached_some s a sh ht hs hset, hempty]
  rw [if_neg (fun hh => hh.2 rfl)]

theorem do_close_db_owner_none (w : World) (s : State) (a sh : Nat)
    (ho : (s.batons a).set_owner = true) (hs : (s.batons a).shared = some sh)
    (hset : (s.shareds sh).set = some []) (hdb : (s.shareds sh).db = none) :
    do_close_db w s a = some (s, none) := by
  unfold do_close_db
  rw [if_pos ho, hs]
  simp only
  rw [hset]
  simp only
  rw [if_neg (fun hh => hh rfl), hdb]

theorem do_close_db_owner_some (w : World) (s : State) (a sh d : Nat)
    (ho : (s.batons a).set_owner = true) (hs : (s.batons a).shared = some sh)
    (hset : (s.shareds sh).set = some []) (hdb : (s.shareds sh).db = some d)
    (hcl : w.svn_wc__db_close d = none) :
    do_close_db w s a = some ({ s with db_closed := d :: s.db_closed }, none) := by
  unfold do_close_db
  rw [if_pos ho, hs]
  simp only
  rw [hset]
  simp only
  rw [if_neg (fun hh => hh rfl), hdb]
  simp only
  rw [hcl]
  rfl

theorem svn_sort__hash_mem (ht : List (Path × SetItem)) (kv : Path × SetItem) :
    kv ∈ (svn_sort__hash ht).reverse ↔ kv ∈ ht := by
  unfold svn_sort__hash
  rw [List.mem_reverse]
  exact (List.perm_insertionSort _ ht).mem_iff

theorem svn_sort__hash_nodup (ht : List (Path × SetItem)) (h : (ht.map Prod.fst).Nodup) :
    (((svn_sort__hash ht).reverse).map Prod.fst).Nodup := by
  unfold svn_sort__hash
  have hp : List.Perm (((ht.insertionSort
      (fun a b => svn_path_compare_paths a.1 b.1 ≤ 0)).reverse).map Prod.fst)
      (ht.map Prod.fst) :=
    List.Perm.map _ ((List.reverse_perm _).trans (List.perm_insertionSort _ ht))
  exact hp.nodup_iff.2 h

theorem close_registry (w : World) (s : State) (lo : Nat) (root : Path) (lock sh : Nat)
    (wl : Bool) (ht : List (Path × SetItem))
    (hrm : ∀ p, w.lock_remove_fault p = none) (hdbc : ∀ d, w.svn_wc__db_close d = none)
    (hreg : RegOK s lo root lock sh wl) (hsh : (s.batons lock).shared = some sh)
    (hset : (s.shareds sh).set = some ht) :
    ∃ s3, svn_wc_adm_close2 w s lock = some (s3, none) ∧
      (∀ k q, (k, SetItem.baton q) ∈ ht → (s3.batons q).type = .svn_wc__adm_access_closed) ∧
      (s3.batons lock).shared = some sh ∧ (s3.shareds sh).set = some [] ∧
      s3.db_closed = ((s.shareds sh).db).toList ++ s.db_closed := by
  obtain ⟨ht0, hset0, hndk, hroot, hitems⟩ := hreg
  rw [hset] at hset0
  cases hset0
  have hreg : RegOK s lo root lock sh wl := ⟨ht, hset, hndk, hroot, hitems⟩
  have hopen : (s.batons lock).type ≠ .svn_wc__adm_access_closed := by
    rw [((hitems root _ hroot).2 lock rfl).2.2.2.2.1]
    exact openType_ne_closed wl
  obtain ⟨s1, hc, hr1, hb1, ⟨ht1, hset1, hmem1⟩, hcl1, hmono1, hdbc1, hdb1⟩ :=
    close_children_registry w lo root lock sh wl hrm (svn_sort__hash ht).reverse s ht hset
      (fun kv hm => (svn_sort__hash_mem ht kv).1 hm) (svn_sort__hash_nodup ht hndk) hreg hsh
  obtain ⟨ht1', hset1', _, hroot1, hitems1⟩ := hr1
  rw [hset1] at hset1'
  cases hset1'
  obtain ⟨_, _, hpath1, hshared1, htype1, hle1, hown1, hfile1⟩ := (hitems1 root _ hroot1).2 lock rfl
  obtain ⟨s2, hu, hbat2, hshs2, hnb2, hdbc2⟩ := do_close_unlock_ok w s1 lock wl hrm htype1 hle1
    (fun hw => by rw [hpath1]; exact hfile1 hw)
  have hkeys : ∀ kv, kv ∈ ht1 → kv.1 = root := by
    intro kv hm
    obtain ⟨h1, h2⟩ := (hmem1 kv).1 hm
    rcases h2 with h2 | h2
    · exact absurd ((svn_sort__hash_mem ht kv).2 h1) h2
    · exact h2
  have hsh2 : (s2.batons lock).shared = some sh := by rw [(hbat2 lock).2.2.1]; exact hshared1
  have hset2 : (s2.shareds sh).set = some ht1 := by rw [hshs2]; exact hset1
  have hpath2 : (s2.batons lock).path = root := by rw [(hbat2 lock).2.1]; exact hpath1
  have hempty : apr_hash_set ht1 (s2.batons lock).path none = [] := by
    rw [hpath2]
    unfold apr_hash_set
    simp only
    rw [List.filter_eq_nil_iff]
    intro kv hm
    simp only [decide_eq_true_eq, not_not]
    exact hkeys kv hm
  obtain ⟨hdset, hddb, _⟩ := detached_set s2 lock sh ht1 hsh2 hset2
  rw [hempty] at hdset
  have hdown : ((detached s2 lock).batons lock).set_owner = true := by
    rw [(detached_baton s2 lock lock).2.2.2.2, (hbat2 lock).2.2.2]
    exact hown1.2 rfl
  have hdsh : ((detached s2 lock).batons lock).shared = some sh := by
    rw [(detached_baton s2 lock lock).2.2.2.1]; exact hsh2
  have hdbeq : ((detached s2 lock).shareds sh).db = (s.shareds sh).db := by
    rw [hddb, hshs2, hdb1]
  have hclosed : ∀ k q, (k, SetItem.baton q) ∈ ht →
      ((detached s2 lock).batons q).type = .svn_wc__adm_access_closed := by
    intro k q hm
    rw [detached_type]
    by_cases hq : q = lock
    · rw [if_pos hq]
    · rw [if_neg hq, (hbat2 q).1]
      refine hcl1 k q ((svn_sort__hash_mem ht _).2 hm) (fun hk => hq ?_)
      rw [hk] at hm
      exact SetItem.baton.inj (value_unique ht hndk root _ _ hm hroot)
  have hstart : svn_wc_adm_close2 w s lock = do_close_db w (detached s2 lock) lock := by
    unfold svn_wc_adm_close2 do_close
    rw [if_neg hopen]
    unfold do_close_descendants
    rw [if_pos rfl, hsh]
    simp only
    rw [hset]
    simp only
    rw [hc]
    simp only
    rw [hu]
    simp only
    exact do_close_finish_noassert w s2 lock sh ht1 hsh2 hset2 hempty
  rw [hstart]
  cases hdb : (s.shareds sh).db with
  | none =>
    rw [hdb] at hdbeq
    refine ⟨_, do_close_db_owner_none w _ lock sh hdown hdsh hdset hdbeq, hclosed, hdsh, hdset,
      ?_⟩
    rw [(detached_frame s2 lock).2.2.2.1, hdbc2, hdbc1]
    rfl
  | some d =>
    rw [hdb] at hdbeq
    refine ⟨_, do_close_db_owner_some w _ lock sh d hdown hdsh hdset hdbeq (hdbc d), hclosed,
      hdsh, hdset, ?_⟩
    simp only [Option.toList, List.singleton_append, List.cons.injEq, true_and]
    rw [(detached_frame s2 lock).2.2.2.1, hdbc2, hdbc1]

/-- The close of a baton that has no registry. -/
theorem close_single (w : World) (s : State) (lock : Nat) (wl : Bool)
    (hrm : ∀ p, w.lock_remove_fault p = none)
    (hnone : (s.batons lock).shared = none) (hown : (s.batons lock).set_owner = false)
    (htype : (s.batons lock).type = openType wl) (hle : (s.batons lock).lock_exists = wl)
    (hfile : wl = true → s.lock_node (s.batons lock).path = .svn_node_file) :
    ∃ s3, svn_wc_adm_close2 w s lock = some (s3, none) ∧
      (s3.batons lock).type = .svn_wc__adm_access_closed ∧
      (s3.batons lock).shared = none ∧ s3.db_closed = s.db_closed := by
  have hopen : (s.batons lock).type ≠ .svn_wc__adm_access_closed := by
    rw [htype]; exact openType_ne_closed wl
  obtain ⟨s2, hu, hbat2, hshs2, hnb2, hdbc2⟩ := do_close_unlock_ok w s lock wl hrm htype hle hfile
  have hown2 : (s2.batons lock).set_owner = false := by rw [(hbat2 lock).2.2.2]; exact hown
  refine ⟨detached s2 lock, ?_, by rw [detached_type, if_pos rfl], ?_, ?_⟩
  · unfold svn_wc_adm_close2 do_close
    rw [if_neg hopen]
    unfold do_close_descendants
    rw [if_pos rfl, hnone]
    simp only
    rw [hu]
    simp only
    exact do_close_finish_other w s2 lock hown2
  · rw [(detached_baton s2 lock lock).2.2.2.1, (hbat2 lock).2.2.1]
    exact hnone
  · rw [(detached_frame s2 lock).2.2.2.1, hdbc2]

/-! ## The database handle of a registry -/

theorem RegOK.of_set (s s1 : State) (lo : Nat) (root : Path) (lock sh : Nat) (wl : Bool)
    (h : RegOK s lo root lock sh wl) (hset : (s1.shareds sh).set = (s.shareds sh).set)
    (hb : s1.batons = s.batons) (hn : s1.nbatons = s.nbatons)
    (hl : s1.lock_node = s.lock_node) : RegOK s1 lo root lock sh wl := by
  obtain ⟨ht, hset0, hnd, hroot, hitems⟩ := h
  refine ⟨ht, by rw [hset]; exact hset0, hnd, hroot, fun k v hkv => ?_⟩
  obtain ⟨hpre, hq⟩ := hitems k v hkv
  refine ⟨hpre, fun q hv => ?_⟩
  unfold ItemOK
  rw [hb, hn, hl]
  exact hq q hv

theorem adm_ensure_set_noop (s : State) (a sh : Nat) (ht : List (Path × SetItem))
    (hs : (s.batons a).shared = some sh) (hset : (s.shareds sh).set = some ht) :
    adm_ensure_set s a = s := by
  unfold adm_ensure_set
  rw [hs]
  simp only
  rw [hs]
  simp only
  rw [if_neg (by rw [hset]; exact fun hh => by cases hh)]

theorem adm_ensure_set_fresh_registry (s : State) (lock lo : Nat) (path : Path) (wl : Bool)
    (hlo : lo ≤ lock) (hlt : lock < s.nbatons) (hpath : (s.batons lock).path = path)
    (htype : (s.batons lock).type = openType wl) (hle : (s.batons lock).lock_exists = wl)
    (hfile : wl = true → s.lock_node path = .svn_node_file)
    (hnone : (s.batons lock).shared = none) :
    ((adm_ensure_set s lock).batons lock).shared = some s.nshareds ∧
    ((adm_ensure_set s lock).shareds s.nshareds).set = some [(path, SetItem.baton lock)] ∧
    ((adm_ensure_set s lock).shareds s.nshareds).db = none ∧
    RegOK (adm_ensure_set s lock) lo path lock s.nshareds wl ∧
    (adm_ensure_set s lock).db_closed = s.db_closed ∧
    (adm_ensure_set s lock).ndbs = s.ndbs := by
  rw [adm_ensure_set_fresh s lock hnone, hpath]
  refine ⟨by simp, by simp, by simp, ?_, by simp, by simp⟩
  refine ⟨[(path, SetItem.baton lock)], by simp, by simp, List.mem_singleton.2 rfl, ?_⟩
  intro k v hkv
  rw [List.mem_singleton] at hkv
  simp only [Prod.mk.injEq] at hkv
  obtain ⟨rfl, rfl⟩ := hkv
  refine ⟨List.prefix_refl _, fun q hq => ?_⟩
  have hql : q = lock := (SetItem.baton.inj hq).symm
  subst hql
  exact ⟨hlo, by simpa using hlt, by simp [hpath], by simp, by simp [htype], by simp [hle],
    by simp, fun hw => by simpa using hfile hw⟩

theorem get_db_cases (w : World) (s : State) (a sh : Nat) (s2 : State) (db : Nat)
    (hs : ((adm_ensure_set s a).batons a).shared = some sh)
    (hdb : ((adm_ensure_set s a).shareds sh).db = none)
    (h : svn_wc__adm_get_db w s a = some (s2, .ok db)) :
    db = (adm_ensure_set s a).ndbs ∧ s2.batons = (adm_ensure_set s a).batons ∧
    s2.nbatons = (adm_ensure_set s a).nbatons ∧
    s2.lock_node = (adm_ensure_set s a).lock_node ∧
    s2.db_closed = (adm_ensure_set s a).db_closed ∧
    (s2.shareds sh).set = ((adm_ensure_set s a).shareds sh).set ∧
    (s2.shareds sh).db = some db := by
  unfold svn_wc__adm_get_db at h
  simp only at h
  generalize adm_ensure_set s a = sE at h hs hdb ⊢
  rw [hs] at h
  simp only at h
  rw [hdb] at h
  simp only at h
  cases habs : w.svn_dirent_get_absolute (sE.batons a).path with
  | some code => rw [habs] at h; simp at h
  | none =>
    rw [habs] at h
    simp only at h
    cases hop : w.svn_wc__db_open (sE.batons a).path with
    | some code => rw [hop] at h; simp at h
    | none =>
      rw [hop] at h
      simp only [Option.some.injEq, Prod.mk.injEq, Except.ok.injEq] at h
      obtain ⟨rfl, rfl⟩ := h
      exact ⟨rfl, rfl, rfl, rfl, rfl, by simp, by simp⟩

theorem get_db_registry (w : World) (s : State) (path : Path) (wl : Bool) (s1 : State)
    (lock a : Nat) (s2 : State) (db : Nat) (ho : Opened w s path wl s1 lock)
    (ha : a = lock ∨ ∃ sh ht k, (s1.batons lock).shared = some sh ∧
      (s1.shareds sh).set = some ht ∧ (k, SetItem.baton a) ∈ ht)
    (hg : svn_wc__adm_get_db w s1 a = some (s2, .ok db)) :
    ∃ sh ht, (s2.batons lock).shared = some sh ∧ (s2.shareds sh).set = some ht ∧
      (s2.shareds sh).db = some db ∧ RegOK s2 s.nbatons path lock sh wl ∧
      s2.db_closed = s1.db_closed ∧
      (∀ sh1 ht1, (s1.batons lock).shared = some sh1 → (s1.shareds sh1).set = some ht1 →
        sh1 = sh ∧ ht1 = ht) := by
  cases hsh : (s1.batons lock).shared with
  | some sh =>
    obtain ⟨_, _, hdb, hreg⟩ := ho.registry sh hsh
    obtain ⟨ht, hset, _, _, hitems⟩ := id hreg
    have hash : (s1.batons a).shared = some sh := by
      rcases ha with he | ⟨sh1, ht1, k, h1, h2, hm⟩
      · rw [he]; exact hsh
      · rw [hsh] at h1
        simp only [Option.some.injEq] at h1
        subst h1
        rw [hset] at h2
        simp only [Option.some.injEq] at h2
        subst h2
        exact ((hitems k _ hm).2 a rfl).2.2.2.1
    have hE := adm_ensure_set_noop s1 a sh ht hash hset
    obtain ⟨_, hb, hn, hl, hdc, hset2, hdb2⟩ :=
      get_db_cases w s1 a sh s2 db (by rw [hE]; exact hash) (by rw [hE]; exact hdb) hg
    rw [hE] at hb hn hl hdc hset2
    refine ⟨sh, ht, by rw [hb]; exact hsh, by rw [hset2]; exact hset, hdb2,
      RegOK.of_set s1 s2 _ path lock sh wl hreg hset2 hb hn hl, hdc, ?_⟩
    intro sh1 ht1 h1 h2
    simp only [Option.some.injEq] at h1
    subst h1
    rw [hset] at h2
    simp only [Option.some.injEq] at h2
    exact ⟨rfl, h2.symm⟩
  | none =>
    have hal : a = lock := by
      rcases ha with he | ⟨sh1, ht1, k, h1, _, _⟩
      · exact he
      · rw [hsh] at h1; cases h1
    subst hal
    obtain ⟨hE1, hE2, hE3, hE4, hE5, _⟩ := adm_ensure_set_fresh_registry s1 a s.nbatons path wl
      (Nat.le_of_eq ho.lock_eq.symm) (by rw [ho.lock_eq]; exact ho.nbatons) ho.path_eq ho.type
      ho.lock_exists ho.lock_file hsh
    obtain ⟨_, hb, hn, hl, hdc, hset2, hdb2⟩ := get_db_cases w s1 a _ s2 db hE1 hE3 hg
    exact ⟨_, _, by rw [hb]; exact hE1, by rw [hset2]; exact hE2, hdb2,
      RegOK.of_set _ s2 _ path a _ wl hE4 hset2 hb hn hl, hdc.trans hE5,
      fun sh1 ht1 h1 => by cases h1⟩

/-! ## The directories that `do_open` opens -/

theorem newPaths_append (s : State) (a b c : Nat) (hab : a ≤ b) (hbc : b ≤ c) :
    newPaths s a c = newPaths s a b ++ newPaths s b c := by
  unfold newPaths
  rw [← List.map_append]
  congr 1
  have h1 : c - a = (c - b) + (b - a) := by omega
  have h2 : List.range' b (c - b) = List.range' (a + 1 * (b - a)) (c - b) := by
    congr 1
    omega
  rw [h1, h2, List.range'_append]

theorem newPaths_congr (s s1 : State) (a b : Nat)
    (h : ∀ q, q < b → (s1.batons q).path = (s.batons q).path) :
    newPaths s1 a b = newPaths s a b := by
  unfold newPaths
  apply List.map_congr_left
  intro q hq
  rw [List.mem_range'_1] at hq
  exact h q (by omega)

theorem newPaths_self (s : State) (a : Nat) : newPaths s a a = [] := by
  unfold newPaths
  simp

theorem newPaths_one (s : State) (a : Nat) : newPaths s a (a + 1) = [(s.batons a).path] := by
  unfold newPaths
  simp

theorem paths_entries (w : World)
    (oc : State → Path → Option (State × Except svn_error_t Nat)) (sub : Path → List Path)
    (wl : Bool) (lock : Nat) (path : Path)
    (hok : ∀ s p s1 c, oc s p = some (s1, .ok c) →
      Opened w s p wl s1 c ∧ newPaths s1 s.nbatons s1.nbatons = sub p)
    (herr : ∀ s p s1 err, oc s p = some (s1, .error err) →
      err.apr_err = .SVN_ERR_WC_NOT_DIRECTORY → notWorkingCopyDir w p ∧ s1 = s)
    (entries : List svn_wc_entry_t) :
    ∀ (s s1 : State), do_open_entries w oc lock path entries s = some (s1, none) →
      s.nbatons ≤ s1.nbatons ∧
      (∀ q, q < s.nbatons → (s1.batons q).path = (s.batons q).path) ∧
      newPaths s1 s.nbatons s1.nbatons = openedBelow w sub path entries := by
  induction entries with
  | nil =>
    intro s s1 hd
    rw [do_open_entries_nil] at hd
    simp only [Option.some.injEq, Prod.mk.injEq, and_true] at hd
    subst hd
    exact ⟨Nat.le_refl _, fun _ _ => rfl, newPaths_self _ _⟩
  | cons entry rest ih =>
    intro s s1 hd
    rcases do_open_entries_cases w oc lock path entry rest s s1 _ hd with
      ⟨s2, err, e2, _, _, he⟩ | ⟨s2, hc, hnq, hrec⟩ |
      ⟨s2, s3, child, sh1, s4, hc, hq, ho, _, hj, hrec⟩ |
      ⟨s2, s3, err, e3, _, _, _, _, _, he⟩ | ⟨s2, s3, err, sh1, s4, hc, _, ho, hn, _, ha, hrec⟩
    · cases he
    · obtain ⟨hb, _, _, hstep, _, _⟩ := cancel_check_spec w s path s2 _ hc
      obtain ⟨h1, h2, h3⟩ := ih s2 s1 hrec
      rw [hstep.nbatons] at h1 h2 h3
      refine ⟨h1, fun q hq => by rw [h2 q hq, hb], ?_⟩
      rw [h3, openedBelow, if_neg (fun hh => hnq hh.1), List.nil_append]
    · obtain ⟨hb, _, _, hstep, _, _⟩ := cancel_check_spec w s path s2 _ hc
      obtain ⟨hop, hsub⟩ := hok _ _ _ _ ho
      obtain ⟨hjstep, _, _, _⟩ := join_batons_step s3 sh1 child s4 hj
      obtain ⟨h1, h2, h3⟩ := ih s4 s1 hrec
      rw [hjstep.nbatons] at h1 h2 h3
      have hlt := hop.nbatons
      rw [hstep.nbatons] at hlt hsub
      have hpath4 : ∀ q, q < s3.nbatons → (s1.batons q).path = (s3.batons q).path :=
        fun q hq => by rw [h2 q hq, hjstep.path]
      refine ⟨by omega, fun q hq => ?_, ?_⟩
      · rw [hpath4 q (by omega), hop.batons q (by rw [hstep.nbatons]; exact hq), hb]
      · rw [newPaths_append s1 s.nbatons s3.nbatons s1.nbatons (by omega) h1, h3,
          newPaths_congr s3 s1 s.nbatons s3.nbatons hpath4, hsub, openedBelow,
          if_pos ⟨hq, hop.gate⟩]
    · cases he
    · obtain ⟨hb, _, _, hstep, _, _⟩ := cancel_check_spec w s path s2 _ hc
      obtain ⟨hg, hs3⟩ := herr _ _ _ _ ho hn
      subst hs3
      obtain ⟨_, _, _, _, _, _, hastep, _, _⟩ := add_to_shared_spec _ _ _ _ _ ha
      obtain ⟨h1, h2, h3⟩ := ih s4 s1 hrec
      rw [hastep.nbatons, hstep.nbatons] at h1 h2 h3
      refine ⟨h1, fun q hq => by rw [h2 q hq, hastep.path, hb], ?_⟩
      rw [h3, openedBelow, if_neg (fun hh => hh.2 hg), List.nil_append]

theorem do_open_paths (w : World) (fuel : Nat) :
    ∀ (s : State) (path : Path) (wl : Bool) (lv : Int) (s1 : State) (lock : Nat),
      do_open w fuel s path wl lv = some (s1, .ok lock) →
      newPaths s1 s.nbatons s1.nbatons = openedTree w fuel path lv := by
  induction fuel with
  | zero => intro s path wl lv s1 lock h; rw [do_open_zero] at h; cases h
  | succ fuel ih =>
    intro s path wl lv s1 lock h
    rcases do_open_cases w fuel s path wl lv s1 _ h with
      ⟨_, _, he⟩ | ⟨_, s2, lock1, err, _, _, he⟩ | ⟨_, s2, lock1, err, _, _, _, _, he⟩ |
      ⟨hg, s2, lock1, hal, _, hlv, h1, he⟩ | ⟨_, s2, lock1, code, _, _, _, _, _, he⟩ |
      ⟨_, s2, lock1, entries, err, _, _, _, _, _, he⟩ |
      ⟨hg, s2, lock1, entries, s3, hal, _, hlv, hr, hd, h1, he⟩
    · cases he
    · cases he
    · cases he
    · obtain ⟨hlock, hnb, _, _, _, _, _, hpath, _⟩ := adm_access_alloc_frame w s _ path s2 lock1 _ hal
      rw [h1, openedTree, if_pos hlv]
      simp only [registerCleanup_nbatons, setFormat_nbatons, hnb, newPaths_one,
        registerCleanup_batons, setFormat_path]
      rw [← hlock, hpath]
    · cases he
    · cases he
    · obtain ⟨hlock, hnb, _, _, _, _, _, hpath, _⟩ := adm_access_alloc_frame w s _ path s2 lock1 _ hal
      have hent : entriesOf w path = entries := by
        unfold entriesOf
        rw [hr]
      have hstart : ∀ S : State, S.nbatons = s.nbatons + 1 → (S.batons lock1).path = path →
          do_open_entries w (fun s4 p => do_open w fuel s4 p wl (childLevels lv)) lock1 path
            entries S = some (s3, none) →
          newPaths s1 s.nbatons s1.nbatons = openedTree w (fuel + 1) path lv := by
        intro S hSn hSp hloop
        obtain ⟨l1, l2, l3⟩ := paths_entries w _
          (fun p => openedTree w fuel p (childLevels lv)) wl lock1 path
          (fun s4 p s5 c h5 => ⟨do_open_opened w fuel s4 p wl _ s5 c h5, ih s4 p wl _ s5 c h5⟩)
          (fun s4 p s5 err h5 hn => do_open_not_directory w fuel s4 p wl _ s5 err h5 hn)
          entries S s3 hloop
        rw [hSn] at l1 l2 l3
        rw [h1, openedTree, if_neg hlv, hent]
        simp only [registerCleanup_nbatons]
        rw [newPaths_append _ s.nbatons (s.nbatons + 1) s3.nbatons (by omega) l1, newPaths_one]
        simp only [registerCleanup_batons]
        have l4 : newPaths (s3.registerCleanup lock1) (s.nbatons + 1) s3.nbatons
            = newPaths s3 (s.nbatons + 1) s3.nbatons := rfl
        rw [l4, l3, l2 s.nbatons (by omega), ← hlock, hSp]
        rfl
      by_cases hlen : entries.length > 0
      · rw [if_pos hlen] at hd
        refine hstart _ ?_ ?_ hd
        · rw [(adm_ensure_set_step _ _).nbatons]
          simp only [setFormat_nbatons, hnb]
        · rw [(adm_ensure_set_step _ _).path]
          simp only [setFormat_path, hpath]
      · rw [if_neg hlen] at hd
        exact hstart _ (by simp only [setFormat_nbatons, hnb])
          (by simp only [setFormat_path, hpath]) hd

theorem openedBelow_mem (w : World) (sub : Path → List Path) (path : Path)
    (entries : List svn_wc_entry_t) (p : Path) (h : p ∈ openedBelow w sub path entries) :
    ∃ e, e ∈ entries ∧ qualifies e ∧ ¬ notWorkingCopyDir w (svn_dirent_join path e.name) ∧
      p ∈ sub (svn_dirent_join path e.name) := by
  induction entries with
  | nil => rw [openedBelow] at h; cases h
  | cons entry rest ih =>
    rw [openedBelow] at h
    rcases List.mem_append.1 h with h1 | h1
    · by_cases hc : qualifies entry ∧ ¬ notWorkingCopyDir w (svn_dirent_join path entry.name)
      · rw [if_pos hc] at h1
        exact ⟨entry, List.mem_cons_self _ _, hc.1, hc.2, h1⟩
      · rw [if_neg hc] at h1
        cases h1
    · obtain ⟨e, he, hq⟩ := ih h1
      exact ⟨e, List.mem_cons_of_mem _ he, hq⟩

/-- No directory deeper than the limit is opened. -/
theorem openedTree_depth (w : World) (fuel : Nat) :
    ∀ (path : Path) (d : Int) (p : Path), p ∈ openedTree w fuel path d →
      path <+: p ∧ (0 ≤ d → (p.length : Int) ≤ path.length + d) := by
  induction fuel with
  | zero => intro path d p h; rw [openedTree] at h; cases h
  | succ fuel ih =>
    intro path d p h
    rw [openedTree] at h
    rcases List.mem_cons.1 h with he | hm
    · rw [he]
      exact ⟨List.prefix_refl _, fun hd => by omega⟩
    · by_cases hd0 : d = 0
      · rw [if_pos hd0] at hm
        cases hm
      · rw [if_neg hd0] at hm
        obtain ⟨e, _, _, _, hsub⟩ := openedBelow_mem w _ path _ p hm
        obtain ⟨hpre, hlen⟩ := ih _ _ p hsub
        refine ⟨List.IsPrefix.trans (svn_dirent_join_extends path e.name) hpre, fun hd => ?_⟩
        have hpos : d > 0 := by omega
        rw [if_pos hpos] at hlen
        have := hlen (by omega)
        rw [svn_dirent_join_length] at this
        push_cast at this
        omega

theorem opened_entries_mem (w : World)
    (oc : State → Path → Option (State × Except svn_error_t Nat)) (sub : Path → List Path)
    (wl : Bool) (lock : Nat) (path : Path)
    (hok : ∀ s p s1 c, oc s p = some (s1, .ok c) →
      Opened w s p wl s1 c ∧ newPaths s1 s.nbatons s1.nbatons = sub p)
    (herr : ∀ s p s1 err, oc s p = some (s1, .error err) →
      err.apr_err = .SVN_ERR_WC_NOT_DIRECTORY → notWorkingCopyDir w p ∧ s1 = s)
    (entries : List svn_wc_entry_t) :
    ∀ (s s1 : State), do_open_entries w oc lock path entries s = some (s1, none) →
      ∀ e, e ∈ entries → qualifies e → ¬ notWorkingCopyDir w (svn_dirent_join path e.name) →
        svn_dirent_join path e.name ∈ openedBelow w sub path entries := by
  induction entries with
  | nil => intro s s1 _ e he; cases he
  | cons entry rest ih =>
    intro s s1 hd e he hq hg
    have hrest : ∀ s4, do_open_entries w oc lock path rest s4 = some (s1, none) →
        e ∈ rest → svn_dirent_join path e.name ∈ openedBelow w sub path (entry :: rest) := by
      intro s4 hrec hm
      rw [openedBelow]
      exact List.mem_append_right _ (ih s4 s1 hrec e hm hq hg)
    rcases do_open_entries_cases w oc lock path entry rest s s1 _ hd with
      ⟨s2, err, e2, _, _, hx⟩ | ⟨s2, hc, hnq, hrec⟩ |
      ⟨s2, s3, child, sh1, s4, hc, hq1, ho, _, hj, hrec⟩ |
      ⟨s2, s3, err, e3, _, _, _, _, _, hx⟩ | ⟨s2, s3, err, sh1, s4, hc, _, ho, hn, _, ha, hrec⟩
    · cases hx
    · rcases List.mem_cons.1 he with heq | hm
      · rw [heq] at hq; exact absurd hq hnq
      · exact hrest s2 hrec hm
    · rcases List.mem_cons.1 he with heq | hm
      · obtain ⟨hop, hsub⟩ := hok _ _ _ _ ho
        rw [heq, openedBelow, if_pos ⟨hq1, hop.gate⟩, ← hsub]
        refine List.mem_append_left _ ?_
        have hlt := hop.nbatons
        rw [newPaths_append s3 s2.nbatons (s2.nbatons + 1) s3.nbatons (by omega) (by omega),
          newPaths_one, ← hop.lock_eq, hop.path_eq]
        exact List.mem_append_left _ (List.mem_singleton.2 rfl)
      · exact hrest s4 hrec hm
    · cases hx
    · rcases List.mem_cons.1 he with heq | hm
      · rw [heq] at hg
        exact absurd (herr _ _ _ _ ho hn).1 hg
      · exact hrest s4 hrec hm

theorem do_open_children_opened (w : World) (fuel : Nat) (s : State) (path : Path)
    (wl : Bool) (lv : Int) (s1 : State) (lock : Nat)
    (h : do_open w fuel s path wl lv = some (s1, .ok lock)) (hlv : lv ≠ 0) :
    ∀ e, e ∈ entriesOf w path → qualifies e →
      ¬ notWorkingCopyDir w (svn_dirent_join path e.name) →
      svn_dirent_join path e.name ∈ newPaths s1 s.nbatons s1.nbatons := by
  rw [do_open_paths w fuel s path wl lv s1 lock h]
  cases fuel with
  | zero => rw [do_open_zero] at h; cases h
  | succ fuel =>
    rcases do_open_cases w fuel s path wl lv s1 _ h with
      ⟨_, _, hx⟩ | ⟨_, s2, lock1, err, _, _, hx⟩ | ⟨_, s2, lock1, err, _, _, _, _, hx⟩ |
      ⟨_, s2, lock1, _, _, h0, _, _⟩ | ⟨_, s2, lock1, code, _, _, _, _, _, hx⟩ |
      ⟨_, s2, lock1, entries, err, _, _, _, _, _, hx⟩ |
      ⟨_, s2, lock1, entries, s3, _, _, _, hr, hd, _, _⟩
    · cases hx
    · cases hx
    · cases hx
    · exact absurd h0 hlv
    · cases hx
    · cases hx
    · have hent : entriesOf w path = entries := by
        unfold entriesOf
        rw [hr]
      intro e he hq hg
      rw [hent] at he
      rw [openedTree, if_neg hlv, hent]
      refine List.mem_cons_of_mem _ ?_
      exact opened_entries_mem w _ (fun p => openedTree w fuel p (childLevels lv)) wl lock1 path
        (fun s4 p s5 c h5 =>
          ⟨do_open_opened w fuel s4 p wl _ s5 c h5, do_open_paths w fuel s4 p wl _ s5 c h5⟩)
        (fun s4 p s5 err h5 hn => do_open_not_directory w fuel s4 p wl _ s5 err h5 hn)
        entries _ s3 hd e he hq hg

/-! ## The claims on the access batons -/

/-- C13: after a successful `do_open` of `path` with `write_lock = TRUE` the
lock file of `path` is there; and every further `do_open` of `path` with
`write_lock = TRUE`, from any state in which a node is at that lock file and
with any fuel that lets it run, returns the error `SVN_ERR_WC_LOCKED`, which is
not `SVN_ERR_WC_NOT_DIRECTORY`: the state it leaves has one more baton, whose
`lock_exists` is false, and the same older batons and the same lock files. -/
theorem do_open_write_lock_once (w : World) (fuel : Nat) (s : State) (path : Path)
    (levels_to_lock : Int) (s1 : State) (lock : Nat)
    (h : do_open w fuel s path true levels_to_lock = some (s1, .ok lock)) :
    s1.lock_node path = .svn_node_file ∧
    ∀ (s2 : State) (fuel2 : Nat) (levels2 : Int), s2.lock_node path ≠ .svn_node_none →
      do_open w (fuel2 + 1) s2 path true levels2 =
        some (s2.allocBaton ⟨0, path, .svn_wc__adm_access_write_lock, false, none, false⟩,
          .error ⟨.SVN_ERR_WC_LOCKED, .working_copy_locked, path⟩) ∧
      apr_status_t.SVN_ERR_WC_LOCKED ≠ apr_status_t.SVN_ERR_WC_NOT_DIRECTORY ∧
      ((s2.allocBaton ⟨0, path, .svn_wc__adm_access_write_lock, false, none, false⟩).batons
        s2.nbatons).lock_exists = false ∧
      (∀ q, q < s2.nbatons →
        (s2.allocBaton ⟨0, path, .svn_wc__adm_access_write_lock, false, none, false⟩).batons q
          = s2.batons q) ∧
      (s2.allocBaton ⟨0, path, .svn_wc__adm_access_write_lock, false, none, false⟩).lock_node
        = s2.lock_node := by
  have ho := do_open_opened w fuel s path true levels_to_lock s1 lock h
  refine ⟨ho.lock_file rfl, fun s2 fuel2 levels2 hl => ?_⟩
  refine ⟨do_open_locked w fuel2 s2 path levels2 ho.gate hl, fun hh => (by cases hh), ?_,
    fun q hq => ?_, rfl⟩
  · simp only [allocBaton_batons, if_pos]
  · simp only [allocBaton_batons, if_neg (Nat.ne_of_lt hq)]

theorem do_open_write_lock_once_witness :
    do_open sampleWorld 3 emptyState ["wc"] true 0
      = some (stateOf (do_open sampleWorld 3 emptyState ["wc"] true 0), .ok 0) ∧
    (stateOf (do_open sampleWorld 3 emptyState ["wc"] true 0)).lock_node ["wc"]
      ≠ .svn_node_none ∧
    do_open sampleWorld 1 (stateOf (do_open sampleWorld 3 emptyState ["wc"] true 0)) ["wc"]
        true 0 =
      some ((stateOf (do_open sampleWorld 3 emptyState ["wc"] true 0)).allocBaton
          ⟨0, ["wc"], .svn_wc__adm_access_write_lock, false, none, false⟩,
        .error ⟨.SVN_ERR_WC_LOCKED, .working_copy_locked, ["wc"]⟩) :=
  ⟨rfl, by decide,
    ((do_open_write_lock_once sampleWorld 3 emptyState ["wc"] 0 _ 0 rfl).2
      (stateOf (do_open sampleWorld 3 emptyState ["wc"] true 0)) 0 0 (by decide)).1⟩

/-- C14: `svn_wc__adm_write_check` returns no error exactly when the type of
the baton is write-lock and, if `lock_exists` is set, the probe of the lock
file finds a file; for a baton that is unlocked or closed it returns
`SVN_ERR_WC_NOT_LOCKED` with the message that there is no write lock; for a
write-locked baton with `lock_exists` set whose lock file is absent it returns
`SVN_ERR_WC_NOT_LOCKED` with the other message, that the write lock was
stolen. -/
theorem adm_write_check_spec (w : World) (s : State) (adm_access : Nat) :
    (svn_wc__adm_write_check w s adm_access = none ↔
      (s.batons adm_access).type = .svn_wc__adm_access_write_lock ∧
        ((s.batons adm_access).lock_exists = true →
          svn_io_check_path_lock w s (s.batons adm_access).path = .ok .svn_node_file)) ∧
    ((s.batons adm_access).type ≠ .svn_wc__adm_access_write_lock →
      svn_wc__adm_write_check w s adm_access =
        some ⟨.SVN_ERR_WC_NOT_LOCKED, .no_write_lock, (s.batons adm_access).path⟩) ∧
    ((s.batons adm_access).type = .svn_wc__adm_access_write_lock →
      (s.batons adm_access).lock_exists = true →
      svn_io_check_path_lock w s (s.batons adm_access).path = .ok .svn_node_none →
      svn_wc__adm_write_check w s adm_access =
        some ⟨.SVN_ERR_WC_NOT_LOCKED, .write_lock_stolen, (s.batons adm_access).path⟩) := by
  refine ⟨?_, ?_, ?_⟩
  · unfold svn_wc__adm_write_check svn_wc_locked
    by_cases ht : (s.batons adm_access).type = .svn_wc__adm_access_write_lock
    · by_cases hl : (s.batons adm_access).lock_exists = true
      · simp only [ht, hl, if_true, true_and, forall_const]
        cases hc : svn_io_check_path_lock w s (s.batons adm_access).path with
        | error e => simp
        | ok kind =>
          by_cases hk : kind = .svn_node_file
          · simp [hk]
          · by_cases hn : kind = .svn_node_none
            · simp [hn]
            · simp [hk, hn]
      · simp [ht, hl]
    · simp [ht]
  · intro ht
    unfold svn_wc__adm_write_check
    rw [if_neg ht]
  · intro ht hl hc
    unfold svn_wc__adm_write_check svn_wc_locked
    rw [if_pos ht, if_pos hl, hc]
    simp

theorem adm_write_check_spec_witness :
    (emptyState.batons 0).type ≠ .svn_wc__adm_access_write_lock ∧
    svn_wc__adm_write_check sampleWorld emptyState 0 =
      some ⟨.SVN_ERR_WC_NOT_LOCKED, .no_write_lock, []⟩ ∧
    svn_wc__adm_write_check sampleWorld
      ((stateOf (do_open sampleWorld 3 emptyState ["wc"] true 0)).setLockNode ["wc"]
        .svn_node_none) 0 =
      some ⟨.SVN_ERR_WC_NOT_LOCKED, .write_lock_stolen, ["wc"]⟩ :=
  ⟨by decide, (adm_write_check_spec sampleWorld emptyState 0).2.1 (by decide),
    (adm_write_check_spec sampleWorld
      ((stateOf (do_open sampleWorld 3 emptyState ["wc"] true 0)).setLockNode ["wc"]
        .svn_node_none) 0).2.2 (by decide) (by decide) (by decide)⟩

/-- C15, as stated, fails: `do_close` with `preserve_lock = TRUE` on the
write-locked baton that `do_open` has made for `wc` returns without error and
leaves the baton closed with `lock_exists` still set. -/
theorem lock_flag_after_preserving_close :
    ((do_open sampleWorld 3 emptyState ["wc"] true 0).bind (fun r =>
      (do_close sampleWorld r.1 0 true false).map (fun x =>
        (x.2, (x.1.batons 0).type, (x.1.batons 0).lock_exists))))
      = some (none, .svn_wc__adm_access_closed, true) := by
  decide

/-- C15, amended: in every state reached from an initial state through
`adm_access_alloc`, `do_open`, `svn_wc__adm_steal_write_lock`,
`svn_wc__adm_pre_open` and `do_close` with `preserve_lock = FALSE`, every baton
whose `lock_exists` is set has the type write-lock. -/
theorem reachable_lock_flag (w : World) (s : State) (h : Reachable w s) (q : Nat)
    (hq : (s.batons q).lock_exists = true) :
    (s.batons q).type = .svn_wc__adm_access_write_lock :=
  LockFlagOK.reachable w s h q hq

theorem reachable_lock_flag_witness :
    ((svn_wc__adm_steal_write_lock sampleWorld
        (stateOf (do_open sampleWorld 3 emptyState ["wc"] true 0)) ["wc"]).1.batons
      1).lock_exists = true ∧
    ((svn_wc__adm_steal_write_lock sampleWorld
        (stateOf (do_open sampleWorld 3 emptyState ["wc"] true 0)) ["wc"]).1.batons
      1).type = .svn_wc__adm_access_write_lock :=
  ⟨by decide,
    reachable_lock_flag sampleWorld _
      (Reachable.steal _ ["wc"]
        (Reachable.opened emptyState 3 ["wc"] true 0 _ (.ok 0)
          (Reachable.init (fun _ => .svn_node_none)) rfl)) 1 (by decide)⟩

/-- C16 fails on the code: when reading the entries of `wc` fails, `do_open`
for writing returns that error and leaves the baton it has made write-locked
and the lock file of `wc` on disk; when the format of the subdirectory `wc/a`
is refused, `do_open` of `wc` returns that error with the baton of `wc` closed
and its lock file removed, but the baton of `wc/a` is left write-locked and its
lock file on disk.  When the cancellation function fails, the baton made so far
is closed and its lock file removed. -/
theorem do_open_leaves_lock_on_failure :
    ((do_open unreadableWorld 3 emptyState ["wc"] true 1).map Prod.snd
        = some (.error (ioError 5 ["wc"])) ∧
      (stateOf (do_open unreadableWorld 3 emptyState ["wc"] true 1)).nbatons = 1 ∧
      ((stateOf (do_open unreadableWorld 3 emptyState ["wc"] true 1)).batons 0).type
        = .svn_wc__adm_access_write_lock ∧
      ((stateOf (do_open unreadableWorld 3 emptyState ["wc"] true 1)).batons 0).lock_exists
        = true ∧
      (stateOf (do_open unreadableWorld 3 emptyState ["wc"] true 1)).lock_node ["wc"]
        = .svn_node_file) ∧
    ((do_open badFormatWorld 3 emptyState ["wc"] true 1).map Prod.snd
        = some (.error (ioError 22 ["wc", "a"])) ∧
      (stateOf (do_open badFormatWorld 3 emptyState ["wc"] true 1)).nbatons = 2 ∧
      ((stateOf (do_open badFormatWorld 3 emptyState ["wc"] true 1)).batons 0).type
        = .svn_wc__adm_access_closed ∧
      (stateOf (do_open badFormatWorld 3 emptyState ["wc"] true 1)).lock_node ["wc"]
        = .svn_node_none ∧
      ((stateOf (do_open badFormatWorld 3 emptyState ["wc"] true 1)).batons 1).path
        = ["wc", "a"] ∧
      ((stateOf (do_open badFormatWorld 3 emptyState ["wc"] true 1)).batons 1).type
        = .svn_wc__adm_access_write_lock ∧
      ((stateOf (do_open badFormatWorld 3 emptyState ["wc"] true 1)).batons 1).lock_exists
        = true ∧
      (stateOf (do_open badFormatWorld 3 emptyState ["wc"] true 1)).lock_node ["wc", "a"]
        = .svn_node_file) ∧
    ((do_open cancelWorld 3 emptyState ["wc"] true 1).map Prod.snd
        = some (.error (ioError 4 ["wc"])) ∧
      (stateOf (do_open cancelWorld 3 emptyState ["wc"] true 1)).nbatons = 1 ∧
      ((stateOf (do_open cancelWorld 3 emptyState ["wc"] true 1)).batons 0).type
        = .svn_wc__adm_access_closed ∧
      (stateOf (do_open cancelWorld 3 emptyState ["wc"] true 1)).lock_node ["wc"]
        = .svn_node_none) := by
  refine ⟨⟨?_, ?_, ?_, ?_, ?_⟩, ⟨?_, ?_, ?_, ?_, ?_, ?_, ?_, ?_⟩, ⟨?_, ?_, ?_, ?_⟩⟩ <;> decide

/-- C20, as stated, fails: when the lock file of `wc` cannot be removed and the
admin directory is there, `do_close` of the baton of `wc` returns the error
and leaves the baton write-locked and its path a key of the registry; and when
the close of the descendant `wc/a` fails for that reason, `do_close` of the
baton of `wc` returns the error at once, with the same outcome. -/
theorem do_close_leaves_baton_open :
    ((do_open stuckRootWorld 3 emptyState ["wc"] true 1).bind (fun r =>
      (do_close stuckRootWorld r.1 0 false true).map (fun x =>
        (x.2, (x.1.batons 0).type, decide (registered x.1 0)))))
      = some (some (ioError 13 ["wc"]), .svn_wc__adm_access_write_lock, true) ∧
    ((do_open stuckWorld 3 emptyState ["wc"] true 1).bind (fun r =>
      (do_close stuckWorld r.1 0 false true).map (fun x =>
        (x.2, (x.1.batons 0).type, decide (registered x.1 0)))))
      = some (some (ioError 13 ["wc", "a"]), .svn_wc__adm_access_write_lock, true) := by
  decide

/-- C18, as stated, fails: `wc/b` is a versioned, non-excluded directory entry
of `wc`, one level below it, and the `do_open` of `wc` with the depth limit 1
succeeds, but it makes batons for `wc` and `wc/a` only: the directory `wc/b` is
no working copy on disk. -/
theorem do_open_skips_missing_directory :
    qualifies (dirEntry "b") ∧ dirEntry "b" ∈ entriesOf sampleWorld ["wc"] ∧
    (do_open sampleWorld 3 emptyState ["wc"] false 1).map Prod.snd = some (.ok 0) ∧
    newPaths (stateOf (do_open sampleWorld 3 emptyState ["wc"] false 1)) 0
      (stateOf (do_open sampleWorld 3 emptyState ["wc"] false 1)).nbatons
      = [["wc"], ["wc", "a"]] := by
  refine ⟨?_, ?_, ?_, ?_⟩ <;> decide

/-- C18, amended: a successful `do_open` of `path` with the depth limit
`levels_to_lock` makes batons for exactly the directories of `openedTree`, in
this order: the target and, below it, the versioned, non-excluded directory
entries that are working copies on disk, as deep as the limit allows.  Every
directory opened lies at or below the target and, when the limit is not
negative, at most that many levels below it; with the limit 0 only the target
is opened; with any other limit every such entry of the target is opened; and a
negative limit is passed on to the subdirectories as it is. -/
theorem do_open_opens_tree (w : World) (fuel : Nat) (s : State) (path : Path)
    (write_lock : Bool) (levels_to_lock : Int) (s1 : State) (lock : Nat)
    (h : do_open w fuel s path write_lock levels_to_lock = some (s1, .ok lock)) :
    newPaths s1 s.nbatons s1.nbatons = openedTree w fuel path levels_to_lock ∧
    (∀ p, p ∈ newPaths s1 s.nbatons s1.nbatons →
      path <+: p ∧ (0 ≤ levels_to_lock → (p.length : Int) ≤ path.length + levels_to_lock)) ∧
    (levels_to_lock = 0 → newPaths s1 s.nbatons s1.nbatons = [path]) ∧
    (levels_to_lock ≠ 0 → ∀ e, e ∈ entriesOf w path → qualifies e →
      ¬ notWorkingCopyDir w (svn_dirent_join path e.name) →
      svn_dirent_join path e.name ∈ newPaths s1 s.nbatons s1.nbatons) ∧
    (∀ (fuel2 : Nat) (p : Path) (d : Int), d < 0 →
      openedTree w (fuel2 + 1) p d =
        p :: openedBelow w (fun q => openedTree w fuel2 q d) p (entriesOf w p)) := by
  have hpaths := do_open_paths w fuel s path write_lock levels_to_lock s1 lock h
  refine ⟨hpaths, ?_, ?_, ?_, ?_⟩
  · intro p hp
    rw [hpaths] at hp
    exact openedTree_depth w fuel path levels_to_lock p hp
  · intro h0
    rw [hpaths]
    cases fuel with
    | zero => rw [do_open_zero] at h; cases h
    | succ fuel => rw [openedTree, if_pos h0]
  · exact do_open_children_opened w fuel s path write_lock levels_to_lock s1 lock h
  · intro fuel2 p d hd
    rw [openedTree, if_neg (by omega)]
    have hnot : ¬ d > 0 := by omega
    simp only [if_neg hnot]

theorem do_open_opens_tree_witness :
    do_open sampleWorld 3 emptyState ["wc"] false 1
      = some (stateOf (do_open sampleWorld 3 emptyState ["wc"] false 1), .ok 0) ∧
    newPaths (stateOf (do_open sampleWorld 3 emptyState ["wc"] false 1)) 0
      (stateOf (do_open sampleWorld 3 emptyState ["wc"] false 1)).nbatons
      = [["wc"], ["wc", "a"]] ∧
    openedTree sampleWorld 3 ["wc"] 1 = [["wc"], ["wc", "a"]] ∧
    openedTree sampleWorld 3 ["wc"] (-1) = [["wc"], ["wc", "a"], ["wc", "a", "x"]] ∧
    openedTree sampleWorld 3 ["wc"] 0 = [["wc"]] :=
  ⟨rfl,
    ((do_open_opens_tree sampleWorld 3 emptyState ["wc"] false 1 _ 0 rfl).1).trans
      (by decide),
    by decide, by decide, by decide⟩

/-- C19: let `do_open` of a root directory succeed, and let no removal of a
lock file and no close of a database fail.  Then `svn_wc_adm_close2` of the
root baton returns without error, the root baton and every baton that its
registry lists are closed, the registry has no key left, and
`svn_wc__db_close` has not been called; and when a database handle was opened
before with `svn_wc__adm_get_db` for the root baton or for a baton that the
registry lists, the same holds except that `svn_wc__db_close` has been called
once, with that handle. -/
theorem adm_close2_closes_registry (w : World) (fuel : Nat) (s : State) (path : Path)
    (write_lock : Bool) (levels_to_lock : Int) (s1 : State) (lock : Nat)
    (h : do_open w fuel s path write_lock levels_to_lock = some (s1, .ok lock))
    (hrm : ∀ p, w.lock_remove_fault p = none) (hdbc : ∀ d, w.svn_wc__db_close d = none) :
    (∃ s3, svn_wc_adm_close2 w s1 lock = some (s3, none) ∧
      (s3.batons lock).type = .svn_wc__adm_access_closed ∧
      (∀ sh ht k q, (s1.batons lock).shared = some sh → (s1.shareds sh).set = some ht →
        (k, SetItem.baton q) ∈ ht → (s3.batons q).type = .svn_wc__adm_access_closed) ∧
      registryKeys s3 lock = [] ∧ s3.db_closed = s1.db_closed) ∧
    (∀ a s2 db,
      (a = lock ∨ ∃ sh ht k, (s1.batons lock).shared = some sh ∧
        (s1.shareds sh).set = some ht ∧ (k, SetItem.baton a) ∈ ht) →
      svn_wc__adm_get_db w s1 a = some (s2, .ok db) →
      ∃ s3, svn_wc_adm_close2 w s2 lock = some (s3, none) ∧
        (s3.batons lock).type = .svn_wc__adm_access_closed ∧
        (∀ sh ht k q, (s2.batons lock).shared = some sh → (s2.shareds sh).set = some ht →
          (k, SetItem.baton q) ∈ ht → (s3.batons q).type = .svn_wc__adm_access_closed) ∧
        (∀ sh ht k q, (s1.batons lock).shared = some sh → (s1.shareds sh).set = some ht →
          (k, SetItem.baton q) ∈ ht → (s3.batons q).type = .svn_wc__adm_access_closed) ∧
        registryKeys s3 lock = [] ∧ s3.db_closed = db :: s2.db_closed) := by
  have ho := do_open_opened w fuel s path write_lock levels_to_lock s1 lock h
  have hkeys : ∀ (s3 : State) (sh : Nat), (s3.batons lock).shared = some sh →
      (s3.shareds sh).set = some [] → registryKeys s3 lock = [] := by
    intro s3 sh h1 h2
    unfold registryKeys
    rw [h1]
    simp only
    rw [h2]
    rfl
  constructor
  · cases hsh : (s1.batons lock).shared with
    | none =>
      obtain ⟨s3, hcl, hty, hsh3, hdb3⟩ := close_single w s1 lock write_lock hrm hsh
        (ho.unregistered hsh) ho.type ho.lock_exists
        (fun hw => by rw [ho.path_eq]; exact ho.lock_file hw)
      refine ⟨s3, hcl, hty, fun sh ht k q h1 => (by cases h1), ?_, hdb3⟩
      unfold registryKeys
      rw [hsh3]
    | some sh =>
      obtain ⟨_, _, hdb, hreg⟩ := ho.registry sh hsh
      obtain ⟨ht, hset, hnd, hroot, hitems⟩ := id hreg
      obtain ⟨s3, hcl, hclosed, hsh3, hset3, hdb3⟩ :=
        close_registry w s1 s.nbatons path lock sh write_lock ht hrm hdbc hreg hsh hset
      refine ⟨s3, hcl, hclosed path lock hroot, ?_, hkeys s3 sh hsh3 hset3, ?_⟩
      · intro sh1 ht1 k q h1 h2 hm
        simp only [Option.some.injEq] at h1
        subst h1
        rw [hset] at h2
        simp only [Option.some.injEq] at h2
        subst h2
        exact hclosed k q hm
      · rw [hdb3, hdb]
        rfl
  · intro a s2 db ha hg
    obtain ⟨sh, ht, hsh, hset, hdb, hreg, _, hsame⟩ :=
      get_db_registry w s path write_lock s1 lock a s2 db ho ha hg
    obtain ⟨ht0, hset0, hnd, hroot, hitems⟩ := id hreg
    rw [hset] at hset0
    cases hset0
    obtain ⟨s3, hcl, hclosed, hsh3, hset3, hdb3⟩ :=
      close_registry w s2 s.nbatons path lock sh write_lock ht hrm hdbc hreg hsh hset
    refine ⟨s3, hcl, hclosed path lock hroot, ?_, ?_, hkeys s3 sh hsh3 hset3, ?_⟩
    · intro sh1 ht1 k q h1 h2 hm
      rw [hsh] at h1
      simp only [Option.some.injEq] at h1
      subst h1
      rw [hset] at h2
      simp only [Option.some.injEq] at h2
      subst h2
      exact hclosed k q hm
    · intro sh1 ht1 k q h1 h2 hm
      obtain ⟨_, he⟩ := hsame sh1 ht1 h1 h2
      rw [he] at hm
      exact hclosed k q hm
    · rw [hdb3, hdb]
      rfl

theorem adm_close2_closes_registry_witness :
    do_open sampleWorld 3 emptyState ["wc"] true (-1)
      = some (stateOf (do_open sampleWorld 3 emptyState ["wc"] true (-1)), .ok 0) ∧
    svn_wc__adm_get_db sampleWorld (stateOf (do_open sampleWorld 3 emptyState ["wc"] true (-1))) 0
      = some (stateOf (svn_wc__adm_get_db sampleWorld
          (stateOf (do_open sampleWorld 3 emptyState ["wc"] true (-1))) 0), .ok 0) ∧
    (svn_wc_adm_close2 sampleWorld (stateOf (svn_wc__adm_get_db sampleWorld
      (stateOf (do_open sampleWorld 3 emptyState ["wc"] true (-1))) 0)) 0).map Prod.snd
      = some none ∧
    (stateOf (svn_wc_adm_close2 sampleWorld (stateOf (svn_wc__adm_get_db sampleWorld
      (stateOf (do_open sampleWorld 3 emptyState ["wc"] true (-1))) 0)) 0)).db_closed = [0] ∧
    ((stateOf (svn_wc_adm_close2 sampleWorld (stateOf (svn_wc__adm_get_db sampleWorld
      (stateOf (do_open sampleWorld 3 emptyState ["wc"] true (-1))) 0)) 0)).batons 2).type
        = .svn_wc__adm_access_closed :=
  have hopen : do_open sampleWorld 3 emptyState ["wc"] true (-1)
      = some (stateOf (do_open sampleWorld 3 emptyState ["wc"] true (-1)), .ok 0) := rfl
  have hdb : svn_wc__adm_get_db sampleWorld
      (stateOf (do_open sampleWorld 3 emptyState ["wc"] true (-1))) 0
      = some (stateOf (svn_wc__adm_get_db sampleWorld
          (stateOf (do_open sampleWorld 3 emptyState ["wc"] true (-1))) 0), .ok 0) := rfl
  ⟨hopen, hdb,
    ((adm_close2_closes_registry sampleWorld 3 emptyState ["wc"] true (-1) _ 0 hopen
      (fun _ => rfl) (fun _ => rfl)).2 0 _ 0 (Or.inl rfl) hdb).elim
      (fun s3 h3 => by rw [h3.1]; rfl),
    by decide, by decide⟩

/-! ## What the operations keep of the batons -/

theorem kept_refl (s : State) : Kept s s :=
  ⟨le_refl _, fun _ _ => rfl, fun _ _ h => h⟩

theorem kept_trans (s s1 s2 : State) (h1 : Kept s s1) (h2 : Kept s1 s2) : Kept s s2 :=
  ⟨le_trans h1.nbatons h2.nbatons,
    fun q hq => by rw [h2.path q (lt_of_lt_of_le hq h1.nbatons), h1.path q hq],
    fun q hq hc => h2.closed q (lt_of_lt_of_le hq h1.nbatons) (h1.closed q hq hc)⟩

theorem kept_of_all (s s1 : State) (hn : s1.nbatons = s.nbatons)
    (hp : ∀ q, (s1.batons q).path = (s.batons q).path)
    (hc : ∀ q, (s.batons q).type = .svn_wc__adm_access_closed →
      (s1.batons q).type = .svn_wc__adm_access_closed) : Kept s s1 :=
  ⟨le_of_eq hn.symm, fun q _ => hp q, fun q _ h => hc q h⟩

theorem kept_of_step (s s1 : State) (h : RegistryStep s s1) : Kept s s1 :=
  kept_of_all s s1 h.nbatons h.path (fun q hq => by rw [h.type q]; exact hq)

theorem kept_of_batons (s s1 : State) (hn : s1.nbatons = s.nbatons)
    (hb : s1.batons = s.batons) : Kept s s1 :=
  kept_of_all s s1 hn (fun q => by rw [hb]) (fun q hq => by rw [hb]; exact hq)

theorem kept_alloc (w : World) (s : State) (type : svn_wc__adm_access_type)
    (path : Path) (s1 : State) (lock : Nat) (e : Option svn_error_t)
    (h : adm_access_alloc w s type path = (s1, lock, e)) : Kept s s1 := by
  obtain ⟨_, hn, hoth, _⟩ := adm_access_alloc_frame w s type path s1 lock e h
  refine ⟨by omega, fun q hq => ?_, fun q hq hc => ?_⟩
  · rw [hoth q (by omega)]
  · rw [hoth q (by omega)]; exact hc

theorem kept_setFormat (s : State) (p : Nat) (v : Int) : Kept s (s.setFormat p v) :=
  kept_of_all _ _ (by simp) (fun q => by simp) (fun q hq => by simpa using hq)

theorem kept_setLockExists (s : State) (p : Nat) (v : Bool) : Kept s (s.setLockExists p v) :=
  kept_of_all _ _ (by simp) (fun q => by simp) (fun q hq => by simpa using hq)

theorem kept_setLockNode (s : State) (p : Path) (v : svn_node_kind_t) :
    Kept s (s.setLockNode p v) :=
  kept_of_batons _ _ (by simp) (by simp)

theorem kept_registerCleanup (s : State) (p : Nat) : Kept s (s.registerCleanup p) :=
  kept_of_batons _ _ rfl rfl

theorem kept_setClosed (s : State) (a : Nat) :
    Kept s (s.setType a .svn_wc__adm_access_closed) := by
  refine kept_of_all _ _ (by simp) (fun q => by simp) (fun q hq => ?_)
  simp only [setType_type]
  by_cases hqa : q = a
  · rw [if_pos hqa]
  · rw [if_neg hqa]; exact hq

theorem kept_unlock (w : World) (s : State) (a : Nat) (pl : Bool) (s1 : State)
    (e : Option svn_error_t) (h : do_close_unlock w s a pl = (s1, e)) : Kept s s1 := by
  rcases do_close_unlock_cases w s a pl s1 e h with
    ⟨h1, _, _⟩ | ⟨h1, _, _⟩ | ⟨_, _, _, _, h1 | ⟨_, h1⟩⟩
  · rw [h1]; exact kept_refl s
  · rw [h1]; exact kept_refl s
  · rw [h1]; exact kept_setLockExists _ _ _
  · rw [h1]
    exact kept_trans _ _ _ (kept_setLockNode _ _ _) (kept_setLockExists _ _ _)

theorem kept_detached (s : State) (a : Nat) : Kept s (detached s a) := by
  rcases detached_cases s a with h | ⟨sh, v, h⟩
  · rw [h]; exact kept_setClosed s a
  · rw [h]
    exact kept_trans _ _ _ (kept_setClosed s a) (kept_of_step _ _ (RegistryStep.setSet _ _ _))

theorem kept_finish (w : World) (s : State) (a : Nat) (s1 : State)
    (e : Option svn_error_t) (h : do_close_finish w s a = some (s1, e)) : Kept s s1 := by
  rcases do_close_finish_cases w s a s1 e h with ⟨h1, _⟩ | h1
  · rw [h1]; exact kept_detached s a
  · obtain ⟨hb, _, hn, _⟩ := do_close_db_cases w _ a s1 e h1
    exact kept_trans _ _ _ (kept_detached s a) (kept_of_batons _ _ hn hb)

theorem kept_norecurse (w : World) (s : State) (a : Nat) (pl : Bool) (s1 : State)
    (e : Option svn_error_t) (h : do_close_norecurse w s a pl = some (s1, e)) : Kept s s1 := by
  rcases do_close_norecurse_cases w s a pl s1 e h with
    ⟨_, h1, _⟩ | ⟨_, err, hu, _⟩ | ⟨_, s2, hu, hf⟩
  · rw [h1]; exact kept_refl s
  · exact kept_unlock w s a pl s1 _ hu
  · exact kept_trans _ _ _ (kept_unlock w s a pl s2 _ hu) (kept_finish w s2 a s1 e hf)

theorem kept_children (w : World) (a : Nat) (pl : Bool) (items : List (Path × SetItem)) :
    ∀ (s s1 : State) (e : Option svn_error_t),
      do_close_children w a pl items s = some (s1, e) → Kept s s1 := by
  induction items with
  | nil =>
    intro s s1 e h
    rw [do_close_children] at h
    simp only [Option.some.injEq, Prod.mk.injEq] at h
    rw [← h.1]; exact kept_refl s
  | cons kv rest ih =>
    intro s s1 e h
    obtain ⟨path, item⟩ := kv
    cases item with
    | missing =>
      rw [do_close_children] at h
      cases hsh : (s.batons a).shared with
      | none => rw [hsh] at h; cases h
      | some sh =>
        rw [hsh] at h
        simp only at h
        cases hset : (s.shareds sh).set with
        | none => rw [hset] at h; cases h
        | some ht =>
          rw [hset] at h
          exact kept_trans _ _ _ (kept_of_step _ _ (RegistryStep.setSet _ _ _)) (ih _ s1 e h)
    | baton child =>
      rw [do_close_children] at h
      by_cases hc : svn_dirent_is_ancestor (s.batons a).path path = false
          ∨ (s.batons a).path = path
      · rw [if_pos hc] at h
        exact ih s s1 e h
      · rw [if_neg hc] at h
        cases hn : do_close_norecurse w s child pl with
        | none => rw [hn] at h; cases h
        | some res =>
          rcases res with ⟨s2, e2⟩
          rw [hn] at h
          have h2 := kept_norecurse w s child pl s2 e2 hn
          cases e2 with
          | some err =>
            simp only [Option.some.injEq, Prod.mk.injEq] at h
            rw [← h.1]; exact h2
          | none => exact kept_trans _ _ _ h2 (ih s2 s1 e h)

theorem kept_descendants (w : World) (s : State) (a : Nat) (pl recurse : Bool) (s1 : State)
    (e : Option svn_error_t) (h : do_close_descendants w s a pl recurse = some (s1, e)) :
    Kept s s1 := by
  unfold do_close_descendants at h
  by_cases hr : recurse = true
  · rw [if_pos hr] at h
    cases hsh : (s.batons a).shared with
    | none =>
      rw [hsh] at h
      simp only [Option.some.injEq, Prod.mk.injEq] at h
      rw [← h.1]; exact kept_refl s
    | some sh =>
      rw [hsh] at h
      simp only at h
      cases hset : (s.shareds sh).set with
      | none =>
        rw [hset] at h
        simp only [Option.some.injEq, Prod.mk.injEq] at h
        rw [← h.1]; exact kept_refl s
      | some ht =>
        rw [hset] at h
        exact kept_children w a pl _ s s1 e h
  · rw [if_neg hr] at h
    simp only [Option.some.injEq, Prod.mk.injEq] at h
    rw [← h.1]; exact kept_refl s

theorem kept_close (w : World) (s : State) (a : Nat) (pl recurse : Bool) (s1 : State)
    (e : Option svn_error_t) (h : do_close w s a pl recurse = some (s1, e)) : Kept s s1 := by
  rcases do_close_cases w s a pl recurse s1 e h with ⟨_, h1, _⟩ | ⟨_, s2, e2, hd, hrest⟩
  · rw [h1]; exact kept_refl s
  · have h2 := kept_descendants w s a pl recurse s2 e2 hd
    rcases hrest with ⟨err, _, h1, _⟩ | ⟨_, hn, _⟩ | ⟨_, _, ⟨err, hu, _⟩ | ⟨s3, hu, hf⟩⟩
    · rw [h1]; exact h2
    · exact kept_trans _ _ _ h2 (kept_norecurse w s2 a pl s1 e hn)
    · exact kept_trans _ _ _ h2 (kept_unlock w s2 a pl s1 _ hu)
    · exact kept_trans _ _ _ h2
        (kept_trans _ _ _ (kept_unlock w s2 a pl s3 _ hu) (kept_finish w s3 a s1 e hf))

theorem kept_close2 (w : World) (s : State) (a : Nat) (s1 : State)
    (e : Option svn_error_t) (h : svn_wc_adm_close2 w s a = some (s1, e)) : Kept s s1 :=
  kept_close w s a false true s1 e h

theorem kept_loop (w : World)
    (oc : State → Path → Option (State × Except svn_error_t Nat))
    (hoc : ∀ s p s1 r, oc s p = some (s1, r) → Kept s s1)
    (lock : Nat) (path : Path) (entries : List svn_wc_entry_t) :
    ∀ (s s1 : State) (e : Option svn_error_t),
      do_open_entries w oc lock path entries s = some (s1, e) → Kept s s1 := by
  induction entries with
  | nil =>
    intro s s1 e h
    rw [do_open_entries_nil] at h
    simp only [Option.some.injEq, Prod.mk.injEq] at h
    rw [← h.1]; exact kept_refl s
  | cons entry rest ih =>
    intro s s1 e h
    have hcan : ∀ s2 e2, cancel_check w s path = (s2, e2) → Kept s s2 :=
      fun s2 e2 hc => kept_of_step _ _ (cancel_check_spec w s path s2 e2 hc).2.2.2.1
    rcases do_open_entries_cases w oc lock path entry rest s s1 e h with
      ⟨s2, err, e2, hc, hcl, _⟩ | ⟨s2, hc, _, hrec⟩ | ⟨s2, s3, child, sh, s4, hc, _, ho, _, hj, hrec⟩ |
      ⟨s2, s3, err, e3, hc, _, ho, _, hcl, _⟩ | ⟨s2, s3, err, sh, s4, hc, _, ho, _, _, ha, hrec⟩
    · exact kept_trans _ _ _ (hcan s2 _ hc) (kept_close2 w s2 lock s1 e2 hcl)
    · exact kept_trans _ _ _ (hcan s2 _ hc) (ih s2 s1 e hrec)
    · exact kept_trans _ _ _ (hcan s2 _ hc) (kept_trans _ _ _ (hoc _ _ _ _ ho)
        (kept_trans _ _ _ (kept_of_step _ _ (join_batons_step s3 sh child s4 hj).1)
          (ih s4 s1 e hrec)))
    · exact kept_trans _ _ _ (hcan s2 _ hc) (kept_trans _ _ _ (hoc _ _ _ _ ho)
        (kept_close2 w s3 lock s1 e3 hcl))
    · obtain ⟨_, _, _, _, _, _, hstep, _, _⟩ := add_to_shared_spec _ _ _ _ _ ha
      exact kept_trans _ _ _ (hcan s2 _ hc) (kept_trans _ _ _ (hoc _ _ _ _ ho)
        (kept_trans _ _ _ (kept_of_step _ _ hstep) (ih s4 s1 e hrec)))

theorem kept_opened (w : World) (fuel : Nat) :
    ∀ (s : State) (path : Path) (write_lock : Bool) (levels_to_lock : Int) (s1 : State)
      (r : Except svn_error_t Nat),
      do_open w fuel s path write_lock levels_to_lock = some (s1, r) → Kept s s1 := by
  induction fuel with
  | zero => intro s path wl lv s1 r h; rw [do_open_zero] at h; cases h
  | succ fuel ih =>
    intro s path wl lv s1 r h
    have hfmt : ∀ s2 lock e, adm_access_alloc w s (openType wl) path = (s2, lock, e) →
        Kept s (s2.setFormat lock (w.svn_wc_check_wc path).2) :=
      fun s2 lock e hal => kept_trans _ _ _ (kept_alloc w s _ path s2 lock e hal)
        (kept_setFormat _ _ _)
    have hloop : ∀ s2 lock entries s3 e3,
        adm_access_alloc w s (openType wl) path = (s2, lock, none) →
        do_open_entries w (fun s4 p => do_open w fuel s4 p wl (childLevels lv)) lock path entries
          (if entries.length > 0
           then adm_ensure_set (s2.setFormat lock (w.svn_wc_check_wc path).2) lock
           else s2.setFormat lock (w.svn_wc_check_wc path).2) = some (s3, e3) →
        Kept s s3 := by
      intro s2 lock entries s3 e3 hal hd
      refine kept_trans _ _ _ ?_ (kept_loop w _ (fun s4 p s5 r5 h5 => ih s4 p wl _ s5 r5 h5)
        lock path entries _ s3 e3 hd)
      by_cases hlen : entries.length > 0
      · rw [if_pos hlen]
        exact kept_trans _ _ _ (hfmt s2 lock none hal) (kept_of_step _ _ (adm_ensure_set_step _ _))
      · rw [if_neg hlen]
        exact hfmt s2 lock none hal
    rcases do_open_cases w fuel s path wl lv s1 r h with
      ⟨_, h1, _⟩ | ⟨_, s2, lock, err, hal, h1, _⟩ | ⟨_, s2, lock, err, hal, _, _, h1, _⟩ |
      ⟨_, s2, lock, hal, _, _, h1, _⟩ | ⟨_, s2, lock, code, hal, _, _, _, h1, _⟩ |
      ⟨_, s2, lock, entries, err, hal, _, _, _, hd, _⟩ |
      ⟨_, s2, lock, entries, s3, hal, _, _, _, hd, h1, _⟩
    · rw [h1]; exact kept_refl s
    · rw [h1]; exact kept_alloc w s _ path s2 lock _ hal
    · rw [h1]; exact hfmt s2 lock _ hal
    · rw [h1]; exact kept_trans _ _ _ (hfmt s2 lock _ hal) (kept_registerCleanup _ _)
    · rw [h1]; exact hfmt s2 lock _ hal
    · exact hloop s2 lock entries s1 _ hal hd
    · rw [h1]
      exact kept_trans _ _ _ (hloop s2 lock entries s3 _ hal hd) (kept_registerCleanup _ _)

theorem kept_steal (w : World) (s : State) (path : Path) :
    Kept s (svn_wc__adm_steal_write_lock w s path).1 := by
  unfold svn_wc__adm_steal_write_lock
  rcases hal : adm_access_alloc w s .svn_wc__adm_access_write_lock path with ⟨s1, lock, e⟩
  have h1 := kept_alloc w s _ path s1 lock e hal
  have h2 : ∀ v, Kept s (s1.setFormat lock v) :=
    fun v => kept_trans _ _ _ h1 (kept_setFormat _ _ _)
  have h3 : ∀ v, Kept s ((s1.setLockExists lock true).setFormat lock v) :=
    fun v => kept_trans _ _ _ h1
      (kept_trans _ _ _ (kept_setLockExists _ _ _) (kept_setFormat _ _ _))
  simp only
  cases e with
  | none =>
    simp only
    cases (w.svn_wc_check_wc path).1 with
    | some code => exact h2 _
    | none =>
      simp only
      cases maybe_upgrade_format w (s1.setFormat lock (w.svn_wc_check_wc path).2) lock with
      | some e2 => exact h2 _
      | none => exact h2 _
  | some err =>
    simp only
    by_cases hl : err.apr_err = .SVN_ERR_WC_LOCKED
    · rw [if_pos hl]
      simp only
      cases (w.svn_wc_check_wc path).1 with
      | some code => exact h3 _
      | none =>
        simp only
        cases maybe_upgrade_format w
          ((s1.setLockExists lock true).setFormat lock (w.svn_wc_check_wc path).2) lock with
        | some e2 => exact h3 _
        | none => exact h3 _
    · rw [if_neg hl]
      exact h1

theorem kept_pre_open (w : World) (s : State) (path : Path) :
    Kept s (svn_wc__adm_pre_open w s path).1 := by
  unfold svn_wc__adm_pre_open
  rcases hal : adm_access_alloc w s .svn_wc__adm_access_write_lock path with ⟨s1, lock, e⟩
  have h1 := kept_alloc w s _ path s1 lock e hal
  cases e with
  | none =>
    show Kept s (s1.registerCleanup lock)
    exact kept_trans _ _ _ h1 (kept_registerCleanup _ _)
  | some err => exact h1

theorem kept_get_db (w : World) (s : State) (a : Nat) (s1 : State)
    (r : Except svn_error_t Nat) (h : svn_wc__adm_get_db w s a = some (s1, r)) :
    Kept s s1 := by
  have h0 : Kept s (adm_ensure_set s a) := kept_of_step _ _ (adm_ensure_set_step s a)
  unfold svn_wc__adm_get_db at h
  simp only at h
  cases hsh : ((adm_ensure_set s a).batons a).shared with
  | none => rw [hsh] at h; cases h
  | some sh =>
    rw [hsh] at h
    simp only at h
    cases hdb : ((adm_ensure_set s a).shareds sh).db with
    | some db =>
      rw [hdb] at h
      simp only [Option.some.injEq, Prod.mk.injEq] at h
      rw [← h.1]; exact h0
    | none =>
      rw [hdb] at h
      simp only at h
      cases ha : w.svn_dirent_get_absolute ((adm_ensure_set s a).batons a).path with
      | some code =>
        rw [ha] at h
        simp only [Option.some.injEq, Prod.mk.injEq] at h
        rw [← h.1]; exact h0
      | none =>
        rw [ha] at h
        simp only at h
        cases ho : w.svn_wc__db_open ((adm_ensure_set s a).batons a).path with
        | some code =>
          rw [ho] at h
          simp only [Option.some.injEq, Prod.mk.injEq] at h
          rw [← h.1]; exact h0
        | none =>
          rw [ho] at h
          simp only [Option.some.injEq, Prod.mk.injEq] at h
          rw [← h.1]
          exact kept_trans _ _ _ h0 (kept_of_batons _ _ rfl rfl)

theorem kept_join (s : State) (dst t : Nat) (s1 : State)
    (h : join_batons s dst t = some s1) : Kept s s1 :=
  kept_of_step _ _ (join_batons_step s dst t s1 h).1

theorem kept_ensure_set (s : State) (a : Nat) : Kept s (adm_ensure_set s a) :=
  kept_of_step _ _ (adm_ensure_set_step s a)

theorem kept_add_to_shared (s : State) (path : Path) (item : SetItem) (sh : Nat) (s1 : State)
    (h : add_to_shared s path item sh = some s1) : Kept s s1 := by
  obtain ⟨_, _, _, _, _, _, hstep, _, _⟩ := add_to_shared_spec _ _ _ _ _ h
  exact kept_of_step _ _ hstep

theorem kept_pool_cleanup (w : World) (s : State) (lock : Nat) (s1 : State)
    (r : Option apr_status_t) (h : pool_cleanup w s lock = some (s1, r)) : Kept s s1 := by
  unfold pool_cleanup at h
  by_cases hc : (s.batons lock).type = .svn_wc__adm_access_closed
  · rw [if_pos hc] at h
    simp only [Option.some.injEq, Prod.mk.injEq] at h
    rw [← h.1]; exact kept_refl s
  · rw [if_neg hc] at h
    cases hq : svn_wc__adm_is_cleanup_required w s lock with
    | error err =>
      rw [hq] at h
      simp only [Option.some.injEq, Prod.mk.injEq] at h
      rw [← h.1]; exact kept_refl s
    | ok cleanup =>
      rw [hq] at h
      simp only at h
      cases hd : do_close w s lock cleanup true with
      | none => rw [hd] at h; cases h
      | some res =>
        rcases res with ⟨s2, e2⟩
        rw [hd] at h
        have h2 := kept_close w s lock cleanup true s2 e2 hd
        cases e2 with
        | none =>
          simp only [Option.some.injEq, Prod.mk.injEq] at h
          rw [← h.1]; exact h2
        | some err =>
          simp only [Option.some.injEq, Prod.mk.injEq] at h
          rw [← h.1]; exact h2

/-! ## The composite opens -/

theorem kept_open3 (w : World) (fuel : Nat) (s : State) (associated : Option Nat)
    (path : Path) (wl : Bool) (lv : Int) (s1 : State) (r : Except svn_error_t Nat)
    (h : svn_wc_adm_open3 w fuel s associated path wl lv = some (s1, r)) : Kept s s1 := by
  unfold svn_wc_adm_open3 at h
  cases associated with
  | none => exact kept_opened w fuel s path wl lv s1 r h
  | some assoc =>
    simp only at h
    have h0 := kept_ensure_set s assoc
    cases hsh : ((adm_ensure_set s assoc).batons assoc).shared with
    | none => rw [hsh] at h; cases h
    | some sh =>
      rw [hsh] at h
      simp only at h
      cases hset : ((adm_ensure_set s assoc).shareds sh).set with
      | none => rw [hset] at h; cases h
      | some ht =>
        rw [hset] at h
        simp only at h
        have hopen : (match do_open w fuel (adm_ensure_set s assoc) path wl lv with
            | none => none
            | some (s2, .error err) => some (s2, Except.error err)
            | some (s2, .ok adm_access) =>
              match (s2.batons assoc).shared with
              | none => none
              | some shared2 =>
                match join_batons s2 shared2 adm_access with
                | none => none
                | some s3 => some (s3, Except.ok adm_access)) = some (s1, r) → Kept s s1 := by
          intro h
          cases ho : do_open w fuel (adm_ensure_set s assoc) path wl lv with
          | none => rw [ho] at h; cases h
          | some res =>
            rcases res with ⟨s2, r2⟩
            rw [ho] at h
            have h2 := kept_trans _ _ _ h0 (kept_opened w fuel _ path wl lv s2 r2 ho)
            cases r2 with
            | error err =>
              simp only [Option.some.injEq, Prod.mk.injEq] at h
              rw [← h.1]; exact h2
            | ok a =>
              simp only at h
              cases hsh2 : (s2.batons assoc).shared with
              | none => rw [hsh2] at h; cases h
              | some sh2 =>
                rw [hsh2] at h
                simp only at h
                cases hj : join_batons s2 sh2 a with
                | none => rw [hj] at h; cases h
                | some s3 =>
                  rw [hj] at h
                  simp only [Option.some.injEq, Prod.mk.injEq] at h
                  rw [← h.1]
                  exact kept_trans _ _ _ h2 (kept_join s2 sh2 a s3 hj)
        cases hg : apr_hash_get ht path with
        | none => rw [hg] at h; exact hopen h
        | some item =>
          rw [hg] at h
          cases item with
          | missing => exact hopen h
          | baton q =>
            simp only [Option.some.injEq, Prod.mk.injEq] at h
            rw [← h.1]; exact h0

theorem kept_probe_open3 (w : World) (d : Disk) (fuel : Nat) (s : State)
    (associated : Option Nat) (path : Path) (wl : Bool) (lv : Int) (s1 : State)
    (r : Except svn_error_t Nat)
    (h : svn_wc_adm_probe_open3 w d fuel s associated path wl lv = some (s1, r)) :
    Kept s s1 := by
  unfold svn_wc_adm_probe_open3 at h
  cases hp : probe w d path with
  | error err =>
    rw [hp] at h
    simp only [Option.some.injEq, Prod.mk.injEq] at h
    rw [← h.1]; exact kept_refl s
  | ok res =>
    rcases res with ⟨dir, moved, wc_format⟩
    rw [hp] at h
    simp only at h
    cases ho : svn_wc_adm_open3 w fuel s associated dir wl (if moved = true then 0 else lv) with
    | none => rw [ho] at h; cases h
    | some res =>
      rcases res with ⟨s2, r2⟩
      rw [ho] at h
      have h2 := kept_open3 w fuel s associated dir wl _ s2 r2 ho
      cases r2 with
      | error err =>
        simp only at h
        cases hk : d.svn_io_check_path path with
        | error c =>
          rw [hk] at h
          simp only [Option.some.injEq, Prod.mk.injEq] at h
          rw [← h.1]; exact h2
        | ok kind =>
          rw [hk] at h
          simp only at h
          by_cases hc : moved = true ∧ kind = .svn_node_dir
              ∧ err.apr_err = .SVN_ERR_WC_NOT_DIRECTORY
          · rw [if_pos hc] at h
            simp only [Option.some.injEq, Prod.mk.injEq] at h
            rw [← h.1]; exact h2
          · rw [if_neg hc] at h
            simp only [Option.some.injEq, Prod.mk.injEq] at h
            rw [← h.1]; exact h2
      | ok a =>
        simp only at h
        by_cases hc : wc_format ≠ 0 ∧ (s2.batons a).wc_format = 0
        · rw [if_pos hc] at h
          simp only [Option.some.injEq, Prod.mk.injEq] at h
          rw [← h.1]; exact kept_trans _ _ _ h2 (kept_setFormat _ _ _)
        · rw [if_neg hc] at h
          simp only [Option.some.injEq, Prod.mk.injEq] at h
          rw [← h.1]; exact h2

theorem do_open_new_baton (w : World) (fuel : Nat) (s : State) (path : Path) (wl : Bool)
    (lv : Int) (s1 : State) (lock : Nat)
    (h : do_open w fuel s path wl lv = some (s1, .ok lock)) :
    lock < s1.nbatons ∧ (s1.batons lock).path = path := by
  have ho := do_open_opened w fuel s path wl lv s1 lock h
  refine ⟨?_, ho.path_eq⟩
  rw [ho.lock_eq]; exact ho.nbatons

theorem open_anchor_parent_spec (w : World) (fuel : Nat) (s : State) (parent : Path)
    (wl : Bool) (s1 : State) (r : Except svn_error_t (Option Nat × Option svn_error_t))
    (h : open_anchor_parent w fuel s parent wl = some (s1, r)) :
    Kept s s1 ∧ ∀ p perr, r = .ok (some p, perr) →
      p < s1.nbatons ∧ (s1.batons p).path = parent := by
  unfold open_anchor_parent at h
  cases ho : do_open w fuel s parent wl 0 with
  | none => rw [ho] at h; cases h
  | some res =>
    rcases res with ⟨s2, r2⟩
    rw [ho] at h
    have h2 := kept_opened w fuel s parent wl 0 s2 r2 ho
    cases r2 with
    | ok p =>
      simp only [Option.some.injEq, Prod.mk.injEq] at h
      rw [← h.1, ← h.2]
      refine ⟨h2, fun p1 perr hr => ?_⟩
      simp only [Except.ok.injEq, Prod.mk.injEq, Option.some.injEq] at hr
      rw [← hr.1]
      exact do_open_new_baton w fuel s parent wl 0 s2 p ho
    | error err =>
      simp only at h
      by_cases hnd : err.apr_err = .SVN_ERR_WC_NOT_DIRECTORY
      · rw [if_pos hnd] at h
        simp only [Option.some.injEq, Prod.mk.injEq] at h
        rw [← h.1, ← h.2]
        refine ⟨h2, fun p1 perr hr => ?_⟩
        simp only [Except.ok.injEq, Prod.mk.injEq] at hr
        cases hr.1
      · rw [if_neg hnd] at h
        by_cases hl : wl = true ∧ (err.apr_err = .SVN_ERR_WC_LOCKED
            ∨ APR_STATUS_IS_EACCES err.apr_err = true)
        · rw [if_pos hl] at h
          cases ho2 : do_open w fuel s2 parent false 0 with
          | none => rw [ho2] at h; cases h
          | some res2 =>
            rcases res2 with ⟨s3, r3⟩
            rw [ho2] at h
            have h3 := kept_trans _ _ _ h2 (kept_opened w fuel s2 parent false 0 s3 r3 ho2)
            cases r3 with
            | error e3 =>
              simp only [Option.some.injEq, Prod.mk.injEq] at h
              rw [← h.1, ← h.2]
              exact ⟨h3, fun p1 perr hr => by cases hr⟩
            | ok p =>
              simp only [Option.some.injEq, Prod.mk.injEq] at h
              rw [← h.1, ← h.2]
              refine ⟨h3, fun p1 perr hr => ?_⟩
              simp only [Except.ok.injEq, Prod.mk.injEq, Option.some.injEq] at hr
              rw [← hr.1]
              exact do_open_new_baton w fuel s2 parent false 0 s3 p ho2
        · rw [if_neg hl] at h
          simp only [Option.some.injEq, Prod.mk.injEq] at h
          rw [← h.1, ← h.2]
          exact ⟨h2, fun p1 perr hr => by cases hr⟩

theorem open_anchor_target_spec (w : World) (fuel : Nat) (s : State) (path : Path)
    (wl : Bool) (lv : Int) (pa : Option Nat) (s1 : State)
    (r : Except svn_error_t (Option Nat))
    (h : open_anchor_target w fuel s path wl lv pa = some (s1, r)) :
    Kept s s1 ∧ (∀ t, r = .ok (some t) → t < s1.nbatons ∧ (s1.batons t).path = path) ∧
      (r = .ok none → ∃ p, pa = some p) := by
  unfold open_anchor_target at h
  cases ho : do_open w fuel s path wl lv with
  | none => rw [ho] at h; cases h
  | some res =>
    rcases res with ⟨s2, r2⟩
    rw [ho] at h
    have h2 := kept_opened w fuel s path wl lv s2 r2 ho
    cases r2 with
    | ok t =>
      simp only [Option.some.injEq, Prod.mk.injEq] at h
      rw [← h.1, ← h.2]
      refine ⟨h2, fun t1 hr => ?_, (fun hr => by cases hr)⟩
      simp only [Except.ok.injEq, Option.some.injEq] at hr
      rw [← hr]
      exact do_open_new_baton w fuel s path wl lv s2 t ho
    | error err =>
      simp only at h
      by_cases hc : pa = none ∨ err.apr_err ≠ .SVN_ERR_WC_NOT_DIRECTORY
      · rw [if_pos hc] at h
        cases pa with
        | none =>
          simp only [Option.some.injEq, Prod.mk.injEq] at h
          rw [← h.1, ← h.2]
          exact ⟨h2, (fun t hr => by cases hr), (fun hr => by cases hr)⟩
        | some p =>
          simp only at h
          cases hcl : svn_wc_adm_close2 w s2 p with
          | none => rw [hcl] at h; cases h
          | some res2 =>
            rcases res2 with ⟨s3, e3⟩
            rw [hcl] at h
            simp only [Option.some.injEq, Prod.mk.injEq] at h
            rw [← h.1, ← h.2]
            exact ⟨kept_trans _ _ _ h2 (kept_close2 w s2 p s3 e3 hcl),
              (fun t hr => by cases hr), (fun hr => by cases hr)⟩
      · rw [if_neg hc] at h
        simp only [Option.some.injEq, Prod.mk.injEq] at h
        rw [← h.1, ← h.2]
        refine ⟨h2, fun t hr => ?_, fun _ => ?_⟩
        · simp only [Except.ok.injEq] at hr
          cases hr
        · cases pa with
          | none => exact absurd (Or.inl rfl) hc
          | some p => exact ⟨p, rfl⟩

theorem open_anchor_drop_spec (w : World) (s : State) (p t : Nat) (s1 : State)
    (r : Except svn_error_t (Option Nat))
    (h : (match svn_wc_adm_close2 w s p with
          | none => none
          | some (s1, none) => some (s1, Except.ok none)
          | some (s1, some err) =>
            match svn_wc_adm_close2 w s1 t with
            | none => none
            | some (s2, _) => some (s2, Except.error err)) = some (s1, r)) :
    Kept s s1 ∧ ∀ p1, r = .ok (some p1) → p1 = p := by
  cases h1 : svn_wc_adm_close2 w s p with
  | none => rw [h1] at h; cases h
  | some res1 =>
    rcases res1 with ⟨s2, e2⟩
    rw [h1] at h
    have hk := kept_close2 w s p s2 e2 h1
    cases e2 with
    | none =>
      simp only [Option.some.injEq, Prod.mk.injEq] at h
      rw [← h.1, ← h.2]
      exact ⟨hk, fun p1 hr => by cases hr⟩
    | some err =>
      simp only at h
      cases h2 : svn_wc_adm_close2 w s2 t with
      | none => rw [h2] at h; cases h
      | some res2 =>
        rcases res2 with ⟨s3, e3⟩
        rw [h2] at h
        simp only [Option.some.injEq, Prod.mk.injEq] at h
        rw [← h.1, ← h.2]
        exact ⟨kept_trans _ _ _ hk (kept_close2 w s2 t s3 e3 h2), fun p1 hr => by cases hr⟩

theorem open_anchor_disjoint_spec (w : World) (d : Disk) (s : State) (path parent : Path)
    (p t : Nat) (s1 : State) (r : Except svn_error_t (Option Nat))
    (h : open_anchor_disjoint w d s path parent p t = some (s1, r)) :
    Kept s s1 ∧ ∀ p1, r = .ok (some p1) → p1 = p := by
  unfold open_anchor_disjoint at h
  cases he : open_anchor_entries d s path parent p t with
  | error code =>
    rw [he] at h
    simp only at h
    cases h1 : svn_wc_adm_close2 w s p with
    | none => rw [h1] at h; cases h
    | some res1 =>
      rcases res1 with ⟨s2, e2⟩
      rw [h1] at h
      simp only at h
      cases h2 : svn_wc_adm_close2 w s2 t with
      | none => rw [h2] at h; cases h
      | some res2 =>
        rcases res2 with ⟨s3, e3⟩
        rw [h2] at h
        simp only [Option.some.injEq, Prod.mk.injEq] at h
        rw [← h.1, ← h.2]
        exact ⟨kept_trans _ _ _ (kept_close2 w s p s2 e2 h1) (kept_close2 w s2 t s3 e3 h2),
          fun p1 hr => by cases hr⟩
  | ok res =>
    rcases res with ⟨a, b, c⟩
    rw [he] at h
    simp only at h
    cases hd : open_anchor_is_disjoint d (svn_dirent_basename path) a b c with
    | none => rw [hd] at h; cases h
    | some v =>
      rw [hd] at h
      cases v with
      | false =>
        simp only [Option.some.injEq, Prod.mk.injEq] at h
        rw [← h.1, ← h.2]
        refine ⟨kept_refl s, fun p1 hr => ?_⟩
        simp only [Except.ok.injEq, Option.some.injEq] at hr
        exact hr.symm
      | true =>
        simp only at h
        exact open_anchor_drop_spec w s p t s1 r h

theorem open_anchor_join_spec (w : World) (s : State) (pa : Option Nat)
    (perr : Option svn_error_t) (ta : Option Nat) (s1 : State) (e : Option svn_error_t)
    (h : open_anchor_join w s pa perr ta = some (s1, e)) : Kept s s1 := by
  unfold open_anchor_join at h
  cases pa with
  | none =>
    simp only [Option.some.injEq, Prod.mk.injEq] at h
    rw [← h.1]; exact kept_refl s
  | some p =>
    simp only at h
    cases perr with
    | some err =>
      simp only at h
      cases ta with
      | none =>
        simp only at h
        cases h2 : svn_wc_adm_close2 w s p with
        | none => rw [h2] at h; cases h
        | some res2 =>
          rcases res2 with ⟨s3, e3⟩
          rw [h2] at h
          simp only [Option.some.injEq, Prod.mk.injEq] at h
          rw [← h.1]
          exact kept_close2 w s p s3 e3 h2
      | some t =>
        simp only at h
        cases h1 : svn_wc_adm_close2 w s t with
        | none => rw [h1] at h; cases h
        | some res1 =>
          rcases res1 with ⟨s2, e2⟩
          rw [h1] at h
          simp only at h
          cases h2 : svn_wc_adm_close2 w s2 p with
          | none => rw [h2] at h; cases h
          | some res2 =>
            rcases res2 with ⟨s3, e3⟩
            rw [h2] at h
            simp only [Option.some.injEq, Prod.mk.injEq] at h
            rw [← h.1]
            exact kept_trans _ _ _ (kept_close2 w s t s2 e2 h1) (kept_close2 w s2 p s3 e3 h2)
    | none =>
      simp only at h
      cases ta with
      | none =>
        simp only [Option.some.injEq, Prod.mk.injEq] at h
        rw [← h.1]; exact kept_refl s
      | some t =>
        simp only at h
        cases hsh : ((adm_ensure_set s p).batons p).shared with
        | none => rw [hsh] at h; cases h
        | some sh =>
          rw [hsh] at h
          simp only at h
          cases hj : join_batons (adm_ensure_set s p) sh t with
          | none => rw [hj] at h; cases h
          | some s2 =>
            rw [hj] at h
            simp only [Option.some.injEq, Prod.mk.injEq] at h
            rw [← h.1]
            exact kept_trans _ _ _ (kept_ensure_set s p) (kept_join _ sh t s2 hj)

theorem open_anchor_missing_spec (w : World) (d : Disk) (s : State) (path : Path)
    (pa : Option Nat) (s1 : State) (e : Option svn_error_t)
    (h : open_anchor_missing w d s path pa = some (s1, e)) : Kept s s1 := by
  unfold open_anchor_missing at h
  cases pa with
  | none => cases h
  | some p =>
    simp only at h
    cases he : d.svn_wc_entry path (s.batons p).path false with
    | error code =>
      rw [he] at h
      simp only at h
      cases h2 : svn_wc_adm_close2 w s p with
      | none => rw [h2] at h; cases h
      | some res2 =>
        rcases res2 with ⟨s3, e3⟩
        rw [h2] at h
        simp only [Option.some.injEq, Prod.mk.injEq] at h
        rw [← h.1]
        exact kept_close2 w s p s3 e3 h2
    | ok t_entry =>
      rw [he] at h
      simp only at h
      by_cases hk : t_entry.any (fun e => decide (e.kind = .svn_node_dir)) = true
      · rw [if_pos hk] at h
        cases hsh : ((adm_ensure_set s p).batons p).shared with
        | none => rw [hsh] at h; cases h
        | some sh =>
          rw [hsh] at h
          simp only at h
          cases ha : add_to_shared (adm_ensure_set s p) path .missing sh with
          | none => rw [ha] at h; cases h
          | some s2 =>
            rw [ha] at h
            simp only [Option.some.injEq, Prod.mk.injEq] at h
            rw [← h.1]
            exact kept_trans _ _ _ (kept_ensure_set s p) (kept_add_to_shared _ _ _ _ _ ha)
      · rw [if_neg hk] at h
        simp only [Option.some.injEq, Prod.mk.injEq] at h
        rw [← h.1]; exact kept_refl s

theorem open_anchor_result_spec (base : String) (pa ta : Option Nat) (a t : Nat) (n : String)
    (h : open_anchor_result base pa ta = some (a, t, n)) :
    (pa = none ∧ ta = some a ∧ t = a ∧ n = "") ∨
    (pa = some a ∧ n = base ∧ ((ta = none ∧ t = a) ∨ ta = some t)) := by
  unfold open_anchor_result at h
  cases pa with
  | none =>
    cases ta with
    | none => cases h
    | some t1 =>
      simp only [Option.some.injEq, Prod.mk.injEq] at h
      exact Or.inl ⟨rfl, by rw [h.1], by rw [← h.1, ← h.2.1], h.2.2.symm⟩
  | some p =>
    cases ta with
    | none =>
      simp only [Option.some.injEq, Prod.mk.injEq] at h
      exact Or.inr ⟨by rw [h.1], h.2.2.symm, Or.inl ⟨rfl, by rw [← h.1, ← h.2.1]⟩⟩
    | some t1 =>
      simp only [Option.some.injEq, Prod.mk.injEq] at h
      exact Or.inr ⟨by rw [h.1], h.2.2.symm, Or.inr (by rw [h.2.1])⟩

theorem open_anchor_spec (w : World) (d : Disk) (fuel : Nat) (s : State) (path : Path)
    (wl : Bool) (lv : Int) (s' : State) (r : Except svn_error_t (Nat × Nat × String))
    (h : svn_wc_adm_open_anchor w d fuel s path wl lv = some (s', r)) :
    Kept s s' ∧ ∀ a t n, r = .ok (a, t, n) → a < s'.nbatons ∧ t < s'.nbatons ∧
      (((s'.batons a).path = path ∧ t = a ∧ n = "") ∨
       ((s'.batons a).path = svn_dirent_dirname path ∧ path ≠ [] ∧
          n = svn_dirent_basename path ∧ (t = a ∨ (s'.batons t).path = path))) := by
  unfold svn_wc_adm_open_anchor at h
  by_cases hc : svn_path_is_empty path = true ∨ svn_dirent_is_root path = true
      ∨ svn_dirent_basename path = ".."
  · rw [if_pos hc] at h
    cases ho : do_open w fuel s path wl lv with
    | none => rw [ho] at h; cases h
    | some res =>
      rcases res with ⟨s1, r1⟩
      rw [ho] at h
      have hk := kept_opened w fuel s path wl lv s1 r1 ho
      cases r1 with
      | error err =>
        simp only [Option.some.injEq, Prod.mk.injEq] at h
        rw [← h.1, ← h.2]
        exact ⟨hk, fun a t n hr => by cases hr⟩
      | ok q =>
        simp only [Option.some.injEq, Prod.mk.injEq] at h
        rw [← h.1, ← h.2]
        refine ⟨hk, fun a t n hr => ?_⟩
        simp only [Except.ok.injEq, Prod.mk.injEq] at hr
        obtain ⟨hlt, hp⟩ := do_open_new_baton w fuel s path wl lv s1 q ho
        rw [← hr.1, ← hr.2.1, ← hr.2.2]
        exact ⟨hlt, hlt, Or.inl ⟨hp, rfl, rfl⟩⟩
  · rw [if_neg hc] at h
    have hne : path ≠ [] := by
      intro hp
      apply hc
      left
      rw [hp]
      rfl
    cases h1 : open_anchor_parent w fuel s (svn_dirent_dirname path) wl with
    | none => rw [h1] at h; cases h
    | some res1 =>
      rcases res1 with ⟨s1, r1⟩
      rw [h1] at h
      obtain ⟨hk1, hp1⟩ := open_anchor_parent_spec w fuel s _ wl s1 r1 h1
      cases r1 with
      | error err =>
        simp only [Option.some.injEq, Prod.mk.injEq] at h
        rw [← h.1, ← h.2]
        exact ⟨hk1, fun a t n hr => by cases hr⟩
      | ok pp =>
        rcases pp with ⟨pa, perr⟩
        simp only at h
        cases h2 : open_anchor_target w fuel s1 path wl lv pa with
        | none => rw [h2] at h; cases h
        | some res2 =>
          rcases res2 with ⟨s2, r2⟩
          rw [h2] at h
          obtain ⟨hk2, ht2, _⟩ := open_anchor_target_spec w fuel s1 path wl lv pa s2 r2 h2
          cases r2 with
          | error err =>
            simp only [Option.some.injEq, Prod.mk.injEq] at h
            rw [← h.1, ← h.2]
            exact ⟨kept_trans _ _ _ hk1 hk2, fun a t n hr => by cases hr⟩
          | ok ta =>
            simp only at h
            have hstage : ∀ s3 r3,
                open_anchor_check w d s2 path (svn_dirent_dirname path) pa ta = some (s3, r3) →
                Kept s2 s3 ∧ ∀ p1, r3 = .ok (some p1) → pa = some p1 := by
              intro s3 r3 h3
              unfold open_anchor_check at h3
              cases pa with
              | none =>
                simp only [Option.some.injEq, Prod.mk.injEq] at h3
                rw [← h3.1, ← h3.2]
                exact ⟨kept_refl s2, fun p1 hr => by cases hr⟩
              | some p =>
                cases ta with
                | none =>
                  simp only [Option.some.injEq, Prod.mk.injEq] at h3
                  rw [← h3.1, ← h3.2]
                  refine ⟨kept_refl s2, fun p1 hr => ?_⟩
                  simp only [Except.ok.injEq] at hr
                  exact hr
                | some t =>
                  simp only at h3
                  obtain ⟨hk, hp⟩ := open_anchor_disjoint_spec w d s2 path _ p t s3 r3 h3
                  exact ⟨hk, fun p1 hr => by rw [hp p1 hr]⟩
            cases h3 : open_anchor_check w d s2 path (svn_dirent_dirname path) pa ta with
            | none => rw [h3] at h; cases h
            | some res3 =>
              rcases res3 with ⟨s3, r3⟩
              rw [h3] at h
              obtain ⟨hk3, hp3⟩ := hstage s3 r3 h3
              cases r3 with
              | error err =>
                simp only [Option.some.injEq, Prod.mk.injEq] at h
                rw [← h.1, ← h.2]
                exact ⟨kept_trans _ _ _ hk1 (kept_trans _ _ _ hk2 hk3),
                  fun a t n hr => by cases hr⟩
              | ok p1 =>
                simp only at h
                cases h4 : open_anchor_join w s3 p1 perr ta with
                | none => rw [h4] at h; cases h
                | some res4 =>
                  rcases res4 with ⟨s4, e4⟩
                  rw [h4] at h
                  have hk4 := open_anchor_join_spec w s3 p1 perr ta s4 e4 h4
                  cases e4 with
                  | some err =>
                    simp only [Option.some.injEq, Prod.mk.injEq] at h
                    rw [← h.1, ← h.2]
                    exact ⟨kept_trans _ _ _ hk1 (kept_trans _ _ _ hk2
                      (kept_trans _ _ _ hk3 hk4)), fun a t n hr => by cases hr⟩
                  | none =>
                    simp only at h
                    have hstage5 : ∀ s5 e5,
                        open_anchor_placeholder w d s4 path p1 ta = some (s5, e5) →
                        Kept s4 s5 := by
                      intro s5 e5 h5
                      unfold open_anchor_placeholder at h5
                      cases ta with
                      | some t =>
                        simp only [Option.some.injEq, Prod.mk.injEq] at h5
                        rw [← h5.1]; exact kept_refl s4
                      | none => exact open_anchor_missing_spec w d s4 path p1 s5 e5 h5
                    cases h5 : open_anchor_placeholder w d s4 path p1 ta with
                    | none => rw [h5] at h; cases h
                    | some res5 =>
                      rcases res5 with ⟨s5, e5⟩
                      rw [h5] at h
                      have hk5 := hstage5 s5 e5 h5
                      have hk25 : Kept s2 s5 :=
                        kept_trans _ _ _ hk3 (kept_trans _ _ _ hk4 hk5)
                      have hk05 : Kept s s5 := kept_trans _ _ _ hk1 (kept_trans _ _ _ hk2 hk25)
                      cases e5 with
                      | some err =>
                        simp only [Option.some.injEq, Prod.mk.injEq] at h
                        rw [← h.1, ← h.2]
                        exact ⟨hk05, fun a t n hr => by cases hr⟩
                      | none =>
                        simp only at h
                        cases h6 : open_anchor_result (svn_dirent_basename path) p1 ta with
                        | none => rw [h6] at h; cases h
                        | some res =>
                          rw [h6] at h
                          simp only [Option.some.injEq, Prod.mk.injEq] at h
                          rw [← h.1, ← h.2]
                          refine ⟨hk05, fun a t n hr => ?_⟩
                          simp only [Except.ok.injEq] at hr
                          rw [hr] at h6
                          have htgt : ∀ q, ta = some q →
                              q < s5.nbatons ∧ (s5.batons q).path = path := by
                            intro q hq
                            obtain ⟨hlt, hp⟩ := ht2 q (by rw [hq])
                            exact ⟨lt_of_lt_of_le hlt hk25.nbatons, by rw [hk25.path q hlt, hp]⟩
                          have hpar : ∀ q, p1 = some q →
                              q < s5.nbatons ∧ (s5.batons q).path = svn_dirent_dirname path := by
                            intro q hq
                            have hpa : pa = some q := hp3 q (by rw [hq])
                            obtain ⟨hlt, hp⟩ := hp1 q perr (by rw [hpa])
                            have hlt2 := lt_of_lt_of_le hlt hk2.nbatons
                            exact ⟨lt_of_lt_of_le hlt2 hk25.nbatons,
                              by rw [hk25.path q hlt2, hk2.path q hlt, hp]⟩
                          rcases open_anchor_result_spec _ p1 ta a t n h6 with
                            ⟨_, hta, hteq, hn⟩ | ⟨hpa, hn, ⟨_, hteq⟩ | hta⟩
                          · obtain ⟨hlt, hp⟩ := htgt a hta
                            rw [hteq]
                            exact ⟨hlt, hlt, Or.inl ⟨hp, rfl, hn⟩⟩
                          · obtain ⟨hlt, hp⟩ := hpar a hpa
                            rw [hteq]
                            exact ⟨hlt, hlt, Or.inr ⟨hp, hne, hn, Or.inl rfl⟩⟩
                          · obtain ⟨hlt, hp⟩ := hpar a hpa
                            obtain ⟨hlt2, hp2⟩ := htgt t hta
                            exact ⟨hlt, hlt2, Or.inr ⟨hp, hne, hn, Or.inr hp2⟩⟩

/-! ## The order in which the descendants are closed -/

theorem char_toNat_eq (a b : Char) (h : a.toNat = b.toNat) : a = b := by
  rw [← Char.ofNat_toNat a, ← Char.ofNat_toNat b, h]

theorem compareChars_cons (a b : Char) (as bs : List Char) :
    compareChars (a :: as) (b :: bs) =
      if a = b then compareChars as bs else if a.toNat < b.toNat then -1 else 1 := by
  rw [compareChars]

theorem compareChars_antisymm : ∀ (a b : List Char),
    compareChars a b ≤ 0 → compareChars b a ≤ 0 → a = b := by
  intro a
  induction a with
  | nil =>
    intro b h1 h2
    cases b with
    | nil => rfl
    | cons y ys => rw [compareChars] at h2; exact absurd h2 (by decide)
  | cons x xs ih =>
    intro b h1 h2
    cases b with
    | nil => rw [compareChars] at h1; exact absurd h1 (by decide)
    | cons y ys =>
      rw [compareChars_cons] at h1 h2
      by_cases hxy : x = y
      · subst hxy
        rw [if_pos rfl] at h1 h2
        rw [ih ys h1 h2]
      · have hyx : ¬ y = x := fun h => hxy h.symm
        rw [if_neg hxy] at h1
        rw [if_neg hyx] at h2
        by_cases h3 : x.toNat < y.toNat
        · have h4 : ¬ y.toNat < x.toNat := by omega
          rw [if_neg h4] at h2
          exact absurd h2 (by decide)
        · rw [if_neg h3] at h1
          exact absurd h1 (by decide)

theorem compareChars_total : ∀ (a b : List Char),
    compareChars a b ≤ 0 ∨ compareChars b a ≤ 0 := by
  intro a
  induction a with
  | nil =>
    intro b
    cases b with
    | nil => left; rw [compareChars]
    | cons y ys => left; rw [compareChars]; decide
  | cons x xs ih =>
    intro b
    cases b with
    | nil => right; rw [compareChars]; decide
    | cons y ys =>
      rw [compareChars_cons, compareChars_cons]
      by_cases hxy : x = y
      · subst hxy
        rw [if_pos rfl, if_pos rfl]
        exact ih ys
      · have hyx : ¬ y = x := fun h => hxy h.symm
        rw [if_neg hxy, if_neg hyx]
        by_cases h3 : x.toNat < y.toNat
        · left; rw [if_pos h3]; decide
        · right
          have h4 : y.toNat < x.toNat := by
            rcases Nat.lt_trichotomy x.toNat y.toNat with h | h | h
            · exact absurd h h3
            · exact absurd (char_toNat_eq x y h) hxy
            · exact h
          rw [if_pos h4]; decide

theorem compareChars_trans : ∀ (a b c : List Char),
    compareChars a b ≤ 0 → compareChars b c ≤ 0 → compareChars a c ≤ 0 := by
  intro a
  induction a with
  | nil =>
    intro b c _ _
    cases c with
    | nil => rw [compareChars]
    | cons z zs => rw [compareChars]; decide
  | cons x xs ih =>
    intro b c h1 h2
    cases b with
    | nil => rw [compareChars] at h1; exact absurd h1 (by decide)
    | cons y ys =>
      cases c with
      | nil => rw [compareChars] at h2; exact absurd h2 (by decide)
      | cons z zs =>
        rw [compareChars_cons] at h1 h2 ⊢
        by_cases hxy : x = y
        · subst hxy
          rw [if_pos rfl] at h1
          by_cases hxz : x = z
          · subst hxz
            rw [if_pos rfl] at h2 ⊢
            exact ih ys zs h1 h2
          · rw [if_neg hxz] at h2 ⊢
            exact h2
        · rw [if_neg hxy] at h1
          have hlt1 : x.toNat < y.toNat := by
            by_cases h3 : x.toNat < y.toNat
            · exact h3
            · rw [if_neg h3] at h1; exact absurd h1 (by decide)
          by_cases hyz : y = z
          · subst hyz
            rw [if_neg hxy, if_pos hlt1]; decide
          · rw [if_neg hyz] at h2
            have hlt2 : y.toNat < z.toNat := by
              by_cases h3 : y.toNat < z.toNat
              · exact h3
              · rw [if_neg h3] at h2; exact absurd h2 (by decide)
            have hxz : ¬ x = z := by
              intro h
              rw [h] at hlt1
              omega
            rw [if_neg hxz, if_pos (lt_trans hlt1 hlt2)]; decide

theorem svn_path_compare_paths_cons (a b : String) (as bs : Path) :
    svn_path_compare_paths (a :: as) (b :: bs) =
      if a = b then svn_path_compare_paths as bs else compareChars a.toList b.toList := by
  rw [svn_path_compare_paths]

theorem string_toList_eq (a b : String) (h : a.toList = b.toList) : a = b :=
  String.ext h

theorem svn_path_compare_paths_total : ∀ (a b : Path),
    svn_path_compare_paths a b ≤ 0 ∨ svn_path_compare_paths b a ≤ 0 := by
  intro a
  induction a with
  | nil =>
    intro b
    cases b with
    | nil => left; rw [svn_path_compare_paths]
    | cons y ys => left; rw [svn_path_compare_paths]; decide
  | cons x xs ih =>
    intro b
    cases b with
    | nil => right; rw [svn_path_compare_paths]; decide
    | cons y ys =>
      rw [svn_path_compare_paths_cons, svn_path_compare_paths_cons]
      by_cases hxy : x = y
      · subst hxy
        rw [if_pos rfl, if_pos rfl]
        exact ih ys
      · have hyx : ¬ y = x := fun h => hxy h.symm
        rw [if_neg hxy, if_neg hyx]
        exact compareChars_total _ _

theorem svn_path_compare_paths_trans : ∀ (a b c : Path),
    svn_path_compare_paths a b ≤ 0 → svn_path_compare_paths b c ≤ 0 →
    svn_path_compare_paths a c ≤ 0 := by
  intro a
  induction a with
  | nil =>
    intro b c _ _
    cases c with
    | nil => rw [svn_path_compare_paths]
    | cons z zs => rw [svn_path_compare_paths]; decide
  | cons x xs ih =>
    intro b c h1 h2
    cases b with
    | nil => rw [svn_path_compare_paths] at h1; exact absurd h1 (by decide)
    | cons y ys =>
      cases c with
      | nil => rw [svn_path_compare_paths] at h2; exact absurd h2 (by decide)
      | cons z zs =>
        rw [svn_path_compare_paths_cons] at h1 h2 ⊢
        by_cases hxy : x = y
        · subst hxy
          rw [if_pos rfl] at h1
          by_cases hxz : x = z
          · subst hxz
            rw [if_pos rfl] at h2 ⊢
            exact ih ys zs h1 h2
          · rw [if_neg hxz] at h2 ⊢
            exact h2
        · rw [if_neg hxy] at h1
          by_cases hyz : y = z
          · subst hyz
            rw [if_neg hxy]; exact h1
          · rw [if_neg hyz] at h2
            have hxz : ¬ x = z := by
              intro h
              rw [← h] at h2
              exact hxy (string_toList_eq x y (compareChars_antisymm _ _ h1 h2))
            rw [if_neg hxz]
            exact compareChars_trans _ _ _ h1 h2

theorem svn_path_compare_paths_below : ∀ (p c : Path), p <+: c → p ≠ c →
    ¬ svn_path_compare_paths c p ≤ 0 := by
  intro p
  induction p with
  | nil =>
    intro c _ hne
    cases c with
    | nil => exact absurd rfl hne
    | cons y ys => rw [svn_path_compare_paths]; decide
  | cons x xs ih =>
    intro c hpre hne
    cases c with
    | nil => exact absurd hpre (by simp)
    | cons y ys =>
      obtain ⟨hxy, hrest⟩ := List.cons_prefix_cons.mp hpre
      subst hxy
      rw [svn_path_compare_paths_cons, if_pos rfl]
      exact ih ys hrest (fun h => hne (by rw [h]))

theorem svn_sort__hash_sorted (ht : List (Path × SetItem)) :
    (svn_sort__hash ht).Pairwise (fun a b => svn_path_compare_paths a.1 b.1 ≤ 0) := by
  haveI : IsTotal (Path × SetItem) (fun a b => svn_path_compare_paths a.1 b.1 ≤ 0) :=
    ⟨fun a b => svn_path_compare_paths_total a.1 b.1⟩
  haveI : IsTrans (Path × SetItem) (fun a b => svn_path_compare_paths a.1 b.1 ≤ 0) :=
    ⟨fun a b c => svn_path_compare_paths_trans a.1 b.1 c.1⟩
  exact List.sorted_insertionSort _ ht

theorem svn_sort__hash_children_first (ht : List (Path × SetItem)) (kp kc : Path)
    (vp vc : SetItem) (hp : (kp, vp) ∈ ht) (hc : (kc, vc) ∈ ht) (hpre : kp <+: kc)
    (hne : kp ≠ kc) :
    ∃ L1 L2, (svn_sort__hash ht).reverse = L1 ++ (kp, vp) :: L2 ∧ (kc, vc) ∈ L1 := by
  have hmem : ∀ kv, kv ∈ (svn_sort__hash ht).reverse ↔ kv ∈ ht := by
    intro kv
    rw [List.mem_reverse]
    exact (List.perm_insertionSort _ ht).mem_iff
  obtain ⟨L1, L2, hsplit⟩ := List.mem_iff_append.mp ((hmem (kp, vp)).mpr hp)
  refine ⟨L1, L2, hsplit, ?_⟩
  have hsorted : List.Pairwise
      (fun a b : Path × SetItem => svn_path_compare_paths b.1 a.1 ≤ 0)
      (svn_sort__hash ht).reverse :=
    List.pairwise_reverse.mpr (svn_sort__hash_sorted ht)
  rw [hsplit] at hsorted
  have hc2 := (hmem (kc, vc)).mpr hc
  rw [hsplit] at hc2
  rcases List.mem_append.mp hc2 with h | h
  · exact h
  · rcases List.mem_cons.mp h with h | h
    · exact absurd (Prod.mk.inj h).1.symm hne
    · obtain ⟨_, h2, _⟩ := List.pairwise_append.mp hsorted
      have := (List.pairwise_cons.mp h2).1 (kc, vc) h
      exact absurd this (svn_path_compare_paths_below kp kc hpre hne)

/-! ## What the close of one baton touches -/

theorem do_close_unlock_frame (w : World) (s : State) (a : Nat) (pl : Bool) (s1 : State)
    (e : Option svn_error_t) (h : do_close_unlock w s a pl = (s1, e)) :
    (∀ q, q ≠ a → s1.batons q = s.batons q) ∧
    (∀ q, (s1.batons q).path = (s.batons q).path ∧ (s1.batons q).type = (s.batons q).type) ∧
    (∀ p, p ≠ (s.batons a).path → s1.lock_node p = s.lock_node p) ∧
    (pl = true → s1.lock_node = s.lock_node) := by
  rcases do_close_unlock_cases w s a pl s1 e h with
    ⟨h1, _, _⟩ | ⟨h1, _, _⟩ | ⟨_, _, _, hpl, h1 | ⟨_, h1⟩⟩
  · rw [h1]; exact ⟨fun _ _ => rfl, fun _ => ⟨rfl, rfl⟩, fun _ _ => rfl, fun _ => rfl⟩
  · rw [h1]; exact ⟨fun _ _ => rfl, fun _ => ⟨rfl, rfl⟩, fun _ _ => rfl, fun _ => rfl⟩
  · rw [h1]
    refine ⟨fun q hq => setLockExists_other s a q false hq, fun q => by simp,
      fun p _ => by simp, fun _ => by simp⟩
  · rw [h1]
    refine ⟨fun q hq => ?_, fun q => by simp, fun p hp => ?_, fun hp => ?_⟩
    · rw [setLockExists_other _ a q false hq]; simp
    · simp only [setLockExists_lock_node, setLockNode_lock_node]
      rw [if_neg hp]
    · rw [hpl] at hp; cases hp

theorem detached_lock_node (s : State) (a : Nat) : (detached s a).lock_node = s.lock_node := by
  rcases detached_cases s a with h | ⟨sh, v, h⟩
  · rw [h]; simp
  · rw [h]; simp

theorem detached_path (s : State) (a q : Nat) :
    ((detached s a).batons q).path = (s.batons q).path := by
  rcases detached_cases s a with h | ⟨sh, v, h⟩
  · rw [h]; simp
  · rw [h]; simp

theorem do_close_finish_frame (w : World) (s : State) (a : Nat) (s1 : State)
    (e : Option svn_error_t) (h : do_close_finish w s a = some (s1, e)) :
    s1.lock_node = s.lock_node ∧ (∀ q, (s1.batons q).path = (s.batons q).path) := by
  rcases do_close_finish_cases w s a s1 e h with ⟨h1, _⟩ | h1
  · rw [h1]; exact ⟨detached_lock_node s a, detached_path s a⟩
  · obtain ⟨hb, _, _, _, hl, _⟩ := do_close_db_cases w _ a s1 e h1
    rw [hl, hb]
    exact ⟨detached_lock_node s a, detached_path s a⟩

theorem do_close_norecurse_frame (w : World) (s : State) (c : Nat) (pl : Bool) (s1 : State)
    (e : Option svn_error_t) (h : do_close_norecurse w s c pl = some (s1, e)) :
    (∀ q, q ≠ c → s1.batons q = s.batons q) ∧
    (∀ q, (s1.batons q).path = (s.batons q).path) ∧
    (∀ q, (s.batons q).type = .svn_wc__adm_access_closed →
      (s1.batons q).type = .svn_wc__adm_access_closed) ∧
    (∀ p, p ≠ (s.batons c).path → s1.lock_node p = s.lock_node p) ∧
    (pl = true → s1.lock_node = s.lock_node) ∧
    (e = none → (s1.batons c).type = .svn_wc__adm_access_closed) := by
  rcases do_close_norecurse_cases w s c pl s1 e h with
    ⟨hcl, h1, _⟩ | ⟨_, err, hu, he⟩ | ⟨_, s2, hu, hf⟩
  · rw [h1]
    exact ⟨fun _ _ => rfl, fun _ => rfl, fun _ hq => hq, fun _ _ => rfl, fun _ => rfl,
      fun _ => hcl⟩
  · obtain ⟨hoth, hpt, hln, hpl⟩ := do_close_unlock_frame w s c pl s1 _ hu
    refine ⟨hoth, fun q => (hpt q).1, fun q hq => by rw [(hpt q).2]; exact hq, hln, hpl, ?_⟩
    intro h0
    rw [he] at h0; cases h0
  · obtain ⟨hoth, hpt, hln, hpl⟩ := do_close_unlock_frame w s c pl s2 _ hu
    obtain ⟨hcl, _, _, hoth2⟩ := do_close_finish_closed w s2 c s1 e hf
    obtain ⟨hln2, hp2⟩ := do_close_finish_frame w s2 c s1 e hf
    refine ⟨fun q hq => by rw [hoth2 q hq, hoth q hq], fun q => by rw [hp2 q, (hpt q).1],
      fun q hq => ?_, fun p hp => by rw [hln2, hln p hp], fun hp => by rw [hln2, hpl hp],
      fun _ => hcl⟩
    by_cases hqc : q = c
    · rw [hqc]; exact hcl
    · rw [hoth2 q hqc, hoth q hqc]; exact hq

theorem do_close_children_cons_missing (w : World) (a : Nat) (pl : Bool) (path : Path)
    (rest : List (Path × SetItem)) (s s1 : State) (e : Option svn_error_t)
    (h : do_close_children w a pl ((path, .missing) :: rest) s = some (s1, e)) :
    ∃ sh ht, do_close_children w a pl rest
      (s.setSet sh (some (apr_hash_set ht path none))) = some (s1, e) := by
  rw [do_close_children] at h
  cases hsh : (s.batons a).shared with
  | none => rw [hsh] at h; cases h
  | some sh =>
    rw [hsh] at h
    simp only at h
    cases hset : (s.shareds sh).set with
    | none => rw [hset] at h; cases h
    | some ht =>
      rw [hset] at h
      exact ⟨sh, ht, h⟩

theorem do_close_children_cons_baton (w : World) (a : Nat) (pl : Bool) (path : Path)
    (child : Nat) (rest : List (Path × SetItem)) (s s1 : State) (e : Option svn_error_t)
    (h : do_close_children w a pl ((path, .baton child) :: rest) s = some (s1, e)) :
    ((svn_dirent_is_ancestor (s.batons a).path path = false ∨ (s.batons a).path = path) ∧
      do_close_children w a pl rest s = some (s1, e)) ∨
    (¬ (svn_dirent_is_ancestor (s.batons a).path path = false ∨ (s.batons a).path = path) ∧
      ((∃ err, do_close_norecurse w s child pl = some (s1, some err) ∧ e = some err) ∨
       ∃ s2, do_close_norecurse w s child pl = some (s2, none) ∧
         do_close_children w a pl rest s2 = some (s1, e))) := by
  rw [do_close_children] at h
  by_cases hc : svn_dirent_is_ancestor (s.batons a).path path = false
      ∨ (s.batons a).path = path
  · rw [if_pos hc] at h
    exact Or.inl ⟨hc, h⟩
  · rw [if_neg hc] at h
    refine Or.inr ⟨hc, ?_⟩
    cases hn : do_close_norecurse w s child pl with
    | none => rw [hn] at h; cases h
    | some res =>
      rcases res with ⟨s2, e2⟩
      rw [hn] at h
      cases e2 with
      | some err =>
        simp only [Option.some.injEq, Prod.mk.injEq] at h
        rw [← h.1, ← h.2]
        exact Or.inl ⟨err, rfl, rfl⟩
      | none => exact Or.inr ⟨s2, rfl, h⟩

theorem do_close_children_nil (w : World) (a : Nat) (pl : Bool) (s : State) :
    do_close_children w a pl [] s = some (s, none) := by
  rw [do_close_children]

theorem do_close_children_append (w : World) (a : Nat) (pl : Bool)
    (L1 L2 : List (Path × SetItem)) :
    ∀ (s s' : State), do_close_children w a pl (L1 ++ L2) s = some (s', none) →
      ∃ s1, do_close_children w a pl L1 s = some (s1, none) ∧
        do_close_children w a pl L2 s1 = some (s', none) := by
  induction L1 with
  | nil =>
    intro s s' h
    exact ⟨s, do_close_children_nil w a pl s, h⟩
  | cons kv rest ih =>
    intro s s' h
    obtain ⟨path, item⟩ := kv
    rw [List.cons_append] at h
    cases item with
    | missing =>
      rw [do_close_children] at h ⊢
      cases hsh : (s.batons a).shared with
      | none => rw [hsh] at h; cases h
      | some sh =>
        rw [hsh] at h
        simp only at h ⊢
        cases hset : (s.shareds sh).set with
        | none => rw [hset] at h; cases h
        | some ht =>
          rw [hset] at h
          simp only at h ⊢
          exact ih _ s' h
    | baton child =>
      rw [do_close_children] at h ⊢
      by_cases hc : svn_dirent_is_ancestor (s.batons a).path path = false
          ∨ (s.batons a).path = path
      · rw [if_pos hc] at h ⊢
        exact ih s s' h
      · rw [if_neg hc] at h ⊢
        cases hn : do_close_norecurse w s child pl with
        | none => rw [hn] at h; cases h
        | some res =>
          rcases res with ⟨s2, e2⟩
          rw [hn] at h
          cases e2 with
          | some err => simp only [Option.some.injEq, Prod.mk.injEq] at h; cases h.2
          | none =>
            simp only at h ⊢
            exact ih s2 s' h

theorem do_close_children_all (w : World) (a : Nat) (pl : Bool)
    (L : List (Path × SetItem)) :
    ∀ (s s1 : State) (e : Option svn_error_t),
      do_close_children w a pl L s = some (s1, e) →
      (∀ q, (s1.batons q).path = (s.batons q).path) ∧
      (∀ q, (s.batons q).type = .svn_wc__adm_access_closed →
        (s1.batons q).type = .svn_wc__adm_access_closed) ∧
      (pl = true → s1.lock_node = s.lock_node) ∧
      (e = none → ∀ k c, (k, SetItem.baton c) ∈ L →
        svn_dirent_is_ancestor (s.batons a).path k = true → (s.batons a).path ≠ k →
        (s1.batons c).type = .svn_wc__adm_access_closed) := by
  induction L with
  | nil =>
    intro s s1 e h
    rw [do_close_children_nil] at h
    simp only [Option.some.injEq, Prod.mk.injEq] at h
    rw [← h.1]
    exact ⟨fun _ => rfl, fun _ hq => hq, fun _ => rfl, fun _ k c hm => by cases hm⟩
  | cons kv rest ih =>
    intro s s1 e h
    obtain ⟨path, item⟩ := kv
    cases item with
    | missing =>
      obtain ⟨sh, ht, h2⟩ := do_close_children_cons_missing w a pl path rest s s1 e h
      obtain ⟨hp, hc, hl, hd⟩ := ih _ s1 e h2
      refine ⟨fun q => by rw [hp q]; simp, fun q hq => hc q (by simpa using hq),
        fun hpl => by rw [hl hpl]; simp, fun he k c hm hanc hne => ?_⟩
      rcases List.mem_cons.mp hm with hm | hm
      · cases hm
      · exact hd he k c hm (by simpa using hanc) (by simpa using hne)
    | baton child =>
      rcases do_close_children_cons_baton w a pl path child rest s s1 e h with
        ⟨hskip, h2⟩ | ⟨hgo, ⟨err, hn, he⟩ | ⟨s2, hn, h2⟩⟩
      · obtain ⟨hp, hc, hl, hd⟩ := ih s s1 e h2
        refine ⟨hp, hc, hl, fun he k c hm hanc hne => ?_⟩
        rcases List.mem_cons.mp hm with hm | hm
        · obtain ⟨hk, _⟩ := Prod.mk.inj hm
          rw [hk] at hanc hne
          rcases hskip with h3 | h3
          · rw [hanc] at h3; cases h3
          · exact absurd h3 hne
        · exact hd he k c hm hanc hne
      · obtain ⟨_, hp, hc, _, hl, _⟩ := do_close_norecurse_frame w s child pl s1 _ hn
        refine ⟨hp, hc, hl, fun h0 => ?_⟩
        rw [he] at h0; cases h0
      · obtain ⟨_, hp, hc, _, hl, hcl⟩ := do_close_norecurse_frame w s child pl s2 _ hn
        obtain ⟨hp2, hc2, hl2, hd2⟩ := ih s2 s1 e h2
        refine ⟨fun q => by rw [hp2 q, hp q], fun q hq => hc2 q (hc q hq),
          fun hpl => by rw [hl2 hpl, hl hpl], fun he k c hm hanc hne => ?_⟩
        rcases List.mem_cons.mp hm with hm | hm
        · obtain ⟨_, hv⟩ := Prod.mk.inj hm
          have hcc : c = child := by cases hv; rfl
          rw [hcc]
          exact hc2 child (hcl rfl)
        · exact hd2 he k c hm (by rw [hp a]; exact hanc) (by rw [hp a]; exact hne)

theorem do_close_children_root (w : World) (a : Nat) (pl : Bool)
    (L : List (Path × SetItem)) :
    ∀ (s s1 : State) (e : Option svn_error_t),
      do_close_children w a pl L s = some (s1, e) →
      (∀ k c, (k, SetItem.baton c) ∈ L → (s.batons c).path = k) →
      s1.batons a = s.batons a ∧
      s1.lock_node (s.batons a).path = s.lock_node (s.batons a).path := by
  induction L with
  | nil =>
    intro s s1 e h _
    rw [do_close_children_nil] at h
    simp only [Option.some.injEq, Prod.mk.injEq] at h
    rw [← h.1]
    exact ⟨rfl, rfl⟩
  | cons kv rest ih =>
    intro s s1 e h hkeys
    obtain ⟨path, item⟩ := kv
    cases item with
    | missing =>
      obtain ⟨sh, ht, h2⟩ := do_close_children_cons_missing w a pl path rest s s1 e h
      have := ih _ s1 e h2 (fun k c hm => by
        simp only [setSet_batons]
        exact hkeys k c (List.mem_cons_of_mem _ hm))
      simpa using this
    | baton child =>
      have hchild : (s.batons child).path = path := hkeys path child (List.mem_cons_self _ _)
      rcases do_close_children_cons_baton w a pl path child rest s s1 e h with
        ⟨_, h2⟩ | ⟨hgo, hrun⟩
      · exact ih s s1 e h2 (fun k c hm => hkeys k c (List.mem_cons_of_mem _ hm))
      · have hne : a ≠ child := by
          intro hac
          apply hgo
          right
          rw [hac]; exact hchild
        have hpne : (s.batons a).path ≠ (s.batons child).path := by
          intro hp
          apply hgo
          right
          rw [hp]; exact hchild
        rcases hrun with ⟨err, hn, _⟩ | ⟨s2, hn, h2⟩
        · obtain ⟨hoth, _, _, hln, _, _⟩ := do_close_norecurse_frame w s child pl s1 _ hn
          exact ⟨hoth a hne, hln _ hpne⟩
        · obtain ⟨hoth, hp, _, hln, _, _⟩ := do_close_norecurse_frame w s child pl s2 _ hn
          obtain ⟨hb, hl⟩ := ih s2 s1 e h2 (fun k c hm => by
            rw [hp c]
            exact hkeys k c (List.mem_cons_of_mem _ hm))
          rw [hoth a hne] at hb hl
          exact ⟨hb, by rw [hl, hln _ hpne]⟩

theorem svn_sort__hash_reverse_mem (ht : List (Path × SetItem)) (kv : Path × SetItem) :
    kv ∈ (svn_sort__hash ht).reverse ↔ kv ∈ ht := by
  rw [List.mem_reverse]
  exact (List.perm_insertionSort _ ht).mem_iff

theorem do_close_descendants_some (w : World) (s : State) (a : Nat) (pl : Bool) (sh : Nat)
    (ht : List (Path × SetItem)) (hsh : (s.batons a).shared = some sh)
    (hset : (s.shareds sh).set = some ht) :
    do_close_descendants w s a pl true =
      do_close_children w a pl (svn_sort__hash ht).reverse s := by
  unfold do_close_descendants
  rw [if_pos rfl, hsh]
  simp only
  rw [hset]

theorem do_close_descendants_none (w : World) (s : State) (a : Nat) (pl : Bool)
    (h : (s.batons a).shared = none ∨
      ∃ sh, (s.batons a).shared = some sh ∧ (s.shareds sh).set = none) :
    do_close_descendants w s a pl true = some (s, none) := by
  unfold do_close_descendants
  rw [if_pos rfl]
  rcases h with h | ⟨sh, h, h2⟩
  · rw [h]
  · rw [h]
    simp only
    rw [h2]

theorem do_close_ok_chain (w : World) (s : State) (a : Nat) (pl recurse : Bool) (s' : State)
    (h : do_close w s a pl recurse = some (s', none))
    (hopen : (s.batons a).type ≠ .svn_wc__adm_access_closed) :
    ∃ s1 s2, do_close_descendants w s a pl recurse = some (s1, none) ∧
      do_close_unlock w s1 a pl = (s2, none) ∧ do_close_finish w s2 a = some (s', none) := by
  rcases do_close_cases w s a pl recurse s' none h with ⟨hc, _, _⟩ | ⟨_, s1, e1, hd, hrest⟩
  · exact absurd hc hopen
  · rcases hrest with ⟨err, _, _, h1⟩ | ⟨he, hn, ho⟩ |
      ⟨he, _, ⟨err, _, h1⟩ | ⟨s2, hu, hf⟩⟩
    · cases h1
    · rw [he] at hd
      rcases do_close_norecurse_cases w s1 a pl s' none hn with
        ⟨hc, _, _⟩ | ⟨_, err, _, h1⟩ | ⟨_, s2, hu, hf⟩
      · exact absurd hc ho
      · cases h1
      · exact ⟨s1, s2, hd, hu, hf⟩
    · cases h1
    · rw [he] at hd
      exact ⟨s1, s2, hd, hu, hf⟩

theorem do_close_descendants_closed (w : World) (s : State) (a : Nat) (pl : Bool) (s' : State)
    (h : do_close w s a pl true = some (s', none))
    (hopen : (s.batons a).type ≠ .svn_wc__adm_access_closed) :
    (s'.batons a).type = .svn_wc__adm_access_closed ∧
    ∀ sh ht k c, (s.batons a).shared = some sh → (s.shareds sh).set = some ht →
      (k, SetItem.baton c) ∈ ht → svn_dirent_is_ancestor (s.batons a).path k = true →
      (s.batons a).path ≠ k → (s'.batons c).type = .svn_wc__adm_access_closed := by
  obtain ⟨s1, s2, hd, hu, hf⟩ := do_close_ok_chain w s a pl true s' h hopen
  obtain ⟨hcl, _, _, hoth⟩ := do_close_finish_closed w s2 a s' none hf
  obtain ⟨_, hpt, _, _⟩ := do_close_unlock_frame w s1 a pl s2 none hu
  refine ⟨hcl, fun sh ht k c hsh hset hm hanc hne => ?_⟩
  rw [do_close_descendants_some w s a pl sh ht hsh hset] at hd
  have h1 := (do_close_children_all w a pl _ s s1 none hd).2.2.2 rfl k c
    ((svn_sort__hash_reverse_mem ht _).mpr hm) hanc hne
  by_cases hca : c = a
  · rw [hca]; exact hcl
  · rw [hoth c hca, (hpt c).2]; exact h1

theorem do_close_descendants_lock_node (w : World) (s : State) (a : Nat) (recurse : Bool)
    (s1 : State) (e : Option svn_error_t)
    (h : do_close_descendants w s a true recurse = some (s1, e)) :
    s1.lock_node = s.lock_node := by
  unfold do_close_descendants at h
  by_cases hr : recurse = true
  · rw [if_pos hr] at h
    cases hsh : (s.batons a).shared with
    | none =>
      rw [hsh] at h
      simp only [Option.some.injEq, Prod.mk.injEq] at h
      rw [← h.1]
    | some sh =>
      rw [hsh] at h
      simp only at h
      cases hset : (s.shareds sh).set with
      | none =>
        rw [hset] at h
        simp only [Option.some.injEq, Prod.mk.injEq] at h
        rw [← h.1]
      | some ht =>
        rw [hset] at h
        exact (do_close_children_all w a true _ s s1 e h).2.2.1 rfl
  · rw [if_neg hr] at h
    simp only [Option.some.injEq, Prod.mk.injEq] at h
    rw [← h.1]

theorem do_close_preserve_lock_node (w : World) (s : State) (a : Nat) (recurse : Bool)
    (s' : State) (e : Option svn_error_t) (h : do_close w s a true recurse = some (s', e)) :
    s'.lock_node = s.lock_node := by
  rcases do_close_cases w s a true recurse s' e h with ⟨_, h1, _⟩ | ⟨_, s1, e1, hd, hrest⟩
  · rw [h1]
  · have h2 := do_close_descendants_lock_node w s a recurse s1 e1 hd
    rcases hrest with ⟨err, _, h1, _⟩ | ⟨_, hn, _⟩ | ⟨_, _, ⟨err, hu, _⟩ | ⟨s3, hu, hf⟩⟩
    · rw [h1]; exact h2
    · rw [(do_close_norecurse_frame w s1 a true s' e hn).2.2.2.2.1 rfl]; exact h2
    · rw [(do_close_unlock_frame w s1 a true s' _ hu).2.2.2 rfl]; exact h2
    · rw [(do_close_finish_frame w s3 a s' e hf).1,
        (do_close_unlock_frame w s1 a true s3 _ hu).2.2.2 rfl]
      exact h2

theorem do_close_removes_lock (w : World) (s : State) (a : Nat) (s' : State)
    (h : do_close w s a false true = some (s', none))
    (htype : (s.batons a).type = .svn_wc__adm_access_write_lock)
    (hle : (s.batons a).lock_exists = true)
    (hfile : s.lock_node (s.batons a).path = .svn_node_file)
    (hrm : w.lock_remove_fault (s.batons a).path = none)
    (hkeys : ∀ sh ht k c, (s.batons a).shared = some sh → (s.shareds sh).set = some ht →
      (k, SetItem.baton c) ∈ ht → (s.batons c).path = k) :
    s'.lock_node (s.batons a).path = .svn_node_none := by
  have hopen : (s.batons a).type ≠ .svn_wc__adm_access_closed := by
    rw [htype]; exact fun h => by cases h
  obtain ⟨s1, s2, hd, hu, hf⟩ := do_close_ok_chain w s a false true s' h hopen
  have hroot : s1.batons a = s.batons a ∧
      s1.lock_node (s.batons a).path = s.lock_node (s.batons a).path := by
    cases hsh : (s.batons a).shared with
    | none =>
      rw [do_close_descendants_none w s a false (Or.inl hsh)] at hd
      simp only [Option.some.injEq, Prod.mk.injEq] at hd
      rw [← hd.1]; exact ⟨rfl, rfl⟩
    | some sh =>
      cases hset : (s.shareds sh).set with
      | none =>
        rw [do_close_descendants_none w s a false (Or.inr ⟨sh, hsh, hset⟩)] at hd
        simp only [Option.some.injEq, Prod.mk.injEq] at hd
        rw [← hd.1]; exact ⟨rfl, rfl⟩
      | some ht =>
        rw [do_close_descendants_some w s a false sh ht hsh hset] at hd
        exact do_close_children_root w a false _ s s1 none hd
          (fun k c hm => hkeys sh ht k c hsh hset ((svn_sort__hash_reverse_mem ht _).mp hm))
  have hrem := do_close_unlock_remove w s1 a (by rw [hroot.1]; exact htype)
    (by rw [hroot.1]; exact hle) (by rw [hroot.1, hroot.2]; exact hfile)
    (by rw [hroot.1]; exact hrm)
  rw [hrem] at hu
  simp only [Prod.mk.injEq] at hu
  rw [(do_close_finish_frame w s2 a s' none hf).1, ← hu.1, hroot.1]
  simp

theorem keysArePaths_mem (s : State) (a : Nat) (h : keysArePaths s a) :
    ∀ sh ht k c, (s.batons a).shared = some sh → (s.shareds sh).set = some ht →
      (k, SetItem.baton c) ∈ ht → (s.batons c).path = k := by
  intro sh ht k c hsh hset hm
  have hi : registryItems s a = ht := by
    unfold registryItems
    rw [hsh]
    simp only
    rw [hset]
  have := h (k, SetItem.baton c) (by rw [hi]; exact hm)
  exact this

theorem pool_cleanup_closed (w : World) (s : State) (lock : Nat)
    (h : (s.batons lock).type = .svn_wc__adm_access_closed) :
    pool_cleanup w s lock = some (s, none) := by
  unfold pool_cleanup
  rw [if_pos h]

theorem pool_cleanup_ok (w : World) (s : State) (lock : Nat) (cleanup : Bool) (s' : State)
    (hopen : (s.batons lock).type ≠ .svn_wc__adm_access_closed)
    (hc : svn_wc__adm_is_cleanup_required w s lock = .ok cleanup)
    (h : pool_cleanup w s lock = some (s', none)) :
    do_close w s lock cleanup true = some (s', none) := by
  unfold pool_cleanup at h
  rw [if_neg hopen, hc] at h
  simp only at h
  cases hd : do_close w s lock cleanup true with
  | none => rw [hd] at h; cases h
  | some res =>
    rcases res with ⟨s2, e2⟩
    rw [hd] at h
    cases e2 with
    | none =>
      simp only [Option.some.injEq, Prod.mk.injEq] at h
      rw [h.1]
    | some err =>
      simp only [Option.some.injEq, Prod.mk.injEq] at h
      cases h.2

theorem svn_wc__adm_is_cleanup_required_log (w : World) (s : State) (lock : Nat)
    (kind : svn_node_kind_t)
    (ht : (s.batons lock).type = .svn_wc__adm_access_write_lock)
    (hk : w.log_check_path (s.batons lock).path = .ok kind) :
    svn_wc__adm_is_cleanup_required w s lock = .ok (decide (kind = .svn_node_file)) := by
  unfold svn_wc__adm_is_cleanup_required
  rw [if_pos ht, hk]

/-! ## The owner of a registry -/

theorem mem_registeredBatons (s : State) (sh : Nat) (ht : List (Path × SetItem))
    (hset : (s.shareds sh).set = some ht) (q : Nat) :
    q ∈ registeredBatons s sh ↔ ∃ k, (k, SetItem.baton q) ∈ ht := by
  unfold registeredBatons
  rw [hset]
  simp only [List.mem_filterMap]
  constructor
  · rintro ⟨⟨k, v⟩, hm, hv⟩
    cases v with
    | missing => cases hv
    | baton p =>
      simp only [Option.some.injEq] at hv
      rw [← hv]
      exact ⟨k, hm⟩
  · rintro ⟨k, hm⟩
    exact ⟨(k, SetItem.baton q), hm, rfl⟩

theorem regOK_owners (s : State) (lo : Nat) (root : Path) (lock sh : Nat) (wl : Bool)
    (h : RegOK s lo root lock sh wl) (q : Nat) :
    q ∈ registryOwners s sh ↔ q = lock := by
  obtain ⟨ht, hset, _, hroot, hitems⟩ := h
  unfold registryOwners
  rw [List.mem_filter, mem_registeredBatons s sh ht hset]
  constructor
  · rintro ⟨⟨k, hm⟩, hown⟩
    obtain ⟨_, _, _, _, _, _, ho, _⟩ := (hitems k _ hm).2 q rfl
    exact ho.mp hown
  · intro hq
    rw [hq]
    obtain ⟨_, _, _, _, _, _, ho, _⟩ := (hitems root _ hroot).2 lock rfl
    exact ⟨⟨root, hroot⟩, ho.mpr rfl⟩

/-! ## Closing a registry with or without its lock files -/

theorem do_close_norecurse_item_any (w : World) (pl : Bool) (s : State) (lo lock sh : Nat)
    (wl : Bool) (k : Path) (child : Nat) (ht : List (Path × SetItem))
    (hrm : ∀ p, w.lock_remove_fault p = none)
    (hi : ItemOK s lo lock sh wl k child) (hne : child ≠ lock)
    (hset : (s.shareds sh).set = some ht) :
    ∃ s1, do_close_norecurse w s child pl = some (s1, none) ∧
      (s1.batons child).type = .svn_wc__adm_access_closed ∧
      (∀ q, q ≠ child → s1.batons q = s.batons q) ∧
      (s1.shareds sh).set = some (apr_hash_set ht k none) ∧
      (s1.shareds sh).db = (s.shareds sh).db ∧
      s1.nbatons = s.nbatons ∧ s1.db_closed = s.db_closed ∧
      (∀ p, p ≠ k → s1.lock_node p = s.lock_node p) := by
  cases pl with
  | false => exact do_close_norecurse_item w s lo lock sh wl k child ht hrm hi hne hset
  | true =>
    obtain ⟨_, _, hpath, hshared, htype, hle, hown, hfile⟩ := hi
    have hownf : (s.batons child).set_owner = false := by
      cases ho : (s.batons child).set_owner with
      | false => rfl
      | true => exact absurd (hown.1 ho) hne
    have hopen : (s.batons child).type ≠ .svn_wc__adm_access_closed := by
      rw [htype]; exact openType_ne_closed wl
    unfold do_close_norecurse
    rw [if_neg hopen]
    have hu : do_close_unlock w s child true = (s, none) :=
      do_close_unlock_skip w s child true (fun hh => Bool.noConfusion hh.2.2)
    rw [hu]
    simp only
    rw [do_close_finish_other w s child hownf]
    obtain ⟨hdset, hddb, _⟩ := detached_set s child sh ht hshared hset
    rw [hpath] at hdset
    exact ⟨_, rfl, by rw [detached_type, if_pos rfl], fun q hq => detached_other s child q hq,
      hdset, hddb, (detached_frame s child).1, (detached_frame s child).2.2.2.1,
      fun p _ => by rw [(detached_frame s child).2.2.1]⟩

theorem do_close_unlock_any_ok (w : World) (pl : Bool) (s : State) (a : Nat) (wl : Bool)
    (hrm : ∀ p, w.lock_remove_fault p = none)
    (htype : (s.batons a).type = openType wl) (hle : (s.batons a).lock_exists = wl)
    (hfile : wl = true → s.lock_node (s.batons a).path = .svn_node_file) :
    ∃ s1, do_close_unlock w s a pl = (s1, none) ∧
      (∀ q, (s1.batons q).type = (s.batons q).type ∧ (s1.batons q).path = (s.batons q).path ∧
        (s1.batons q).shared = (s.batons q).shared ∧
        (s1.batons q).set_owner = (s.batons q).set_owner) ∧
      s1.shareds = s.shareds ∧ s1.nbatons = s.nbatons ∧ s1.db_closed = s.db_closed := by
  cases pl with
  | false => exact do_close_unlock_ok w s a wl hrm htype hle hfile
  | true =>
    exact ⟨s, do_close_unlock_skip w s a true (fun hh => Bool.noConfusion hh.2.2),
      fun q => ⟨rfl, rfl, rfl, rfl⟩, rfl, rfl, rfl⟩

theorem close_children_registry_any (w : World) (pl : Bool) (lo : Nat) (root : Path) (lock sh : Nat)
    (wl : Bool) (hrm : ∀ p, w.lock_remove_fault p = none) (L : List (Path × SetItem)) :
    ∀ (s : State) (ht : List (Path × SetItem)),
      (s.shareds sh).set = some ht → (∀ kv, kv ∈ L → kv ∈ ht) → (L.map Prod.fst).Nodup →
      RegOK s lo root lock sh wl → (s.batons lock).shared = some sh →
      ∃ s1, do_close_children w lock pl L s = some (s1, none) ∧
        RegOK s1 lo root lock sh wl ∧ s1.batons lock = s.batons lock ∧
        (∃ ht1, (s1.shareds sh).set = some ht1 ∧
          ∀ kv, kv ∈ ht1 ↔ (kv ∈ ht ∧ (kv ∉ L ∨ kv.1 = root))) ∧
        (∀ k q, (k, SetItem.baton q) ∈ L → k ≠ root →
          (s1.batons q).type = .svn_wc__adm_access_closed) ∧
        (∀ q, (s.batons q).type = .svn_wc__adm_access_closed →
          (s1.batons q).type = .svn_wc__adm_access_closed) ∧
        s1.db_closed = s.db_closed ∧ (s1.shareds sh).db = (s.shareds sh).db := by
  induction L with
  | nil =>
    intro s ht hset _ _ hreg _
    refine ⟨s, by rw [do_close_children], hreg, rfl, ⟨ht, hset, fun kv => ?_⟩,
      fun k q hm => (by cases hm), fun _ h => h, rfl, rfl⟩
    simp
  | cons item rest ih =>
    intro s ht hset hL hnd hreg hsh
    obtain ⟨k, v⟩ := item
    simp only [List.map_cons, List.nodup_cons] at hnd
    have hkv : (k, v) ∈ ht := hL _ (List.mem_cons_self _ _)
    have hrest : ∀ kv, kv ∈ rest → kv ∈ ht ∧ kv.1 ≠ k := by
      intro kv hm
      refine ⟨hL kv (List.mem_cons_of_mem _ hm), fun he => hnd.1 ?_⟩
      rw [← he]
      exact List.mem_map.2 ⟨kv, hm, rfl⟩
    obtain ⟨ht0, hset0, hndk, hroot, hitems⟩ := hreg
    rw [hset] at hset0
    cases hset0
    have hreg : RegOK s lo root lock sh wl := ⟨ht, hset, hndk, hroot, hitems⟩
    have hlockpath : (s.batons lock).path = root := ((hitems root _ hroot).2 lock rfl).2.2.1
    cases v with
    | missing =>
      have hk : k ≠ root := by
        intro he
        rw [he] at hkv
        have := value_unique ht hndk root _ _ hkv hroot
        cases this
      rw [do_close_children, hsh]
      simp only
      rw [hset]
      simp only
      have hreg1 := RegOK.remove s (s.setSet sh (some (apr_hash_set ht k none))) lo root lock sh
        wl ht k hreg hset hk (by simp) (fun _ _ _ _ => rfl) rfl (fun _ _ => rfl)
      obtain ⟨s1, hc, hr1, hb1, ⟨ht1, hset1, hmem1⟩, hcl1, hmono1, hdbc1, hdb1⟩ :=
        ih (s.setSet sh (some (apr_hash_set ht k none))) (apr_hash_set ht k none) (by simp)
          (fun kv hm => (mem_apr_hash_set_none ht k kv).2 (hrest kv hm)) hnd.2 hreg1 hsh
      refine ⟨s1, hc, hr1, hb1, ⟨ht1, hset1, fun kv => ?_⟩, ?_, hmono1, hdbc1, ?_⟩
      · rw [hmem1 kv, mem_apr_hash_set_none]
        exact mem_step ht rest k root _ hndk hkv hk kv
      · intro k1 q hm hk1
        rcases List.mem_cons.1 hm with he | hr
        · cases he
        · exact hcl1 k1 q hr hk1
      · rw [hdb1]
        simp
    | baton child =>
      by_cases hk : k = root
      · have hcond : svn_dirent_is_ancestor (s.batons lock).path k = false
            ∨ (s.batons lock).path = k := Or.inr (by rw [hlockpath, hk])
        rw [do_close_children, if_pos hcond]
        obtain ⟨s1, hc, hr1, hb1, ⟨ht1, hset1, hmem1⟩, hcl1, hmono1, hdbc1, hdb1⟩ :=
          ih s ht hset (fun kv hm => (hrest kv hm).1) hnd.2 hreg hsh
        refine ⟨s1, hc, hr1, hb1, ⟨ht1, hset1, fun kv => ?_⟩, ?_, hmono1, hdbc1, hdb1⟩
        · rw [hmem1 kv]
          exact mem_skip ht rest k root _ hk kv
        · intro k1 q hm hk1
          rcases List.mem_cons.1 hm with he | hr
          · simp only [Prod.mk.injEq] at he
            exact absurd (he.1.trans hk) hk1
          · exact hcl1 k1 q hr hk1
      · obtain ⟨hpre, hq⟩ := hitems k _ hkv
        have hi := hq child rfl
        have hcond : ¬ (svn_dirent_is_ancestor (s.batons lock).path k = false
            ∨ (s.batons lock).path = k) := by
          rw [hlockpath]
          intro hh
          rcases hh with hh | hh
          · unfold svn_dirent_is_ancestor at hh
            have : root.isPrefixOf k = true := List.isPrefixOf_iff_prefix.2 hpre
            rw [this] at hh
            cases hh
          · exact hk hh.symm
        have hne : child ≠ lock := by
          intro he
          have := hi.2.2.1
          rw [he, hlockpath] at this
          exact hk this.symm
        obtain ⟨s2, hn2, hcl2, hoth2, hset2, hdb2, hnb2, hdbc2, hln2⟩ :=
          do_close_norecurse_item_any w pl s lo lock sh wl k child ht hrm hi hne hset
        rw [do_close_children, if_neg hcond, hn2]
        simp only
        have hreg2 := RegOK.remove s s2 lo root lock sh wl ht k hreg hset hk hset2
          (fun k1 q hm hk1 => hoth2 q (fun he => by
            have h1 := ((hitems k1 _ hm).2 q rfl).2.2.1
            rw [he, hi.2.2.1] at h1
            exact hk1 h1.symm)) hnb2 hln2
        have hsh2 : (s2.batons lock).shared = some sh := by
          rw [hoth2 lock (fun he => hne he.symm)]; exact hsh
        obtain ⟨s1, hc, hr1, hb1, ⟨ht1, hset1, hmem1⟩, hcl1, hmono1, hdbc1, hdb1⟩ :=
          ih s2 (apr_hash_set ht k none) hset2
            (fun kv hm => (mem_apr_hash_set_none ht k kv).2 (hrest kv hm)) hnd.2 hreg2 hsh2
        refine ⟨s1, hc, hr1, hb1.trans (hoth2 lock (fun he => hne he.symm)),
          ⟨ht1, hset1, fun kv => ?_⟩, ?_, ?_, hdbc1.trans hdbc2, hdb1.trans hdb2⟩
        · rw [hmem1 kv, mem_apr_hash_set_none]
          exact mem_step ht rest k root _ hndk hkv hk kv
        · intro k1 q hm hk1
          rcases List.mem_cons.1 hm with he | hr
          · simp only [Prod.mk.injEq, SetItem.baton.injEq] at he
            rw [he.2]
            exact hmono1 child hcl2
          · exact hcl1 k1 q hr hk1
        · intro q hqc
          have hqne : q ≠ child := by
            intro he
            rw [he, hi.2.2.2.2.1] at hqc
            exact openType_ne_closed wl hqc
          exact hmono1 q (by rw [hoth2 q hqne]; exact hqc)

theorem close_registry_any (w : World) (pl : Bool) (s : State) (lo : Nat) (root : Path) (lock sh : Nat)
    (wl : Bool) (ht : List (Path × SetItem))
    (hrm : ∀ p, w.lock_remove_fault p = none) (hdbc : ∀ d, w.svn_wc__db_close d = none)
    (hreg : RegOK s lo root lock sh wl) (hsh : (s.batons lock).shared = some sh)
    (hset : (s.shareds sh).set = some ht) :
    ∃ s3, do_close w s lock pl true = some (s3, none) ∧
      (∀ k q, (k, SetItem.baton q) ∈ ht → (s3.batons q).type = .svn_wc__adm_access_closed) ∧
      (s3.batons lock).shared = some sh ∧ (s3.shareds sh).set = some [] ∧
      s3.db_closed = ((s.shareds sh).db).toList ++ s.db_closed := by
  obtain ⟨ht0, hset0, hndk, hroot, hitems⟩ := hreg
  rw [hset] at hset0
  cases hset0
  have hreg : RegOK s lo root lock sh wl := ⟨ht, hset, hndk, hroot, hitems⟩
  have hopen : (s.batons lock).type ≠ .svn_wc__adm_access_closed := by
    rw [((hitems root _ hroot).2 lock rfl).2.2.2.2.1]
    exact openType_ne_closed wl
  obtain ⟨s1, hc, hr1, hb1, ⟨ht1, hset1, hmem1⟩, hcl1, hmono1, hdbc1, hdb1⟩ :=
    close_children_registry_any w pl lo root lock sh wl hrm (svn_sort__hash ht).reverse s ht hset
      (fun kv hm => (svn_sort__hash_mem ht kv).1 hm) (svn_sort__hash_nodup ht hndk) hreg hsh
  obtain ⟨ht1', hset1', _, hroot1, hitems1⟩ := hr1
  rw [hset1] at hset1'
  cases hset1'
  obtain ⟨_, _, hpath1, hshared1, htype1, hle1, hown1, hfile1⟩ := (hitems1 root _ hroot1).2 lock rfl
  obtain ⟨s2, hu, hbat2, hshs2, hnb2, hdbc2⟩ := do_close_unlock_any_ok w pl s1 lock wl hrm htype1 hle1
    (fun hw => by rw [hpath1]; exact hfile1 hw)
  have hkeys : ∀ kv, kv ∈ ht1 → kv.1 = root := by
    intro kv hm
    obtain ⟨h1, h2⟩ := (hmem1 kv).1 hm
    rcases h2 with h2 | h2
    · exact absurd ((svn_sort__hash_mem ht kv).2 h1) h2
    · exact h2
  have hsh2 : (s2.batons lock).shared = some sh := by rw [(hbat2 lock).2.2.1]; exact hshared1
  have hset2 : (s2.shareds sh).set = some ht1 := by rw [hshs2]; exact hset1
  have hpath2 : (s2.batons lock).path = root := by rw [(hbat2 lock).2.1]; exact hpath1
  have hempty : apr_hash_set ht1 (s2.batons lock).path none = [] := by
    rw [hpath2]
    unfold apr_hash_set
    simp only
    rw [List.filter_eq_nil_iff]
    intro kv hm
    simp only [decide_eq_true_eq, not_not]
    exact hkeys kv hm
  obtain ⟨hdset, hddb, _⟩ := detached_set s2 lock sh ht1 hsh2 hset2
  rw [hempty] at hdset
  have hdown : ((detached s2 lock).batons lock).set_owner = true := by
    rw [(detached_baton s2 lock lock).2.2.2.2, (hbat2 lock).2.2.2]
    exact hown1.2 rfl
  have hdsh : ((detached s2 lock).batons lock).shared = some sh := by
    rw [(detached_baton s2 lock lock).2.2.2.1]; exact hsh2
  have hdbeq : ((detached s2 lock).shareds sh).db = (s.shareds sh).db := by
    rw [hddb, hshs2, hdb1]
  have hclosed : ∀ k q, (k, SetItem.baton q) ∈ ht →
      ((detached s2 lock).batons q).type = .svn_wc__adm_access_closed := by
    intro k q hm
    rw [detached_type]
    by_cases hq : q = lock
    · rw [if_pos hq]
    · rw [if_neg hq, (hbat2 q).1]
      refine hcl1 k q ((svn_sort__hash_mem ht _).2 hm) (fun hk => hq ?_)
      rw [hk] at hm
      exact SetItem.baton.inj (value_unique ht hndk root _ _ hm hroot)
  have hstart : do_close w s lock pl true = do_close_db w (detached s2 lock) lock := by
    unfold do_close
    rw [if_neg hopen]
    unfold do_close_descendants
    rw [if_pos rfl, hsh]
    simp only
    rw [hset]
    simp only
    rw [hc]
    simp only
    rw [hu]
    simp only
    exact do_close_finish_noassert w s2 lock sh ht1 hsh2 hset2 hempty
  rw [hstart]
  cases hdb : (s.shareds sh).db with
  | none =>
    rw [hdb] at hdbeq
    refine ⟨_, do_close_db_owner_none w _ lock sh hdown hdsh hdset hdbeq, hclosed, hdsh, hdset,
      ?_⟩
    rw [(detached_frame s2 lock).2.2.2.1, hdbc2, hdbc1]
    rfl
  | some d =>
    rw [hdb] at hdbeq
    refine ⟨_, do_close_db_owner_some w _ lock sh d hdown hdsh hdset hdbeq (hdbc d), hclosed,
      hdsh, hdset, ?_⟩
    simp only [Option.toList, List.singleton_append, List.cons.injEq, true_and]
    rw [(detached_frame s2 lock).2.2.2.1, hdbc2, hdbc1]

theorem close_single_any (w : World) (pl : Bool) (s : State) (lock : Nat) (wl : Bool)
    (hrm : ∀ p, w.lock_remove_fault p = none)
    (hnone : (s.batons lock).shared = none) (hown : (s.batons lock).set_owner = false)
    (htype : (s.batons lock).type = openType wl) (hle : (s.batons lock).lock_exists = wl)
    (hfile : wl = true → s.lock_node (s.batons lock).path = .svn_node_file) :
    ∃ s3, do_close w s lock pl true = some (s3, none) ∧
      (s3.batons lock).type = .svn_wc__adm_access_closed ∧
      (s3.batons lock).shared = none ∧ s3.db_closed = s.db_closed := by
  have hopen : (s.batons lock).type ≠ .svn_wc__adm_access_closed := by
    rw [htype]; exact openType_ne_closed wl
  obtain ⟨s2, hu, hbat2, hshs2, hnb2, hdbc2⟩ := do_close_unlock_any_ok w pl s lock wl hrm htype hle hfile
  have hown2 : (s2.batons lock).set_owner = false := by rw [(hbat2 lock).2.2.2]; exact hown
  refine ⟨detached s2 lock, ?_, by rw [detached_type, if_pos rfl], ?_, ?_⟩
  · unfold do_close
    rw [if_neg hopen]
    unfold do_close_descendants
    rw [if_pos rfl, hnone]
    simp only
    rw [hu]
    simp only
    exact do_close_finish_other w s2 lock hown2
  · rw [(detached_baton s2 lock lock).2.2.2.1, (hbat2 lock).2.2.1]
    exact hnone
  · rw [(detached_frame s2 lock).2.2.2.1, hdbc2]

theorem pool_cleanup_of_close (w : World) (s : State) (lock : Nat) (cleanup : Bool)
    (s' : State) (hopen : (s.batons lock).type ≠ .svn_wc__adm_access_closed)
    (hc : svn_wc__adm_is_cleanup_required w s lock = .ok cleanup)
    (h : do_close w s lock cleanup true = some (s', none)) :
    pool_cleanup w s lock = some (s', none) := by
  unfold pool_cleanup
  rw [if_neg hopen, hc]
  simp only
  rw [h]

theorem svn_wc__adm_is_cleanup_required_ok (w : World) (s : State) (lock : Nat)
    (h : (s.batons lock).type = .svn_wc__adm_access_write_lock →
      ∃ kind, w.log_check_path (s.batons lock).path = .ok kind) :
    ∃ cleanup, svn_wc__adm_is_cleanup_required w s lock = .ok cleanup := by
  unfold svn_wc__adm_is_cleanup_required
  by_cases ht : (s.batons lock).type = .svn_wc__adm_access_write_lock
  · obtain ⟨kind, hk⟩ := h ht
    rw [if_pos ht, hk]
    exact ⟨_, rfl⟩
  · rw [if_neg ht]
    exact ⟨_, rfl⟩

theorem pool_cleanup_opened (w : World) (s0 : State) (path : Path) (wl : Bool) (s : State)
    (lock : Nat) (ho : Opened w s0 path wl s lock)
    (hrm : ∀ p, w.lock_remove_fault p = none) (hdbc : ∀ d, w.svn_wc__db_close d = none)
    (hlog : wl = true → ∃ kind, w.log_check_path path = .ok kind) :
    ∃ s', pool_cleanup w s lock = some (s', none) := by
  have hopen : (s.batons lock).type ≠ .svn_wc__adm_access_closed := by
    rw [ho.type]; exact openType_ne_closed wl
  obtain ⟨cleanup, hc⟩ := svn_wc__adm_is_cleanup_required_ok w s lock (fun ht => by
    rw [ho.path_eq]
    apply hlog
    rw [ho.type] at ht
    cases wl with
    | true => rfl
    | false => cases ht)
  cases hsh : (s.batons lock).shared with
  | none =>
    obtain ⟨s3, h3, _⟩ := close_single_any w cleanup s lock wl hrm hsh (ho.unregistered hsh)
      ho.type ho.lock_exists (fun hw => by rw [ho.path_eq]; exact ho.lock_file hw)
    exact ⟨s3, pool_cleanup_of_close w s lock cleanup s3 hopen hc h3⟩
  | some sh =>
    obtain ⟨_, _, _, hreg⟩ := ho.registry sh hsh
    obtain ⟨ht, hset, _⟩ := hreg
    obtain ⟨s3, h3, _⟩ := close_registry_any w cleanup s s0.nbatons path lock sh wl ht hrm hdbc
      (ho.registry sh hsh).2.2.2 hsh hset
    exact ⟨s3, pool_cleanup_of_close w s lock cleanup s3 hopen hc h3⟩

/-! ## The lock files of the descendants -/

theorem do_close_descendants_items (w : World) (s : State) (a : Nat) (pl : Bool) :
    do_close_descendants w s a pl true =
      do_close_children w a pl (svn_sort__hash (registryItems s a)).reverse s := by
  unfold registryItems
  cases hsh : (s.batons a).shared with
  | none =>
    rw [do_close_descendants_none w s a pl (Or.inl hsh)]
    simp only
    exact (do_close_children_nil w a pl s).symm
  | some sh =>
    simp only
    cases hset : (s.shareds sh).set with
    | none =>
      rw [do_close_descendants_none w s a pl (Or.inr ⟨sh, hsh, hset⟩)]
      simp only
      exact (do_close_children_nil w a pl s).symm
    | some ht =>
      simp only
      exact do_close_descendants_some w s a pl sh ht hsh hset

theorem do_close_unlock_lock_none (w : World) (s : State) (a : Nat) (pl : Bool) (s1 : State)
    (e : Option svn_error_t) (h : do_close_unlock w s a pl = (s1, e)) (p : Path)
    (hp : s.lock_node p = .svn_node_none) : s1.lock_node p = .svn_node_none := by
  rcases do_close_unlock_cases w s a pl s1 e h with
    ⟨h1, _, _⟩ | ⟨h1, _, _⟩ | ⟨_, _, _, _, h1 | ⟨_, h1⟩⟩
  · rw [h1]; exact hp
  · rw [h1]; exact hp
  · rw [h1]; simpa using hp
  · rw [h1]
    simp only [setLockExists_lock_node, setLockNode_lock_node]
    by_cases hpp : p = (s.batons a).path
    · rw [if_pos hpp]
    · rw [if_neg hpp]; exact hp

theorem do_close_norecurse_lock_none (w : World) (s : State) (c : Nat) (pl : Bool)
    (s1 : State) (e : Option svn_error_t) (h : do_close_norecurse w s c pl = some (s1, e))
    (p : Path) (hp : s.lock_node p = .svn_node_none) : s1.lock_node p = .svn_node_none := by
  rcases do_close_norecurse_cases w s c pl s1 e h with
    ⟨_, h1, _⟩ | ⟨_, err, hu, _⟩ | ⟨_, s2, hu, hf⟩
  · rw [h1]; exact hp
  · exact do_close_unlock_lock_none w s c pl s1 _ hu p hp
  · rw [(do_close_finish_frame w s2 c s1 e hf).1]
    exact do_close_unlock_lock_none w s c pl s2 _ hu p hp

theorem do_close_children_lock_none (w : World) (a : Nat) (pl : Bool)
    (L : List (Path × SetItem)) :
    ∀ (s s1 : State) (e : Option svn_error_t),
      do_close_children w a pl L s = some (s1, e) → ∀ p,
      s.lock_node p = .svn_node_none → s1.lock_node p = .svn_node_none := by
  induction L with
  | nil =>
    intro s s1 e h p hp
    rw [do_close_children_nil] at h
    simp only [Option.some.injEq, Prod.mk.injEq] at h
    rw [← h.1]; exact hp
  | cons kv rest ih =>
    intro s s1 e h p hp
    obtain ⟨path, item⟩ := kv
    cases item with
    | missing =>
      obtain ⟨sh, ht, h2⟩ := do_close_children_cons_missing w a pl path rest s s1 e h
      exact ih _ s1 e h2 p (by simpa using hp)
    | baton child =>
      rcases do_close_children_cons_baton w a pl path child rest s s1 e h with
        ⟨_, h2⟩ | ⟨_, ⟨err, hn, _⟩ | ⟨s2, hn, h2⟩⟩
      · exact ih s s1 e h2 p hp
      · exact do_close_norecurse_lock_none w s child pl s1 _ hn p hp
      · exact ih s2 s1 e h2 p (do_close_norecurse_lock_none w s child pl s2 _ hn p hp)

theorem do_close_norecurse_removes (w : World) (s : State) (c : Nat) (s1 : State)
    (h : do_close_norecurse w s c false = some (s1, none))
    (ht : (s.batons c).type = .svn_wc__adm_access_write_lock)
    (hle : (s.batons c).lock_exists = true)
    (hfile : s.lock_node (s.batons c).path = .svn_node_file)
    (hrm : w.lock_remove_fault (s.batons c).path = none) :
    s1.lock_node (s.batons c).path = .svn_node_none := by
  rcases do_close_norecurse_cases w s c false s1 none h with
    ⟨hc, _, _⟩ | ⟨_, err, _, he⟩ | ⟨_, s2, hu, hf⟩
  · rw [ht] at hc; cases hc
  · cases he
  · rw [do_close_unlock_remove w s c ht hle hfile hrm] at hu
    simp only [Prod.mk.injEq] at hu
    rw [(do_close_finish_frame w s2 c s1 none hf).1, ← hu.1]
    simp

theorem do_close_children_removes (w : World) (a : Nat) (L : List (Path × SetItem)) :
    ∀ (s s1 : State), do_close_children w a false L s = some (s1, none) →
      (L.map Prod.fst).Nodup →
      (∀ k q, (k, SetItem.baton q) ∈ L → (s.batons q).path = k) →
      ∀ kc c, (kc, SetItem.baton c) ∈ L →
        svn_dirent_is_ancestor (s.batons a).path kc = true → (s.batons a).path ≠ kc →
        (s.batons c).type = .svn_wc__adm_access_write_lock →
        (s.batons c).lock_exists = true → s.lock_node kc = .svn_node_file →
        w.lock_remove_fault kc = none → s1.lock_node kc = .svn_node_none := by
  induction L with
  | nil => intro s s1 _ _ _ kc c hm; cases hm
  | cons kv rest ih =>
    intro s s1 h hnd hkeys kc c hm hanc hne ht hle hfile hrm
    obtain ⟨path, item⟩ := kv
    simp only [List.map_cons, List.nodup_cons] at hnd
    have hrestkeys : ∀ k q, (k, SetItem.baton q) ∈ rest → (s.batons q).path = k :=
      fun k q hq => hkeys k q (List.mem_cons_of_mem _ hq)
    have hrestne : (kc, SetItem.baton c) ∈ rest → kc ≠ path := by
      intro hq he
      apply hnd.1
      rw [← he]
      exact List.mem_map.2 ⟨(kc, SetItem.baton c), hq, rfl⟩
    cases item with
    | missing =>
      obtain ⟨sh, ht0, h2⟩ := do_close_children_cons_missing w a false path rest s s1 none h
      rcases List.mem_cons.mp hm with hm | hm
      · cases hm
      · exact ih _ s1 h2 hnd.2 (fun k q hq => by simpa using hrestkeys k q hq) kc c hm
          (by simpa using hanc) (by simpa using hne) (by simpa using ht) (by simpa using hle)
          (by simpa using hfile) hrm
    | baton child =>
      have hchild : (s.batons child).path = path := hkeys path child (List.mem_cons_self _ _)
      rcases do_close_children_cons_baton w a false path child rest s s1 none h with
        ⟨hskip, h2⟩ | ⟨hgo, ⟨err, _, he⟩ | ⟨s2, hn, h2⟩⟩
      · rcases List.mem_cons.mp hm with hm | hm
        · obtain ⟨hk, _⟩ := Prod.mk.inj hm
          rw [hk] at hanc hne
          rcases hskip with h3 | h3
          · rw [hanc] at h3; cases h3
          · exact absurd h3 hne
        · exact ih s s1 h2 hnd.2 hrestkeys kc c hm hanc hne ht hle hfile hrm
      · cases he
      · obtain ⟨hoth, hp, _, hln, _, _⟩ := do_close_norecurse_frame w s child false s2 _ hn
        rcases List.mem_cons.mp hm with hm | hm
        · obtain ⟨hk, hv⟩ := Prod.mk.inj hm
          have hcc : c = child := by cases hv; rfl
          rw [hcc] at ht hle
          rw [hk, ← hchild] at hfile hrm
          have h3 := do_close_norecurse_removes w s child s2 hn ht hle hfile hrm
          rw [hchild, ← hk] at h3
          exact do_close_children_lock_none w a false rest s2 s1 none h2 kc h3
        · have hkne := hrestne hm
          have hcne : c ≠ child := by
            intro hcc
            apply hkne
            rw [← hkeys kc c (List.mem_cons_of_mem _ hm), hcc, hchild]
          refine ih s2 s1 h2 hnd.2 (fun k q hq => by rw [hp q]; exact hrestkeys k q hq) kc c hm
            (by rw [hp a]; exact hanc) (by rw [hp a]; exact hne) (by rw [hoth c hcne]; exact ht)
            (by rw [hoth c hcne]; exact hle) ?_ hrm
          rw [hln kc (by rw [hchild]; exact hkne)]
          exact hfile

theorem do_close_removes_descendant (w : World) (s : State) (a : Nat) (s' : State)
    (h : do_close w s a false true = some (s', none))
    (hopen : (s.batons a).type ≠ .svn_wc__adm_access_closed)
    (hnd : ((registryItems s a).map Prod.fst).Nodup) (hkeys : keysArePaths s a)
    (kc : Path) (c : Nat) (hm : (kc, SetItem.baton c) ∈ registryItems s a)
    (hanc : svn_dirent_is_ancestor (s.batons a).path kc = true) (hne : (s.batons a).path ≠ kc)
    (ht : (s.batons c).type = .svn_wc__adm_access_write_lock)
    (hle : (s.batons c).lock_exists = true) (hfile : s.lock_node kc = .svn_node_file)
    (hrm : w.lock_remove_fault kc = none) : s'.lock_node kc = .svn_node_none := by
  obtain ⟨s1, s2, hd, hu, hf⟩ := do_close_ok_chain w s a false true s' h hopen
  rw [do_close_descendants_items] at hd
  have h1 := do_close_children_removes w a _ s s1 hd
    (svn_sort__hash_nodup _ hnd)
    (fun k q hq => hkeys (k, SetItem.baton q) ((svn_sort__hash_reverse_mem _ _).mp hq))
    kc c ((svn_sort__hash_reverse_mem _ _).mpr hm) hanc hne ht hle hfile hrm
  rw [(do_close_finish_frame w s2 a s' none hf).1]
  exact do_close_unlock_lock_none w s1 a false s2 none hu kc h1

/-! ## The claims on retrieval, anchors and teardown -/

theorem svn_wc__adm_retrieve_internal_iff (s : State) (associated : Nat) (path : Path)
    (q : Nat) :
    svn_wc__adm_retrieve_internal s associated path = some q ↔ mapsTo s associated path q := by
  unfold svn_wc__adm_retrieve_internal mapsTo
  cases hsh : (s.batons associated).shared with
  | none =>
    simp only
    by_cases hp : (s.batons associated).path = path
    · rw [if_pos hp]
      simp only [Option.some.injEq, SetItem.baton.injEq]
      constructor
      · intro h; exact Or.inr ⟨Or.inl trivial, hp, h.symm⟩
      · rintro (⟨sh, ht, h, _⟩ | ⟨_, _, h⟩)
        · cases h
        · exact h.symm
    · rw [if_neg hp]
      simp only
      constructor
      · intro h; cases h
      · rintro (⟨sh, ht, h, _⟩ | ⟨_, h, _⟩)
        · cases h
        · exact absurd h hp
  | some sh =>
    simp only
    cases hset : (s.shareds sh).set with
    | none =>
      simp only
      by_cases hp : (s.batons associated).path = path
      · rw [if_pos hp]
        simp only [Option.some.injEq, SetItem.baton.injEq]
        constructor
        · intro h; exact Or.inr ⟨Or.inr ⟨sh, rfl, hset⟩, hp, h.symm⟩
        · rintro (⟨sh1, ht, h, h2, _⟩ | ⟨_, _, h⟩)
          · cases h
            rw [hset] at h2; cases h2
          · exact h.symm
      · rw [if_neg hp]
        simp only
        constructor
        · intro h; cases h
        · rintro (⟨sh1, ht, h, h2, _⟩ | ⟨_, h, _⟩)
          · cases h
            rw [hset] at h2; cases h2
          · exact absurd h hp
    | some ht =>
      simp only
      constructor
      · intro h
        left
        refine ⟨sh, ht, rfl, hset, ?_⟩
        cases hg : apr_hash_get ht path with
        | none => rw [hg] at h; cases h
        | some item =>
          rw [hg] at h
          cases item with
          | missing => cases h
          | baton p =>
            simp only [Option.some.injEq] at h
            rw [h]
      · rintro (⟨sh1, ht1, h, h2, h3⟩ | ⟨h, _, _⟩)
        · cases h
          rw [hset] at h2
          cases h2
          rw [h3]
        · rcases h with h | ⟨sh1, h, h2⟩
          · cases h
          · cases h
            rw [hset] at h2; cases h2

theorem svn_wc_adm_retrieve_found (d : Disk) (s : State) (associated : Nat) (path : Path)
    (q : Nat) (h : svn_wc__adm_retrieve_internal s associated path = some q) :
    svn_wc_adm_retrieve d s associated path = .ok q := by
  unfold svn_wc_adm_retrieve
  rw [h]

theorem svn_wc_adm_retrieve_not_found (d : Disk) (s : State) (associated : Nat) (path : Path)
    (h : svn_wc__adm_retrieve_internal s associated path = none) :
    ∃ e, svn_wc_adm_retrieve d s associated path = .error e ∧
      e.apr_err = .SVN_ERR_WC_NOT_LOCKED := by
  unfold svn_wc_adm_retrieve
  rw [h]
  simp only
  cases d.svn_io_check_path path with
  | error c => exact ⟨_, rfl, rfl⟩
  | ok kind =>
    simp only
    split
    · exact ⟨_, rfl, rfl⟩
    · split
      · exact ⟨_, rfl, rfl⟩
      · cases d.svn_io_check_path (svn_wc__adm_child path) with
        | error c => exact ⟨_, rfl, rfl⟩
        | ok wckind =>
          simp only
          split
          · exact ⟨_, rfl, rfl⟩
          · split
            · exact ⟨_, rfl, rfl⟩
            · split
              · exact ⟨_, rfl, rfl⟩
              · exact ⟨_, rfl, rfl⟩

/-- C21: `svn_wc_adm_retrieve` returns a baton without error exactly when the
registry of the associated baton maps the path to a real baton (or, when there
is no registry yet, when the path is the associated baton's own path), and it
then returns that very baton, which is also what
`svn_wc__adm_retrieve_internal` yields; when the path is absent or mapped to
the placeholder, `svn_wc__adm_retrieve_internal` yields NULL and
`svn_wc_adm_retrieve` fails with `SVN_ERR_WC_NOT_LOCKED` on every diagnostic
branch.  The retrieval has no state to return: it changes neither the registry
nor any baton. -/
theorem adm_retrieve_spec (d : Disk) (s : State) (associated : Nat) (path : Path) :
    (∀ q, svn_wc_adm_retrieve d s associated path = .ok q ↔ mapsTo s associated path q) ∧
    (∀ q, svn_wc__adm_retrieve_internal s associated path = some q ↔
      mapsTo s associated path q) ∧
    ((¬ ∃ q, mapsTo s associated path q) →
      svn_wc__adm_retrieve_internal s associated path = none ∧
      ∃ e, svn_wc_adm_retrieve d s associated path = .error e ∧
        e.apr_err = .SVN_ERR_WC_NOT_LOCKED) ∧
    (∀ sh ht, (s.batons associated).shared = some sh → (s.shareds sh).set = some ht →
      (apr_hash_get ht path = none ∨ apr_hash_get ht path = some .missing) →
      ∃ e, svn_wc_adm_retrieve d s associated path = .error e ∧
        e.apr_err = .SVN_ERR_WC_NOT_LOCKED) := by
  have hnone : (¬ ∃ q, mapsTo s associated path q) →
      svn_wc__adm_retrieve_internal s associated path = none := by
    intro hno
    cases hi : svn_wc__adm_retrieve_internal s associated path with
    | none => rfl
    | some q =>
      exact absurd ⟨q, (svn_wc__adm_retrieve_internal_iff s associated path q).mp hi⟩ hno
  refine ⟨fun q => ?_, svn_wc__adm_retrieve_internal_iff s associated path,
    fun hno => ⟨hnone hno, svn_wc_adm_retrieve_not_found d s associated path (hnone hno)⟩,
    fun sh ht hsh hset hg => ?_⟩
  · rw [← svn_wc__adm_retrieve_internal_iff]
    constructor
    · intro h
      cases hi : svn_wc__adm_retrieve_internal s associated path with
      | none =>
        obtain ⟨e, he, _⟩ := svn_wc_adm_retrieve_not_found d s associated path hi
        rw [he] at h; cases h
      | some p =>
        rw [svn_wc_adm_retrieve_found d s associated path p hi] at h
        simp only [Except.ok.injEq] at h
        rw [h]
    · exact svn_wc_adm_retrieve_found d s associated path q
  · apply svn_wc_adm_retrieve_not_found
    apply hnone
    rintro ⟨q, ⟨sh1, ht1, h1, h2, h3⟩ | ⟨h1, _, _⟩⟩
    · rw [hsh] at h1
      cases h1
      rw [hset] at h2
      cases h2
      rcases hg with hg | hg
      · rw [hg] at h3; cases h3
      · rw [hg] at h3; cases h3
    · rcases h1 with h1 | ⟨sh1, h1, h2⟩
      · rw [hsh] at h1; cases h1
      · rw [hsh] at h1
        cases h1
        rw [hset] at h2; cases h2

/-- C21 in `openedState`: the registry of the baton of `wc` gives the baton 1
for `wc/a`, and the retrieval of `wc/b`, which has a placeholder, fails with
`SVN_ERR_WC_NOT_LOCKED`. -/
theorem adm_retrieve_spec_witness :
    svn_wc_adm_retrieve sampleDisk openedState 0 ["wc", "a"] = .ok 1 ∧
    ∃ e, svn_wc_adm_retrieve sampleDisk openedState 0 ["wc", "b"] = .error e ∧
      e.apr_err = .SVN_ERR_WC_NOT_LOCKED :=
  ⟨((adm_retrieve_spec sampleDisk openedState 0 ["wc", "a"]).1 1).mpr
      (Or.inl ⟨0, _, rfl, rfl, rfl⟩),
    (adm_retrieve_spec sampleDisk openedState 0 ["wc", "b"]).2.2.2 0 _ rfl rfl (Or.inr rfl)⟩

/-- C22: `svn_wc__adm_steal_write_lock` on a directory whose lock file is
already there succeeds, given that `svn_wc_check_wc` and the format upgrade
succeed, instead of failing with `SVN_ERR_WC_LOCKED`: it yields a write-locked
baton of the path with `lock_exists` TRUE and leaves the lock files as they
are; an error other than `SVN_ERR_WC_LOCKED` from creating the lock is
returned as it is. -/
theorem steal_write_lock_spec (w : World) (s : State) (path : Path) :
    (s.lock_node path ≠ .svn_node_none → (w.svn_wc_check_wc path).1 = none →
      maybe_upgrade_format w
        (((s.allocBaton ⟨0, path, .svn_wc__adm_access_write_lock, false, none, false⟩
          ).setLockExists s.nbatons true).setFormat s.nbatons (w.svn_wc_check_wc path).2)
        s.nbatons = none →
      ∃ s1, svn_wc__adm_steal_write_lock w s path = (s1, .ok s.nbatons) ∧
        (s1.batons s.nbatons).type = .svn_wc__adm_access_write_lock ∧
        (s1.batons s.nbatons).lock_exists = true ∧ (s1.batons s.nbatons).path = path ∧
        s1.lock_node = s.lock_node) ∧
    (∀ s1 lock err, adm_access_alloc w s .svn_wc__adm_access_write_lock path
        = (s1, lock, some err) → err.apr_err ≠ .SVN_ERR_WC_LOCKED →
      svn_wc__adm_steal_write_lock w s path = (s1, .error err)) := by
  constructor
  · intro hl hwc hup
    refine ⟨((s.allocBaton ⟨0, path, .svn_wc__adm_access_write_lock, false, none, false⟩
        ).setLockExists s.nbatons true).setFormat s.nbatons (w.svn_wc_check_wc path).2,
      ?_, ?_, ?_, ?_, ?_⟩
    · unfold svn_wc__adm_steal_write_lock
      rw [adm_access_alloc_locked w s path hl]
      simp only [if_true, hwc, hup]
    · simp
    · simp
    · simp
    · simp
  · intro s1 lock err hal hne
    unfold svn_wc__adm_steal_write_lock
    rw [hal]
    simp only [if_neg hne]

/-- C22 in `sampleWorld` with the lock file of `wc` there: the lock is taken
over by the baton 0. -/
theorem steal_write_lock_spec_witness :
    ∃ s1, svn_wc__adm_steal_write_lock sampleWorld lockedState ["wc"] = (s1, .ok 0) ∧
      (s1.batons 0).type = .svn_wc__adm_access_write_lock ∧
      (s1.batons 0).lock_exists = true ∧ (s1.batons 0).path = ["wc"] ∧
      s1.lock_node = lockedState.lock_node :=
  (steal_write_lock_spec sampleWorld lockedState ["wc"]).1 (by decide) rfl rfl

/-- C23 fails for a target that gets no baton of its own: the anchor of the
file `wc/f` is the baton 0 of `wc`, which is returned as target baton too, and
the target name is `f`, not the empty string. -/
theorem open_anchor_same_baton_named :
    (svn_wc_adm_open_anchor sampleWorld sampleDisk 5 emptyState ["wc", "f"] true 0).map
      (fun x => x.2) = some (.ok (0, 0, "f")) := by
  decide

/-- C23, amended: whenever `svn_wc_adm_open_anchor` succeeds, the target name
is the empty string when the anchor baton is the baton of the path itself,
which is then the target baton too, and it is the basename of the path when
the anchor baton is the baton of the parent directory, whether the target
baton is a baton of the path or, the path having got no baton of its own, the
anchor baton itself. -/
theorem open_anchor_target_name (w : World) (d : Disk) (fuel : Nat) (s : State) (path : Path)
    (write_lock : Bool) (levels_to_lock : Int) (s' : State)
    (anchor_access target_access : Nat) (target : String)
    (h : svn_wc_adm_open_anchor w d fuel s path write_lock levels_to_lock
      = some (s', .ok (anchor_access, target_access, target))) :
    ((s'.batons anchor_access).path = path ∧ target_access = anchor_access ∧ target = "") ∨
    ((s'.batons anchor_access).path = svn_dirent_dirname path ∧
      svn_dirent_dirname path ≠ path ∧ target = svn_dirent_basename path ∧
      (target_access = anchor_access ∨ (s'.batons target_access).path = path)) := by
  obtain ⟨_, hr⟩ := open_anchor_spec w d fuel s path write_lock levels_to_lock s' _ h
  rcases (hr anchor_access target_access target rfl).2.2 with h1 | ⟨h1, hne, h2, h3⟩
  · exact Or.inl h1
  · refine Or.inr ⟨h1, ?_, h2, h3⟩
    intro hd
    have hl := congrArg List.length hd
    unfold svn_dirent_dirname at hl
    rw [List.length_dropLast] at hl
    cases path with
    | nil => exact hne rfl
    | cons x xs => simp at hl

/-- C23, amended, for `wc/a` and for `wc/f` in `sampleWorld`: the anchor is
the baton of `wc` and the target names are `a` and `f`; the target baton of
`wc/a` is its own baton 1. -/
theorem open_anchor_target_name_witness :
    (((stateOf (svn_wc_adm_open_anchor sampleWorld sampleDisk 5 emptyState ["wc", "a"]
          true 0)).batons 0).path = ["wc", "a"] ∧ 1 = 0 ∧ "a" = "") ∨
    (((stateOf (svn_wc_adm_open_anchor sampleWorld sampleDisk 5 emptyState ["wc", "a"]
          true 0)).batons 0).path = svn_dirent_dirname ["wc", "a"] ∧
      svn_dirent_dirname ["wc", "a"] ≠ ["wc", "a"] ∧ "a" = svn_dirent_basename ["wc", "a"] ∧
      (1 = 0 ∨ ((stateOf (svn_wc_adm_open_anchor sampleWorld sampleDisk 5 emptyState
          ["wc", "a"] true 0)).batons 1).path = ["wc", "a"])) :=
  have h : svn_wc_adm_open_anchor sampleWorld sampleDisk 5 emptyState ["wc", "a"] true 0
      = some (stateOf (svn_wc_adm_open_anchor sampleWorld sampleDisk 5 emptyState ["wc", "a"]
          true 0), .ok (0, 1, "a")) := rfl
  open_anchor_target_name sampleWorld sampleDisk 5 emptyState ["wc", "a"] true 0 _ 0 1 "a" h

theorem pool_cleanup_eq (w : World) (s : State) (lock : Nat) (cleanup : Bool)
    (hopen : (s.batons lock).type ≠ .svn_wc__adm_access_closed)
    (hc : svn_wc__adm_is_cleanup_required w s lock = .ok cleanup) :
    pool_cleanup w s lock =
      (do_close w s lock cleanup true).map (fun x => (x.1, x.2.map (fun e => e.apr_err))) := by
  unfold pool_cleanup
  rw [if_neg hopen, hc]
  simp only
  cases hd : do_close w s lock cleanup true with
  | none => rfl
  | some res =>
    rcases res with ⟨s1, e1⟩
    cases e1 with
    | none => rfl
    | some err => rfl

theorem pool_cleanup_probe_error (w : World) (s : State) (lock : Nat) (err : svn_error_t)
    (hopen : (s.batons lock).type ≠ .svn_wc__adm_access_closed)
    (hc : svn_wc__adm_is_cleanup_required w s lock = .error err) :
    pool_cleanup w s lock = some (s, some err.apr_err) := by
  unfold pool_cleanup
  rw [if_neg hopen, hc]

/-- C24, as stated, fails in three ways on the tree of `writeLockedState`.
When the probe for the log file of `wc` fails, `pool_cleanup` returns that
failure and the baton of `wc` stays write-locked.  When the lock file of `wc`
cannot be removed, `pool_cleanup` returns that failure with the baton of `wc`
still write-locked, its descendant `wc/a` closed.  When a log file is in the
administrative area of `wc/a` and none in that of `wc`, the lock file of the
write-locked baton of `wc/a` is removed all the same. -/
theorem pool_cleanup_leaves_baton_open :
    (pool_cleanup logProbeFailsWorld writeLockedState 0).map
        (fun x => (x.2, (x.1.batons 0).type, x.1.lock_node ["wc"]))
      = some (some (.os 5), .svn_wc__adm_access_write_lock, .svn_node_file) ∧
    (pool_cleanup stuckRootWorld writeLockedState 0).map
        (fun x => (x.2, (x.1.batons 0).type, (x.1.batons 1).type))
      = some (some (.os 13), .svn_wc__adm_access_write_lock, .svn_wc__adm_access_closed) ∧
    (writeLockedState.batons 1).type = .svn_wc__adm_access_write_lock ∧
    (writeLockedState.batons 1).path = ["wc", "a"] ∧
    childLogWorld.log_check_path ["wc", "a"] = .ok .svn_node_file ∧
    (pool_cleanup childLogWorld writeLockedState 0).map
        (fun x => (x.2, (x.1.batons 1).type, x.1.lock_node ["wc", "a"]))
      = some (none, .svn_wc__adm_access_closed, .svn_node_none) := by
  refine ⟨?_, ?_, ?_, ?_, ?_, ?_⟩ <;> decide

/-- C24, amended: `pool_cleanup` on a baton that is closed does nothing.  On a
baton that is still open it probes for the log file of that baton; when the
probe fails it returns the failure and closes nothing.  Otherwise it returns
what `do_close` returns with `recurse = TRUE` and with `preserve_lock` set
exactly when the baton is write-locked and a log file is in its own
administrative area; this one flag holds for the registered descendants too.
When that reports no error, the baton and the batons registered below its path
end closed; with the flag set no lock file is removed at all, and with the flag
not set the lock file of the baton, if it is write-locked and holds it, and of
each write-locked descendant that holds its lock file is removed, provided
that removal does not fail.  For the root of a tree that `do_open` has just
opened, `pool_cleanup` does return success when no lock file fails to be
removed, the database closes and the probe for the log file answers. -/
theorem pool_cleanup_spec (w : World) (s : State) (lock : Nat) :
    ((s.batons lock).type = .svn_wc__adm_access_closed →
      pool_cleanup w s lock = some (s, none)) ∧
    (∀ err, (s.batons lock).type ≠ .svn_wc__adm_access_closed →
      svn_wc__adm_is_cleanup_required w s lock = .error err →
      pool_cleanup w s lock = some (s, some err.apr_err)) ∧
    (∀ cleanup, (s.batons lock).type ≠ .svn_wc__adm_access_closed →
      svn_wc__adm_is_cleanup_required w s lock = .ok cleanup →
      pool_cleanup w s lock =
        (do_close w s lock cleanup true).map (fun x => (x.1, x.2.map (fun e => e.apr_err))) ∧
      (cleanup = true ↔ (s.batons lock).type = .svn_wc__adm_access_write_lock ∧
        w.log_check_path (s.batons lock).path = .ok .svn_node_file)) ∧
    (∀ cleanup s', (s.batons lock).type ≠ .svn_wc__adm_access_closed →
      svn_wc__adm_is_cleanup_required w s lock = .ok cleanup →
      pool_cleanup w s lock = some (s', none) →
      (s'.batons lock).type = .svn_wc__adm_access_closed ∧
      (∀ sh ht k c, (s.batons lock).shared = some sh → (s.shareds sh).set = some ht →
        (k, SetItem.baton c) ∈ ht → svn_dirent_is_ancestor (s.batons lock).path k = true →
        (s.batons lock).path ≠ k → (s'.batons c).type = .svn_wc__adm_access_closed) ∧
      (cleanup = true → s'.lock_node = s.lock_node) ∧
      (cleanup = false → ((registryItems s lock).map Prod.fst).Nodup → keysArePaths s lock →
        ∀ k c, (k, SetItem.baton c) ∈ registryItems s lock →
          svn_dirent_is_ancestor (s.batons lock).path k = true → (s.batons lock).path ≠ k →
          (s.batons c).type = .svn_wc__adm_access_write_lock →
          (s.batons c).lock_exists = true → s.lock_node k = .svn_node_file →
          w.lock_remove_fault k = none → s'.lock_node k = .svn_node_none)) ∧
    (∀ kind s', (s.batons lock).type = .svn_wc__adm_access_write_lock →
      (s.batons lock).lock_exists = true →
      s.lock_node (s.batons lock).path = .svn_node_file →
      w.log_check_path (s.batons lock).path = .ok kind →
      w.lock_remove_fault (s.batons lock).path = none → keysArePaths s lock →
      pool_cleanup w s lock = some (s', none) →
      (kind = .svn_node_file → s'.lock_node (s.batons lock).path = .svn_node_file) ∧
      (kind ≠ .svn_node_file → s'.lock_node (s.batons lock).path = .svn_node_none)) ∧
    (∀ s0 path write_lock, Opened w s0 path write_lock s lock →
      (∀ p, w.lock_remove_fault p = none) → (∀ db, w.svn_wc__db_close db = none) →
      (write_lock = true → ∃ kind, w.log_check_path path = .ok kind) →
      ∃ s', pool_cleanup w s lock = some (s', none)) := by
  refine ⟨pool_cleanup_closed w s lock, fun err => pool_cleanup_probe_error w s lock err,
    ?_, ?_, ?_, fun s0 path wl ho => pool_cleanup_opened w s0 path wl s lock ho⟩
  · intro cleanup hopen hc
    refine ⟨pool_cleanup_eq w s lock cleanup hopen hc, ?_⟩
    unfold svn_wc__adm_is_cleanup_required at hc
    by_cases ht : (s.batons lock).type = .svn_wc__adm_access_write_lock
    · rw [if_pos ht] at hc
      cases hk : w.log_check_path (s.batons lock).path with
      | error code => rw [hk] at hc; cases hc
      | ok kind =>
        rw [hk] at hc
        simp only [Except.ok.injEq] at hc
        rw [← hc]
        simp [ht]
    · rw [if_neg ht] at hc
      simp only [Except.ok.injEq] at hc
      rw [← hc]
      simp [ht]
  · intro cleanup s' hopen hc h
    have hd := pool_cleanup_ok w s lock cleanup s' hopen hc h
    obtain ⟨hcl, hdesc⟩ := do_close_descendants_closed w s lock cleanup s' hd hopen
    refine ⟨hcl, hdesc, ?_, ?_⟩
    · intro hct
      rw [hct] at hd
      exact do_close_preserve_lock_node w s lock true s' none hd
    · intro hcf hnd hkeys k c hm hanc hne ht hle hfile hrm
      rw [hcf] at hd
      exact do_close_removes_descendant w s lock s' hd hopen hnd hkeys k c hm hanc hne ht hle
        hfile hrm
  · intro kind s' ht hle hfile hk hrm hkeys h
    have hopen : (s.batons lock).type ≠ .svn_wc__adm_access_closed := by
      rw [ht]; exact fun h => by cases h
    have hd := pool_cleanup_ok w s lock _ s' hopen
      (svn_wc__adm_is_cleanup_required_log w s lock kind ht hk) h
    constructor
    · intro hkf
      rw [decide_eq_true hkf] at hd
      rw [do_close_preserve_lock_node w s lock true s' none hd]
      exact hfile
    · intro hkf
      rw [decide_eq_false hkf] at hd
      exact do_close_removes_lock w s lock s' hd ht hle hfile hrm
        (keysArePaths_mem s lock hkeys)

/-- C24, amended, for the baton of `wc` in `writeLockedState`: with a log file
in `wc` the lock file of `wc` stays, without one it is removed, and so is then
the lock file of the descendant `wc/a`. -/
theorem pool_cleanup_spec_witness :
    ((.svn_node_file = svn_node_kind_t.svn_node_file →
        (stateOf (pool_cleanup logWorld writeLockedState 0)).lock_node
          (writeLockedState.batons 0).path = .svn_node_file) ∧
      (svn_node_kind_t.svn_node_file ≠ .svn_node_file →
        (stateOf (pool_cleanup logWorld writeLockedState 0)).lock_node
          (writeLockedState.batons 0).path = .svn_node_none)) ∧
    (stateOf (pool_cleanup sampleWorld writeLockedState 0)).lock_node ["wc"] = .svn_node_none ∧
    (stateOf (pool_cleanup sampleWorld writeLockedState 0)).lock_node ["wc", "a"]
      = .svn_node_none :=
  have h : pool_cleanup logWorld writeLockedState 0
      = some (stateOf (pool_cleanup logWorld writeLockedState 0), none) := rfl
  have h2 : pool_cleanup sampleWorld writeLockedState 0
      = some (stateOf (pool_cleanup sampleWorld writeLockedState 0), none) := rfl
  ⟨(pool_cleanup_spec logWorld writeLockedState 0).2.2.2.2.1 .svn_node_file _ rfl rfl rfl rfl rfl
      (by decide) h, by decide,
    ((pool_cleanup_spec sampleWorld writeLockedState 0).2.2.2.1 false _ (by decide) rfl h2
      ).2.2.2 rfl (by decide) (by decide) ["wc", "a"] 1 (by decide) (by decide) (by decide)
      (by decide) (by decide) (by decide) rfl⟩

/-- C30 fails in `sampleWorld`, where no collaborator fails: after
`svn_wc_adm_open3` has opened `wc/a/x` and then `wc` in association with the
first baton, `svn_wc_adm_close2` of the first baton, which is open and owns
the registry, returns the failure of the assertion
`!set_owner || apr_hash_count(set) == 0`: the baton of `wc` is not below
`wc/a/x`, so it is not closed with it and is still in the registry. -/
theorem close2_owner_assertion_fails :
    (svn_wc_adm_open3 sampleWorld 5 emptyState none ["wc", "a", "x"] false 0).map
      (fun x => x.2) = some (.ok 0) ∧
    (svn_wc_adm_open3 sampleWorld 5 firstOpenState (some 0) ["wc"] false 0).map
      (fun x => x.2) = some (.ok 1) ∧
    (associatedState.batons 0).type = .svn_wc__adm_access_unlocked ∧
    (associatedState.batons 0).set_owner = true ∧
    (svn_wc_adm_close2 sampleWorld associatedState 0).map (fun x => x.2)
      = some (some (assertionFailed ["wc", "a", "x"])) ∧
    registeredBatons (stateOf (svn_wc_adm_close2 sampleWorld associatedState 0)) 0 = [1] := by
  refine ⟨?_, ?_, ?_, ?_, ?_, ?_⟩ <;> decide

theorem kept_lockOp (w : World) (d : Disk) (s s1 : State) (h : LockOp w d s s1) :
    Kept s s1 := by
  cases h with
  | alloc type path =>
    rcases hal : adm_access_alloc w s type path with ⟨s2, lock, e⟩
    exact kept_alloc w s type path s2 lock e hal
  | opened fuel path wl lv _ r h => exact kept_opened w fuel s path wl lv s1 r h
  | open3 fuel associated path wl lv _ r h =>
    exact kept_open3 w fuel s associated path wl lv s1 r h
  | probe_open3 fuel associated path wl lv _ r h =>
    exact kept_probe_open3 w d fuel s associated path wl lv s1 r h
  | open_anchor fuel path wl lv _ r h =>
    exact (open_anchor_spec w d fuel s path wl lv s1 r h).1
  | steal path => exact kept_steal w s path
  | pre_open path => exact kept_pre_open w s path
  | get_db a _ r h => exact kept_get_db w s a s1 r h
  | closed a pl recurse _ r h => exact kept_close w s a pl recurse s1 r h
  | cleanup lock _ r h => exact kept_pool_cleanup w s lock s1 r h

theorem do_close_of_closed (w : World) (s : State) (a : Nat) (pl recurse : Bool)
    (h : (s.batons a).type = .svn_wc__adm_access_closed) :
    do_close w s a pl recurse = some (s, none) := by
  unfold do_close
  rw [if_pos h]

/-- C27: Closed is terminal.  No operation of the lock manager changes the
type of a baton that is closed, and `do_close`, hence `svn_wc_adm_close2`, and
`pool_cleanup` applied to a closed baton return success and leave the state as
it is: the baton, the registry, the metadata handle and the lock files. -/
theorem closed_is_terminal (w : World) (d : Disk) :
    (∀ s s1 q, LockOp w d s s1 → q < s.nbatons →
      (s.batons q).type = .svn_wc__adm_access_closed →
      (s1.batons q).type = .svn_wc__adm_access_closed) ∧
    (∀ s a preserve_lock recurse, (s.batons a).type = .svn_wc__adm_access_closed →
      do_close w s a preserve_lock recurse = some (s, none) ∧
      svn_wc_adm_close2 w s a = some (s, none) ∧ pool_cleanup w s a = some (s, none)) :=
  ⟨fun s s1 q h hq hc => (kept_lockOp w d s s1 h).closed q hq hc,
    fun s a pl recurse h => ⟨do_close_of_closed w s a pl recurse h,
      do_close_of_closed w s a false true h, pool_cleanup_closed w s a h⟩⟩

/-- C27 in `childClosedState`, where the baton 1 of `wc/a` is closed: it is
still closed after `svn_wc_adm_open3` has opened `wc/a` again in association
with the baton 0, and `svn_wc_adm_close2` of it changes nothing. -/
theorem closed_is_terminal_witness :
    ((stateOf (svn_wc_adm_open3 sampleWorld 5 childClosedState (some 0) ["wc", "a"] false 0)
      ).batons 1).type = .svn_wc__adm_access_closed ∧
    (do_close sampleWorld childClosedState 1 false true = some (childClosedState, none) ∧
      svn_wc_adm_close2 sampleWorld childClosedState 1 = some (childClosedState, none) ∧
      pool_cleanup sampleWorld childClosedState 1 = some (childClosedState, none)) :=
  have h : svn_wc_adm_open3 sampleWorld 5 childClosedState (some 0) ["wc", "a"] false 0
      = some (stateOf (svn_wc_adm_open3 sampleWorld 5 childClosedState (some 0) ["wc", "a"]
          false 0), .ok 3) := rfl
  ⟨(closed_is_terminal sampleWorld sampleDisk).1 childClosedState _ 1
      (LockOp.open3 childClosedState 5 (some 0) ["wc", "a"] false 0 _ _ h) (by decide)
      (by decide),
    (closed_is_terminal sampleWorld sampleDisk).2 childClosedState 1 false true (by decide)⟩

theorem svn_dirent_is_ancestor_below (root kp kc : Path)
    (h1 : svn_dirent_is_ancestor root kp = true) (hne : root ≠ kp)
    (h2 : svn_dirent_is_ancestor kp kc = true) :
    svn_dirent_is_ancestor root kc = true ∧ root ≠ kc := by
  unfold svn_dirent_is_ancestor at *
  rw [List.isPrefixOf_iff_prefix] at *
  refine ⟨h1.trans h2, fun h => ?_⟩
  rw [← h] at h2
  exact hne (h1.eq_of_length (le_antisymm h1.length_le h2.length_le))

/-- C26: a recursive `do_close` that reports no error closes the descendants
before the baton itself: the loop over the registry, sorted by path and walked
backwards, ends in a state in which every baton registered below the path of
the baton is closed, and only then the baton is unlocked and marked closed.
For two batons `c` and `p` registered below the baton with the path of `p` a
proper ancestor of the path of `c`, the item of `c` comes before the item of
`p` in the walk: in the state in which `do_close` is called for `p`, `c` is
closed already, and without `preserve_lock` its physical lock is given up
(`lock_exists` is FALSE, the flag implying the write lock before). -/
theorem do_close_children_before_parents (w : World) (s : State) (a : Nat) (pl : Bool)
    (s' : State) (hopen : (s.batons a).type ≠ .svn_wc__adm_access_closed)
    (h : do_close w s a pl true = some (s', none)) :
    (∃ s1 s2,
      do_close_children w a pl (svn_sort__hash (registryItems s a)).reverse s = some (s1, none) ∧
      (∀ k c, (k, SetItem.baton c) ∈ registryItems s a →
        svn_dirent_is_ancestor (s.batons a).path k = true → (s.batons a).path ≠ k →
        (s1.batons c).type = .svn_wc__adm_access_closed) ∧
      do_close_unlock w s1 a pl = (s2, none) ∧ do_close_finish w s2 a = some (s', none) ∧
      (s'.batons a).type = .svn_wc__adm_access_closed) ∧
    (∀ kp p kc c, (kp, SetItem.baton p) ∈ registryItems s a →
      (kc, SetItem.baton c) ∈ registryItems s a →
      svn_dirent_is_ancestor (s.batons a).path kp = true → (s.batons a).path ≠ kp →
      svn_dirent_is_ancestor kp kc = true → kp ≠ kc →
      ∃ L1 L2 s1 s2 s3,
        (svn_sort__hash (registryItems s a)).reverse = L1 ++ (kp, SetItem.baton p) :: L2 ∧
        (kc, SetItem.baton c) ∈ L1 ∧
        do_close_children w a pl L1 s = some (s1, none) ∧
        (s1.batons c).type = .svn_wc__adm_access_closed ∧
        (pl = false → LockFlagOK s → (s1.batons c).lock_exists = false) ∧
        do_close_norecurse w s1 p pl = some (s2, none) ∧
        do_close_children w a pl L2 s2 = some (s3, none)) := by
  obtain ⟨s1, s2, hd, hu, hf⟩ := do_close_ok_chain w s a pl true s' h hopen
  rw [do_close_descendants_items] at hd
  have hall := do_close_children_all w a pl _ s s1 none hd
  constructor
  · refine ⟨s1, s2, hd, fun k c hm hanc hne => ?_, hu, hf,
      (do_close_finish_closed w s2 a s' none hf).1⟩
    exact hall.2.2.2 rfl k c ((svn_sort__hash_reverse_mem _ _).mpr hm) hanc hne
  · intro kp p kc c hp hc hanc hne hpc hkne
    have hpre : kp <+: kc := by
      unfold svn_dirent_is_ancestor at hpc
      exact List.isPrefixOf_iff_prefix.mp hpc
    obtain ⟨L1, L2, hsplit, hcL1⟩ :=
      svn_sort__hash_children_first (registryItems s a) kp kc _ _ hp hc hpre hkne
    rw [hsplit] at hd
    obtain ⟨t1, ht1, hrest⟩ := do_close_children_append w a pl L1 _ s s1 hd
    have hall1 := do_close_children_all w a pl L1 s t1 none ht1
    obtain ⟨hanc2, hne2⟩ := svn_dirent_is_ancestor_below _ kp kc hanc hne hpc
    have hcl : (t1.batons c).type = .svn_wc__adm_access_closed :=
      hall1.2.2.2 rfl kc c hcL1 hanc2 hne2
    rcases do_close_children_cons_baton w a pl kp p L2 t1 s1 none hrest with
      ⟨hskip, _⟩ | ⟨_, ⟨err, _, he⟩ | ⟨t2, hn, hr2⟩⟩
    · rw [hall1.1 a] at hskip
      rcases hskip with h3 | h3
      · rw [hanc] at h3; cases h3
      · exact absurd h3 hne
    · cases he
    · refine ⟨L1, L2, t1, t2, s1, hsplit, hcL1, ht1, hcl, fun hpl hflag => ?_, hn, hr2⟩
      rw [hpl] at ht1
      have hflag1 := LockFlagOK.children w a L1 s t1 none ht1 hflag
      cases hle : (t1.batons c).lock_exists with
      | false => rfl
      | true =>
        have := hflag1 c hle
        rw [hcl] at this
        cases this

/-- C26 for `svn_wc_adm_close2` of the baton of `wc` in `writeLockedState`:
when the baton 1 of `wc/a` is closed, the baton 2 of `wc/a/x` is closed and
has given up its lock. -/
theorem do_close_children_before_parents_witness :
    ∃ L1 L2 s1 s2 s3,
      (svn_sort__hash (registryItems writeLockedState 0)).reverse
        = L1 ++ (["wc", "a"], SetItem.baton 1) :: L2 ∧
      (["wc", "a", "x"], SetItem.baton 2) ∈ L1 ∧
      do_close_children sampleWorld 0 false L1 writeLockedState = some (s1, none) ∧
      (s1.batons 2).type = .svn_wc__adm_access_closed ∧
      (false = false → LockFlagOK writeLockedState → (s1.batons 2).lock_exists = false) ∧
      do_close_norecurse sampleWorld s1 1 false = some (s2, none) ∧
      do_close_children sampleWorld 0 false L2 s2 = some (s3, none) :=
  have h : do_close sampleWorld writeLockedState 0 false true
      = some (stateOf (do_close sampleWorld writeLockedState 0 false true), none) := rfl
  (do_close_children_before_parents sampleWorld writeLockedState 0 false _ (by decide) h).2
    ["wc", "a"] 1 ["wc", "a", "x"] 2 (by decide) (by decide) (by decide) (by decide)
    (by decide) (by decide)

/-- C20, amended: when `do_close` returns for a baton that was not closed, the
type of the baton is closed and its path is no key of its registry, whether
`do_close` reports success or the failure of its assertion or of
`svn_wc__db_close`, which come after the baton is reset and detached.  The
exceptions are the two returns before that: the close of a descendant has
returned an error, or the removal of the lock file of the write-locked baton
has failed while the admin directory is there; `do_close` then returns that
error, in the second case with the state as the loop over the descendants
left it (without recursion: as it was). -/
theorem do_close_closes_unless_early_return (w : World) (s : State) (adm_access : Nat)
    (preserve_lock recurse : Bool) :
    (∀ s1 r, do_close w s adm_access preserve_lock recurse = some (s1, r) →
      (s.batons adm_access).type ≠ .svn_wc__adm_access_closed →
      ((s1.batons adm_access).type = .svn_wc__adm_access_closed ∧ ¬ registered s1 adm_access) ∨
      (∃ err, r = some err ∧
        do_close_descendants w s adm_access preserve_lock recurse = some (s1, some err)) ∨
      (∃ err, r = some err ∧
        do_close_descendants w s adm_access preserve_lock recurse = some (s1, none) ∧
        do_close_unlock w s1 adm_access preserve_lock = (s1, some err) ∧
        (s1.batons adm_access).type = .svn_wc__adm_access_write_lock ∧
        (s1.batons adm_access).lock_exists = true ∧ preserve_lock = false ∧
        w.svn_wc__adm_area_exists (s1.batons adm_access).path = true)) ∧
    (∀ s2 s3 s1 r, (s.batons adm_access).type ≠ .svn_wc__adm_access_closed →
      do_close_descendants w s adm_access preserve_lock recurse = some (s2, none) →
      do_close_unlock w s2 adm_access preserve_lock = (s3, none) →
      do_close_finish w s3 adm_access = some (s1, r) →
      do_close w s adm_access preserve_lock recurse = some (s1, r) ∧
      (s1.batons adm_access).type = .svn_wc__adm_access_closed ∧ ¬ registered s1 adm_access) ∧
    ((s.batons adm_access).type = .svn_wc__adm_access_write_lock →
      (s.batons adm_access).lock_exists = true →
      (svn_wc__remove_adm_file w s (s.batons adm_access).path).2 ≠ none →
      w.svn_wc__adm_area_exists (s.batons adm_access).path = true →
      do_close w s adm_access false false =
        some (s, (svn_wc__remove_adm_file w s (s.batons adm_access).path).2)) := by
  refine ⟨fun s1 r h hopen => ?_, fun s2 s3 s1 r hopen hd hu hf => ?_, fun ht hl hrm ha => ?_⟩
  · have hfin : ∀ s3, do_close_finish w s3 adm_access = some (s1, r) →
        (s1.batons adm_access).type = .svn_wc__adm_access_closed ∧ ¬ registered s1 adm_access :=
      fun s3 hf => ⟨(do_close_finish_closed w s3 adm_access s1 r hf).1,
        (do_close_finish_closed w s3 adm_access s1 r hf).2.1⟩
    have hunl : ∀ s2 err, do_close_unlock w s2 adm_access preserve_lock = (s1, some err) →
        s1 = s2 ∧ (s1.batons adm_access).type = .svn_wc__adm_access_write_lock ∧
        (s1.batons adm_access).lock_exists = true ∧ preserve_lock = false ∧
        w.svn_wc__adm_area_exists (s1.batons adm_access).path = true := by
      intro s2 err hu
      rcases do_close_unlock_cases w s2 adm_access preserve_lock s1 _ hu with
        ⟨_, h1, _⟩ | ⟨h1, _, ht, hl, hp, ha, _⟩ | ⟨h1, _⟩
      · cases h1
      · rw [h1]; exact ⟨rfl, ht, hl, hp, ha⟩
      · cases h1
    rcases do_close_cases w s adm_access preserve_lock recurse s1 r h with
      ⟨hc, _, _⟩ | ⟨_, s2, e2, hd, hrest⟩
    · exact absurd hc hopen
    · rcases hrest with ⟨err, he, h1, hr⟩ | ⟨he, hn, hno⟩ |
        ⟨he, _, ⟨err, hu, hr⟩ | ⟨s3, hu, hf⟩⟩
      · rw [he, ← h1] at hd
        exact Or.inr (Or.inl ⟨err, hr, hd⟩)
      · rw [he] at hd
        rcases do_close_norecurse_cases w s2 adm_access preserve_lock s1 r hn with
          ⟨hc2, _, _⟩ | ⟨_, err, hu, hr⟩ | ⟨_, s3, hu, hf⟩
        · exact absurd hc2 hno
        · obtain ⟨h12, ht, hl, hp, ha⟩ := hunl s2 err hu
          rw [← h12] at hd hu
          exact Or.inr (Or.inr ⟨err, hr, hd, hu, ht, hl, hp, ha⟩)
        · exact Or.inl (hfin s3 hf)
      · obtain ⟨h12, ht, hl, hp, ha⟩ := hunl s2 err hu
        rw [he, ← h12] at hd
        rw [← h12] at hu
        exact Or.inr (Or.inr ⟨err, hr, hd, hu, ht, hl, hp, ha⟩)
      · exact Or.inl (hfin s3 hf)
  · refine ⟨?_, (do_close_finish_closed w s3 adm_access s1 r hf).1,
      (do_close_finish_closed w s3 adm_access s1 r hf).2.1⟩
    unfold do_close
    rw [if_neg hopen, hd]
    simp only
    rw [hu]
    simp only
    exact hf
  · have hopen : (s.batons adm_access).type ≠ .svn_wc__adm_access_closed := by
      rw [ht]; exact fun hh => by cases hh
    have hsame : (svn_wc__remove_adm_file w s (s.batons adm_access).path).1 = s := by
      unfold svn_wc__remove_adm_file at hrm ⊢
      by_cases hn : s.lock_node (s.batons adm_access).path ≠ .svn_node_file
      · rw [if_pos hn]
      · rw [if_neg hn] at hrm ⊢
        cases hf : w.lock_remove_fault (s.batons adm_access).path with
        | some code => rfl
        | none => rw [hf] at hrm; exact absurd rfl hrm
    unfold do_close do_close_descendants do_close_unlock
    rw [if_neg hopen, if_neg (fun hh => by cases hh)]
    simp only
    rw [if_pos ht, if_pos ⟨hl, trivial⟩]
    rcases hr : svn_wc__remove_adm_file w s (s.batons adm_access).path with ⟨s2, e⟩
    rw [hr] at hrm hsame
    simp only at hrm hsame
    subst hsame
    cases e with
    | none => exact absurd rfl hrm
    | some err =>
      simp only
      rw [if_pos ha]

theorem do_close_closes_unless_early_return_witness :
    (do_close sampleWorld associatedState 0 false true
        = some (stateOf (do_close sampleWorld associatedState 0 false true),
            some (assertionFailed ["wc", "a", "x"])) ∧
      ((stateOf (do_close sampleWorld associatedState 0 false true)).batons 0).type
        = .svn_wc__adm_access_closed ∧
      ¬ registered (stateOf (do_close sampleWorld associatedState 0 false true)) 0) ∧
    do_close stuckRootWorld (stateOf (do_open stuckRootWorld 3 emptyState ["wc"] true 0)) 0
        false false
      = some (stateOf (do_open stuckRootWorld 3 emptyState ["wc"] true 0),
          some (ioError 13 ["wc"])) :=
  ⟨(do_close_closes_unless_early_return sampleWorld associatedState 0 false true).2.1
      (stateOf (do_close_descendants sampleWorld associatedState 0 false true))
      (stateOf (do_close_descendants sampleWorld associatedState 0 false true))
      (stateOf (do_close sampleWorld associatedState 0 false true))
      (some (assertionFailed ["wc", "a", "x"])) (by decide) rfl rfl rfl,
    (do_close_closes_unless_early_return stuckRootWorld
      (stateOf (do_open stuckRootWorld 3 emptyState ["wc"] true 0)) 0 false false).2.2
        (by decide) (by decide) (by decide) (by decide)⟩

/-! ## The invariant of the registries -/

theorem ownerInv_frame (s s1 : State) (h : OwnerInv s)
    (hnb : s.nbatons ≤ s1.nbatons) (hns : s1.nshareds = s.nshareds)
    (hset : ∀ sh, (s1.shareds sh).set = (s.shareds sh).set)
    (hb : ∀ q, ((s1.batons q).path = (s.batons q).path ∧
        (s1.batons q).shared = (s.batons q).shared ∧
        (s1.batons q).set_owner = (s.batons q).set_owner) ∨
      (s.nbatons ≤ q ∧ (s1.batons q).shared = none)) : OwnerInv s1 := by
  have hold : ∀ q, q < s.nbatons → (s1.batons q).path = (s.batons q).path ∧
      (s1.batons q).shared = (s.batons q).shared ∧
      (s1.batons q).set_owner = (s.batons q).set_owner := by
    intro q hq
    rcases hb q with hsame | ⟨hge, _⟩
    · exact hsame
    · exact absurd hq (Nat.not_lt.2 hge)
  have hatt : ∀ q sh, (s1.batons q).shared = some sh → (s.batons q).shared = some sh ∧
      (s1.batons q).path = (s.batons q).path := by
    intro q sh hq
    rcases hb q with hsame | ⟨_, hnone⟩
    · exact ⟨by rw [← hsame.2.1]; exact hq, hsame.1⟩
    · rw [hnone] at hq; cases hq
  refine ⟨fun sh hsh => ?_, fun q sh hq => ?_, fun sh ht hs => ?_, fun sh ht k q hs hm => ?_,
    fun sh ht hs hlive => ?_⟩
  · rw [hset]; exact h.unused sh (by rw [← hns]; exact hsh)
  · rw [hset]; exact h.has_set q sh (hatt q sh hq).1
  · rw [hset] at hs; exact h.nodup sh ht hs
  · rw [hset] at hs; exact Nat.lt_of_lt_of_le (h.lt sh ht k q hs hm) hnb
  · rw [hset] at hs
    obtain ⟨k, q, hm, hq⟩ := hlive
    obtain ⟨hitems, o, ho, hflag, huniq, hsolo⟩ := h.good sh ht hs ⟨k, q, hm, (hatt q sh hq).1⟩
    have holt : o < s.nbatons := h.lt sh ht _ o hs ho
    refine ⟨fun k1 q1 hm1 => ?_, o, ?_, ?_, fun k1 q1 hm1 hf => ?_, fun u hu hp => ?_⟩
    · have := hold q1 (h.lt sh ht k1 q1 hs hm1)
      rw [this.1, this.2.1]
      exact hitems k1 q1 hm1
    · rw [(hold o holt).1]; exact ho
    · rw [(hold o holt).2.2]; exact hflag
    · refine huniq k1 q1 hm1 ?_
      rw [← (hold q1 (h.lt sh ht k1 q1 hs hm1)).2.2]
      exact hf
    · refine hsolo u (hatt u sh hu).1 ?_
      rw [← (hatt u sh hu).2, hp, (hold o holt).1]

theorem ownerInv_same (s s1 : State) (h : OwnerInv s)
    (hnb : s1.nbatons = s.nbatons) (hns : s1.nshareds = s.nshareds)
    (hset : ∀ sh, (s1.shareds sh).set = (s.shareds sh).set)
    (hb : ∀ q, (s1.batons q).path = (s.batons q).path ∧
        (s1.batons q).shared = (s.batons q).shared ∧
        (s1.batons q).set_owner = (s.batons q).set_owner) : OwnerInv s1 :=
  ownerInv_frame s s1 h (by rw [hnb]) hns hset (fun q => Or.inl (hb q))

theorem ownerInv_init (lock_node : Path → svn_node_kind_t) : OwnerInv (State.init lock_node) :=
  ⟨fun _ _ => rfl, fun _ _ hq => (by cases hq), fun _ _ hs => (by cases hs),
    fun _ _ _ _ hs => (by cases hs), fun _ _ hs => (by cases hs)⟩

theorem ownerInv_alloc (w : World) (s : State) (type : svn_wc__adm_access_type) (path : Path)
    (s1 : State) (lock : Nat) (e : Option svn_error_t)
    (hal : adm_access_alloc w s type path = (s1, lock, e)) (h : OwnerInv s) : OwnerInv s1 := by
  obtain ⟨hlock, hnb, hoth, hshs, hnsh, _, _, _, _, hshared, _, _⟩ :=
    adm_access_alloc_frame w s type path s1 lock e hal
  refine ownerInv_frame s s1 h (by rw [hnb]; exact Nat.le_succ _) hnsh
    (fun sh => by rw [hshs]) (fun q => ?_)
  by_cases hq : q = s.nbatons
  · right
    rw [hq, ← hlock]
    exact ⟨by rw [hlock], hshared⟩
  · left
    rw [hoth q hq]
    exact ⟨rfl, rfl, rfl⟩

theorem ownerInv_setFormat (s : State) (p : Nat) (f : Int) (h : OwnerInv s) :
    OwnerInv (s.setFormat p f) :=
  ownerInv_same s _ h rfl rfl (fun _ => rfl) (fun q => by simp)

theorem ownerInv_registerCleanup (s : State) (p : Nat) (h : OwnerInv s) :
    OwnerInv (s.registerCleanup p) :=
  ownerInv_same s _ h rfl rfl (fun _ => rfl) (fun _ => ⟨rfl, rfl, rfl⟩)

theorem adm_ensure_set_fresh_fields (s : State) (a : Nat) (hs : (s.batons a).shared = none) :
    (adm_ensure_set s a).nbatons = s.nbatons ∧
    (adm_ensure_set s a).nshareds = s.nshareds + 1 ∧
    (∀ q, q ≠ a → (adm_ensure_set s a).batons q = s.batons q) ∧
    ((adm_ensure_set s a).batons a).path = (s.batons a).path ∧
    ((adm_ensure_set s a).batons a).shared = some s.nshareds ∧
    ((adm_ensure_set s a).batons a).set_owner = true ∧
    ((adm_ensure_set s a).batons a).type = (s.batons a).type ∧
    ((adm_ensure_set s a).shareds s.nshareds).set
      = some [((s.batons a).path, SetItem.baton a)] ∧
    (∀ t, t ≠ s.nshareds → (adm_ensure_set s a).shareds t = s.shareds t) := by
  rw [adm_ensure_set_fresh s a hs]
  refine ⟨by simp, by simp, fun q hq => ?_, by simp, by simp, by simp, by simp, by simp,
    fun t ht => ?_⟩
  · rw [setSharedPtr_other _ _ _ _ hq]
    simp only [setSet_batons]
    rw [setOwner_other _ _ _ _ hq, setSharedPtr_other _ _ _ _ hq]
    simp only [allocShared_batons]
  · simp only [setSharedPtr_shareds]
    rw [setSet_other _ _ _ _ ht, setSet_other _ _ _ _ ht]
    simp only [setOwner_shareds, setSharedPtr_shareds, allocShared_shareds, if_neg ht]

/-- A baton that gets its registry from `adm_ensure_set` is the owner of a new
registry that lists this baton only. -/
theorem ownerInv_ensure_set (s : State) (a : Nat) (h : OwnerInv s) (ha : a < s.nbatons) :
    OwnerInv (adm_ensure_set s a) := by
  cases hs : (s.batons a).shared with
  | some sh =>
    cases hset : (s.shareds sh).set with
    | none => exact absurd hset (h.has_set a sh hs)
    | some ht => rw [adm_ensure_set_noop s a sh ht hs hset]; exact h
  | none =>
    obtain ⟨hnb, hns, hother, hpa, hsa, hfa, _, hnew, hold⟩ := adm_ensure_set_fresh_fields s a hs
    generalize adm_ensure_set s a = s1 at hnb hns hother hpa hsa hfa hnew hold
    have hlt : ∀ q sh, (s.batons q).shared = some sh → sh ≠ s.nshareds := by
      intro q sh hq he
      rw [he] at hq
      exact h.has_set q _ hq (h.unused _ (Nat.le_refl _))
    have hatt : ∀ u sh, sh ≠ s.nshareds → (s1.batons u).shared = some sh → u ≠ a := by
      intro u sh hne hu hua
      rw [hua, hsa] at hu
      exact hne (Option.some.inj hu).symm
    refine ⟨fun sh hsh => ?_, fun q sh hq => ?_, fun sh ht hset => ?_,
      fun sh ht k q hset hm => ?_, fun sh ht hset hlive => ?_⟩
    · rw [hns] at hsh
      have hne : sh ≠ s.nshareds := by omega
      rw [hold sh hne]
      exact h.unused sh (by omega)
    · by_cases hq1 : q = a
      · rw [hq1, hsa] at hq
        cases hq
        rw [hnew]
        exact fun hh => by cases hh
      · rw [hother q hq1] at hq
        rw [hold sh (hlt q sh hq)]
        exact h.has_set q sh hq
    · by_cases hne : sh = s.nshareds
      · rw [hne, hnew] at hset
        cases hset
        simp
      · rw [hold sh hne] at hset
        exact h.nodup sh ht hset
    · rw [hnb]
      by_cases hne : sh = s.nshareds
      · rw [hne, hnew] at hset
        cases hset
        simp only [List.mem_singleton, Prod.mk.injEq, SetItem.baton.injEq] at hm
        rw [hm.2]
        exact ha
      · rw [hold sh hne] at hset
        exact h.lt sh ht k q hset hm
    · by_cases hne : sh = s.nshareds
      · rw [hne, hnew] at hset
        cases hset
        refine ⟨fun k q hm => ?_, a, ?_, hfa, fun k q hm _ => ?_, fun u hu _ => ?_⟩
        · simp only [List.mem_singleton, Prod.mk.injEq, SetItem.baton.injEq] at hm
          rw [hm.2, hm.1, hpa, hsa, hne]
          exact ⟨rfl, rfl⟩
        · rw [hpa]
          exact List.mem_singleton.2 rfl
        · simp only [List.mem_singleton, Prod.mk.injEq, SetItem.baton.injEq] at hm
          exact hm.2
        · by_contra hua
          rw [hother u hua, hne] at hu
          exact hlt u _ hu rfl
      · rw [hold sh hne] at hset
        obtain ⟨k, q, hm, hq⟩ := hlive
        have hqa := hatt q sh hne hq
        rw [hother q hqa] at hq
        obtain ⟨hitems, o, ho, hflag, huniq, hsolo⟩ := h.good sh ht hset ⟨k, q, hm, hq⟩
        have hlisted : ∀ k1 q1, (k1, SetItem.baton q1) ∈ ht → q1 ≠ a := by
          intro k1 q1 hm1 he
          have := (hitems k1 q1 hm1).2
          rw [he, hs] at this
          cases this
        have hoa : o ≠ a := hlisted _ o ho
        refine ⟨fun k1 q1 hm1 => ?_, o, ?_, ?_, fun k1 q1 hm1 hf => ?_, fun u hu hp => ?_⟩
        · rw [hother q1 (hlisted k1 q1 hm1)]
          exact hitems k1 q1 hm1
        · rw [hother o hoa]; exact ho
        · rw [hother o hoa]; exact hflag
        · rw [hother q1 (hlisted k1 q1 hm1)] at hf
          exact huniq k1 q1 hm1 hf
        · have hua := hatt u sh hne hu
          rw [hother u hua] at hu hp
          rw [hother o hoa] at hp
          exact hsolo u hu hp

/-- Taking a key out of a hash keeps the invariant unless the key is bound to
the owner while something else stays listed. -/
theorem ownerInv_unset (s s1 : State) (h : OwnerInv s) (sh : Nat)
    (ht : List (Path × SetItem)) (k : Path)
    (hs : (s.shareds sh).set = some ht)
    (hs1 : (s1.shareds sh).set = some (apr_hash_set ht k none))
    (hoth : ∀ t, t ≠ sh → (s1.shareds t).set = (s.shareds t).set)
    (hnb : s1.nbatons = s.nbatons) (hns : s1.nshareds = s.nshareds)
    (hb : ∀ q, (s1.batons q).path = (s.batons q).path ∧
        (s1.batons q).shared = (s.batons q).shared ∧
        (s1.batons q).set_owner = (s.batons q).set_owner)
    (hsafe : ∀ o, (k, SetItem.baton o) ∈ ht → (s.batons o).set_owner = true →
      (s.batons o).shared = some sh → apr_hash_set ht k none = []) : OwnerInv s1 := by
  refine ⟨fun t ht1 => ?_, fun q t hq => ?_, fun t ht1 hset => ?_, fun t ht1 k1 q hset hm => ?_,
    fun t ht1 hset hlive => ?_⟩
  · by_cases hne : t = sh
    · subst hne
      rw [hns] at ht1
      have := h.unused t ht1
      rw [hs] at this
      cases this
    · rw [hoth t hne]
      exact h.unused t (by rw [← hns]; exact ht1)
  · rw [(hb q).2.1] at hq
    by_cases hne : t = sh
    · subst hne
      rw [hs1]
      exact fun hh => by cases hh
    · rw [hoth t hne]
      exact h.has_set q t hq
  · by_cases hne : t = sh
    · subst hne
      rw [hs1] at hset
      cases hset
      exact nodup_keys_apr_hash_set ht k none (h.nodup t ht hs)
    · rw [hoth t hne] at hset
      exact h.nodup t ht1 hset
  · rw [hnb]
    by_cases hne : t = sh
    · subst hne
      rw [hs1] at hset
      cases hset
      exact h.lt t ht k1 q hs ((mem_apr_hash_set_none ht k _).1 hm).1
    · rw [hoth t hne] at hset
      exact h.lt t ht1 k1 q hset hm
  · obtain ⟨k1, q, hm, hq⟩ := hlive
    rw [(hb q).2.1] at hq
    by_cases hne : t = sh
    · subst hne
      rw [hs1] at hset
      cases hset
      have hm0 := ((mem_apr_hash_set_none ht k _).1 hm).1
      obtain ⟨hitems, o, ho, hflag, huniq, hsolo⟩ := h.good t ht hs ⟨k1, q, hm0, hq⟩
      have hok : (s.batons o).path ≠ k := by
        intro he
        rw [he] at ho
        have := hsafe o ho hflag (hitems _ o ho).2
        rw [this] at hm
        cases hm
      refine ⟨fun k2 q2 hm2 => ?_, o, ?_, ?_, fun k2 q2 hm2 hf => ?_, fun u hu hp => ?_⟩
      · rw [(hb q2).1, (hb q2).2.1]
        exact hitems k2 q2 ((mem_apr_hash_set_none ht k _).1 hm2).1
      · rw [(hb o).1]
        exact (mem_apr_hash_set_none ht k _).2 ⟨ho, hok⟩
      · rw [(hb o).2.2]; exact hflag
      · rw [(hb q2).2.2] at hf
        exact huniq k2 q2 ((mem_apr_hash_set_none ht k _).1 hm2).1 hf
      · rw [(hb u).2.1] at hu
        rw [(hb u).1, (hb o).1] at hp
        exact hsolo u hu hp
    · rw [hoth t hne] at hset
      obtain ⟨hitems, o, ho, hflag, huniq, hsolo⟩ := h.good t ht1 hset ⟨k1, q, hm, hq⟩
      refine ⟨fun k2 q2 hm2 => ?_, o, ?_, ?_, fun k2 q2 hm2 hf => ?_, fun u hu hp => ?_⟩
      · rw [(hb q2).1, (hb q2).2.1]
        exact hitems k2 q2 hm2
      · rw [(hb o).1]; exact ho
      · rw [(hb o).2.2]; exact hflag
      · rw [(hb q2).2.2] at hf
        exact huniq k2 q2 hm2 hf
      · rw [(hb u).2.1] at hu
        rw [(hb u).1, (hb o).1] at hp
        exact hsolo u hu hp

/-- A placeholder keeps the invariant unless it takes the key of the
owner. -/
theorem ownerInv_add_missing (s s1 : State) (k : Path) (sh : Nat) (h : OwnerInv s)
    (ha : add_to_shared s k .missing sh = some s1)
    (hsafe : ∀ ht o, (s.shareds sh).set = some ht → (k, SetItem.baton o) ∈ ht →
      (s.batons o).set_owner = true → (s.batons o).shared = some sh → False) :
    OwnerInv s1 := by
  obtain ⟨ht, hs, hs1, _, hoth, hns, hstep, hown, hshared⟩ := add_to_shared_spec s k _ sh s1 ha
  have hb : ∀ q, (s1.batons q).path = (s.batons q).path ∧
      (s1.batons q).shared = (s.batons q).shared ∧
      (s1.batons q).set_owner = (s.batons q).set_owner := by
    intro q
    refine ⟨hstep.path q, ?_, hown q⟩
    rw [hshared q, if_neg (fun hh => by cases hh)]
  refine ⟨fun t ht1 => ?_, fun q t hq => ?_, fun t ht1 hset => ?_, fun t ht1 k1 q hset hm => ?_,
    fun t ht1 hset hlive => ?_⟩
  · by_cases hne : t = sh
    · subst hne
      rw [hns] at ht1
      have := h.unused t ht1
      rw [hs] at this
      cases this
    · rw [hoth t hne]
      exact h.unused t (by rw [← hns]; exact ht1)
  · rw [(hb q).2.1] at hq
    by_cases hne : t = sh
    · subst hne
      rw [hs1]
      exact fun hh => by cases hh
    · rw [hoth t hne]
      exact h.has_set q t hq
  · by_cases hne : t = sh
    · subst hne
      rw [hs1] at hset
      cases hset
      exact nodup_keys_apr_hash_set ht k _ (h.nodup t ht hs)
    · rw [hoth t hne] at hset
      exact h.nodup t ht1 hset
  · rw [hstep.nbatons]
    by_cases hne : t = sh
    · subst hne
      rw [hs1] at hset
      cases hset
      rcases (mem_apr_hash_set_some ht k _ _).1 hm with he | hm0
      · cases he
      · exact h.lt t ht k1 q hs hm0.1
    · rw [hoth t hne] at hset
      exact h.lt t ht1 k1 q hset hm
  · obtain ⟨k1, q, hm, hq⟩ := hlive
    rw [(hb q).2.1] at hq
    by_cases hne : t = sh
    · subst hne
      rw [hs1] at hset
      cases hset
      have hold : ∀ k2 q2, (k2, SetItem.baton q2) ∈ apr_hash_set ht k (some SetItem.missing) →
          (k2, SetItem.baton q2) ∈ ht := by
        intro k2 q2 hm2
        rcases (mem_apr_hash_set_some ht k _ _).1 hm2 with he | hm0
        · cases he
        · exact hm0.1
      obtain ⟨hitems, o, ho, hflag, huniq, hsolo⟩ := h.good t ht hs ⟨k1, q, hold k1 q hm, hq⟩
      have hok : (s.batons o).path ≠ k := by
        intro he
        rw [he] at ho
        exact hsafe ht o hs ho hflag (hitems _ o ho).2
      refine ⟨fun k2 q2 hm2 => ?_, o, ?_, ?_, fun k2 q2 hm2 hf => ?_, fun u hu hp => ?_⟩
      · rw [(hb q2).1, (hb q2).2.1]
        exact hitems k2 q2 (hold k2 q2 hm2)
      · rw [(hb o).1]
        exact (mem_apr_hash_set_some ht k _ _).2 (Or.inr ⟨ho, hok⟩)
      · rw [(hb o).2.2]; exact hflag
      · rw [(hb q2).2.2] at hf
        exact huniq k2 q2 (hold k2 q2 hm2) hf
      · rw [(hb u).2.1] at hu
        rw [(hb u).1, (hb o).1] at hp
        exact hsolo u hu hp
    · rw [hoth t hne] at hset
      obtain ⟨hitems, o, ho, hflag, huniq, hsolo⟩ := h.good t ht1 hset ⟨k1, q, hm, hq⟩
      refine ⟨fun k2 q2 hm2 => ?_, o, ?_, ?_, fun k2 q2 hm2 hf => ?_, fun u hu hp => ?_⟩
      · rw [(hb q2).1, (hb q2).2.1]
        exact hitems k2 q2 hm2
      · rw [(hb o).1]; exact ho
      · rw [(hb o).2.2]; exact hflag
      · rw [(hb q2).2.2] at hf
        exact huniq k2 q2 hm2 hf
      · rw [(hb u).2.1] at hu
        rw [(hb u).1, (hb o).1] at hp
        exact hsolo u hu hp

/-! ## Joining registries -/

/-- The items `I` are set in the hash of `dst` and their batons are attached
to `dst`: the invariant stays when the batons come from elsewhere, none of them
has `set_owner` TRUE afterwards, and no item takes the key of the owner. -/
theorem ownerInv_merge (s s1 : State) (dst : Nat) (I dht : List (Path × SetItem))
    (h : OwnerInv s) (hdst : (s.shareds dst).set = some dht)
    (hlive : ∃ k q, (k, SetItem.baton q) ∈ dht ∧ (s.batons q).shared = some dst)
    (hI : (I.map Prod.fst).Nodup)
    (hset1 : (s1.shareds dst).set = some (hashUnion dht I))
    (hoth : ∀ t, t ≠ dst → (s1.shareds t).set = (s.shareds t).set)
    (hnb : s1.nbatons = s.nbatons) (hns : s1.nshareds = s.nshareds)
    (hpath : ∀ q, (s1.batons q).path = (s.batons q).path)
    (hin : ∀ k q, (k, SetItem.baton q) ∈ I → (s1.batons q).shared = some dst ∧
      (s1.batons q).set_owner = false ∧ (s.batons q).path = k ∧ q < s.nbatons ∧
      (s.batons q).shared ≠ some dst)
    (hout : ∀ q, (∀ k, (k, SetItem.baton q) ∉ I) →
      (s1.batons q).shared = (s.batons q).shared ∧
      (s1.batons q).set_owner = (s.batons q).set_owner)
    (hsrc : ∀ sh ht k q, sh ≠ dst → (s.shareds sh).set = some ht → (k, SetItem.baton q) ∈ ht →
      (s.batons q).shared = some sh → (∃ k1, (k1, SetItem.baton q) ∈ I) →
      ∀ k2 q2, (k2, SetItem.baton q2) ∈ ht → ∃ k3, (k3, SetItem.baton q2) ∈ I)
    (hkey : ∀ o, ((s.batons o).path, SetItem.baton o) ∈ dht → (s.batons o).set_owner = true →
      (s.batons o).path ∉ I.map Prod.fst) : OwnerInv s1 := by
  have hmoved : ∀ q, (∃ k, (k, SetItem.baton q) ∈ I) ∨ (∀ k, (k, SetItem.baton q) ∉ I) := by
    intro q
    by_cases hq : ∃ k, (k, SetItem.baton q) ∈ I
    · exact Or.inl hq
    · exact Or.inr (fun k hk => hq ⟨k, hk⟩)
  refine ⟨fun t ht1 => ?_, fun q t hq => ?_, fun t ht1 hset => ?_, fun t ht1 k1 q hset hm => ?_,
    fun t ht1 hset hlive1 => ?_⟩
  · by_cases hne : t = dst
    · subst hne
      rw [hns] at ht1
      have := h.unused t ht1
      rw [hdst] at this
      cases this
    · rw [hoth t hne]
      exact h.unused t (by rw [← hns]; exact ht1)
  · by_cases hne : t = dst
    · subst hne
      rw [hset1]
      exact fun hh => by cases hh
    · rw [hoth t hne]
      rcases hmoved q with ⟨k, hk⟩ | hno
      · rw [(hin k q hk).1] at hq
        exact absurd (Option.some.inj hq).symm hne
      · rw [(hout q hno).1] at hq
        exact h.has_set q t hq
  · by_cases hne : t = dst
    · subst hne
      rw [hset1] at hset
      cases hset
      exact nodup_keys_hashUnion I dht (h.nodup t dht hdst)
    · rw [hoth t hne] at hset
      exact h.nodup t ht1 hset
  · rw [hnb]
    by_cases hne : t = dst
    · subst hne
      rw [hset1] at hset
      cases hset
      rcases (mem_hashUnion I dht hI _).1 hm with hi | ⟨hd, _⟩
      · exact (hin k1 q hi).2.2.2.1
      · exact h.lt t dht k1 q hdst hd
    · rw [hoth t hne] at hset
      exact h.lt t ht1 k1 q hset hm
  · by_cases hne : t = dst
    · subst hne
      rw [hset1] at hset
      cases hset
      obtain ⟨hitems, o, ho, hflag, huniq, hsolo⟩ := h.good t dht hdst hlive
      have hstay : ∀ k q, (k, SetItem.baton q) ∈ dht → ∀ k1, (k1, SetItem.baton q) ∉ I := by
        intro k q hm k1 hk1
        exact (hin k1 q hk1).2.2.2.2 (hitems k q hm).2
      have hoo := hout o (hstay _ o ho)
      refine ⟨fun k2 q2 hm2 => ?_, o, ?_, ?_, fun k2 q2 hm2 hf => ?_, fun u hu hp => ?_⟩
      · rcases (mem_hashUnion I dht hI _).1 hm2 with hi | ⟨hd, _⟩
        · rw [hpath]
          exact ⟨(hin k2 q2 hi).2.2.1, (hin k2 q2 hi).1⟩
        · rw [hpath, (hout q2 (hstay k2 q2 hd)).1]
          exact hitems k2 q2 hd
      · rw [hpath]
        exact (mem_hashUnion I dht hI _).2 (Or.inr ⟨ho, hkey o ho hflag⟩)
      · rw [hoo.2]; exact hflag
      · rcases (mem_hashUnion I dht hI _).1 hm2 with hi | ⟨hd, _⟩
        · rw [(hin k2 q2 hi).2.1] at hf
          cases hf
        · rw [(hout q2 (hstay k2 q2 hd)).2] at hf
          exact huniq k2 q2 hd hf
      · rw [hpath, hpath] at hp
        rcases hmoved u with ⟨k, hk⟩ | hno
        · exfalso
          refine hkey o ho hflag (List.mem_map.2 ⟨(k, SetItem.baton u), hk, ?_⟩)
          rw [← hp]
          exact ((hin k u hk).2.2.1).symm
        · rw [(hout u hno).1] at hu
          exact hsolo u hu hp
    · rw [hoth t hne] at hset
      obtain ⟨k, q, hm, hq⟩ := hlive1
      have hqno : ∀ k1, (k1, SetItem.baton q) ∉ I := by
        intro k1 hk1
        rw [(hin k1 q hk1).1] at hq
        exact hne (Option.some.inj hq).symm
      rw [(hout q hqno).1] at hq
      obtain ⟨hitems, o, ho, hflag, huniq, hsolo⟩ := h.good t ht1 hset ⟨k, q, hm, hq⟩
      have hstay : ∀ k2 q2, (k2, SetItem.baton q2) ∈ ht1 → ∀ k1, (k1, SetItem.baton q2) ∉ I := by
        intro k2 q2 hm2 k1 hk1
        obtain ⟨k3, hk3⟩ := hsrc t ht1 k2 q2 hne hset hm2 (hitems k2 q2 hm2).2 ⟨k1, hk1⟩ k q hm
        exact hqno k3 hk3
      refine ⟨fun k2 q2 hm2 => ?_, o, ?_, ?_, fun k2 q2 hm2 hf => ?_, fun u hu hp => ?_⟩
      · rw [hpath, (hout q2 (hstay k2 q2 hm2)).1]
        exact hitems k2 q2 hm2
      · rw [hpath]; exact ho
      · rw [(hout o (hstay _ o ho)).2]; exact hflag
      · rw [(hout q2 (hstay k2 q2 hm2)).2] at hf
        exact huniq k2 q2 hm2 hf
      · rw [hpath, hpath] at hp
        rcases hmoved u with ⟨k1, hk1⟩ | hno
        · rw [(hin k1 u hk1).1] at hu
          exact absurd (Option.some.inj hu).symm hne
        · rw [(hout u hno).1] at hu
          exact hsolo u hu hp

/-- The invariant after `join_batons`: the baton `t` has no registry, or owns
a registry of its own that lists nothing above or beside it; the hash of `dst`
lists a baton attached to it, and its owner is not listed under a key that
`t` brings in. -/
theorem ownerInv_join (s s1 : State) (dst t : Nat) (h : OwnerInv s)
    (hj : join_batons s dst t = some s1)
    (hlive : ∃ dht k q, (s.shareds dst).set = some dht ∧ (k, SetItem.baton q) ∈ dht ∧
      (s.batons q).shared = some dst)
    (htlt : t < s.nbatons)
    (ht : ((s.batons t).shared = none ∧ (s.batons t).set_owner = false) ∨
      ∃ tsh, tsh ≠ dst ∧ Tree s t tsh)
    (hkey : ∀ dht o, (s.shareds dst).set = some dht →
      ((s.batons o).path, SetItem.baton o) ∈ dht → (s.batons o).set_owner = true →
      ((s.batons t).shared = none → (s.batons o).path ≠ (s.batons t).path) ∧
      (∀ tsh tht, (s.batons t).shared = some tsh → (s.shareds tsh).set = some tht →
        (s.batons o).path ∉ tht.map Prod.fst)) : OwnerInv s1 := by
  obtain ⟨dht, k0, q0, hdst, hm0, hq0⟩ := hlive
  rcases ht with ⟨hnone, hflag⟩ | ⟨tsh, hne, hsh, hown, tht, hset, hroot, hitems⟩
  · rw [join_batons_single s dst t hnone] at hj
    obtain ⟨ht0, hs0, hs1, _, hoth, hns, hstep, hown, hshared⟩ := add_to_shared_spec _ _ _ _ _ hj
    rw [hdst] at hs0
    cases hs0
    refine ownerInv_merge s s1 dst [((s.batons t).path, SetItem.baton t)] dht h hdst
      ⟨k0, q0, hm0, hq0⟩ (by simp) hs1 (fun u hu => by rw [hoth u hu]) hstep.nbatons hns
      hstep.path (fun k q hm => ?_) (fun q hq => ?_) (fun sh ht k q _ _ _ hq hmv => ?_)
      (fun o ho hf => ?_)
    · simp only [List.mem_singleton, Prod.mk.injEq, SetItem.baton.injEq] at hm
      obtain ⟨rfl, rfl⟩ := hm
      refine ⟨by rw [hshared, if_pos rfl], by rw [hown]; exact hflag, rfl, htlt, ?_⟩
      rw [hnone]
      exact fun hh => by cases hh
    · have hqt : q ≠ t := by
        intro he
        exact hq (s.batons t).path (by rw [he]; exact List.mem_singleton.2 rfl)
      refine ⟨?_, hown q⟩
      rw [hshared, if_neg (fun hh => hqt (SetItem.baton.inj hh).symm)]
    · obtain ⟨k1, hk1⟩ := hmv
      simp only [List.mem_singleton, Prod.mk.injEq, SetItem.baton.injEq] at hk1
      rw [hk1.2, hnone] at hq
      cases hq
    · simp only [List.map_cons, List.map_nil, List.mem_singleton]
      exact (hkey dht o hdst ho hf).1 hnone
  · rw [join_batons_merge s dst t tsh tht hsh hset] at hj
    obtain ⟨s2, hj2, hset2, _, hoth2, hns2, hstep2, hown2, hin2, hout2⟩ :=
      join_batons_items_spec dst tht s dht hdst
    rw [hj2] at hj
    simp only [Option.map_some', Option.some.injEq] at hj
    subst hj
    have htne : (s.shareds tsh).set = some tht := hset
    refine ownerInv_merge s (s2.setOwner t false) dst tht dht h hdst
      ⟨k0, q0, hm0, hq0⟩ (h.nodup tsh tht hset) (by simpa using hset2)
      (fun u hu => by simp only [setOwner_shareds]; rw [hoth2 u hu])
      (by simpa using hstep2.nbatons) (by simpa using hns2)
      (fun q => by simp only [setOwner_path]; exact hstep2.path q)
      (fun k q hm => ?_) (fun q hq => ?_) (fun sh ht k q hsne hsset hm hq hmv => ?_)
      (fun o ho hf => ?_)
    · obtain ⟨_, hq⟩ := hitems k _ hm
      obtain ⟨hp, hs, _, hfl⟩ := hq q rfl
      refine ⟨by simp only [setOwner_shared]; exact hin2 q k hm, ?_, hp,
        h.lt tsh tht k q hset hm, ?_⟩
      · by_cases hqt : q = t
        · rw [hqt]
          simp
        · rw [setOwner_other _ _ _ _ hqt, hown2]
          cases hf : (s.batons q).set_owner with
          | false => rfl
          | true => exact absurd (hfl hf) hqt
      · rw [hs]
        exact fun hh => hne (Option.some.inj hh)
    · have hqt : q ≠ t := by
        intro he
        exact hq (s.batons t).path (by rw [he]; exact hroot)
      rw [setOwner_other _ _ _ _ hqt]
      exact ⟨hout2 q hq, hown2 q⟩
    · obtain ⟨k1, hk1⟩ := hmv
      have := ((hitems k1 _ hk1).2 q rfl).2.1
      rw [this] at hq
      have hst : sh = tsh := (Option.some.inj hq).symm
      subst hst
      rw [hset] at hsset
      cases hsset
      intro k2 q2 hm2
      exact ⟨k2, hm2⟩
    · exact (hkey dht o hdst ho hf).2 tsh tht hsh hset

/-! ## The registries under a close -/

theorem shrunk_refl (s : State) : Shrunk s s :=
  ⟨rfl, rfl, fun _ => ⟨rfl, rfl, rfl⟩, fun _ => Or.inl rfl, fun _ h => h,
    fun _ ht h => ⟨ht, h, fun _ hx => hx⟩⟩

theorem shrunk_trans (s s1 s2 : State) (h1 : Shrunk s s1) (h2 : Shrunk s1 s2) : Shrunk s s2 := by
  refine ⟨h2.nbatons.trans h1.nbatons, h2.nshareds.trans h1.nshareds, fun q => ?_, fun q => ?_,
    fun sh h => h2.set_none sh (h1.set_none sh h), fun sh ht h => ?_⟩
  · exact ⟨(h2.baton q).1.trans (h1.baton q).1, (h2.baton q).2.1.trans (h1.baton q).2.1,
      (h2.baton q).2.2.trans (h1.baton q).2.2⟩
  · rcases h2.type q with e2 | c2
    · rcases h1.type q with e1 | c1
      · exact Or.inl (e2.trans e1)
      · exact Or.inr (e2.trans c1)
    · exact Or.inr c2
  · obtain ⟨ht1, hs1, hsub1⟩ := h1.set_some sh ht h
    obtain ⟨ht2, hs2, hsub2⟩ := h2.set_some sh ht1 hs1
    exact ⟨ht2, hs2, fun x hx => hsub1 x (hsub2 x hx)⟩

theorem do_close_unlock_view (w : World) (s : State) (a : Nat) (pl : Bool) (s1 : State)
    (e : Option svn_error_t) (h : do_close_unlock w s a pl = (s1, e)) :
    s1.shareds = s.shareds ∧ s1.nbatons = s.nbatons ∧ s1.nshareds = s.nshareds ∧
    ∀ q, (s1.batons q).path = (s.batons q).path ∧ (s1.batons q).shared = (s.batons q).shared ∧
      (s1.batons q).set_owner = (s.batons q).set_owner ∧
      (s1.batons q).type = (s.batons q).type := by
  rcases do_close_unlock_cases w s a pl s1 e h with
    ⟨h1, _, _⟩ | ⟨h1, _, _⟩ | ⟨_, _, _, _, h1 | ⟨_, h1⟩⟩
  · rw [h1]; exact ⟨rfl, rfl, rfl, fun _ => ⟨rfl, rfl, rfl, rfl⟩⟩
  · rw [h1]; exact ⟨rfl, rfl, rfl, fun _ => ⟨rfl, rfl, rfl, rfl⟩⟩
  · rw [h1]; exact ⟨by simp, by simp, by simp, fun q => by simp⟩
  · rw [h1]; exact ⟨by simp, by simp, by simp, fun q => by simp⟩

theorem shrunk_unlock (w : World) (s : State) (a : Nat) (pl : Bool) (s1 : State)
    (e : Option svn_error_t) (h : do_close_unlock w s a pl = (s1, e)) : Shrunk s s1 := by
  obtain ⟨hsh, hnb, hns, hb⟩ := do_close_unlock_view w s a pl s1 e h
  refine ⟨hnb, hns, fun q => ⟨(hb q).1, (hb q).2.1, (hb q).2.2.1⟩, fun q => Or.inl (hb q).2.2.2,
    fun sh hn => by rw [hsh]; exact hn, fun sh ht hs => ⟨ht, by rw [hsh]; exact hs, fun _ hx => hx⟩⟩

theorem ownerInv_unlock (w : World) (s : State) (a : Nat) (pl : Bool) (s1 : State)
    (e : Option svn_error_t) (h : do_close_unlock w s a pl = (s1, e)) (hI : OwnerInv s) :
    OwnerInv s1 := by
  obtain ⟨hsh, hnb, hns, hb⟩ := do_close_unlock_view w s a pl s1 e h
  exact ownerInv_same s s1 hI hnb hns (fun sh => by rw [hsh])
    (fun q => ⟨(hb q).1, (hb q).2.1, (hb q).2.2.1⟩)

theorem do_close_finish_view (w : World) (s : State) (a : Nat) (s1 : State)
    (e : Option svn_error_t) (h : do_close_finish w s a = some (s1, e)) :
    s1.batons = (detached s a).batons ∧ s1.shareds = (detached s a).shareds ∧
    s1.nbatons = s.nbatons ∧ s1.nshareds = s.nshareds := by
  rcases do_close_finish_cases w s a s1 e h with ⟨h1, _⟩ | h1
  · rw [h1]
    exact ⟨rfl, rfl, (detached_frame s a).1, (detached_frame s a).2.1⟩
  · obtain ⟨hb, hsh, hnb, hns, _, _⟩ := do_close_db_cases w _ a s1 e h1
    exact ⟨hb, hsh, hnb.trans (detached_frame s a).1, hns.trans (detached_frame s a).2.1⟩

/-- The first assertion of `do_close` fails when the owner is taken out of a
hash that lists something else. -/
theorem do_close_finish_assert (w : World) (s : State) (a sh : Nat)
    (ht : List (Path × SetItem)) (hs : (s.batons a).shared = some sh)
    (hset : (s.shareds sh).set = some ht) (hown : (s.batons a).set_owner = true)
    (hne : apr_hash_set ht (s.batons a).path none ≠ []) :
    do_close_finish w s a =
      some ((s.setType a .svn_wc__adm_access_closed).setSet sh
          (some (apr_hash_set ht (s.batons a).path none)),
        some (assertionFailed (s.batons a).path)) := by
  unfold do_close_finish
  simp only [setType_shared, setType_shareds, setType_path]
  rw [hs]
  simp only
  rw [hset]
  simp only [setSet_batons, setType_set_owner, setType_path]
  have hcount : apr_hash_count (apr_hash_set ht (s.batons a).path none) ≠ 0 := by
    unfold apr_hash_count
    intro h0
    exact hne (List.length_eq_zero.1 h0)
  rw [if_pos ⟨hown, hcount⟩]

theorem not_assertionFailure_none : ¬ assertionFailure none :=
  fun h => by
    obtain ⟨e, he, _⟩ := h
    cases he

theorem assertionFailure_assertionFailed (path : Path) :
    assertionFailure (some (assertionFailed path)) :=
  ⟨_, rfl, rfl⟩

/-- Marking a baton closed and taking its path out of its hash keeps the
invariant when the baton is no owner or the hash is empty afterwards. -/
theorem ownerInv_detached (s s1 : State) (a : Nat) (hI : OwnerInv s)
    (hb : s1.batons = (detached s a).batons) (hsh : s1.shareds = (detached s a).shareds)
    (hnb : s1.nbatons = s.nbatons) (hns : s1.nshareds = s.nshareds)
    (hsafe : (s.batons a).set_owner = true → ∀ sh ht, (s.batons a).shared = some sh →
      (s.shareds sh).set = some ht → apr_hash_set ht (s.batons a).path none = []) :
    OwnerInv s1 := by
  have hbq : ∀ q, (s1.batons q).path = (s.batons q).path ∧
      (s1.batons q).shared = (s.batons q).shared ∧
      (s1.batons q).set_owner = (s.batons q).set_owner := by
    intro q
    rw [hb]
    exact ⟨(detached_baton s a q).2.1, (detached_baton s a q).2.2.2.1,
      (detached_baton s a q).2.2.2.2⟩
  cases hs : (s.batons a).shared with
  | none =>
    refine ownerInv_same s s1 hI hnb hns (fun sh => ?_) hbq
    rw [hsh, detached_none s a hs]
    rfl
  | some sh =>
    cases hset : (s.shareds sh).set with
    | none =>
      refine ownerInv_same s s1 hI hnb hns (fun t => ?_) hbq
      rw [hsh, detached_noset s a sh hs hset]
      rfl
    | some ht =>
      obtain ⟨hd1, _, hd3⟩ := detached_set s a sh ht hs hset
      refine ownerInv_unset s s1 hI sh ht (s.batons a).path hset (by rw [hsh]; exact hd1)
        (fun t ht1 => by rw [hsh, hd3 t ht1]) hnb hns hbq (fun o ho hf hso => ?_)
      obtain ⟨hitems, o1, ho1, hflag1, huniq, hsolo⟩ := hI.good sh ht hset ⟨_, o, ho, hso⟩
      have ho_eq : o = o1 := huniq _ o ho hf
      have hpo : (s.batons o).path = (s.batons a).path := (hitems _ o ho).1
      have hao : a = o1 := hsolo a hs (by rw [← ho_eq, hpo])
      exact hsafe (by rw [hao]; exact hflag1) sh ht hs hset

theorem shrunk_detached (s s1 : State) (a : Nat)
    (hb : s1.batons = (detached s a).batons) (hsh : s1.shareds = (detached s a).shareds)
    (hnb : s1.nbatons = s.nbatons) (hns : s1.nshareds = s.nshareds) : Shrunk s s1 := by
  refine ⟨hnb, hns, fun q => ?_, fun q => ?_, fun sh hn => ?_, fun sh ht hs => ?_⟩
  · rw [hb]
    exact ⟨(detached_baton s a q).2.1, (detached_baton s a q).2.2.2.1,
      (detached_baton s a q).2.2.2.2⟩
  · rw [hb, detached_type]
    by_cases hq : q = a
    · rw [if_pos hq]; exact Or.inr rfl
    · rw [if_neg hq]; exact Or.inl rfl
  · rw [hsh]
    rcases detached_cases s a with h | ⟨t, v, h⟩
    · rw [h]; exact hn
    · cases has : (s.batons a).shared with
      | none => rw [detached_none s a has]; exact hn
      | some ash =>
        cases haset : (s.shareds ash).set with
        | none => rw [detached_noset s a ash has haset]; exact hn
        | some aht =>
          by_cases hne : sh = ash
          · rw [hne, haset] at hn; cases hn
          · rw [(detached_set s a ash aht has haset).2.2 sh hne]; exact hn
  · rw [hsh]
    cases has : (s.batons a).shared with
    | none => rw [detached_none s a has]; exact ⟨ht, hs, fun _ hx => hx⟩
    | some ash =>
      cases haset : (s.shareds ash).set with
      | none => rw [detached_noset s a ash has haset]; exact ⟨ht, hs, fun _ hx => hx⟩
      | some aht =>
        by_cases hne : sh = ash
        · subst hne
          rw [haset] at hs
          cases hs
          exact ⟨_, (detached_set s a sh ht has haset).1,
            fun x hx => ((mem_apr_hash_set_none ht _ x).1 hx).1⟩
        · rw [(detached_set s a ash aht has haset).2.2 sh hne]
          exact ⟨ht, hs, fun _ hx => hx⟩

/-- The last part of `do_close` keeps the invariant when it does not return
the failure of the assertion, or when the baton is no owner or empties its
hash. -/
theorem ownerInv_finish (w : World) (s : State) (a : Nat) (s1 : State)
    (e : Option svn_error_t) (h : do_close_finish w s a = some (s1, e)) (hI : OwnerInv s)
    (hok : ¬ assertionFailure e ∨ ((s.batons a).set_owner = true → ∀ sh ht,
      (s.batons a).shared = some sh → (s.shareds sh).set = some ht →
      apr_hash_set ht (s.batons a).path none = [])) :
    OwnerInv s1 ∧ Shrunk s s1 := by
  obtain ⟨hb, hsh, hnb, hns⟩ := do_close_finish_view w s a s1 e h
  refine ⟨ownerInv_detached s s1 a hI hb hsh hnb hns ?_, shrunk_detached s s1 a hb hsh hnb hns⟩
  rcases hok with hno | hsafe
  · intro hown sh ht hs hset
    by_contra hne
    rw [do_close_finish_assert w s a sh ht hs hset hown hne] at h
    simp only [Option.some.injEq, Prod.mk.injEq] at h
    exact hno (by rw [← h.2]; exact assertionFailure_assertionFailed _)
  · exact hsafe

theorem ownerInv_norecurse (w : World) (s : State) (c : Nat) (pl : Bool) (s1 : State)
    (e : Option svn_error_t) (h : do_close_norecurse w s c pl = some (s1, e)) (hI : OwnerInv s)
    (hok : ¬ assertionFailure e ∨ ((s.batons c).set_owner = true → ∀ sh ht,
      (s.batons c).shared = some sh → (s.shareds sh).set = some ht →
      apr_hash_set ht (s.batons c).path none = [])) :
    OwnerInv s1 ∧ Shrunk s s1 := by
  rcases do_close_norecurse_cases w s c pl s1 e h with
    ⟨_, h1, _⟩ | ⟨_, err, hu, _⟩ | ⟨_, s2, hu, hf⟩
  · rw [h1]; exact ⟨hI, shrunk_refl s⟩
  · exact ⟨ownerInv_unlock w s c pl s1 _ hu hI, shrunk_unlock w s c pl s1 _ hu⟩
  · obtain ⟨hsh, _, _, hb⟩ := do_close_unlock_view w s c pl s2 _ hu
    obtain ⟨h1, h2⟩ := ownerInv_finish w s2 c s1 e hf (ownerInv_unlock w s c pl s2 _ hu hI) (by
      rcases hok with hno | hsafe
      · exact Or.inl hno
      · right
        rw [(hb c).2.2.1, (hb c).2.1, (hb c).1, hsh]
        exact hsafe)
    exact ⟨h1, shrunk_trans s s2 s1 (shrunk_unlock w s c pl s2 _ hu) h2⟩

theorem shrunk_setSet_unset (s : State) (sh : Nat) (ht : List (Path × SetItem)) (k : Path)
    (hset : (s.shareds sh).set = some ht) :
    Shrunk s (s.setSet sh (some (apr_hash_set ht k none))) := by
  refine ⟨rfl, rfl, fun _ => ⟨rfl, rfl, rfl⟩, fun _ => Or.inl rfl, fun t hn => ?_,
    fun t ht1 hs => ?_⟩
  · have hne : t ≠ sh := by
      intro he; rw [he, hset] at hn; cases hn
    rw [setSet_other _ _ _ _ hne]; exact hn
  · by_cases hne : t = sh
    · subst hne
      rw [hset] at hs
      cases hs
      exact ⟨_, by simp, fun x hx => ((mem_apr_hash_set_none ht k x).1 hx).1⟩
    · rw [setSet_other _ _ _ _ hne]
      exact ⟨ht1, hs, fun _ hx => hx⟩

/-- The loop over the descendants keeps the invariant when no placeholder of
the list has the key of a baton in the hash, and either the loop does not
return the failure of the assertion or no baton that it closes is an owner. -/
theorem ownerInv_children (w : World) (a : Nat) (pl : Bool) (L : List (Path × SetItem)) :
    ∀ (s s1 : State) (r : Option svn_error_t),
      do_close_children w a pl L s = some (s1, r) → OwnerInv s →
      (∀ k, (k, SetItem.missing) ∈ L → ∀ sh ht q, (s.batons a).shared = some sh →
        (s.shareds sh).set = some ht → (k, SetItem.baton q) ∉ ht) →
      (¬ assertionFailure r ∨ ∀ k c, (k, SetItem.baton c) ∈ L →
        (s.batons a).path = k ∨ (s.batons c).set_owner = false) →
      OwnerInv s1 ∧ Shrunk s s1 := by
  induction L with
  | nil =>
    intro s s1 r h hI _ _
    rw [do_close_children_nil] at h
    simp only [Option.some.injEq, Prod.mk.injEq] at h
    rw [← h.1]
    exact ⟨hI, shrunk_refl s⟩
  | cons item rest ih =>
    intro s s1 r h hI hmiss hok
    obtain ⟨k, v⟩ := item
    have hmiss_next : ∀ s2, Shrunk s s2 → ∀ k1, (k1, SetItem.missing) ∈ rest → ∀ sh ht q,
        (s2.batons a).shared = some sh → (s2.shareds sh).set = some ht →
        (k1, SetItem.baton q) ∉ ht := by
      intro s2 h2 k1 hk1 sh ht q hsh hset hq
      rw [(h2.baton a).2.1] at hsh
      cases hs0 : (s.shareds sh).set with
      | none => rw [h2.set_none sh hs0] at hset; cases hset
      | some ht0 =>
        obtain ⟨ht1, hs1, hsub⟩ := h2.set_some sh ht0 hs0
        rw [hset] at hs1
        cases hs1
        exact hmiss k1 (List.mem_cons_of_mem _ hk1) sh ht0 q hsh hs0 (hsub _ hq)
    have hok_next : ∀ s2, Shrunk s s2 → (¬ assertionFailure r ∨ ∀ k1 c,
        (k1, SetItem.baton c) ∈ rest →
        (s2.batons a).path = k1 ∨ (s2.batons c).set_owner = false) := by
      intro s2 h2
      rcases hok with hno | hB
      · exact Or.inl hno
      · right
        intro k1 c hm
        rw [(h2.baton a).1, (h2.baton c).2.2]
        exact hB k1 c (List.mem_cons_of_mem _ hm)
    cases v with
    | missing =>
      have h0 := h
      rw [do_close_children] at h0
      cases hsh : (s.batons a).shared with
      | none => rw [hsh] at h0; cases h0
      | some sh =>
        rw [hsh] at h0
        simp only at h0
        cases hset : (s.shareds sh).set with
        | none => rw [hset] at h0; cases h0
        | some ht =>
          rw [hset] at h0
          simp only at h0
          have hsr := shrunk_setSet_unset s sh ht k hset
          have hI2 : OwnerInv (s.setSet sh (some (apr_hash_set ht k none))) :=
            ownerInv_unset s _ hI sh ht k hset (by simp)
              (fun t ht1 => by rw [setSet_other _ _ _ _ ht1]) rfl rfl
              (fun _ => ⟨rfl, rfl, rfl⟩)
              (fun o ho _ _ => absurd ho (hmiss k (List.mem_cons_self _ _) sh ht o hsh hset))
          obtain ⟨h1, h2⟩ := ih _ s1 r h0 hI2 (hmiss_next _ hsr) (hok_next _ hsr)
          exact ⟨h1, shrunk_trans _ _ _ hsr h2⟩
    | baton c =>
      rcases do_close_children_cons_baton w a pl k c rest s s1 r h with
        ⟨_, hrest⟩ | ⟨hcond, ⟨err, hn, hr⟩ | ⟨s2, hn, hrest⟩⟩
      · exact ih s s1 r hrest hI (hmiss_next s (shrunk_refl s)) (hok_next s (shrunk_refl s))
      · refine ownerInv_norecurse w s c pl s1 _ hn hI ?_
        rcases hok with hno | hB
        · left; rw [← hr]; exact hno
        · right
          intro hown
          rcases hB k c (List.mem_cons_self _ _) with hp | hf
          · exact absurd (Or.inr hp) hcond
          · rw [hf] at hown; cases hown
      · obtain ⟨hI2, hs2⟩ := ownerInv_norecurse w s c pl s2 _ hn hI (Or.inl not_assertionFailure_none)
        obtain ⟨h1, h2⟩ := ih s2 s1 r hrest hI2 (hmiss_next s2 hs2) (hok_next s2 hs2)
        exact ⟨h1, shrunk_trans _ _ _ hs2 h2⟩

/-- Every `do_close` that does not return the failure of its assertion keeps
the invariant. -/
theorem ownerInv_close (w : World) (s : State) (a : Nat) (pl recurse : Bool) (s1 : State)
    (r : Option svn_error_t) (h : do_close w s a pl recurse = some (s1, r)) (hI : OwnerInv s)
    (hr : ¬ assertionFailure r) : OwnerInv s1 ∧ Shrunk s s1 := by
  have hloop : ∀ s2 e2, do_close_descendants w s a pl recurse = some (s2, e2) →
      ¬ assertionFailure e2 → OwnerInv s2 ∧ Shrunk s s2 := by
    intro s2 e2 hd he2
    unfold do_close_descendants at hd
    by_cases hrec : recurse = true
    · rw [if_pos hrec] at hd
      cases hsh : (s.batons a).shared with
      | none =>
        rw [hsh] at hd
        simp only [Option.some.injEq, Prod.mk.injEq] at hd
        rw [← hd.1]; exact ⟨hI, shrunk_refl s⟩
      | some sh =>
        rw [hsh] at hd
        simp only at hd
        cases hset : (s.shareds sh).set with
        | none =>
          rw [hset] at hd
          simp only [Option.some.injEq, Prod.mk.injEq] at hd
          rw [← hd.1]; exact ⟨hI, shrunk_refl s⟩
        | some ht =>
          rw [hset] at hd
          simp only at hd
          refine ownerInv_children w a pl _ s s2 e2 hd hI ?_ (Or.inl he2)
          intro k hk sh1 ht1 q hsh1 hset1 hq
          rw [hsh] at hsh1
          cases hsh1
          rw [hset] at hset1
          cases hset1
          have hk0 : (k, SetItem.missing) ∈ ht :=
            (svn_sort__hash_mem ht _).1 hk
          have := value_unique ht (hI.nodup sh ht hset) k _ _ hk0 hq
          cases this
    · rw [if_neg hrec] at hd
      simp only [Option.some.injEq, Prod.mk.injEq] at hd
      rw [← hd.1]; exact ⟨hI, shrunk_refl s⟩
  have hrest : ∀ s2, OwnerInv s2 → Shrunk s s2 →
      ((∃ err, do_close_unlock w s2 a pl = (s1, some err) ∧ r = some err) ∨
        (∃ s3, do_close_unlock w s2 a pl = (s3, none) ∧
          do_close_finish w s3 a = some (s1, r))) → OwnerInv s1 ∧ Shrunk s s1 := by
    intro s2 hI2 hs2 hcase
    rcases hcase with ⟨err, hu, _⟩ | ⟨s3, hu, hf⟩
    · exact ⟨ownerInv_unlock w s2 a pl s1 _ hu hI2,
        shrunk_trans _ _ _ hs2 (shrunk_unlock w s2 a pl s1 _ hu)⟩
    · obtain ⟨h1, h2⟩ := ownerInv_finish w s3 a s1 r hf (ownerInv_unlock w s2 a pl s3 _ hu hI2)
        (Or.inl hr)
      exact ⟨h1, shrunk_trans _ _ _ hs2 (shrunk_trans _ _ _ (shrunk_unlock w s2 a pl s3 _ hu) h2)⟩
  rcases do_close_cases w s a pl recurse s1 r h with
    ⟨_, h1, _⟩ | ⟨_, s2, e2, hd, hcase⟩
  · rw [h1]; exact ⟨hI, shrunk_refl s⟩
  · rcases hcase with ⟨err, he, h1, hr1⟩ | ⟨he, hn, _⟩ | ⟨he, _, hcase⟩
    · rw [h1]
      exact hloop s2 e2 hd (by rw [he, ← hr1]; exact hr)
    · obtain ⟨hI2, hs2⟩ := hloop s2 e2 hd (by rw [he]; exact not_assertionFailure_none)
      obtain ⟨h1, h2⟩ := ownerInv_norecurse w s2 a pl s1 r hn hI2 (Or.inl hr)
      exact ⟨h1, shrunk_trans _ _ _ hs2 h2⟩
    · obtain ⟨hI2, hs2⟩ := hloop s2 e2 hd (by rw [he]; exact not_assertionFailure_none)
      exact hrest s2 hI2 hs2 hcase

/-! ## Closing the owner of a tree -/

theorem shrunk_norecurse (w : World) (s : State) (c : Nat) (pl : Bool) (s1 : State)
    (e : Option svn_error_t) (h : do_close_norecurse w s c pl = some (s1, e)) : Shrunk s s1 := by
  rcases do_close_norecurse_cases w s c pl s1 e h with
    ⟨_, h1, _⟩ | ⟨_, err, hu, _⟩ | ⟨_, s2, hu, hf⟩
  · rw [h1]; exact shrunk_refl s
  · exact shrunk_unlock w s c pl s1 _ hu
  · obtain ⟨hb, hsh, hnb, hns⟩ := do_close_finish_view w s2 c s1 e hf
    exact shrunk_trans _ _ _ (shrunk_unlock w s c pl s2 _ hu) (shrunk_detached s2 s1 c hb hsh hnb hns)

theorem shrunk_children (w : World) (a : Nat) (pl : Bool) (L : List (Path × SetItem)) :
    ∀ (s s1 : State) (r : Option svn_error_t),
      do_close_children w a pl L s = some (s1, r) → Shrunk s s1 := by
  induction L with
  | nil =>
    intro s s1 r h
    rw [do_close_children_nil] at h
    simp only [Option.some.injEq, Prod.mk.injEq] at h
    rw [← h.1]
    exact shrunk_refl s
  | cons item rest ih =>
    intro s s1 r h
    obtain ⟨k, v⟩ := item
    cases v with
    | missing =>
      rw [do_close_children] at h
      cases hsh : (s.batons a).shared with
      | none => rw [hsh] at h; cases h
      | some sh =>
        rw [hsh] at h
        simp only at h
        cases hset : (s.shareds sh).set with
        | none => rw [hset] at h; cases h
        | some ht =>
          rw [hset] at h
          simp only at h
          exact shrunk_trans _ _ _ (shrunk_setSet_unset s sh ht k hset) (ih _ s1 r h)
    | baton c =>
      rcases do_close_children_cons_baton w a pl k c rest s s1 r h with
        ⟨_, hrest⟩ | ⟨_, ⟨err, hn, _⟩ | ⟨s2, hn, hrest⟩⟩
      · exact ih s s1 r hrest
      · exact shrunk_norecurse w s c pl s1 _ hn
      · exact shrunk_trans _ _ _ (shrunk_norecurse w s c pl s2 _ hn) (ih s2 s1 r hrest)

theorem shrunk_key (s s1 : State) (h : Shrunk s s1) (sh : Nat)
    (ht ht1 : List (Path × SetItem)) (hs : (s.shareds sh).set = some ht)
    (hs1 : (s1.shareds sh).set = some ht1) : ∀ x, x ∈ ht1 → x ∈ ht := by
  obtain ⟨ht2, h2, hsub⟩ := h.set_some sh ht hs
  rw [hs1] at h2
  cases h2
  exact hsub

/-- When the loop over the descendants of `a` has returned without error,
the keys below the path of `a` that it went over are out of the hash. -/
theorem tree_children (w : World) (a : Nat) (pl : Bool) (sh : Nat) (root : Path)
    (L : List (Path × SetItem)) :
    ∀ (s s1 : State), do_close_children w a pl L s = some (s1, none) →
      (s.batons a).shared = some sh → (s.batons a).path = root → (L.map Prod.fst).Nodup →
      (∀ k v, (k, v) ∈ L → root <+: k ∧ ∀ c, v = SetItem.baton c → k ≠ root →
        (s.batons c).path = k ∧ (s.batons c).shared = some sh ∧
        (s.batons c).type ≠ .svn_wc__adm_access_closed) →
      ∀ ht1, (s1.shareds sh).set = some ht1 → ∀ x, x ∈ ht1 → x.1 ∈ L.map Prod.fst →
        x.1 = root := by
  induction L with
  | nil =>
    intro s s1 _ _ _ _ _ ht1 _ x _ hx
    cases hx
  | cons item rest ih =>
    intro s s1 h hsh hpath hnd hitems ht1 hs1 x hx hxk
    obtain ⟨k, v⟩ := item
    simp only [List.map_cons, List.nodup_cons] at hnd
    simp only [List.map_cons, List.mem_cons] at hxk
    cases v with
    | missing =>
      rw [do_close_children, hsh] at h
      simp only at h
      cases hset : (s.shareds sh).set with
      | none => rw [hset] at h; cases h
      | some ht =>
        rw [hset] at h
        simp only at h
        rcases hxk with hk | hk
        · exfalso
          have hsub := shrunk_key _ s1 (shrunk_children w a pl rest _ s1 none h) sh
            (apr_hash_set ht k none) ht1 (by simp) hs1 x hx
          exact ((mem_apr_hash_set_none ht k x).1 hsub).2 hk
        · exact ih _ s1 h (by simpa using hsh) (by simpa using hpath) hnd.2
            (fun k1 v1 hm1 => by
              simpa using hitems k1 v1 (List.mem_cons_of_mem _ hm1)) ht1 hs1 x hx hk
    | baton c =>
      by_cases hkr : k = root
      · rcases hxk with hk | hk
        · exact hk.trans hkr
        · rcases do_close_children_cons_baton w a pl k c rest s s1 none h with
            ⟨_, hrest⟩ | ⟨hcond, _⟩
          · exact ih s s1 hrest hsh hpath hnd.2
              (fun k1 v1 hm1 => hitems k1 v1 (List.mem_cons_of_mem _ hm1)) ht1 hs1 x hx hk
          · exact absurd (Or.inr (hpath.trans hkr.symm)) hcond
      · obtain ⟨hpre, hc⟩ := hitems k _ (List.mem_cons_self _ _)
        obtain ⟨hcp, hcs, hco⟩ := hc c rfl hkr
        have hcond : ¬ (svn_dirent_is_ancestor (s.batons a).path k = false
            ∨ (s.batons a).path = k) := by
          rw [hpath]
          intro hh
          rcases hh with hh | hh
          · unfold svn_dirent_is_ancestor at hh
            have : root.isPrefixOf k = true := List.isPrefixOf_iff_prefix.2 hpre
            rw [this] at hh
            cases hh
          · exact hkr hh.symm
        rcases do_close_children_cons_baton w a pl k c rest s s1 none h with
          ⟨hc1, _⟩ | ⟨_, ⟨err, _, he⟩ | ⟨s2, hn, hrest⟩⟩
        · exact absurd hc1 hcond
        · cases he
        · have hs2 := shrunk_norecurse w s c pl s2 _ hn
          obtain ⟨hoth, _, _, _, _, _⟩ := do_close_norecurse_frame w s c pl s2 _ hn
          rcases hxk with hk | hk
          · exfalso
            rcases do_close_norecurse_cases w s c pl s2 none hn with
              ⟨hcl, _, _⟩ | ⟨_, err, _, he⟩ | ⟨_, s3, hu, hf⟩
            · exact hco hcl
            · cases he
            · obtain ⟨hsh3, _, _, hb3⟩ := do_close_unlock_view w s c pl s3 _ hu
              obtain ⟨_, hshf, _, _⟩ := do_close_finish_view w s3 c s2 _ hf
              cases hset : (s.shareds sh).set with
              | none =>
                have := (shrunk_trans _ _ _ hs2 (shrunk_children w a pl rest s2 s1 none hrest)).set_none
                  sh hset
                rw [hs1] at this
                cases this
              | some ht =>
                have hd := (detached_set s3 c sh ht (by rw [(hb3 c).2.1]; exact hcs)
                  (by rw [hsh3]; exact hset)).1
                rw [(hb3 c).1, hcp, ← hshf] at hd
                have hsub := shrunk_key s2 s1 (shrunk_children w a pl rest s2 s1 none hrest) sh
                  _ ht1 hd hs1 x hx
                exact ((mem_apr_hash_set_none ht k x).1 hsub).2 hk
          · refine ih s2 s1 hrest (by rw [(hs2.baton a).2.1]; exact hsh)
              (by rw [(hs2.baton a).1]; exact hpath) hnd.2 (fun k1 v1 hm1 => ?_) ht1 hs1 x hx hk
            obtain ⟨hpre1, hc1⟩ := hitems k1 v1 (List.mem_cons_of_mem _ hm1)
            refine ⟨hpre1, fun c1 hv1 hk1 => ?_⟩
            obtain ⟨hp1, hsh1, ho1⟩ := hc1 c1 hv1 hk1
            have hne : c1 ≠ c := by
              intro he
              rw [he, hcp] at hp1
              exact hnd.1 (List.mem_map.2 ⟨(k1, v1), hm1, hp1.symm⟩)
            rw [hoth c1 hne]
            exact ⟨hp1, hsh1, ho1⟩

/-- The `do_close` with recursion of a baton that owns a registry listing only
open batons at or below its path keeps the invariant, whatever it returns. -/
theorem ownerInv_close_tree (w : World) (s : State) (a sh : Nat) (pl : Bool) (s1 : State)
    (r : Option svn_error_t) (h : do_close w s a pl true = some (s1, r)) (hI : OwnerInv s)
    (hT : Tree s a sh) : OwnerInv s1 ∧ Shrunk s s1 := by
  obtain ⟨hsh, hown, ht, hset, hroot, hitems⟩ := hT
  have hopen : (s.batons a).type ≠ .svn_wc__adm_access_closed :=
    ((hitems _ _ hroot).2 a rfl).2.2.1
  have hnd := hI.nodup sh ht hset
  have hdesc : do_close_descendants w s a pl true
      = do_close_children w a pl (svn_sort__hash ht).reverse s := by
    unfold do_close_descendants
    rw [if_pos rfl, hsh]
    simp only
    rw [hset]
  have hloop : ∀ s2 e2, do_close_descendants w s a pl true = some (s2, e2) →
      OwnerInv s2 ∧ Shrunk s s2 := by
    intro s2 e2 hd
    rw [hdesc] at hd
    refine ownerInv_children w a pl _ s s2 e2 hd hI ?_ (Or.inr ?_)
    · intro k hk sh1 ht1 q hsh1 hset1 hq
      rw [hsh] at hsh1
      cases hsh1
      rw [hset] at hset1
      cases hset1
      have := value_unique ht hnd k _ _ ((svn_sort__hash_mem ht _).1 hk) hq
      cases this
    · intro k c hm
      have hm0 := (svn_sort__hash_mem ht _).1 hm
      obtain ⟨hp, _, _, hfl⟩ := (hitems k _ hm0).2 c rfl
      cases hf : (s.batons c).set_owner with
      | false => exact Or.inr rfl
      | true =>
        left
        rw [← hfl hf]
        exact hp
  have hempty : ∀ s2, do_close_descendants w s a pl true = some (s2, none) →
      ∀ s3 : State, s3.shareds = s2.shareds → (∀ q, (s3.batons q).path = (s2.batons q).path ∧
        (s3.batons q).shared = (s2.batons q).shared) →
      ∀ sh1 ht1, (s3.batons a).shared = some sh1 → (s3.shareds sh1).set = some ht1 →
        apr_hash_set ht1 (s3.batons a).path none = [] := by
    intro s2 hd s3 hshs hb3 sh1 ht1 hsh1 hset1
    have hs2 := (hloop s2 none hd).2
    rw [hdesc] at hd
    rw [(hb3 a).2, (hs2.baton a).2.1, hsh] at hsh1
    cases hsh1
    rw [hshs] at hset1
    rw [(hb3 a).1, (hs2.baton a).1]
    have hkeys := tree_children w a pl sh (s.batons a).path _ s s2 hd hsh rfl
      (svn_sort__hash_nodup ht hnd)
      (fun k v hm => by
        obtain ⟨hpre, hq⟩ := hitems k v ((svn_sort__hash_mem ht _).1 hm)
        exact ⟨hpre, fun c hv _ => ⟨(hq c hv).1, (hq c hv).2.1, (hq c hv).2.2.1⟩⟩)
      ht1 hset1
    unfold apr_hash_set
    simp only
    rw [List.filter_eq_nil_iff]
    intro x hx
    simp only [decide_eq_true_eq, not_not]
    refine hkeys x hx (List.mem_map.2 ⟨x, ?_, rfl⟩)
    exact (svn_sort__hash_mem ht _).2 (shrunk_key s s2 hs2 sh ht ht1 hset hset1 x hx)
  have hrest : ∀ s2, do_close_descendants w s a pl true = some (s2, none) →
      ((∃ err, do_close_unlock w s2 a pl = (s1, some err) ∧ r = some err) ∨
        (∃ s3, do_close_unlock w s2 a pl = (s3, none) ∧
          do_close_finish w s3 a = some (s1, r))) → OwnerInv s1 ∧ Shrunk s s1 := by
    intro s2 hd hcase
    obtain ⟨hI2, hs2⟩ := hloop s2 none hd
    rcases hcase with ⟨err, hu, _⟩ | ⟨s3, hu, hf⟩
    · exact ⟨ownerInv_unlock w s2 a pl s1 _ hu hI2,
        shrunk_trans _ _ _ hs2 (shrunk_unlock w s2 a pl s1 _ hu)⟩
    · obtain ⟨hsh3, _, _, hb3⟩ := do_close_unlock_view w s2 a pl s3 _ hu
      obtain ⟨h1, h2⟩ := ownerInv_finish w s3 a s1 r hf (ownerInv_unlock w s2 a pl s3 _ hu hI2)
        (Or.inr (fun _ sh1 ht1 hsh1 hset1 =>
          hempty s2 hd s3 hsh3 (fun q => ⟨(hb3 q).1, (hb3 q).2.1⟩) sh1 ht1 hsh1 hset1))
      exact ⟨h1, shrunk_trans _ _ _ hs2 (shrunk_trans _ _ _ (shrunk_unlock w s2 a pl s3 _ hu) h2)⟩
  rcases do_close_cases w s a pl true s1 r h with
    ⟨hcl, _, _⟩ | ⟨_, s2, e2, hd, hcase⟩
  · exact absurd hcl hopen
  · rcases hcase with ⟨err, he, h1, _⟩ | ⟨he, hn, _⟩ | ⟨he, _, hcase⟩
    · rw [h1]
      exact hloop s2 e2 hd
    · rw [he] at hd
      rcases do_close_norecurse_cases w s2 a pl s1 r hn with
        ⟨_, h1, _⟩ | ⟨_, err, hu, hr1⟩ | ⟨_, s3, hu, hf⟩
      · rw [h1]; exact hloop s2 none hd
      · exact hrest s2 hd (Or.inl ⟨err, hu, hr1⟩)
      · exact hrest s2 hd (Or.inr ⟨s3, hu, hf⟩)
    · rw [he] at hd
      exact hrest s2 hd hcase

/-! ## The cells that a close leaves alone -/

theorem do_close_norecurse_below (w : World) (N M : Nat) (s : State) (c : Nat) (pl : Bool)
    (s1 : State) (e : Option svn_error_t) (h : do_close_norecurse w s c pl = some (s1, e))
    (hc : N ≤ c) (hsh : ∀ csh, (s.batons c).shared = some csh → M ≤ csh) :
    (∀ q, q < N → s1.batons q = s.batons q) ∧ (∀ t, t < M → s1.shareds t = s.shareds t) := by
  obtain ⟨hoth, _⟩ := do_close_norecurse_frame w s c pl s1 e h
  refine ⟨fun q hq => hoth q (by omega), fun t ht => ?_⟩
  rcases do_close_norecurse_cases w s c pl s1 e h with
    ⟨_, h1, _⟩ | ⟨_, err, hu, _⟩ | ⟨_, s2, hu, hf⟩
  · rw [h1]
  · rw [(do_close_unlock_view w s c pl s1 _ hu).1]
  · obtain ⟨hsh2, _, _, hb2⟩ := do_close_unlock_view w s c pl s2 _ hu
    obtain ⟨_, hshf, _, _⟩ := do_close_finish_view w s2 c s1 e hf
    rw [hshf, ← hsh2]
    cases hcs : (s2.batons c).shared with
    | none => rw [detached_none s2 c hcs]; rfl
    | some csh =>
      cases hset : (s2.shareds csh).set with
      | none => rw [detached_noset s2 c csh hcs hset]; rfl
      | some ht1 =>
        have hM : M ≤ csh := hsh csh (by rw [← (hb2 c).2.1]; exact hcs)
        exact (detached_set s2 c csh ht1 hcs hset).2.2 t (by omega)

theorem do_close_children_below (w : World) (N M : Nat) (a : Nat) (pl : Bool)
    (L : List (Path × SetItem)) :
    ∀ (s s1 : State) (r : Option svn_error_t),
      do_close_children w a pl L s = some (s1, r) →
      (∀ sh, (s.batons a).shared = some sh → M ≤ sh) →
      (∀ k c, (k, SetItem.baton c) ∈ L → N ≤ c ∧
        ∀ csh, (s.batons c).shared = some csh → M ≤ csh) →
      (∀ q, q < N → s1.batons q = s.batons q) ∧ (∀ t, t < M → s1.shareds t = s.shareds t) := by
  induction L with
  | nil =>
    intro s s1 r h _ _
    rw [do_close_children_nil] at h
    simp only [Option.some.injEq, Prod.mk.injEq] at h
    rw [← h.1]
    exact ⟨fun _ _ => rfl, fun _ _ => rfl⟩
  | cons item rest ih =>
    intro s s1 r h ha hL
    obtain ⟨k, v⟩ := item
    have hnext : ∀ s2, Shrunk s s2 →
        (∀ sh, (s2.batons a).shared = some sh → M ≤ sh) ∧
        (∀ k1 c, (k1, SetItem.baton c) ∈ rest → N ≤ c ∧
          ∀ csh, (s2.batons c).shared = some csh → M ≤ csh) := by
      intro s2 h2
      refine ⟨fun sh hsh => ha sh (by rw [← (h2.baton a).2.1]; exact hsh), fun k1 c hm => ?_⟩
      obtain ⟨h1, h3⟩ := hL k1 c (List.mem_cons_of_mem _ hm)
      exact ⟨h1, fun csh hcs => h3 csh (by rw [← (h2.baton c).2.1]; exact hcs)⟩
    cases v with
    | missing =>
      rw [do_close_children] at h
      cases hsh : (s.batons a).shared with
      | none => rw [hsh] at h; cases h
      | some sh =>
        rw [hsh] at h
        simp only at h
        cases hset : (s.shareds sh).set with
        | none => rw [hset] at h; cases h
        | some ht =>
          rw [hset] at h
          simp only at h
          have hsr := shrunk_setSet_unset s sh ht k hset
          obtain ⟨h1, h2⟩ := ih _ s1 r h (hnext _ hsr).1 (hnext _ hsr).2
          refine ⟨fun q hq => by rw [h1 q hq]; rfl, fun t ht1 => ?_⟩
          rw [h2 t ht1]
          exact setSet_other _ _ _ _ (by have := ha sh hsh; omega)
    | baton c =>
      obtain ⟨hcN, hcM⟩ := hL k c (List.mem_cons_self _ _)
      rcases do_close_children_cons_baton w a pl k c rest s s1 r h with
        ⟨_, hrest⟩ | ⟨_, ⟨err, hn, _⟩ | ⟨s2, hn, hrest⟩⟩
      · exact ih s s1 r hrest (hnext s (shrunk_refl s)).1 (hnext s (shrunk_refl s)).2
      · exact do_close_norecurse_below w N M s c pl s1 _ hn hcN hcM
      · have hs2 := shrunk_norecurse w s c pl s2 _ hn
        obtain ⟨h1, h2⟩ := do_close_norecurse_below w N M s c pl s2 _ hn hcN hcM
        obtain ⟨h3, h4⟩ := ih s2 s1 r hrest (hnext s2 hs2).1 (hnext s2 hs2).2
        exact ⟨fun q hq => (h3 q hq).trans (h1 q hq), fun t ht => (h4 t ht).trans (h2 t ht)⟩

/-- A `do_close` leaves the cells below `N` and `M` alone when the baton and
the batons of its registry are not below `N` and their registries not below
`M`. -/
theorem do_close_below (w : World) (N M : Nat) (s : State) (a : Nat) (pl recurse : Bool)
    (s1 : State) (r : Option svn_error_t) (h : do_close w s a pl recurse = some (s1, r))
    (ha : N ≤ a)
    (hsh : ∀ sh, (s.batons a).shared = some sh → M ≤ sh ∧
      ∀ ht k c, (s.shareds sh).set = some ht → (k, SetItem.baton c) ∈ ht →
        N ≤ c ∧ ∀ csh, (s.batons c).shared = some csh → M ≤ csh) :
    (∀ q, q < N → s1.batons q = s.batons q) ∧ (∀ t, t < M → s1.shareds t = s.shareds t) := by
  have hloop : ∀ s2 e2, do_close_descendants w s a pl recurse = some (s2, e2) →
      (∀ q, q < N → s2.batons q = s.batons q) ∧ (∀ t, t < M → s2.shareds t = s.shareds t) ∧
      Shrunk s s2 := by
    intro s2 e2 hd
    unfold do_close_descendants at hd
    by_cases hrec : recurse = true
    · rw [if_pos hrec] at hd
      cases hs : (s.batons a).shared with
      | none =>
        rw [hs] at hd
        simp only [Option.some.injEq, Prod.mk.injEq] at hd
        rw [← hd.1]; exact ⟨fun _ _ => rfl, fun _ _ => rfl, shrunk_refl s⟩
      | some sh =>
        rw [hs] at hd
        simp only at hd
        cases hset : (s.shareds sh).set with
        | none =>
          rw [hset] at hd
          simp only [Option.some.injEq, Prod.mk.injEq] at hd
          rw [← hd.1]; exact ⟨fun _ _ => rfl, fun _ _ => rfl, shrunk_refl s⟩
        | some ht =>
          rw [hset] at hd
          simp only at hd
          obtain ⟨h1, h2⟩ := do_close_children_below w N M a pl _ s s2 e2 hd
            (fun sh1 hs1 => (hsh sh1 hs1).1)
            (fun k c hm => (hsh sh hs).2 ht k c hset ((svn_sort__hash_mem ht _).1 hm))
          exact ⟨h1, h2, shrunk_children w a pl _ s s2 e2 hd⟩
    · rw [if_neg hrec] at hd
      simp only [Option.some.injEq, Prod.mk.injEq] at hd
      rw [← hd.1]; exact ⟨fun _ _ => rfl, fun _ _ => rfl, shrunk_refl s⟩
  have hself : ∀ s2, Shrunk s s2 → ∀ s3 e3, do_close_norecurse w s2 a pl = some (s3, e3) →
      (∀ q, q < N → s3.batons q = s2.batons q) ∧ (∀ t, t < M → s3.shareds t = s2.shareds t) :=
    fun s2 h2 s3 e3 hn => do_close_norecurse_below w N M s2 a pl s3 e3 hn ha
      (fun csh hcs => (hsh csh (by rw [← (h2.baton a).2.1]; exact hcs)).1)
  have hrest : ∀ s2, Shrunk s s2 →
      ((∃ err, do_close_unlock w s2 a pl = (s1, some err) ∧ r = some err) ∨
        (∃ s3, do_close_unlock w s2 a pl = (s3, none) ∧
          do_close_finish w s3 a = some (s1, r))) →
      (∀ q, q < N → s1.batons q = s2.batons q) ∧ (∀ t, t < M → s1.shareds t = s2.shareds t) := by
    intro s2 h2 hcase
    rcases hcase with ⟨err, hu, _⟩ | ⟨s3, hu, hf⟩
    · obtain ⟨hoth, _⟩ := do_close_unlock_frame w s2 a pl s1 _ hu
      exact ⟨fun q hq => hoth q (by omega),
        fun t _ => by rw [(do_close_unlock_view w s2 a pl s1 _ hu).1]⟩
    · obtain ⟨hoth, _⟩ := do_close_unlock_frame w s2 a pl s3 _ hu
      obtain ⟨hsh3, _, _, hb3⟩ := do_close_unlock_view w s2 a pl s3 _ hu
      obtain ⟨_, _, _, hoth2⟩ := do_close_finish_closed w s3 a s1 r hf
      obtain ⟨_, hshf, _, _⟩ := do_close_finish_view w s3 a s1 r hf
      refine ⟨fun q hq => by rw [hoth2 q (by omega), hoth q (by omega)], fun t ht => ?_⟩
      rw [hshf, ← hsh3]
      cases hcs : (s3.batons a).shared with
      | none => rw [detached_none s3 a hcs]; rfl
      | some csh =>
        cases hset : (s3.shareds csh).set with
        | none => rw [detached_noset s3 a csh hcs hset]; rfl
        | some ht1 =>
          have hM : M ≤ csh :=
            (hsh csh (by rw [← (h2.baton a).2.1, ← (hb3 a).2.1]; exact hcs)).1
          exact (detached_set s3 a csh ht1 hcs hset).2.2 t (by omega)
  rcases do_close_cases w s a pl recurse s1 r h with
    ⟨_, h1, _⟩ | ⟨_, s2, e2, hd, hcase⟩
  · rw [h1]; exact ⟨fun _ _ => rfl, fun _ _ => rfl⟩
  · obtain ⟨hb2, hs2, hshr⟩ := hloop s2 e2 hd
    rcases hcase with ⟨err, he, h1, _⟩ | ⟨he, hn, _⟩ | ⟨he, _, hcase⟩
    · rw [h1]; exact ⟨hb2, hs2⟩
    · obtain ⟨h3, h4⟩ := hself s2 hshr s1 r hn
      exact ⟨fun q hq => (h3 q hq).trans (hb2 q hq), fun t ht => (h4 t ht).trans (hs2 t ht)⟩
    · obtain ⟨h3, h4⟩ := hrest s2 hshr hcase
      exact ⟨fun q hq => (h3 q hq).trans (hb2 q hq), fun t ht => (h4 t ht).trans (hs2 t ht)⟩

/-! ## Trees -/

theorem oldKept_refl (s : State) : OldKept s s :=
  ⟨Nat.le_refl _, Nat.le_refl _, fun _ _ => rfl, fun _ _ => rfl⟩

theorem oldKept_trans (s s1 s2 : State) (h1 : OldKept s s1) (h2 : OldKept s1 s2) :
    OldKept s s2 :=
  ⟨Nat.le_trans h1.nbatons h2.nbatons, Nat.le_trans h1.nshareds h2.nshareds,
    fun q hq => (h2.batons q (Nat.lt_of_lt_of_le hq h1.nbatons)).trans (h1.batons q hq),
    fun t ht => (h2.shareds t (Nat.lt_of_lt_of_le ht h1.nshareds)).trans (h1.shareds t ht)⟩

theorem oldKept_of_opened (w : World) (s : State) (path : Path) (wl : Bool) (s1 : State)
    (lock : Nat) (h : Opened w s path wl s1 lock) : OldKept s s1 :=
  ⟨Nat.le_of_lt h.nbatons, h.nshareds, h.batons, h.shareds⟩

theorem shared_lt_of_ownerInv (s : State) (h : OwnerInv s) (q sh : Nat)
    (hq : (s.batons q).shared = some sh) : sh < s.nshareds := by
  by_contra hge
  exact h.has_set q sh hq (h.unused sh (Nat.not_lt.1 hge))

theorem tree_of_regOK (s : State) (lo : Nat) (root : Path) (lock sh : Nat) (wl : Bool)
    (h : RegOK s lo root lock sh wl) : Tree s lock sh := by
  obtain ⟨ht, hset, _, hroot, hitems⟩ := h
  obtain ⟨_, _, hp, hs, _, _, hown, _⟩ := (hitems root _ hroot).2 lock rfl
  refine ⟨hs, hown.2 rfl, ht, hset, by rw [hp]; exact hroot, fun k v hm => ?_⟩
  obtain ⟨hpre, hq⟩ := hitems k v hm
  refine ⟨by rw [hp]; exact hpre, fun q hv => ?_⟩
  obtain ⟨_, _, hp1, hs1, ht1, _, hown1, _⟩ := hq q hv
  exact ⟨hp1, hs1, by rw [ht1]; exact openType_ne_closed wl, fun hf => hown1.1 hf⟩

/-- A tree stays a tree when the cells handed out before stay as they
are. -/
theorem tree_oldKept (s s1 : State) (a sh : Nat) (hI : OwnerInv s) (h : Tree s a sh)
    (hk : OldKept s s1) : Tree s1 a sh := by
  obtain ⟨hsh, hown, ht, hset, hroot, hitems⟩ := h
  have halt : a < s.nbatons := hI.lt sh ht _ a hset hroot
  have hshlt : sh < s.nshareds := shared_lt_of_ownerInv s hI a sh hsh
  rw [← hk.batons a halt] at hsh hown hroot
  refine ⟨hsh, hown, ht, by rw [hk.shareds sh hshlt]; exact hset, hroot, fun k v hm => ?_⟩
  obtain ⟨hpre, hq⟩ := hitems k v hm
  rw [hk.batons a halt]
  refine ⟨hpre, fun q hv => ?_⟩
  rw [hk.batons q (hI.lt sh ht k q hset (by rw [← hv]; exact hm))]
  exact hq q hv

/-! ## The registries under `do_open` -/

theorem oldKept_of_loopInv (w : World) (s0 : State) (path : Path) (lock sh : Nat) (wl : Bool)
    (M : List Path) (s : State) (h : LoopInv w s0 path lock sh wl M s) : OldKept s0 s :=
  ⟨by rw [← h.lock_eq]; exact Nat.le_of_lt h.lock_lt,
    Nat.le_trans h.sh_ge (Nat.le_of_lt h.sh_lt),
    fun q hq => h.batons q (by rw [h.lock_eq]; exact hq), h.shareds⟩

/-- The `svn_wc_adm_close2` by which a failing `do_open` gives up its own
tree. -/
theorem ownerInv_exit (w : World) (s0 s1 : State) (lock sh : Nat) (s2 : State)
    (e : Option svn_error_t) (hI : OwnerInv s1) (hT : Tree s1 lock sh) (hk : OldKept s0 s1)
    (hlock : s0.nbatons ≤ lock) (hsh : s0.nshareds ≤ sh)
    (hge : ∀ ht k c, (s1.shareds sh).set = some ht → (k, SetItem.baton c) ∈ ht →
      s0.nbatons ≤ c)
    (h : svn_wc_adm_close2 w s1 lock = some (s2, e)) : OwnerInv s2 ∧ OldKept s0 s2 := by
  unfold svn_wc_adm_close2 at h
  obtain ⟨hI2, hs2⟩ := ownerInv_close_tree w s1 lock sh false s2 e h hI hT
  refine ⟨hI2, ?_⟩
  obtain ⟨hsl, _, ht, hset, hroot, hitems⟩ := hT
  obtain ⟨hb, hshs⟩ := do_close_below w s0.nbatons s0.nshareds s1 lock false true s2 e h hlock
    (fun sh1 hs1 => by
      rw [hsl] at hs1
      cases hs1
      refine ⟨hsh, fun ht1 k c hset1 hm => ⟨hge ht1 k c hset1 hm, fun csh hcs => ?_⟩⟩
      rw [hset] at hset1
      cases hset1
      rw [((hitems k _ hm).2 c rfl).2.1] at hcs
      cases hcs
      exact hsh)
  exact ⟨by rw [hs2.nbatons]; exact hk.nbatons, by rw [hs2.nshareds]; exact hk.nshareds,
    fun q hq => (hb q hq).trans (hk.batons q hq),
    fun t ht1 => (hshs t ht1).trans (hk.shareds t ht1)⟩

theorem ownerInv_cancel_check (w : World) (s : State) (path : Path) (s1 : State)
    (e : Option svn_error_t) (h : cancel_check w s path = (s1, e)) (hI : OwnerInv s) :
    OwnerInv s1 := by
  obtain ⟨hb, hs, hns, hstep, _, _⟩ := cancel_check_spec w s path s1 e h
  exact ownerInv_same s s1 hI hstep.nbatons hns (fun sh => by rw [hs])
    (fun q => by rw [hb]; exact ⟨rfl, rfl, rfl⟩)

theorem not_prefix_of_length (path cp k : Path) (hlen : cp.length = path.length + 1)
    (hpre : cp <+: k) : path ≠ k := by
  intro he
  have := List.IsPrefix.length_le hpre
  rw [← he] at this
  omega

/-- The loop of `do_open` keeps the invariant and the cells handed out before
the `do_open`, whatever it returns. -/
theorem ownerInv_entries (w : World) (s0 : State) (path : Path) (lock sh : Nat) (wl : Bool)
    (oc : State → Path → Option (State × Except svn_error_t Nat))
    (hoc : ∀ s p s1 r, oc s p = some (s1, r) → OwnerInv s → OwnerInv s1 ∧ OldKept s s1)
    (hok : ∀ s p s1 c, oc s p = some (s1, .ok c) → Opened w s p wl s1 c)
    (herr : ∀ s p s1 err, oc s p = some (s1, .error err) →
      err.apr_err = .SVN_ERR_WC_NOT_DIRECTORY → notWorkingCopyDir w p ∧ s1 = s)
    (entries : List svn_wc_entry_t) :
    ∀ (M : List Path) (s s1 : State) (r : Option svn_error_t),
      LoopInv w s0 path lock sh wl M s → OwnerInv s →
      do_open_entries w oc lock path entries s = some (s1, r) →
      OwnerInv s1 ∧ OldKept s0 s1 := by
  induction entries with
  | nil =>
    intro M s s1 r h hI hd
    rw [do_open_entries_nil] at hd
    simp only [Option.some.injEq, Prod.mk.injEq] at hd
    rw [← hd.1]
    exact ⟨hI, oldKept_of_loopInv w s0 path lock sh wl M s h⟩
  | cons entry rest ih =>
    intro M s s1 r h hI hd
    have hcan : ∀ s2 e2, cancel_check w s path = (s2, e2) →
        LoopInv w s0 path lock sh wl M s2 ∧ OwnerInv s2 := by
      intro s2 e2 hc
      obtain ⟨hb, hs, hns, hstep, _, _⟩ := cancel_check_spec w s path s2 e2 hc
      exact ⟨LoopInv.congr w s0 path lock sh wl M s s2 h hb hs hns hstep,
        ownerInv_cancel_check w s path s2 e2 hc hI⟩
    have hexit : ∀ s2 s3 s4 e4, LoopInv w s0 path lock sh wl M s2 → OwnerInv s2 →
        OwnerInv s3 → OldKept s2 s3 → svn_wc_adm_close2 w s3 lock = some (s4, e4) →
        OwnerInv s4 ∧ OldKept s0 s4 := by
      intro s2 s3 s4 e4 h2 hI2 hI3 hk3 hcl
      have hT2 : Tree s2 lock sh := tree_of_regOK s2 lock path lock sh wl h2.reg
      have hT3 : Tree s3 lock sh := tree_oldKept s2 s3 lock sh hI2 hT2 hk3
      refine ownerInv_exit w s0 s3 lock sh s4 e4 hI3 hT3
        (oldKept_trans _ _ _ (oldKept_of_loopInv w s0 path lock sh wl M s2 h2) hk3)
        (by rw [h2.lock_eq]) h2.sh_ge ?_ hcl
      intro ht k c hset hm
      rw [hk3.shareds sh h2.sh_lt] at hset
      obtain ⟨ht2, hset2, _, _, hitems⟩ := h2.reg
      rw [hset] at hset2
      cases hset2
      rw [← h2.lock_eq]
      exact ((hitems k _ hm).2 c rfl).1
    rcases do_open_entries_cases w oc lock path entry rest s s1 _ hd with
      ⟨s2, err, e2, hc, hcl, _⟩ | ⟨s2, hc, _, hrec⟩ |
      ⟨s2, s3, child, sh1, s4, hc, _, ho, hsh, hj, hrec⟩ |
      ⟨s2, s3, err, e3, hc, _, ho, _, hcl, _⟩ | ⟨s2, s3, err, sh1, s4, hc, _, ho, hn, hsh, ha, hrec⟩
    · obtain ⟨h2, hI2⟩ := hcan s2 _ hc
      exact hexit s2 s2 s1 e2 h2 hI2 hI2 (oldKept_refl s2) hcl
    · obtain ⟨h2, hI2⟩ := hcan s2 _ hc
      exact ih M s2 s1 r h2 hI2 hrec
    · obtain ⟨h2, hI2⟩ := hcan s2 _ hc
      have hop := hok _ _ _ _ ho
      obtain ⟨hI3, _⟩ := hoc _ _ _ _ ho hI2
      have h3 := LoopInv.child w s0 path lock sh wl M s2 s3 _ child h2 hop
        (svn_dirent_join_extends path entry.name)
      rw [h3.shared] at hsh
      simp only [Option.some.injEq] at hsh
      subst hsh
      have h4 := LoopInv.join w s0 path lock sh wl M s2 s3 s4 entry.name child h2 hop hj
      obtain ⟨ht3, hset3, hnd3, hroot3, hitems3⟩ := h3.reg
      obtain ⟨_, _, hp3, hs3, _, _, hown3, _⟩ := (hitems3 path _ hroot3).2 lock rfl
      have hI4 : OwnerInv s4 := by
        refine ownerInv_join s3 s4 sh child hI3 hj ⟨ht3, path, lock, hset3, hroot3, hs3⟩
          (by rw [hop.lock_eq]; exact hop.nbatons) ?_ ?_
        · cases hcs : (s3.batons child).shared with
          | none => exact Or.inl ⟨rfl, hop.unregistered hcs⟩
          | some csh =>
            obtain ⟨hge, _, _, hreg⟩ := hop.registry csh hcs
            refine Or.inr ⟨csh, ?_, tree_of_regOK s3 _ _ child csh wl hreg⟩
            have := h2.sh_lt
            omega
        · intro dht o hdst ho1 hf1
          rw [hset3] at hdst
          cases hdst
          have ho_lock : o = lock := (((hitems3 _ _ ho1).2 o rfl).2.2.2.2.2.2.1).1 hf1
          rw [ho_lock, hp3]
          refine ⟨fun _ => ?_, fun tsh tht hts htset => ?_⟩
          · rw [hop.path_eq]
            exact ne_of_length_succ path _ (svn_dirent_join_length path entry.name)
          · obtain ⟨_, _, _, hreg⟩ := hop.registry tsh hts
            obtain ⟨tht1, htset1, _, _, hitems1⟩ := hreg
            rw [htset] at htset1
            cases htset1
            intro hmem
            obtain ⟨x, hx, hx1⟩ := List.mem_map.1 hmem
            exact not_prefix_of_length path _ x.1 (svn_dirent_join_length path entry.name)
              (hitems1 x.1 x.2 hx).1 hx1.symm
      exact ih M s4 s1 r h4 hI4 hrec
    · obtain ⟨h2, hI2⟩ := hcan s2 _ hc
      obtain ⟨hI3, hk3⟩ := hoc _ _ _ _ ho hI2
      exact hexit s2 s3 s1 e3 h2 hI2 hI3 hk3 hcl
    · obtain ⟨h2, hI2⟩ := hcan s2 _ hc
      obtain ⟨hg, hs3⟩ := herr _ _ _ _ ho hn
      subst hs3
      rw [h2.shared] at hsh
      simp only [Option.some.injEq] at hsh
      subst hsh
      have h4 := LoopInv.add_missing w s0 path lock sh wl M s3 s4 _ h2 hg
        (svn_dirent_join_length path entry.name) (svn_dirent_join_extends path entry.name) ha
      have hI4 : OwnerInv s4 := by
        refine ownerInv_add_missing s3 s4 _ sh hI2 ha ?_
        intro ht o hset ho1 hf1 _
        obtain ⟨ht2, hset2, _, hroot2, hitems2⟩ := h2.reg
        rw [hset] at hset2
        cases hset2
        have hi := (hitems2 _ _ ho1).2 o rfl
        have ho_lock : o = lock := hi.2.2.2.2.2.2.1.1 hf1
        have hp : (s3.batons lock).path = path := ((hitems2 path _ hroot2).2 lock rfl).2.2.1
        have hpo : (s3.batons o).path = svn_dirent_join path entry.name := hi.2.2.1
        rw [ho_lock, hp] at hpo
        exact ne_of_length_succ path _ (svn_dirent_join_length path entry.name) hpo
      exact ih _ s4 s1 r h4 hI4 hrec

theorem oldKept_alloc (w : World) (s : State) (type : svn_wc__adm_access_type) (path : Path)
    (s1 : State) (lock : Nat) (e : Option svn_error_t)
    (hal : adm_access_alloc w s type path = (s1, lock, e)) (f : Int) :
    OldKept s s1 ∧ OldKept s (s1.setFormat lock f) := by
  obtain ⟨hlock, hnb, hoth, hshs, hnsh, _⟩ := adm_access_alloc_frame w s type path s1 lock e hal
  refine ⟨⟨by rw [hnb]; exact Nat.le_succ _, by rw [hnsh], fun q hq => hoth q (Nat.ne_of_lt hq),
    fun t _ => by rw [hshs]⟩, ⟨by simp [hnb], by simp [hnsh], fun q hq => ?_,
    fun t _ => by simp [hshs]⟩⟩
  rw [setFormat_other _ _ _ _ (by rw [hlock]; exact Nat.ne_of_lt hq)]
  exact hoth q (Nat.ne_of_lt hq)

/-- Every `do_open` keeps the invariant of the registries and the cells
handed out before it, whatever it returns. -/
theorem ownerInv_do_open (w : World) (fuel : Nat) :
    ∀ (s : State) (path : Path) (wl : Bool) (lv : Int) (s1 : State)
      (r : Except svn_error_t Nat),
      do_open w fuel s path wl lv = some (s1, r) → OwnerInv s →
      OwnerInv s1 ∧ OldKept s s1 := by
  induction fuel with
  | zero => intro s path wl lv s1 r h; rw [do_open_zero] at h; cases h
  | succ fuel ih =>
    intro s path wl lv s1 r h hI
    rcases do_open_cases w fuel s path wl lv s1 _ h with
      ⟨_, h1, _⟩ | ⟨_, s2, lock, err, hal, h1, _⟩ | ⟨_, s2, lock, err, hal, _, _, h1, _⟩ |
      ⟨_, s2, lock, hal, _, _, h1, _⟩ | ⟨_, s2, lock, code, hal, _, _, _, h1, _⟩ |
      ⟨_, s2, lock, entries, err, hal, _, _, _, hd, _⟩ |
      ⟨_, s2, lock, entries, s3, hal, _, _, _, hd, h1, _⟩
    · rw [h1]; exact ⟨hI, oldKept_refl s⟩
    · rw [h1]
      exact ⟨ownerInv_alloc w s _ path s2 lock _ hal hI, (oldKept_alloc w s _ path s2 lock _ hal 0).1⟩
    · rw [h1]
      exact ⟨ownerInv_setFormat _ _ _ (ownerInv_alloc w s _ path s2 lock _ hal hI),
        (oldKept_alloc w s _ path s2 lock _ hal _).2⟩
    · rw [h1]
      have hk := (oldKept_alloc w s _ path s2 lock _ hal (w.svn_wc_check_wc path).2).2
      exact ⟨ownerInv_registerCleanup _ _
        (ownerInv_setFormat _ _ _ (ownerInv_alloc w s _ path s2 lock _ hal hI)),
        ⟨hk.nbatons, hk.nshareds, hk.batons, hk.shareds⟩⟩
    · rw [h1]
      exact ⟨ownerInv_setFormat _ _ _ (ownerInv_alloc w s _ path s2 lock _ hal hI),
        (oldKept_alloc w s _ path s2 lock _ hal _).2⟩
    · have hI2 := ownerInv_setFormat s2 lock (w.svn_wc_check_wc path).2
        (ownerInv_alloc w s _ path s2 lock _ hal hI)
      by_cases hlen : entries.length > 0
      · rw [if_pos hlen] at hd
        obtain ⟨hlock, hnb, _⟩ := adm_access_alloc_frame w s _ path s2 lock _ hal
        exact ownerInv_entries w s path lock s.nshareds wl _
          (fun s4 p s5 r5 h5 hI5 => ih s4 p wl _ s5 r5 h5 hI5)
          (fun s4 p s5 c h5 => do_open_opened w fuel s4 p wl _ s5 c h5)
          (fun s4 p s5 err h5 hn => do_open_not_directory w fuel s4 p wl _ s5 err h5 hn)
          entries [] _ s1 _ (LoopInv.start w s path wl s2 lock _ hal)
          (ownerInv_ensure_set _ lock hI2 (by simp [hnb, hlock])) hd
      · rw [if_neg hlen] at hd
        have hnil : entries = [] := List.length_eq_zero.1 (by omega)
        rw [hnil, do_open_entries_nil] at hd
        cases hd
    · have hI2 := ownerInv_setFormat s2 lock (w.svn_wc_check_wc path).2
        (ownerInv_alloc w s _ path s2 lock _ hal hI)
      rw [h1]
      by_cases hlen : entries.length > 0
      · rw [if_pos hlen] at hd
        obtain ⟨hlock, hnb, _⟩ := adm_access_alloc_frame w s _ path s2 lock _ hal
        obtain ⟨hI3, hk⟩ := ownerInv_entries w s path lock s.nshareds wl _
          (fun s4 p s5 r5 h5 hI5 => ih s4 p wl _ s5 r5 h5 hI5)
          (fun s4 p s5 c h5 => do_open_opened w fuel s4 p wl _ s5 c h5)
          (fun s4 p s5 err h5 hn => do_open_not_directory w fuel s4 p wl _ s5 err h5 hn)
          entries [] _ s3 _ (LoopInv.start w s path wl s2 lock _ hal)
          (ownerInv_ensure_set _ lock hI2 (by simp [hnb, hlock])) hd
        exact ⟨ownerInv_registerCleanup _ _ hI3, ⟨hk.nbatons, hk.nshareds, hk.batons, hk.shareds⟩⟩
      · rw [if_neg hlen] at hd
        have hnil : entries = [] := List.length_eq_zero.1 (by omega)
        rw [hnil, do_open_entries_nil] at hd
        simp only [Option.some.injEq, Prod.mk.injEq, and_true] at hd
        rw [← hd]
        have hk := (oldKept_alloc w s _ path s2 lock _ hal (w.svn_wc_check_wc path).2).2
        exact ⟨ownerInv_registerCleanup _ _ hI2, ⟨hk.nbatons, hk.nshareds, hk.batons, hk.shareds⟩⟩

/-! ## The registries under the composite opens -/

theorem do_open_level_zero (w : World) (fuel : Nat) (s : State) (path : Path) (wl : Bool)
    (s1 : State) (lock : Nat) (h : do_open w fuel s path wl 0 = some (s1, .ok lock)) :
    (s1.batons lock).shared = none := by
  cases fuel with
  | zero => rw [do_open_zero] at h; cases h
  | succ fuel =>
    rcases do_open_cases w fuel s path wl 0 s1 _ h with
      ⟨_, _, he⟩ | ⟨_, s2, lock1, err, _, _, he⟩ | ⟨_, s2, lock1, err, _, _, _, _, he⟩ |
      ⟨_, s2, lock1, hal, _, _, h1, he⟩ | ⟨_, s2, lock1, code, _, _, _, _, _, he⟩ |
      ⟨_, s2, lock1, entries, err, _, _, _, _, _, he⟩ |
      ⟨_, s2, lock1, entries, s3, _, _, hl, _, _, _, _⟩
    · cases he
    · cases he
    · cases he
    · simp only [Except.ok.injEq] at he
      subst he
      obtain ⟨_, _, _, _, _, _, _, _, _, hshared, _⟩ :=
        adm_access_alloc_frame w s _ path s2 lock _ hal
      rw [h1]
      simpa using hshared
    · cases he
    · cases he
    · exact absurd rfl hl

theorem mem_registryOwners (s : State) (sh : Nat) (ht : List (Path × SetItem))
    (hset : (s.shareds sh).set = some ht) (q : Nat) :
    q ∈ registryOwners s sh ↔ (∃ k, (k, SetItem.baton q) ∈ ht) ∧ (s.batons q).set_owner = true := by
  unfold registryOwners
  rw [List.mem_filter, mem_registeredBatons s sh ht hset]

theorem ownerInv_get_db (w : World) (s : State) (a : Nat) (s1 : State)
    (r : Except svn_error_t Nat) (h : svn_wc__adm_get_db w s a = some (s1, r))
    (hI : OwnerInv s) (ha : a < s.nbatons) : OwnerInv s1 := by
  have hI1 := ownerInv_ensure_set s a hI ha
  unfold svn_wc__adm_get_db at h
  simp only at h
  cases hsh : ((adm_ensure_set s a).batons a).shared with
  | none => rw [hsh] at h; cases h
  | some sh =>
    rw [hsh] at h
    simp only at h
    cases hdb : ((adm_ensure_set s a).shareds sh).db with
    | some db =>
      rw [hdb] at h
      simp only [Option.some.injEq, Prod.mk.injEq] at h
      rw [← h.1]; exact hI1
    | none =>
      rw [hdb] at h
      simp only at h
      cases hab : w.svn_dirent_get_absolute ((adm_ensure_set s a).batons a).path with
      | some code =>
        rw [hab] at h
        simp only [Option.some.injEq, Prod.mk.injEq] at h
        rw [← h.1]; exact hI1
      | none =>
        rw [hab] at h
        simp only at h
        cases hop : w.svn_wc__db_open ((adm_ensure_set s a).batons a).path with
        | some code =>
          rw [hop] at h
          simp only [Option.some.injEq, Prod.mk.injEq] at h
          rw [← h.1]; exact hI1
        | none =>
          rw [hop] at h
          simp only [Option.some.injEq, Prod.mk.injEq] at h
          rw [← h.1]
          refine ownerInv_same _ _ hI1 rfl rfl (fun t => ?_) (fun _ => ⟨rfl, rfl, rfl⟩)
          show (((adm_ensure_set s a).setDb sh _).shareds t).set = _
          unfold State.setDb State.setShared
          simp only
          split <;> simp_all

/-- The `join_batons` of a baton that `do_open` has just made into a registry
that was there before the `do_open`. -/
theorem ownerInv_join_opened (w : World) (s0 : State) (path : Path) (wl : Bool) (s2 : State)
    (adm dst : Nat) (s3 : State) (hI0 : OwnerInv s0) (hI2 : OwnerInv s2)
    (hop : Opened w s0 path wl s2 adm) (hj : join_batons s2 dst adm = some s3)
    (hlive : ∃ dht k q, (s0.shareds dst).set = some dht ∧ (k, SetItem.baton q) ∈ dht ∧
      (s0.batons q).shared = some dst)
    (hkey : ∀ dht o, (s0.shareds dst).set = some dht →
      ((s0.batons o).path, SetItem.baton o) ∈ dht → (s0.batons o).set_owner = true →
      (s0.batons o).path ≠ path ∧
      ((s2.batons adm).shared ≠ none → ¬ path <+: (s0.batons o).path)) : OwnerInv s3 := by
  obtain ⟨dht, k0, q0, hdst, hm0, hq0⟩ := hlive
  have hdlt : dst < s0.nshareds := shared_lt_of_ownerInv s0 hI0 q0 dst hq0
  have hset2 : (s2.shareds dst).set = some dht := by rw [hop.shareds dst hdlt]; exact hdst
  have hold : ∀ k q, (k, SetItem.baton q) ∈ dht → s2.batons q = s0.batons q :=
    fun k q hm => hop.batons q (hI0.lt dst dht k q hdst hm)
  refine ownerInv_join s2 s3 dst adm hI2 hj ⟨dht, k0, q0, hset2, hm0, ?_⟩
    (by rw [hop.lock_eq]; exact hop.nbatons) ?_ ?_
  · rw [hold k0 q0 hm0]; exact hq0
  · cases hcs : (s2.batons adm).shared with
    | none => exact Or.inl ⟨rfl, hop.unregistered hcs⟩
    | some csh =>
      obtain ⟨hge, _, _, hreg⟩ := hop.registry csh hcs
      exact Or.inr ⟨csh, by omega, tree_of_regOK s2 _ _ adm csh wl hreg⟩
  · intro dht1 o hdst1 ho1 hf1
    rw [hset2] at hdst1
    cases hdst1
    have ho0 : o < s0.nbatons := hI0.lt dst dht _ o hdst ho1
    rw [hop.batons o ho0] at ho1 hf1 ⊢
    obtain ⟨hne, hpre⟩ := hkey dht o hdst ho1 hf1
    refine ⟨fun _ => ?_, fun tsh tht hts htset => ?_⟩
    · rw [hop.path_eq]; exact hne
    · obtain ⟨_, _, _, hreg⟩ := hop.registry tsh hts
      obtain ⟨tht1, htset1, _, _, hitems1⟩ := hreg
      rw [htset] at htset1
      cases htset1
      intro hmem
      obtain ⟨x, hx, hx1⟩ := List.mem_map.1 hmem
      refine hpre (by rw [hts]; exact fun hh => by cases hh) ?_
      rw [← hx1]
      exact (hitems1 x.1 x.2 hx).1

/-- What `associable` gives of the registry of the associated baton after
`adm_ensure_set`. -/
theorem associable_registry (s : State) (assoc : Nat) (path : Path) (lv : Int)
    (hI : OwnerInv s) (ha : associable s assoc path lv) (sh : Nat)
    (ht : List (Path × SetItem))
    (hsh : ((adm_ensure_set s assoc).batons assoc).shared = some sh)
    (hset : ((adm_ensure_set s assoc).shareds sh).set = some ht) :
    (∃ k q, (k, SetItem.baton q) ∈ ht ∧
      ((adm_ensure_set s assoc).batons q).shared = some sh) ∧
    ∀ o, (((adm_ensure_set s assoc).batons o).path, SetItem.baton o) ∈ ht →
      ((adm_ensure_set s assoc).batons o).set_owner = true →
      lv = 0 ∨ ¬ path <+: ((adm_ensure_set s assoc).batons o).path := by
  obtain ⟨halt, ha2⟩ := ha
  cases hs : (s.batons assoc).shared with
  | none =>
    rw [hs] at ha2
    simp only at ha2
    obtain ⟨_, _, _, hpa, hsa, _, _, hnew, _⟩ := adm_ensure_set_fresh_fields s assoc hs
    rw [hsa] at hsh
    cases hsh
    rw [hnew] at hset
    cases hset
    refine ⟨⟨_, assoc, List.mem_singleton.2 rfl, hsa⟩, fun o ho _ => ?_⟩
    simp only [List.mem_singleton, Prod.mk.injEq, SetItem.baton.injEq] at ho
    rw [ho.2, hpa]
    exact ha2
  | some sh0 =>
    rw [hs] at ha2
    simp only at ha2
    cases hset0 : (s.shareds sh0).set with
    | none => exact absurd hset0 (hI.has_set assoc sh0 hs)
    | some ht0 =>
      rw [adm_ensure_set_noop s assoc sh0 ht0 hs hset0] at hsh hset ⊢
      rw [hs] at hsh
      cases hsh
      rw [hset0] at hset
      cases hset
      obtain ⟨q, hq, hqs⟩ := ha2.1
      obtain ⟨k, hk⟩ := (mem_registeredBatons s sh ht hset0 q).1 hq
      refine ⟨⟨k, q, hk, hqs⟩, fun o ho hf => ?_⟩
      rcases ha2.2 with h0 | hall
      · exact Or.inl h0
      · exact Or.inr (hall o ((mem_registryOwners s sh ht hset0 o).2 ⟨⟨_, ho⟩, hf⟩))

/-- Every `svn_wc_adm_open3` with an associated baton that is `associable`
keeps the invariant, whatever it returns. -/
theorem ownerInv_open3 (w : World) (fuel : Nat) (s : State) (associated : Option Nat)
    (path : Path) (wl : Bool) (lv : Int) (s1 : State) (r : Except svn_error_t Nat)
    (h : svn_wc_adm_open3 w fuel s associated path wl lv = some (s1, r)) (hI : OwnerInv s)
    (ha : ∀ a, associated = some a → associable s a path lv) : OwnerInv s1 := by
  unfold svn_wc_adm_open3 at h
  cases associated with
  | none => exact (ownerInv_do_open w fuel s path wl lv s1 r h hI).1
  | some assoc =>
    simp only at h
    have hass := ha assoc rfl
    have hI0 := ownerInv_ensure_set s assoc hI hass.1
    cases hsh : ((adm_ensure_set s assoc).batons assoc).shared with
    | none => rw [hsh] at h; cases h
    | some sh =>
      rw [hsh] at h
      simp only at h
      cases hset : ((adm_ensure_set s assoc).shareds sh).set with
      | none => rw [hset] at h; cases h
      | some ht =>
        rw [hset] at h
        simp only at h
        obtain ⟨⟨ka, qa, hka, hqa⟩, howner⟩ :=
          associable_registry s assoc path lv hI hass sh ht hsh hset
        have hopen : apr_hash_get ht path = none ∨ apr_hash_get ht path = some .missing →
            (match do_open w fuel (adm_ensure_set s assoc) path wl lv with
            | none => none
            | some (s2, .error err) => some (s2, Except.error err)
            | some (s2, .ok adm_access) =>
              match (s2.batons assoc).shared with
              | none => none
              | some shared2 =>
                match join_batons s2 shared2 adm_access with
                | none => none
                | some s3 => some (s3, Except.ok adm_access)) = some (s1, r) → OwnerInv s1 := by
          intro hget h
          cases ho : do_open w fuel (adm_ensure_set s assoc) path wl lv with
          | none => rw [ho] at h; cases h
          | some res =>
            rcases res with ⟨s2, r2⟩
            rw [ho] at h
            obtain ⟨hI2, hk2⟩ := ownerInv_do_open w fuel _ path wl lv s2 r2 ho hI0
            cases r2 with
            | error err =>
              simp only [Option.some.injEq, Prod.mk.injEq] at h
              rw [← h.1]; exact hI2
            | ok a =>
              simp only at h
              cases hsh2 : (s2.batons assoc).shared with
              | none => rw [hsh2] at h; cases h
              | some sh2 =>
                rw [hsh2] at h
                simp only at h
                cases hj : join_batons s2 sh2 a with
                | none => rw [hj] at h; cases h
                | some s3 =>
                  rw [hj] at h
                  simp only [Option.some.injEq, Prod.mk.injEq] at h
                  rw [← h.1]
                  have hop := do_open_opened w fuel _ path wl lv s2 a ho
                  have halt : assoc < (adm_ensure_set s assoc).nbatons := by
                    rw [(adm_ensure_set_step s assoc).nbatons]
                    exact hass.1
                  rw [hop.batons assoc halt, hsh] at hsh2
                  cases hsh2
                  refine ownerInv_join_opened w _ path wl s2 a sh s3 hI0 hI2 hop hj
                    ⟨ht, ka, qa, hset, hka, hqa⟩ (fun dht o hdst ho1 hf1 => ?_)
                  rw [hset] at hdst
                  cases hdst
                  refine ⟨fun he => ?_, fun hne => ?_⟩
                  · rw [he] at ho1
                    have := apr_hash_get_of_mem ht (hI0.nodup sh ht hset) path _ ho1
                    rcases hget with hg | hg
                    · rw [hg] at this; cases this
                    · rw [hg] at this; cases this
                  · rcases howner o ho1 hf1 with h0 | hpre
                    · subst h0
                      exact absurd (do_open_level_zero w fuel _ path wl s2 a ho) hne
                    · exact hpre
        cases hg : apr_hash_get ht path with
        | none => rw [hg] at h; exact hopen (Or.inl hg) h
        | some item =>
          rw [hg] at h
          cases item with
          | missing => exact hopen (Or.inr hg) h
          | baton q =>
            simp only [Option.some.injEq, Prod.mk.injEq] at h
            rw [← h.1]; exact hI0

/-! ## The batons that `svn_wc_adm_open_anchor` opens and gives up -/

theorem fresh_of_opened (w : World) (s : State) (path : Path) (wl : Bool) (s1 : State)
    (lock : Nat) (h : Opened w s path wl s1 lock) : Fresh s1 lock path := by
  refine ⟨by rw [h.lock_eq]; exact h.nbatons, h.path_eq, ?_⟩
  cases hs : (s1.batons lock).shared with
  | none => exact Or.inl ⟨rfl, h.unregistered hs⟩
  | some sh => exact Or.inr ⟨sh, tree_of_regOK s1 _ _ lock sh wl (h.registry sh hs).2.2.2⟩

theorem tree_congr (s s1 : State) (a sh : Nat) (h : Tree s a sh)
    (hset : (s1.shareds sh).set = (s.shareds sh).set)
    (hb : ∀ ht k q, (s.shareds sh).set = some ht → (k, SetItem.baton q) ∈ ht →
      s1.batons q = s.batons q) : Tree s1 a sh := by
  obtain ⟨hsh, hown, ht, hs, hroot, hitems⟩ := h
  have ha := hb ht _ a hs hroot
  refine ⟨by rw [ha]; exact hsh, by rw [ha]; exact hown, ht, by rw [hset]; exact hs,
    by rw [ha]; exact hroot, fun k v hm => ?_⟩
  obtain ⟨hpre, hq⟩ := hitems k v hm
  rw [ha]
  refine ⟨hpre, fun q hv => ?_⟩
  rw [hb ht k q hs (by rw [← hv]; exact hm)]
  exact hq q hv

/-- The `do_close` of a baton without registry touches no other baton and no
shared state. -/
theorem do_close_alone (w : World) (s : State) (a : Nat) (pl recurse : Bool) (s1 : State)
    (r : Option svn_error_t) (h : do_close w s a pl recurse = some (s1, r))
    (hnone : (s.batons a).shared = none) :
    (∀ q, q ≠ a → s1.batons q = s.batons q) ∧ s1.shareds = s.shareds ∧ Shrunk s s1 ∧
    ((s.batons a).set_owner = false → OwnerInv s → OwnerInv s1) := by
  have hdesc : do_close_descendants w s a pl recurse = some (s, none) := by
    unfold do_close_descendants
    rw [hnone]
    cases recurse <;> rfl
  have hself : ∀ e, do_close_norecurse w s a pl = some (s1, e) →
      (∀ q, q ≠ a → s1.batons q = s.batons q) ∧ s1.shareds = s.shareds ∧ Shrunk s s1 ∧
      ((s.batons a).set_owner = false → OwnerInv s → OwnerInv s1) := by
    intro e hn
    refine ⟨(do_close_norecurse_frame w s a pl s1 e hn).1, ?_, shrunk_norecurse w s a pl s1 e hn,
      fun hf hI => (ownerInv_norecurse w s a pl s1 e hn hI
        (Or.inr (fun ht => by rw [hf] at ht; cases ht))).1⟩
    rcases do_close_norecurse_cases w s a pl s1 e hn with
      ⟨_, h1, _⟩ | ⟨_, err, hu, _⟩ | ⟨_, s2, hu, hf⟩
    · rw [h1]
    · exact (do_close_unlock_view w s a pl s1 _ hu).1
    · obtain ⟨hsh2, _, _, hb2⟩ := do_close_unlock_view w s a pl s2 _ hu
      obtain ⟨_, hshf, _, _⟩ := do_close_finish_view w s2 a s1 e hf
      rw [hshf, detached_none s2 a (by rw [(hb2 a).2.1]; exact hnone), ← hsh2]
      rfl
  rcases do_close_cases w s a pl recurse s1 r h with
    ⟨_, h1, _⟩ | ⟨hopen, s2, e2, hd, hcase⟩
  · rw [h1]
    exact ⟨fun _ _ => rfl, rfl, shrunk_refl s, fun _ hI => hI⟩
  · rw [hdesc] at hd
    simp only [Option.some.injEq, Prod.mk.injEq] at hd
    obtain ⟨hs2, he2⟩ := hd
    subst hs2
    rcases hcase with ⟨err, he, _, _⟩ | ⟨_, hn, _⟩ | ⟨_, hcl, _⟩
    · rw [← he2] at he; cases he
    · exact hself r hn
    · exact absurd hcl hopen

/-- The `do_close` with recursion of a baton that is as `do_open` has made it
keeps the invariant, whatever it returns. -/
theorem ownerInv_close_fresh (w : World) (s : State) (a : Nat) (path : Path) (pl : Bool)
    (s1 : State) (r : Option svn_error_t) (h : do_close w s a pl true = some (s1, r))
    (hI : OwnerInv s) (hf : Fresh s a path) : OwnerInv s1 ∧ Shrunk s s1 := by
  obtain ⟨_, _, ⟨hnone, hflag⟩ | ⟨sh, hT⟩⟩ := hf
  · obtain ⟨_, _, hs, hinv⟩ := do_close_alone w s a pl true s1 r h hnone
    exact ⟨hinv hflag hI, hs⟩
  · exact ownerInv_close_tree w s a sh pl s1 r h hI hT

theorem fresh_alone_shrunk (s s1 : State) (p : Nat) (path : Path) (h : Shrunk s s1)
    (hf : Fresh s p path ∧ (s.batons p).shared = none) :
    Fresh s1 p path ∧ (s1.batons p).shared = none := by
  obtain ⟨⟨hlt, hp, hcase⟩, hnone⟩ := hf
  have hn1 : (s1.batons p).shared = none := by rw [(h.baton p).2.1]; exact hnone
  refine ⟨⟨by rw [h.nbatons]; exact hlt, by rw [(h.baton p).1]; exact hp, Or.inl ⟨hn1, ?_⟩⟩, hn1⟩
  rw [(h.baton p).2.2]
  rcases hcase with ⟨_, hfl⟩ | ⟨sh, hT⟩
  · exact hfl
  · rw [hT.1] at hnone; cases hnone

/-- A baton that is as `do_open` has made it stays so when another baton,
which has no registry, is closed. -/
theorem fresh_close_alone (w : World) (s : State) (p t : Nat) (path : Path) (pl recurse : Bool)
    (s1 : State) (r : Option svn_error_t) (h : do_close w s p pl recurse = some (s1, r))
    (hnone : (s.batons p).shared = none) (hne : p ≠ t) (hf : Fresh s t path) :
    Fresh s1 t path := by
  obtain ⟨hoth, hshs, hs, _⟩ := do_close_alone w s p pl recurse s1 r h hnone
  obtain ⟨hlt, hp, hcase⟩ := hf
  have ht : s1.batons t = s.batons t := hoth t (fun he => hne he.symm)
  refine ⟨by rw [hs.nbatons]; exact hlt, by rw [ht]; exact hp, ?_⟩
  rcases hcase with ⟨hn, hfl⟩ | ⟨sh, hT⟩
  · exact Or.inl ⟨by rw [ht]; exact hn, by rw [ht]; exact hfl⟩
  · refine Or.inr ⟨sh, tree_congr s s1 t sh hT (by rw [hshs]) (fun ht1 k q hset hm => ?_)⟩
    refine hoth q (fun he => ?_)
    obtain ⟨_, _, ht2, hset2, _, hitems⟩ := hT
    rw [hset] at hset2
    cases hset2
    have := ((hitems k _ hm).2 q rfl).2.1
    rw [he, hnone] at this
    cases this

theorem ownerInv_close2_fresh (w : World) (s : State) (a : Nat) (path : Path)
    (s1 : State) (r : Option svn_error_t) (h : svn_wc_adm_close2 w s a = some (s1, r))
    (hI : OwnerInv s) (hf : Fresh s a path) : OwnerInv s1 ∧ Shrunk s s1 :=
  ownerInv_close_fresh w s a path false s1 r (by unfold svn_wc_adm_close2 at h; exact h) hI hf

/-! ## The registries under `svn_wc_adm_open_anchor` -/

theorem fresh_alone_oldKept (s s1 : State) (p : Nat) (path : Path) (h : OldKept s s1)
    (hf : Fresh s p path ∧ (s.batons p).shared = none) :
    Fresh s1 p path ∧ (s1.batons p).shared = none := by
  obtain ⟨⟨hlt, hp, hcase⟩, hnone⟩ := hf
  have hb := h.batons p hlt
  refine ⟨⟨Nat.lt_of_lt_of_le hlt h.nbatons, by rw [hb]; exact hp, Or.inl ⟨by rw [hb]; exact hnone, ?_⟩⟩,
    by rw [hb]; exact hnone⟩
  rw [hb]
  rcases hcase with ⟨_, hfl⟩ | ⟨sh, hT⟩
  · exact hfl
  · rw [hT.1] at hnone; cases hnone

theorem anchor_parent_inv (w : World) (fuel : Nat) (s : State) (parent : Path) (wl : Bool)
    (s1 : State) (r : Except svn_error_t (Option Nat × Option svn_error_t))
    (h : open_anchor_parent w fuel s parent wl = some (s1, r)) (hI : OwnerInv s) :
    OwnerInv s1 ∧ ∀ pa pe, r = .ok (pa, pe) → ∀ p, pa = some p →
      Fresh s1 p parent ∧ (s1.batons p).shared = none := by
  unfold open_anchor_parent at h
  cases ho : do_open w fuel s parent wl 0 with
  | none => rw [ho] at h; cases h
  | some res =>
    rcases res with ⟨s2, r2⟩
    rw [ho] at h
    obtain ⟨hI2, _⟩ := ownerInv_do_open w fuel s parent wl 0 s2 r2 ho hI
    cases r2 with
    | ok p0 =>
      simp only [Option.some.injEq, Prod.mk.injEq] at h
      rw [← h.1, ← h.2]
      refine ⟨hI2, fun pa pe hr p hp => ?_⟩
      simp only [Except.ok.injEq, Prod.mk.injEq] at hr
      rw [← hr.1] at hp
      cases hp
      exact ⟨fresh_of_opened w s parent wl s2 p0 (do_open_opened w fuel s parent wl 0 s2 p0 ho),
        do_open_level_zero w fuel s parent wl s2 p0 ho⟩
    | error err =>
      simp only at h
      by_cases hnd : err.apr_err = .SVN_ERR_WC_NOT_DIRECTORY
      · rw [if_pos hnd] at h
        simp only [Option.some.injEq, Prod.mk.injEq] at h
        rw [← h.1, ← h.2]
        refine ⟨hI2, fun pa pe hr p hp => ?_⟩
        simp only [Except.ok.injEq, Prod.mk.injEq] at hr
        rw [← hr.1] at hp
        cases hp
      · rw [if_neg hnd] at h
        by_cases hw : wl = true
            ∧ (err.apr_err = .SVN_ERR_WC_LOCKED ∨ APR_STATUS_IS_EACCES err.apr_err = true)
        · rw [if_pos hw] at h
          cases ho2 : do_open w fuel s2 parent false 0 with
          | none => rw [ho2] at h; cases h
          | some res2 =>
            rcases res2 with ⟨s3, r3⟩
            rw [ho2] at h
            obtain ⟨hI3, _⟩ := ownerInv_do_open w fuel s2 parent false 0 s3 r3 ho2 hI2
            cases r3 with
            | error err3 =>
              simp only [Option.some.injEq, Prod.mk.injEq] at h
              rw [← h.1, ← h.2]
              exact ⟨hI3, fun pa pe hr => by cases hr⟩
            | ok p0 =>
              simp only [Option.some.injEq, Prod.mk.injEq] at h
              rw [← h.1, ← h.2]
              refine ⟨hI3, fun pa pe hr p hp => ?_⟩
              simp only [Except.ok.injEq, Prod.mk.injEq] at hr
              rw [← hr.1] at hp
              cases hp
              exact ⟨fresh_of_opened w s2 parent false s3 p0
                  (do_open_opened w fuel s2 parent false 0 s3 p0 ho2),
                do_open_level_zero w fuel s2 parent false s3 p0 ho2⟩
        · rw [if_neg hw] at h
          simp only [Option.some.injEq, Prod.mk.injEq] at h
          rw [← h.1, ← h.2]
          exact ⟨hI2, fun pa pe hr => by cases hr⟩

theorem anchor_target_inv (w : World) (fuel : Nat) (s1 : State) (path parent : Path)
    (wl : Bool) (lv : Int) (pa : Option Nat) (s2 : State)
    (r : Except svn_error_t (Option Nat))
    (h : open_anchor_target w fuel s1 path wl lv pa = some (s2, r)) (hI : OwnerInv s1)
    (hp : ∀ p, pa = some p → Fresh s1 p parent ∧ (s1.batons p).shared = none) :
    OwnerInv s2 ∧ ∀ ta, r = .ok ta →
      (∀ p, pa = some p → Fresh s2 p parent ∧ (s2.batons p).shared = none) ∧
      (∀ p t, pa = some p → ta = some t → Fresh s2 t path ∧ p ≠ t) := by
  unfold open_anchor_target at h
  cases ho : do_open w fuel s1 path wl lv with
  | none => rw [ho] at h; cases h
  | some res =>
    rcases res with ⟨s3, r3⟩
    rw [ho] at h
    obtain ⟨hI3, hk3⟩ := ownerInv_do_open w fuel s1 path wl lv s3 r3 ho hI
    have hp3 : ∀ p, pa = some p → Fresh s3 p parent ∧ (s3.batons p).shared = none :=
      fun p hpa => fresh_alone_oldKept s1 s3 p parent hk3 (hp p hpa)
    cases r3 with
    | ok t0 =>
      simp only [Option.some.injEq, Prod.mk.injEq] at h
      rw [← h.1, ← h.2]
      refine ⟨hI3, fun ta hr => ⟨hp3, fun p t hpa hta => ?_⟩⟩
      simp only [Except.ok.injEq] at hr
      rw [← hr] at hta
      cases hta
      have hop := do_open_opened w fuel s1 path wl lv s3 t0 ho
      refine ⟨fresh_of_opened w s1 path wl s3 t0 hop, fun he => ?_⟩
      have := (hp p hpa).1.1
      rw [he, hop.lock_eq] at this
      exact Nat.lt_irrefl _ this
    | error err =>
      simp only at h
      by_cases hc : pa = none ∨ err.apr_err ≠ .SVN_ERR_WC_NOT_DIRECTORY
      · rw [if_pos hc] at h
        cases pa with
        | none =>
          simp only [Option.some.injEq, Prod.mk.injEq] at h
          rw [← h.1, ← h.2]
          exact ⟨hI3, fun ta hr => by cases hr⟩
        | some p =>
          simp only at h
          cases hcl : svn_wc_adm_close2 w s3 p with
          | none => rw [hcl] at h; cases h
          | some res2 =>
            rcases res2 with ⟨s4, e4⟩
            rw [hcl] at h
            simp only [Option.some.injEq, Prod.mk.injEq] at h
            rw [← h.1, ← h.2]
            exact ⟨(ownerInv_close2_fresh w s3 p parent s4 e4 hcl hI3 (hp3 p rfl).1).1,
              fun ta hr => by cases hr⟩
      · rw [if_neg hc] at h
        simp only [Option.some.injEq, Prod.mk.injEq] at h
        rw [← h.1, ← h.2]
        refine ⟨hI3, fun ta hr => ⟨hp3, fun p t _ hta => ?_⟩⟩
        simp only [Except.ok.injEq] at hr
        rw [← hr] at hta
        cases hta

theorem anchor_check_inv (w : World) (d : Disk) (s2 : State) (path parent : Path)
    (pa ta : Option Nat) (s3 : State) (r : Except svn_error_t (Option Nat))
    (h : open_anchor_check w d s2 path parent pa ta = some (s3, r)) (hI : OwnerInv s2)
    (hp : ∀ p, pa = some p → Fresh s2 p parent ∧ (s2.batons p).shared = none)
    (ht : ∀ p t, pa = some p → ta = some t → Fresh s2 t path ∧ p ≠ t) :
    OwnerInv s3 ∧ ∀ pa1, r = .ok pa1 →
      (∀ p, pa1 = some p → Fresh s3 p parent ∧ (s3.batons p).shared = none) ∧
      (∀ p t, pa1 = some p → ta = some t → Fresh s3 t path ∧ p ≠ t) := by
  have hsame : some (s2, (Except.ok pa : Except svn_error_t (Option Nat))) = some (s3, r) →
      OwnerInv s3 ∧ ∀ pa1, r = .ok pa1 →
        (∀ p, pa1 = some p → Fresh s3 p parent ∧ (s3.batons p).shared = none) ∧
        (∀ p t, pa1 = some p → ta = some t → Fresh s3 t path ∧ p ≠ t) := by
    intro h
    simp only [Option.some.injEq, Prod.mk.injEq] at h
    rw [← h.1, ← h.2]
    refine ⟨hI, fun pa1 hr => ?_⟩
    simp only [Except.ok.injEq] at hr
    rw [← hr]
    exact ⟨hp, ht⟩
  unfold open_anchor_check at h
  cases pa with
  | none => exact hsame h
  | some p =>
    cases ta with
    | none => exact hsame h
    | some t =>
      simp only at h
      obtain ⟨hfp, hpn⟩ := hp p rfl
      obtain ⟨hft, hne⟩ := ht p t rfl rfl
      have hboth : ∀ s4 e4 s5 e5, svn_wc_adm_close2 w s2 p = some (s4, e4) →
          svn_wc_adm_close2 w s4 t = some (s5, e5) → OwnerInv s5 := by
        intro s4 e4 s5 e5 h4 h5
        obtain ⟨hI4, _⟩ := ownerInv_close2_fresh w s2 p parent s4 e4 h4 hI hfp
        have hft4 : Fresh s4 t path :=
          fresh_close_alone w s2 p t path false true s4 e4
            (by unfold svn_wc_adm_close2 at h4; exact h4) hpn hne hft
        exact (ownerInv_close2_fresh w s4 t path s5 e5 h5 hI4 hft4).1
      unfold open_anchor_disjoint at h
      cases hen : open_anchor_entries d s2 path parent p t with
      | error code =>
        rw [hen] at h
        simp only at h
        cases h4 : svn_wc_adm_close2 w s2 p with
        | none => rw [h4] at h; cases h
        | some res4 =>
          rcases res4 with ⟨s4, e4⟩
          rw [h4] at h
          simp only at h
          cases h5 : svn_wc_adm_close2 w s4 t with
          | none => rw [h5] at h; cases h
          | some res5 =>
            rcases res5 with ⟨s5, e5⟩
            rw [h5] at h
            simp only [Option.some.injEq, Prod.mk.injEq] at h
            rw [← h.1, ← h.2]
            exact ⟨hboth s4 e4 s5 e5 h4 h5, fun pa1 hr => by cases hr⟩
      | ok es =>
        rcases es with ⟨e1, e2, e3⟩
        rw [hen] at h
        simp only at h
        cases hdj : open_anchor_is_disjoint d (svn_dirent_basename path) e1 e2 e3 with
        | none => rw [hdj] at h; cases h
        | some b =>
          rw [hdj] at h
          cases b with
          | false => exact hsame h
          | true =>
            simp only at h
            cases h4 : svn_wc_adm_close2 w s2 p with
            | none => rw [h4] at h; cases h
            | some res4 =>
              rcases res4 with ⟨s4, e4⟩
              rw [h4] at h
              cases e4 with
              | none =>
                simp only [Option.some.injEq, Prod.mk.injEq] at h
                rw [← h.1, ← h.2]
                refine ⟨(ownerInv_close2_fresh w s2 p parent s4 none h4 hI hfp).1,
                  fun pa1 hr => ?_⟩
                simp only [Except.ok.injEq] at hr
                rw [← hr]
                exact ⟨fun p1 hp1 => (by cases hp1), fun p1 t1 hp1 => (by cases hp1)⟩
              | some err =>
                simp only at h
                cases h5 : svn_wc_adm_close2 w s4 t with
                | none => rw [h5] at h; cases h
                | some res5 =>
                  rcases res5 with ⟨s5, e5⟩
                  rw [h5] at h
                  simp only [Option.some.injEq, Prod.mk.injEq] at h
                  rw [← h.1, ← h.2]
                  exact ⟨hboth s4 _ s5 e5 h4 h5, fun pa1 hr => by cases hr⟩

theorem anchor_join_inv (w : World) (s3 : State) (path parent : Path)
    (pa : Option Nat) (pe : Option svn_error_t) (ta : Option Nat) (s4 : State)
    (e : Option svn_error_t) (h : open_anchor_join w s3 pa pe ta = some (s4, e))
    (hI : OwnerInv s3) (hlen : parent.length < path.length)
    (hp : ∀ p, pa = some p → Fresh s3 p parent ∧ (s3.batons p).shared = none)
    (ht : ∀ p t, pa = some p → ta = some t → Fresh s3 t path ∧ p ≠ t) :
    OwnerInv s4 ∧ (e = none → ta = none →
      ∀ p, pa = some p → Fresh s4 p parent ∧ (s4.batons p).shared = none) := by
  unfold open_anchor_join at h
  cases pa with
  | none =>
    simp only [Option.some.injEq, Prod.mk.injEq] at h
    rw [← h.1]
    exact ⟨hI, fun _ _ => hp⟩
  | some p =>
    simp only at h
    obtain ⟨hfp, hpn⟩ := hp p rfl
    cases pe with
    | some err =>
      simp only at h
      have hclose_p : ∀ s5 (hI5 : OwnerInv s5) (hs : Shrunk s3 s5),
          (match svn_wc_adm_close2 w s5 p with
            | none => none
            | some (s2, _) => some (s2, some err)) = some (s4, e) →
          OwnerInv s4 ∧ (e = none → ta = none →
            ∀ p1, some p = some p1 → Fresh s4 p1 parent ∧ (s4.batons p1).shared = none) := by
        intro s5 hI5 hs h
        cases h6 : svn_wc_adm_close2 w s5 p with
        | none => rw [h6] at h; cases h
        | some res6 =>
          rcases res6 with ⟨s6, e6⟩
          rw [h6] at h
          simp only [Option.some.injEq, Prod.mk.injEq] at h
          rw [← h.1, ← h.2]
          exact ⟨(ownerInv_close2_fresh w s5 p parent s6 e6 h6 hI5
            (fresh_alone_shrunk s3 s5 p parent hs ⟨hfp, hpn⟩).1).1, fun he => by cases he⟩
      cases ta with
      | none =>
        simp only at h
        exact hclose_p s3 hI (shrunk_refl s3) h
      | some t =>
        simp only at h
        cases h5 : svn_wc_adm_close2 w s3 t with
        | none => rw [h5] at h; cases h
        | some res5 =>
          rcases res5 with ⟨s5, e5⟩
          rw [h5] at h
          simp only at h
          obtain ⟨hI5, hs5⟩ := ownerInv_close2_fresh w s3 t path s5 e5 h5 hI (ht p t rfl rfl).1
          exact hclose_p s5 hI5 hs5 h
    | none =>
      simp only at h
      cases ta with
      | none =>
        simp only [Option.some.injEq, Prod.mk.injEq] at h
        rw [← h.1]
        exact ⟨hI, fun _ _ => hp⟩
      | some t =>
        simp only at h
        obtain ⟨hft, hne⟩ := ht p t rfl rfl
        obtain ⟨hnb, hns, hother, hpa, hsa, hfa, _, hnew, hold⟩ :=
          adm_ensure_set_fresh_fields s3 p hpn
        have hIS := ownerInv_ensure_set s3 p hI hfp.1
        rw [hsa] at h
        simp only at h
        cases hj : join_batons (adm_ensure_set s3 p) s3.nshareds t with
        | none => rw [hj] at h; cases h
        | some s5 =>
          rw [hj] at h
          simp only [Option.some.injEq, Prod.mk.injEq] at h
          rw [← h.1]
          refine ⟨?_, fun _ hta => by cases hta⟩
          have htb : (adm_ensure_set s3 p).batons t = s3.batons t :=
            hother t (fun he => hne he.symm)
          obtain ⟨htlt, htp, htcase⟩ := hft
          have htree : ∀ tsh, Tree s3 t tsh →
              tsh ≠ s3.nshareds ∧ Tree (adm_ensure_set s3 p) t tsh := by
            intro tsh hT
            have hlt := shared_lt_of_ownerInv s3 hI t tsh hT.1
            have hne1 : tsh ≠ s3.nshareds := Nat.ne_of_lt hlt
            refine ⟨hne1, tree_congr s3 _ t tsh hT (by rw [hold tsh hne1])
              (fun ht1 k q hset hm => hother q (fun he => ?_))⟩
            obtain ⟨_, _, ht2, hset2, _, hitems⟩ := hT
            rw [hset] at hset2
            cases hset2
            have := ((hitems k _ hm).2 q rfl).2.1
            rw [he, hpn] at this
            cases this
          refine ownerInv_join _ s5 s3.nshareds t hIS hj
            ⟨_, _, p, hnew, List.mem_singleton.2 rfl, hsa⟩ (by rw [hnb]; exact htlt) ?_ ?_
          · rcases htcase with ⟨hn, hfl⟩ | ⟨tsh, hT⟩
            · exact Or.inl ⟨by rw [htb]; exact hn, by rw [htb]; exact hfl⟩
            · exact Or.inr ⟨tsh, htree tsh hT⟩
          · intro dht o hdst ho hf
            rw [hnew] at hdst
            cases hdst
            simp only [List.mem_singleton, Prod.mk.injEq, SetItem.baton.injEq] at ho
            rw [ho.2, hpa, hfp.2.1]
            refine ⟨fun _ => ?_, fun tsh tht hts htset => ?_⟩
            · rw [htb, htp]
              intro he
              rw [he] at hlen
              exact Nat.lt_irrefl _ hlen
            · rw [htb] at hts
              rcases htcase with ⟨hn, _⟩ | ⟨tsh1, hT⟩
              · rw [hn] at hts; cases hts
              · have hT1 := hT
                obtain ⟨hsh1, _, tht1, htset1, _, hitems⟩ := hT
                rw [hsh1] at hts
                cases hts
                rw [hold tsh (htree tsh hT1).1, htset1] at htset
                cases htset
                intro hmem
                obtain ⟨x, hx, hx1⟩ := List.mem_map.1 hmem
                have hpre := (hitems x.1 x.2 hx).1
                rw [htp, hx1] at hpre
                have := List.IsPrefix.length_le hpre
                omega

theorem anchor_placeholder_inv (w : World) (d : Disk) (s4 : State) (path parent : Path)
    (pa ta : Option Nat) (s5 : State) (e : Option svn_error_t)
    (h : open_anchor_placeholder w d s4 path pa ta = some (s5, e)) (hI : OwnerInv s4)
    (hlen : parent.length < path.length)
    (hp : ta = none → ∀ p, pa = some p → Fresh s4 p parent ∧ (s4.batons p).shared = none) :
    OwnerInv s5 := by
  unfold open_anchor_placeholder at h
  cases ta with
  | some t =>
    simp only [Option.some.injEq, Prod.mk.injEq] at h
    rw [← h.1]; exact hI
  | none =>
    simp only at h
    unfold open_anchor_missing at h
    cases pa with
    | none => cases h
    | some p =>
      simp only at h
      obtain ⟨hfp, hpn⟩ := hp rfl p rfl
      cases hen : d.svn_wc_entry path (s4.batons p).path false with
      | error code =>
        rw [hen] at h
        simp only at h
        cases h6 : svn_wc_adm_close2 w s4 p with
        | none => rw [h6] at h; cases h
        | some res6 =>
          rcases res6 with ⟨s6, e6⟩
          rw [h6] at h
          simp only [Option.some.injEq, Prod.mk.injEq] at h
          rw [← h.1]
          exact (ownerInv_close2_fresh w s4 p parent s6 e6 h6 hI hfp).1
      | ok t_entry =>
        rw [hen] at h
        simp only at h
        by_cases hdir : t_entry.any (fun e => decide (e.kind = .svn_node_dir)) = true
        · rw [if_pos hdir] at h
          obtain ⟨hnb, hns, hother, hpa, hsa, hfa, _, hnew, hold⟩ :=
            adm_ensure_set_fresh_fields s4 p hpn
          have hIS := ownerInv_ensure_set s4 p hI hfp.1
          rw [hsa] at h
          simp only at h
          cases ha : add_to_shared (adm_ensure_set s4 p) path .missing s4.nshareds with
          | none => rw [ha] at h; cases h
          | some s6 =>
            rw [ha] at h
            simp only [Option.some.injEq, Prod.mk.injEq] at h
            rw [← h.1]
            refine ownerInv_add_missing _ s6 path s4.nshareds hIS ha ?_
            intro ht o hset ho _ _
            rw [hnew] at hset
            cases hset
            simp only [List.mem_singleton, Prod.mk.injEq, SetItem.baton.injEq] at ho
            rw [hfp.2.1] at ho
            rw [ho.1] at hlen
            exact Nat.lt_irrefl _ hlen
        · rw [if_neg hdir] at h
          simp only [Option.some.injEq, Prod.mk.injEq] at h
          rw [← h.1]; exact hI

/-- Every `svn_wc_adm_open_anchor` keeps the invariant, whatever it
returns. -/
theorem ownerInv_open_anchor (w : World) (d : Disk) (fuel : Nat) (s : State) (path : Path)
    (wl : Bool) (lv : Int) (s1 : State) (r : Except svn_error_t (Nat × Nat × String))
    (h : svn_wc_adm_open_anchor w d fuel s path wl lv = some (s1, r)) (hI : OwnerInv s) :
    OwnerInv s1 := by
  unfold svn_wc_adm_open_anchor at h
  by_cases hc : svn_path_is_empty path = true ∨ svn_dirent_is_root path = true
      ∨ svn_dirent_basename path = ".."
  · rw [if_pos hc] at h
    cases ho : do_open w fuel s path wl lv with
    | none => rw [ho] at h; cases h
    | some res =>
      rcases res with ⟨s2, r2⟩
      rw [ho] at h
      obtain ⟨hI2, _⟩ := ownerInv_do_open w fuel s path wl lv s2 r2 ho hI
      cases r2 with
      | error err =>
        simp only [Option.some.injEq, Prod.mk.injEq] at h
        rw [← h.1]; exact hI2
      | ok a =>
        simp only [Option.some.injEq, Prod.mk.injEq] at h
        rw [← h.1]; exact hI2
  · rw [if_neg hc] at h
    have hlen : (svn_dirent_dirname path).length < path.length := by
      have hne : path ≠ [] := by
        intro he
        apply hc
        left
        rw [he]
        rfl
      unfold svn_dirent_dirname
      rw [List.length_dropLast]
      have : 0 < path.length := List.length_pos.2 hne
      omega
    cases h1 : open_anchor_parent w fuel s (svn_dirent_dirname path) wl with
    | none => rw [h1] at h; cases h
    | some res1 =>
      rcases res1 with ⟨s2, r1⟩
      rw [h1] at h
      obtain ⟨hI2, hp2⟩ := anchor_parent_inv w fuel s _ wl s2 r1 h1 hI
      cases r1 with
      | error err =>
        simp only [Option.some.injEq, Prod.mk.injEq] at h
        rw [← h.1]; exact hI2
      | ok pp =>
        rcases pp with ⟨pa, pe⟩
        simp only at h
        cases h2 : open_anchor_target w fuel s2 path wl lv pa with
        | none => rw [h2] at h; cases h
        | some res2 =>
          rcases res2 with ⟨s3, r2⟩
          rw [h2] at h
          obtain ⟨hI3, hp3⟩ := anchor_target_inv w fuel s2 path _ wl lv pa s3 r2 h2 hI2
            (hp2 pa pe rfl)
          cases r2 with
          | error err =>
            simp only [Option.some.injEq, Prod.mk.injEq] at h
            rw [← h.1]; exact hI3
          | ok ta =>
            simp only at h
            cases h3 : open_anchor_check w d s3 path (svn_dirent_dirname path) pa ta with
            | none => rw [h3] at h; cases h
            | some res3 =>
              rcases res3 with ⟨s4, r3⟩
              rw [h3] at h
              obtain ⟨hI4, hp4⟩ := anchor_check_inv w d s3 path _ pa ta s4 r3 h3 hI3
                (hp3 ta rfl).1 (hp3 ta rfl).2
              cases r3 with
              | error err =>
                simp only [Option.some.injEq, Prod.mk.injEq] at h
                rw [← h.1]; exact hI4
              | ok pa1 =>
                simp only at h
                cases h4 : open_anchor_join w s4 pa1 pe ta with
                | none => rw [h4] at h; cases h
                | some res4 =>
                  rcases res4 with ⟨s5, e4⟩
                  rw [h4] at h
                  obtain ⟨hI5, hp5⟩ := anchor_join_inv w s4 path _ pa1 pe ta s5 e4 h4 hI4 hlen
                    (hp4 pa1 rfl).1 (hp4 pa1 rfl).2
                  cases e4 with
                  | some err =>
                    simp only [Option.some.injEq, Prod.mk.injEq] at h
                    rw [← h.1]; exact hI5
                  | none =>
                    simp only at h
                    cases h5 : open_anchor_placeholder w d s5 path pa1 ta with
                    | none => rw [h5] at h; cases h
                    | some res5 =>
                      rcases res5 with ⟨s6, e5⟩
                      rw [h5] at h
                      have hI6 := anchor_placeholder_inv w d s5 path _ pa1 ta s6 e5 h5 hI5 hlen
                        (hp5 rfl)
                      cases e5 with
                      | some err =>
                        simp only [Option.some.injEq, Prod.mk.injEq] at h
                        rw [← h.1]; exact hI6
                      | none =>
                        simp only at h
                        cases h6 : open_anchor_result (svn_dirent_basename path) pa1 ta with
                        | none => rw [h6] at h; cases h
                        | some res6 =>
                          rw [h6] at h
                          simp only [Option.some.injEq, Prod.mk.injEq] at h
                          rw [← h.1]; exact hI6

/-! ## The claim on the owner of a registry -/

theorem ownerInv_run (w : World) (d : Disk) (s : State) (h : OwnerRun w d s) : OwnerInv s := by
  induction h with
  | init lock_node => exact ownerInv_init lock_node
  | opened s fuel path wl lv s1 r _ h1 ih =>
    exact (ownerInv_do_open w fuel s path wl lv s1 r h1 ih).1
  | open3 s fuel associated path wl lv s1 r _ ha h1 ih =>
    exact ownerInv_open3 w fuel s associated path wl lv s1 r h1 ih ha
  | open_anchor s fuel path wl lv s1 r _ h1 ih =>
    exact ownerInv_open_anchor w d fuel s path wl lv s1 r h1 ih
  | get_db s a s1 r _ ha h1 ih => exact ownerInv_get_db w s a s1 r h1 ih ha
  | closed s a pl recurse s1 r _ _ h1 hr ih => exact (ownerInv_close w s a pl recurse s1 r h1 ih hr).1

theorem nodup_registered (s : State) (ht : List (Path × SetItem))
    (hnd : (ht.map Prod.fst).Nodup)
    (hp : ∀ k q, (k, SetItem.baton q) ∈ ht → (s.batons q).path = k) :
    (ht.filterMap (fun kv =>
      match kv.2 with
      | .baton q => some q
      | .missing => none)).Nodup := by
  induction ht with
  | nil => exact List.nodup_nil
  | cons item rest ih =>
    obtain ⟨k, v⟩ := item
    simp only [List.map_cons, List.nodup_cons] at hnd
    have hrest := ih hnd.2 (fun k1 q hm => hp k1 q (List.mem_cons_of_mem _ hm))
    cases v with
    | missing => simpa [List.filterMap_cons] using hrest
    | baton q =>
      rw [List.filterMap_cons]
      simp only
      refine List.nodup_cons.2 ⟨fun hm => ?_, hrest⟩
      obtain ⟨⟨k1, v1⟩, hm1, hv1⟩ := List.mem_filterMap.1 hm
      cases v1 with
      | missing => cases hv1
      | baton q1 =>
        simp only [Option.some.injEq] at hv1
        subst hv1
        have h1 := hp k1 q1 (List.mem_cons_of_mem _ hm1)
        have h2 := hp k q1 (List.mem_cons_self _ _)
        rw [h1] at h2
        rw [h2] at hm1
        exact hnd.1 (List.mem_map.2 ⟨_, hm1, rfl⟩)

theorem eq_singleton_of_nodup (l : List Nat) (o : Nat) (hnd : l.Nodup)
    (h : ∀ q, q ∈ l ↔ q = o) : l = [o] := by
  cases l with
  | nil => exact absurd ((h o).2 rfl) (List.not_mem_nil o)
  | cons a t =>
    have ha : a = o := (h a).1 (List.mem_cons_self _ _)
    have ht : t = [] := by
      apply List.eq_nil_iff_forall_not_mem.2
      intro b hb
      have hbo : b = o := (h b).1 (List.mem_cons_of_mem _ hb)
      rw [hbo, ← ha] at hb
      exact (List.nodup_cons.1 hnd).1 hb
    rw [ha, ht]

/-- A registry that lists a baton attached to it has exactly one registered
owner, given the invariant. -/
theorem owners_of_ownerInv (s : State) (h : OwnerInv s) (sh q : Nat)
    (hq : q ∈ registeredBatons s sh) (hs : (s.batons q).shared = some sh) :
    ∃ o, registryOwners s sh = [o] := by
  cases hset : (s.shareds sh).set with
  | none =>
    unfold registeredBatons at hq
    rw [hset] at hq
    cases hq
  | some ht =>
    obtain ⟨k, hk⟩ := (mem_registeredBatons s sh ht hset q).1 hq
    obtain ⟨hitems, o, ho, hflag, huniq, _⟩ := h.good sh ht hset ⟨k, q, hk, hs⟩
    refine ⟨o, eq_singleton_of_nodup _ o ?_ (fun p => ?_)⟩
    · unfold registryOwners registeredBatons
      rw [hset]
      exact List.Nodup.filter _
        (nodup_registered s ht (h.nodup sh ht hset) (fun k1 q1 hm => (hitems k1 q1 hm).1))
    · rw [mem_registryOwners s sh ht hset p]
      constructor
      · rintro ⟨⟨k1, hk1⟩, hf⟩
        exact huniq k1 p hk1 hf
      · intro hp
        rw [hp]
        exact ⟨⟨_, ho⟩, hflag⟩

theorem adm_ensure_set_other_flag (s : State) (a q : Nat) (hq : q ≠ a) :
    ((adm_ensure_set s a).batons q).set_owner = (s.batons q).set_owner := by
  unfold adm_ensure_set
  cases hs : (s.batons a).shared with
  | none =>
    simp only [setSharedPtr_shared, if_true, setSharedPtr_shareds, allocShared_shareds,
      add_to_shared, setSet_set, setOwner_shareds, setSet_batons]
    rw [setSharedPtr_other _ _ _ _ hq]
    simp only [setSet_batons]
    rw [setOwner_other _ _ _ _ hq, setSharedPtr_other _ _ _ _ hq]
    rfl
  | some sh =>
    simp only
    rw [hs]
    simp only
    by_cases hset : (s.shareds sh).set = none
    · rw [if_pos hset]
      simp only [add_to_shared, setSet_set, setOwner_shareds, if_true, setSet_batons]
      rw [setSharedPtr_other _ _ _ _ hq]
      simp only [setSet_batons]
      rw [setOwner_other _ _ _ _ hq]
    · rw [if_neg hset]

theorem join_batons_clears_flag (s : State) (dst t tsh : Nat) (ht : List (Path × SetItem))
    (s1 : State) (hj : join_batons s dst t = some s1) (hs : (s.batons t).shared = some tsh)
    (hset : (s.shareds tsh).set = some ht) :
    (s1.batons t).set_owner = false ∧
    ∀ q, q ≠ t → (s1.batons q).set_owner = (s.batons q).set_owner := by
  rw [join_batons_merge s dst t tsh ht hs hset] at hj
  cases hi : join_batons_items dst ht s with
  | none => rw [hi] at hj; cases hj
  | some s2 =>
    rw [hi] at hj
    simp only [Option.map_some', Option.some.injEq] at hj
    rw [← hj]
    refine ⟨by simp, fun q hq => ?_⟩
    rw [setOwner_other _ _ _ _ hq]
    have hstep : ∀ (items : List (Path × SetItem)) (s s2 : State),
        join_batons_items dst items s = some s2 →
        ∀ q, (s2.batons q).set_owner = (s.batons q).set_owner := by
      intro items
      induction items with
      | nil =>
        intro s s2 h q
        rw [join_batons_items] at h
        cases h
        rfl
      | cons kv rest ih =>
        intro s s3 h q
        obtain ⟨key, val⟩ := kv
        rw [join_batons_items] at h
        cases h1 : add_to_shared s key val dst with
        | none => rw [h1] at h; cases h
        | some s1 =>
          rw [h1] at h
          obtain ⟨_, _, _, _, _, _, _, hown, _⟩ := add_to_shared_spec s key val dst s1 h1
          exact (ih s1 s3 h q).trans (hown q)
    exact hstep ht s s2 hi q

/-- C25 fails after `svn_wc_adm_open3` has opened `wc/a` with its
subdirectories in association with a baton of `wc/a/x`: the new baton of
`wc/a/x` takes the key of the associated baton, so the registry of the shared
state 0 lists the open batons 1 and 2, neither of which has `set_owner` TRUE;
the owner, the baton 0, is open but no longer registered (the baton 0 is not
`associable` for this open).  It fails as well
after the `svn_wc_adm_close2` of an owner beside which another baton is
registered, which returns the failure of its assertion and leaves the open
baton 1 in a registry without owner; and after `svn_wc_adm_open3` has been
given as `associated` the closed baton 0, whose registry lists nothing any
more (so that it is not `associable`): the new open baton 2 is alone in that
registry and is no owner.
And the hash of the shared state 1, which `join_batons` has merged into that
of the shared state 0 inside `do_open`, still lists the open batons 2 and 1,
now attached to the shared state 0, and no owner. -/
theorem registry_without_registered_owner :
    ((svn_wc_adm_open3 sampleWorld 5 emptyState none ["wc", "a", "x"] false 0).map
      (fun x => x.2) = some (.ok 0) ∧
    (svn_wc_adm_open3 sampleWorld 5 firstOpenState (some 0) ["wc", "a"] false (-1)).map
      (fun x => x.2) = some (.ok 1) ∧
    registeredBatons overwrittenState 0 = [1, 2] ∧
    (overwrittenState.batons 1).type = .svn_wc__adm_access_unlocked ∧
    (overwrittenState.batons 2).type = .svn_wc__adm_access_unlocked ∧
    registryOwners overwrittenState 0 = [] ∧
    (overwrittenState.batons 0).shared = some 0 ∧
    (overwrittenState.batons 0).set_owner = true ∧
    ¬ associable firstOpenState 0 ["wc", "a"] (-1)) ∧
    ((svn_wc_adm_open3 sampleWorld 5 firstOpenState (some 0) ["wc"] false 0).map
      (fun x => x.2) = some (.ok 1) ∧
    (svn_wc_adm_close2 sampleWorld associatedState 0).map (fun x => x.2)
      = some (some (assertionFailed ["wc", "a", "x"])) ∧
    registeredBatons ownerClosedState 0 = [1] ∧
    (ownerClosedState.batons 1).shared = some 0 ∧
    (ownerClosedState.batons 1).type = .svn_wc__adm_access_unlocked ∧
    registryOwners ownerClosedState 0 = []) ∧
    ((do_close sampleWorld associatedState 1 false false).map (fun x => x.2) = some none ∧
    (svn_wc_adm_close2 sampleWorld memberClosedState 0).map (fun x => x.2) = some none ∧
    (allClosedState.batons 0).type = .svn_wc__adm_access_closed ∧
    registeredBatons allClosedState 0 = [] ∧
    (svn_wc_adm_open3 sampleWorld 5 allClosedState (some 0) ["wc", "a"] false 0).map
      (fun x => x.2) = some (.ok 2) ∧
    registeredBatons reusedState 0 = [2] ∧
    (reusedState.batons 2).shared = some 0 ∧
    (reusedState.batons 2).type = .svn_wc__adm_access_unlocked ∧
    registryOwners reusedState 0 = [] ∧
    ¬ associable allClosedState 0 ["wc", "a"] 0) ∧
    ((do_open sampleWorld 5 emptyState ["wc"] false (-1)).map (fun x => x.2) = some (.ok 0) ∧
    registeredBatons openedState 1 = [2, 1] ∧
    (openedState.batons 1).type = .svn_wc__adm_access_unlocked ∧
    (openedState.batons 1).shared = some 0 ∧ (openedState.batons 2).shared = some 0 ∧
    registryOwners openedState 1 = []) := by
  refine ⟨⟨?_, ?_, ?_, ?_, ?_, ?_, ?_, ?_, ?_⟩, ⟨?_, ?_, ?_, ?_, ?_, ?_⟩,
    ⟨?_, ?_, ?_, ?_, ?_, ?_, ?_, ?_, ?_, ?_⟩, ⟨?_, ?_, ?_, ?_, ?_, ?_⟩⟩ <;> decide

/-- C25, amended: in every state reached from an initial state by `do_open`,
`svn_wc_adm_open3`, `svn_wc_adm_open_anchor`, `svn_wc__adm_get_db` and
`do_close`, whatever they return, each shared registry that lists a baton
attached to it (open or not) has exactly one registered baton whose
`set_owner` is TRUE, provided that `svn_wc__adm_get_db` and `do_close` are
given batons that were handed out, that no `do_close` returns the failure of
its assertion, and that the baton given to `svn_wc_adm_open3` as `associated`
was handed out, has no registry yet or has a registry that lists a baton
attached to it, and, when more than the directory itself is opened, the path
opened is not at or above the path of the registered owner of that registry.  `adm_ensure_set`
leaves the flag of every other baton as it is and changes nothing when the
registry is there; `join_batons` clears the flag of the baton whose registry
it merges away and leaves the other flags. -/
theorem registry_one_owner (w : World) (d : Disk) (s : State) (h : OwnerRun w d s) :
    (∀ sh q, q ∈ registeredBatons s sh → (s.batons q).shared = some sh →
      ∃ o, registryOwners s sh = [o]) ∧
    (∀ (s0 : State) (a : Nat),
      (∀ q, q ≠ a → ((adm_ensure_set s0 a).batons q).set_owner = (s0.batons q).set_owner) ∧
      (∀ sh ht, (s0.batons a).shared = some sh → (s0.shareds sh).set = some ht →
        adm_ensure_set s0 a = s0)) ∧
    (∀ (s0 : State) (dst t tsh : Nat) (ht : List (Path × SetItem)) (s1 : State),
      join_batons s0 dst t = some s1 → (s0.batons t).shared = some tsh →
      (s0.shareds tsh).set = some ht →
      (s1.batons t).set_owner = false ∧
      ∀ q, q ≠ t → (s1.batons q).set_owner = (s0.batons q).set_owner) :=
  ⟨fun sh q hq hs => owners_of_ownerInv s (ownerInv_run w d s h) sh q hq hs,
    fun s0 a => ⟨fun q hq => adm_ensure_set_other_flag s0 a q hq,
      fun sh ht hs hset => adm_ensure_set_noop s0 a sh ht hs hset⟩,
    fun s0 dst t tsh ht s1 hj hs hset => join_batons_clears_flag s0 dst t tsh ht s1 hj hs hset⟩

/-- C25, amended, in `sampleWorld`: after `svn_wc_adm_open3` has opened
`wc/a/x`, then `wc` in association with the first baton, and `do_close` has
closed the baton of `wc`, the registry of the shared state 0 lists the baton 0,
which is attached to it, and has exactly one registered owner. -/
theorem registry_one_owner_witness : ∃ o, registryOwners memberClosedState 0 = [o] :=
  have h1 : svn_wc_adm_open3 sampleWorld 5 emptyState none ["wc", "a", "x"] false 0
      = some (firstOpenState, .ok 0) := rfl
  have h2 : svn_wc_adm_open3 sampleWorld 5 firstOpenState (some 0) ["wc"] false 0
      = some (associatedState, .ok 1) := rfl
  have h3 : do_close sampleWorld associatedState 1 false false
      = some (memberClosedState, none) := rfl
  (registry_one_owner sampleWorld sampleDisk memberClosedState
    (OwnerRun.closed associatedState 1 false false memberClosedState none
      (OwnerRun.open3 firstOpenState 5 (some 0) ["wc"] false 0 associatedState (.ok 1)
        (OwnerRun.open3 emptyState 5 none ["wc", "a", "x"] false 0 firstOpenState (.ok 0)
          (OwnerRun.init _) (fun a ha => by cases ha) h1)
        (fun a ha => by cases ha; decide) h2)
      (by decide) h3 not_assertionFailure_none)).1 0 0 (by decide) (by decide)

end WcLock
